import Mathlib

/-!
# File-list subsystem of rsync: exclude rules, name comparator, cleaner, lookup

A shallow embedding of `src/exclude.c` and `src/flist.c`.

Conventions of the embedding:

* a C string is the list of its bytes before the terminating NUL (`List Nat`);
  `*p` is `p.headD 0`, `p + 1` is `p.tail`;
* a C `int` used as a truth value is an `Int`/`Nat`, zero meaning false;
* a pointer that may be `NULL` is an `Option`.
-/

namespace Rsync

/-! ## src/exclude.c -/

/-- Modelled from the spec: the bit `WILD` of `match_flags` (pattern contains one of
`*`, `?`, `[`); the `MATCHFLG_` values live in `rsync.h`, which is not under `src/`. -/
def MATCHFLG_WILD : Nat := 1
/-- Modelled from the spec: the bit `WILD2` of `match_flags` (pattern contains `**`). -/
def MATCHFLG_WILD2 : Nat := 2
/-- Modelled from the spec: the bit `WILD2_PREFIX` of `match_flags` (pattern begins
with `**`). -/
def MATCHFLG_WILD2_PREFIX : Nat := 4
/-- Modelled from the spec: the bit `ABS_PATH` of `match_flags`. -/
def MATCHFLG_ABS_PATH : Nat := 8

/-- The C test `flags & bit` as a boolean. -/
def has_flag (flags bit : Nat) : Bool := flags &&& bit != 0

/-- The `struct exclude_struct` of `exclude.c`: one compiled rule (`include_` is the
C field `include`). -/
structure exclude_struct where
  pattern : List Nat
  match_flags : Nat
  include_ : Int
  directory : Int
  slash_cnt : Nat
deriving DecidableEq, Repr

/-- What `check_one_exclude` takes from outside `exclude.c`: `wildmatch` (lib/wildmatch.c),
`pathjoin` (util.c) and the global `curr_dir`. -/
structure exclude_env where
  wildmatch : List Nat → List Nat → Bool
  pathjoin : List Nat → List Nat → List Nat
  curr_dir : List Nat

/-- The part of `s` after its last `/`, when it has one: `strrchr(s, '/') + 1`. -/
def after_last_slash : List Nat → Option (List Nat)
  | [] => none
  | c :: rest =>
    match after_last_slash rest with
    | some r => some r
    | none => if c = 47 then some rest else none

/-- The backward scan of `check_one_exclude` (lines 149-154) on the reversed name: `acc`
collects the bytes already passed, `cnt` slashes are still to be met. The result is
`p + 1`. -/
def tail_elements_aux : List Nat → Nat → List Nat → List Nat
  | [], _, acc => acc
  | c :: rev_rest, cnt, acc =>
    if c = 47 then
      if cnt - 1 = 0 then acc else tail_elements_aux rev_rest (cnt - 1) (c :: acc)
    else tail_elements_aux rev_rest cnt (c :: acc)

/-- The last `cnt` path elements of `name` (the whole name when it has fewer). -/
def tail_elements (name : List Nat) (cnt : Nat) : List Nat :=
  tail_elements_aux name.reverse cnt []

/-- The loop of lines 169-173: try `wildmatch` after every `/` of the name. -/
def match_after_slashes (wm : List Nat → List Nat → Bool) (pattern : List Nat) :
    List Nat → Bool
  | [] => false
  | c :: rest =>
    if c = 47 then
      if wm pattern rest then true else match_after_slashes wm pattern rest
    else match_after_slashes wm pattern rest

/-- The function `check_one_exclude` of `exclude.c` (lines 111-189); 1 for a match. -/
def check_one_exclude (env : exclude_env) (name : List Nat) (ex : exclude_struct)
    (name_is_dir : Int) : Nat :=
  let wild := has_flag ex.match_flags MATCHFLG_WILD
  let wild2 := has_flag ex.match_flags MATCHFLG_WILD2
  let name1 : List Nat :=
    if ex.slash_cnt = 0 ∧ !wild2 then
      match after_last_slash name with
      | some r => r
      | none => name
    else if has_flag ex.match_flags MATCHFLG_ABS_PATH ∧ name.headD 0 ≠ 47 then
      let plus := if env.curr_dir.getD 1 0 = 0 then 1 else 0
      env.pathjoin (env.curr_dir.drop plus) name
    else name
  if name1.headD 0 = 0 then 0
  else if ex.directory ≠ 0 ∧ name_is_dir = 0 then 0
  else
    let match_start : Bool := ex.pattern.headD 0 = 47
    let pattern := if match_start then ex.pattern.tail else ex.pattern
    let name2 := if match_start ∧ name1.headD 0 = 47 then name1.tail else name1
    if wild then
      let name3 :=
        if !match_start ∧ ex.slash_cnt ≠ 0 ∧ !wild2 then
          tail_elements name2 (ex.slash_cnt + 1)
        else name2
      if env.wildmatch pattern name3 then 1
      else if has_flag ex.match_flags MATCHFLG_WILD2_PREFIX then
        if pattern.getD 2 0 = 47 ∧ env.wildmatch (pattern.drop 3) name3 then 1 else 0
      else if !match_start ∧ wild2 then
        if match_after_slashes env.wildmatch pattern name3 then 1 else 0
      else 0
    else if match_start then
      if name2 = pattern then 1 else 0
    else
      let l1 := name2.length
      let l2 := pattern.length
      if l2 ≤ l1 ∧ name2.drop (l1 - l2) = pattern ∧
          (l1 = l2 ∨ name2.getD (l1 - (l2 + 1)) 0 = 47) then 1
      else 0

/-- The function `check_exclude` of `exclude.c` (lines 213-225) on a NULL-terminated
rule array, given as the list of its rules: non-zero means "excluded". -/
def check_exclude (env : exclude_env) : List exclude_struct → List Nat → Int → Nat
  | [], _, _ => 0
  | ent :: list, name, name_is_dir =>
    if check_one_exclude env name ent name_is_dir ≠ 0 then
      if ent.include_ ≠ 0 then 0 else 1
    else check_exclude env list name name_is_dir

/-! ## src/flist.c: the file entry -/

/-- A non-NULL `char *dirname`: the address held and the string found there. Two entries
made in a row for the same directory share one pointer (`lastdir`), which `f_name_cmp`
tests with `c1 == c2`. -/
structure dir_ptr where
  addr : Nat
  str : List Nat
deriving DecidableEq, Repr

/-- A hard-link key, `struct idev`. -/
structure idev where
  dev : Int
  ino : Int
deriving DecidableEq, Repr

/-- The `struct file_struct` of the file list, with the optional trailing and "extras"
fields that `flist.c` reaches through the `F_` macros: `symlink` is `F_SYMLINK`, `uid` and
`gid` are `F_UID` and `F_GID`, `len_high` is `OPT_EXTRA(file, 0)->unum`, `rdev_major` and
`rdev_minor` are `F_RDEV_P`, `hl_idev` is `F_HL_IDEV`, `sum` is `F_SUM`. `depth` is the
member `dir.depth`. -/
structure file_struct where
  modtime : Int := 0
  dirname : Option dir_ptr := none
  depth : Int := 0
  len32 : Nat := 0
  mode : Nat := 0
  flags : Nat := 0
  basename : List Nat := []
  symlink : List Nat := []
  uid : Nat := 0
  gid : Nat := 0
  len_high : Nat := 0
  rdev_major : Nat := 0
  rdev_minor : Nat := 0
  hl_idev : Option idev := none
  sum : List Nat := []
deriving DecidableEq, Repr

/-- The file-type mask `S_IFMT` (0170000). -/
def S_IFMT : Nat := 0o170000
/-- The type bits of a directory, `S_IFDIR` (0040000). -/
def S_IFDIR : Nat := 0o040000
/-- The type bits of a regular file, `S_IFREG` (0100000). -/
def S_IFREG : Nat := 0o100000

/-- The macro `S_ISDIR`. -/
def S_ISDIR (mode : Nat) : Bool := mode &&& S_IFMT == S_IFDIR

/-- Modelled from the spec: the macro `F_IS_ACTIVE` of `rsync.h` (not under `src/`). An
entry is active when the first byte of its basename is not NUL: `clear_file` zeroes the
fixed header and one byte more, `basename[0]`, and nothing in `flist.c` sets a flag bit
for activity. -/
def F_IS_ACTIVE (f : file_struct) : Bool := f.basename.headD 0 != 0

/-- The test `!f || !F_IS_ACTIVE(f)` of `f_name_cmp` on a pointer that may be NULL. -/
def is_inactive : Option file_struct → Bool
  | none => true
  | some f => !F_IS_ACTIVE f

/-! ## src/flist.c: the name comparator -/

/-- The `enum fnc_state` of `flist.c`. -/
inductive fnc_state where
  | s_DIR | s_SLASH | s_BASE | s_TRAILING
deriving DecidableEq, Repr

/-- The `enum fnc_type` of `flist.c`. -/
inductive fnc_type where
  | t_PATH | t_ITEM
deriving DecidableEq, Repr

open fnc_state fnc_type

/-- One side of `f_name_cmp`: the cursor `c`, `state` and `type` (`c1`, `state1`, `type1`
or `c2`, `state2`, `type2`). -/
structure fnc_side where
  c : List Nat
  state : fnc_state
  type : fnc_type
deriving DecidableEq, Repr

/-- What a call of `f_name_cmp` comes to: `ret dif` is the value returned; `overread`
means that the loop condition of line 1880 advanced both cursors while each stood on a
terminating NUL, so that the next iteration reads outside the strings; `nofuel` is the
embedding running out of iterations (it never does, see `f_name_cmp_fuel`). -/
inductive cmp_result where
  | ret (dif : Int)
  | overread
  | nofuel
deriving DecidableEq, Repr

/-- The local `t_path` of `f_name_cmp` (line 1773). -/
def fnc_t_path (protocol_version : Int) : fnc_type :=
  if protocol_version ≥ 29 then t_PATH else t_ITEM

/-- The block that starts on the basename (lines 1788-1795, 1801-1808, 1825-1832 and
1855-1862): the type follows the mode, and a directory named "." becomes an exhausted
item. -/
def fnc_enter_base (t_path : fnc_type) (f : file_struct) : fnc_side :=
  let type := if S_ISDIR f.mode then t_path else t_ITEM
  let c := f.basename
  if type = t_PATH ∧ c.headD 0 = 46 ∧ c.getD 1 0 = 0 then
    { c := [], state := s_TRAILING, type := t_ITEM }
  else
    { c := c, state := s_BASE, type := type }

/-- The set-up of one side (lines 1787-1799 and 1800-1812); `c` is the dirname pointer
after the test `c1 == c2` of line 1785. -/
def fnc_init (t_path : fnc_type) (f : file_struct) (c : Option (List Nat)) : fnc_side :=
  match c with
  | none => fnc_enter_base t_path f
  | some d => { c := d, state := s_DIR, type := t_path }

/-- The value of `return type1 == t_PATH ? 1 : -1`. -/
def fnc_type_dif (type1 : fnc_type) : Int :=
  if type1 = t_PATH then 1 else -1

/-- The `switch (state1)` of lines 1819-1844, entered when `*c1` is NUL. -/
def fnc_switch1 (t_path : fnc_type) (f1 : file_struct) (s1 : fnc_side) : fnc_side :=
  match s1.state with
  | s_DIR => { s1 with state := s_SLASH, c := [47] }
  | s_SLASH => fnc_enter_base t_path f1
  | s_BASE =>
    if s1.type = t_PATH then { s1 with state := s_TRAILING, c := [47] }
    else { s1 with state := s_TRAILING, type := t_ITEM }
  | s_TRAILING => { s1 with type := t_ITEM }

/-- The `switch (state2)` of lines 1849-1876, entered when `*c2` is NUL; `none` is the
`return 0` of line 1873, taken when `*c1` is NUL too. -/
def fnc_switch2 (t_path : fnc_type) (f2 : file_struct) (c1 : List Nat) (s2 : fnc_side) :
    Option fnc_side :=
  match s2.state with
  | s_DIR => some { s2 with state := s_SLASH, c := [47] }
  | s_SLASH => some (fnc_enter_base t_path f2)
  | s_BASE =>
    if s2.type = t_PATH then some { s2 with state := s_TRAILING, c := [47] }
    else if c1.headD 0 = 0 then none
    else some { s2 with state := s_TRAILING, type := t_ITEM }
  | s_TRAILING =>
    if c1.headD 0 = 0 then none
    else some { s2 with type := t_ITEM }

/-- The `do ... while` loop of `f_name_cmp` (lines 1817-1880); each unit of `fuel` pays
for one iteration. -/
def fnc_loop (t_path : fnc_type) (f1 f2 : file_struct) :
    Nat → fnc_side → fnc_side → cmp_result
  | 0, _, _ => cmp_result.nofuel
  | fuel + 1, s1, s2 =>
    let end1 : Bool := s1.c.headD 0 = 0
    let s1 := if end1 then fnc_switch1 t_path f1 s1 else s1
    if end1 ∧ s2.c.headD 0 ≠ 0 ∧ s1.type ≠ s2.type then
      cmp_result.ret (fnc_type_dif s1.type)
    else
      let after2 : Option fnc_side :=
        if s2.c.headD 0 = 0 then fnc_switch2 t_path f2 s1.c s2 else some s2
      match after2 with
      | none => cmp_result.ret 0
      | some s2n =>
        if s2.c.headD 0 = 0 ∧ s1.type ≠ s2n.type then
          cmp_result.ret (fnc_type_dif s1.type)
        else
          let dif : Int := (s1.c.headD 0 : Int) - (s2n.c.headD 0 : Int)
          if dif ≠ 0 then cmp_result.ret dif
          else if s1.c.headD 0 = 0 then cmp_result.overread
          else fnc_loop t_path f1 f2 fuel { s1 with c := s1.c.tail } { s2n with c := s2n.c.tail }

/-- Iterations that `f_name_cmp` can need on two entries: one per byte of either joined
name and trailing slash, and one per state change. -/
def fnc_fuel (f1 f2 : file_struct) : Nat :=
  let len (f : file_struct) : Nat :=
    (match f.dirname with | some d => d.str.length | none => 0) + f.basename.length
  len f1 + len f2 + 8

/-- The function `f_name_cmp` of `flist.c` (lines 1767-1883), for the global
`protocol_version`; a `NULL` argument is `none`. -/
def f_name_cmp (protocol_version : Int) (f1 f2 : Option file_struct) : cmp_result :=
  let t_path := fnc_t_path protocol_version
  if is_inactive f1 then
    if is_inactive f2 then cmp_result.ret 0 else cmp_result.ret (-1)
  else if is_inactive f2 then cmp_result.ret 1
  else
    match f1, f2 with
    | some g1, some g2 =>
      let same : Bool := g1.dirname.map dir_ptr.addr = g2.dirname.map dir_ptr.addr
      let c1 := if same then none else g1.dirname.map dir_ptr.str
      let c2 := if same then none else g2.dirname.map dir_ptr.str
      let s1 := fnc_init t_path g1 c1
      let s2 := fnc_init t_path g2 c2
      if s1.type ≠ s2.type then cmp_result.ret (fnc_type_dif s1.type)
      else fnc_loop t_path g1 g2 (fnc_fuel g1 g2) s1 s2
    | _, _ => cmp_result.ret 0

/-! ## The order that `f_name_cmp` computes -/

/-- A valid C string in the embedding: no NUL among its bytes. -/
def cstr_ok (s : List Nat) : Prop := ∀ c ∈ s, c ≠ 0

instance (s : List Nat) : Decidable (cstr_ok s) := by unfold cstr_ok; infer_instance

/-- The bytes of a segment, each with the type under which it is compared. -/
def fnc_tag (t : fnc_type) (c : List Nat) : List (fnc_type × Nat) := c.map fun b => (t, b)

/-- The type that `f_name_cmp` gives the basename of `f`. -/
def fnc_base_type (t_path : fnc_type) (f : file_struct) : fnc_type :=
  if S_ISDIR f.mode then t_path else t_ITEM

/-- The test of lines 1790, 1803, 1827 and 1857: a directory named ".", compared as a
path. -/
def fnc_is_dot (t_path : fnc_type) (f : file_struct) : Prop :=
  fnc_base_type t_path f = t_PATH ∧ f.basename.headD 0 = 46 ∧ f.basename.getD 1 0 = 0

instance (t_path : fnc_type) (f : file_struct) : Decidable (fnc_is_dot t_path f) := by
  unfold fnc_is_dot; infer_instance

/-- What the basename of `f` contributes to the comparison: nothing for a directory named
".", else its bytes, followed by a slash when it is compared as a path. -/
def fnc_base_key (t_path : fnc_type) (f : file_struct) : List (fnc_type × Nat) :=
  if fnc_is_dot t_path f then []
  else fnc_tag (fnc_base_type t_path f) f.basename ++
    if fnc_base_type t_path f = t_PATH then [(t_PATH, 47)] else []

/-- What one side of `f_name_cmp` still has to offer. -/
def fnc_rest (t_path : fnc_type) (f : file_struct) (s : fnc_side) : List (fnc_type × Nat) :=
  match s.state with
  | s_DIR => fnc_tag s.type s.c ++ (s.type, 47) :: fnc_base_key t_path f
  | s_SLASH => fnc_tag s.type s.c ++ fnc_base_key t_path f
  | s_BASE => fnc_tag s.type s.c ++ if s.type = t_PATH then [(t_PATH, 47)] else []
  | s_TRAILING => fnc_tag s.type s.c

/-- The verdict on two remaining keys. -/
def fnc_lex : List (fnc_type × Nat) → List (fnc_type × Nat) → Int
  | [], [] => 0
  | [], (t, b) :: _ => if t = t_PATH then -1 else -(b : Int)
  | (t, a) :: _, [] => if t = t_PATH then 1 else (a : Int)
  | (t1, a) :: r1, (t2, b) :: r2 =>
    if t1 ≠ t2 then fnc_type_dif t1
    else if a ≠ b then (a : Int) - (b : Int)
    else fnc_lex r1 r2

/-- Side 2 will end on the "." branch of `case s_SLASH`. -/
def fnc_dot_end (t_path : fnc_type) (f : file_struct) (s : fnc_side) : Prop :=
  (s.state = s_DIR ∨ s.state = s_SLASH) ∧ fnc_is_dot t_path f

instance (t_path : fnc_type) (f : file_struct) (s : fnc_side) :
    Decidable (fnc_dot_end t_path f s) := by
  unfold fnc_dot_end; infer_instance

/-- The result of the loop in terms of the remaining keys. -/
def fnc_spec (t_path : fnc_type) (f1 f2 : file_struct) (s1 s2 : fnc_side) : cmp_result :=
  if fnc_rest t_path f1 s1 = fnc_rest t_path f2 s2 then
    if fnc_dot_end t_path f2 s2 then cmp_result.overread else cmp_result.ret 0
  else cmp_result.ret (fnc_lex (fnc_rest t_path f1 s1) (fnc_rest t_path f2 s2))

/-- The first `if (!*c1)` block of the loop, without its `return`. -/
def fnc_norm (t_path : fnc_type) (f : file_struct) (s : fnc_side) : fnc_side :=
  if s.c.headD 0 = 0 then fnc_switch1 t_path f s else s

/-- The dirname part of the key of an entry: its bytes and the joining slash. -/
def fnc_dir_key (t_path : fnc_type) : Option (List Nat) → List (fnc_type × Nat)
  | none => []
  | some d => fnc_tag t_path d ++ [(t_path, 47)]

/-- The key of an entry: `f_name_cmp` orders entries as `fnc_lex` orders their keys. -/
def fnc_key (protocol_version : Int) (f : file_struct) : List (fnc_type × Nat) :=
  fnc_dir_key (fnc_t_path protocol_version) (f.dirname.map dir_ptr.str) ++
    fnc_base_key (fnc_t_path protocol_version) f

/-- The string that the dirname pointer of an entry points to (empty for `NULL`). -/
def dirname_str (f : file_struct) : List Nat :=
  match f.dirname with
  | some d => d.str
  | none => []

/-- An entry that is active and whose strings are C strings. -/
def entry_ok (f : file_struct) : Prop :=
  f.basename ≠ [] ∧ cstr_ok f.basename ∧ cstr_ok (dirname_str f)

instance (f : file_struct) : Decidable (entry_ok f) := by
  unfold entry_ok; infer_instance

/-- Two dirname pointers that hold the same address point to the same string. -/
def ptr_ok (f g : file_struct) : Prop :=
  f.dirname.map dir_ptr.addr = g.dirname.map dir_ptr.addr →
    f.dirname.map dir_ptr.str = g.dirname.map dir_ptr.str

instance (f g : file_struct) : Decidable (ptr_ok f g) := by
  unfold ptr_ok; infer_instance

/-- The case in which `f_name_cmp` runs past the terminators: the keys are equal and the
second entry is a directory named "." whose dirname pointer is not NULL and is not the
pointer of the first entry. -/
def fnc_overread (protocol_version : Int) (f1 f2 : file_struct) : Prop :=
  fnc_key protocol_version f1 = fnc_key protocol_version f2 ∧
    f2.dirname ≠ none ∧ f1.dirname.map dir_ptr.addr ≠ f2.dirname.map dir_ptr.addr ∧
    fnc_is_dot (fnc_t_path protocol_version) f2

instance (pv : Int) (f1 f2 : file_struct) : Decidable (fnc_overread pv f1 f2) := by
  unfold fnc_overread; infer_instance

/-- The type of the first element of a key (`t_ITEM` for the empty key). -/
def fnc_head_type : List (fnc_type × Nat) → fnc_type
  | [] => t_ITEM
  | (t, _) :: _ => t

/-- A key whose bytes are all non-zero. -/
def key_ok (k : List (fnc_type × Nat)) : Prop := ∀ x ∈ k, x.2 ≠ 0

/-- The libc function `strcmp` on C strings, bytes compared as unsigned: the difference
of the first two bytes that differ (the NUL counting as 0). -/
def strcmp : List Nat → List Nat → Int
  | [], [] => 0
  | [], b :: _ => -(b : Int)
  | a :: _, [] => (a : Int)
  | a :: r1, b :: r2 => if a ≠ b then (a : Int) - (b : Int) else strcmp r1 r2

/-- The libc function `strlcpy(dst, src, size)`: what `dst` holds afterwards. -/
def strlcpy (src : List Nat) (size : Nat) : List Nat := src.take (size - 1)

/-- The function `f_name` of `flist.c` (lines 1899-1916): the string left in the buffer,
`none` for the `NULL` returned on a missing or inactive entry. The `memcpy` of the
dirname is not bounded by the source either. -/
def f_name (MAXPATHLEN : Nat) (f : Option file_struct) : Option (List Nat) :=
  if is_inactive f then none
  else
    match f with
    | none => none
    | some g =>
      match g.dirname with
      | some d =>
        some (d.str ++ 47 :: strlcpy g.basename (MAXPATHLEN - (d.str.length + 1)))
      | none => some (strlcpy g.basename MAXPATHLEN)

/-- The joined name of an entry in the words of the specification: dirname, "/" and
basename, or the basename alone when the dirname is NULL. -/
def joined_name (f : file_struct) : List Nat :=
  match f.dirname with
  | some d => d.str ++ [47] ++ f.basename
  | none => f.basename

/-- The sign of a result of `f_name_cmp`, or of `strcmp`. -/
def sign_of (d : Int) : Int := if d < 0 then -1 else if 0 < d then 1 else 0

/-! ## src/flist.c: the file list, `flist_find`, `clear_file`, `clean_flist` -/

/-- Why a run of the embedded code has no result: it read outside an array or a string,
used a buffer that was never written or memory that was freed (undefined behaviour in C),
the byte stream ended under a read, the code left through `overflow_exit` or `overflow`,
through `out_of_memory`, or through `exit_cleanup` with `RERR_SYNTAX` or
`RERR_FILESELECT`, or the embedding ran out of iterations. -/
inductive fault where
  | out_of_bounds
  | overread
  | nofuel
  | uninitialized
  | end_of_stream
  | overflow_exit
  | use_after_free
  | out_of_memory
  | syntax_exit
  | fileselect_exit
deriving DecidableEq, Repr

/-- The result of running embedded code that can go wrong. -/
inductive outcome (α : Type) where
  | ok (a : α)
  | bad (why : fault)
deriving DecidableEq, Repr

/-- Sequencing of runs: the first fault ends the run. -/
def outcome.bind {α β : Type} (x : outcome α) (k : α → outcome β) : outcome β :=
  match x with
  | outcome.ok a => k a
  | outcome.bad why => outcome.bad why

/-- The result of a run, passed through `u`. -/
def outcome.map {α β : Type} (u : α → β) : outcome α → outcome β
  | outcome.ok a => outcome.ok (u a)
  | outcome.bad why => outcome.bad why

instance : Monad outcome where
  pure := outcome.ok
  bind := outcome.bind

/-- The part of `struct file_list` that `flist_find` and `clean_flist` use: the array
`files` (`count` is its length) and the bounds `low` and `high` of the active region. -/
structure file_list where
  files : List file_struct
  low : Int
  high : Int
deriving DecidableEq, Repr

/-- The member `count` of a file list. -/
def file_list.count (flist : file_list) : Int := flist.files.length

/-- The read `files[i]`; an index outside `0 .. count - 1` is outside the array. -/
def files_get (files : List file_struct) (i : Int) : outcome file_struct :=
  if 0 ≤ i then
    match files.get? i.toNat with
    | some f => outcome.ok f
    | none => outcome.bad fault.out_of_bounds
  else outcome.bad fault.out_of_bounds

/-- The array after a write through `files[i]->`: entry `i` replaced by `g i`. -/
def files_update (files : List file_struct) (i : Int) (g : file_struct → file_struct) :
    List file_struct :=
  if 0 ≤ i then files.modify g i.toNat else files

/-- The conversion `(int)` of a `uint32`. -/
def int_of_uint32 (n : Nat) : Int :=
  if n % 2 ^ 32 < 2 ^ 31 then (n % 2 ^ 32 : Nat) else (n % 2 ^ 32 : Nat) - 2 ^ 32

/-- The conversion of an `int` stored into a `uint32`. -/
def uint32_of_int (i : Int) : Nat := (i % 2 ^ 32).toNat

/-- The call `f_name_cmp(a, b)` as a run. -/
def run_cmp (protocol_version : Int) (a b : Option file_struct) : outcome Int :=
  match f_name_cmp protocol_version a b with
  | cmp_result.ret dif => outcome.ok dif
  | cmp_result.overread => outcome.bad fault.overread
  | cmp_result.nofuel => outcome.bad fault.nofuel

/-- The loop of lines 1464-1466: follow the forward distances `dir.depth` from the
cleared entry `mid_up` to an active entry. -/
def scan_up (files : List file_struct) : Nat → Int → outcome Int
  | 0, _ => outcome.bad fault.nofuel
  | fuel + 1, mid_up => do
    let cur ← files_get files mid_up
    let next := mid_up + cur.depth
    let g ← files_get files next
    if F_IS_ACTIVE g then pure next else scan_up files fuel next

/-- The loop of lines 1474-1476: follow the backward distances `len32` from the cleared
entry `high` to an active entry. -/
def scan_down (files : List file_struct) : Nat → Int → outcome Int
  | 0, _ => outcome.bad fault.nofuel
  | fuel + 1, high => do
    let cur ← files_get files high
    let next := high - int_of_uint32 cur.len32
    let g ← files_get files next
    if F_IS_ACTIVE g then pure next else scan_down files fuel next

/-- The lines 1482-1493 of `flist_find`: compare at `mid_up`; the result is either the
value returned or the new bounds. -/
def find_compare (protocol_version : Int) (files : List file_struct) (f : file_struct)
    (low high mid mid_up : Int) : outcome (Int ⊕ (Int × Int)) := do
  let g ← files_get files mid_up
  let diff ← run_cmp protocol_version (some g) (some f)
  if diff = 0 then
    if protocol_version < 29 ∧ S_ISDIR g.mode ≠ S_ISDIR f.mode then pure (Sum.inl (-1))
    else pure (Sum.inl mid_up)
  else if diff < 0 then pure (Sum.inr (mid_up + 1, high))
  else pure (Sum.inr (low, mid - 1))

/-- The lines 1462-1468 of `flist_find`, for a cleared `files[mid]`: the next active
entry above `mid`, found through the cached distance, which is refreshed when it did not
lead to an active entry at once. -/
def find_mid_up (files : List file_struct) (mid : Int) : outcome (Int × List file_struct) := do
  let fmid ← files_get files mid
  let mid_up := mid + fmid.depth
  let g ← files_get files mid_up
  if !F_IS_ACTIVE g then do
    let m ← scan_up files files.length mid_up
    pure (m, files_update files mid fun e => { e with depth := m - mid })
  else pure (mid_up, files)

/-- The lines 1472-1478 of `flist_find`, for a cleared `files[mid]` with nothing active
from `mid` up to `high`: the new `high`, an active entry below `mid`. -/
def find_high (files : List file_struct) (mid : Int) : outcome (Int × List file_struct) := do
  let fmid ← files_get files mid
  let high := mid - int_of_uint32 fmid.len32
  let h ← files_get files high
  if !F_IS_ACTIVE h then do
    let m ← scan_down files files.length high
    pure (m, files_update files mid fun e => { e with len32 := uint32_of_int (mid - m) })
  else pure (high, files)

/-- The `while` loop of `flist_find` (lines 1454-1494); each unit of `fuel` pays for one
iteration. The result is the value returned and the array with the refreshed distances. -/
def flist_find_loop (protocol_version : Int) (f : file_struct) :
    Nat → List file_struct → Int → Int → outcome (Int × List file_struct)
  | 0, _, _, _ => outcome.bad fault.nofuel
  | fuel + 1, files, low, high =>
    if low ≤ high then do
      let mid := Int.tdiv (low + high) 2
      let fmid ← files_get files mid
      if F_IS_ACTIVE fmid then
        match ← find_compare protocol_version files f low high mid mid with
        | Sum.inl r => pure (r, files)
        | Sum.inr (low, high) => flist_find_loop protocol_version f fuel files low high
      else do
        let (mid_up, files) ← find_mid_up files mid
        if mid_up > high then do
          let (high, files) ← find_high files mid
          flist_find_loop protocol_version f fuel files low high
        else
          match ← find_compare protocol_version files f low high mid mid_up with
          | Sum.inl r => pure (r, files)
          | Sum.inr (low, high) => flist_find_loop protocol_version f fuel files low high
    else pure (-1, files)

/-- The function `flist_find` of `flist.c` (lines 1449-1496): the index returned and the
list with the distances of cleared entries as the search left them. The window shrinks
in every iteration, so `count + 1` iterations are enough. -/
def flist_find (protocol_version : Int) (flist : file_list) (f : file_struct) :
    outcome (Int × file_list) := do
  let (r, files) ←
    flist_find_loop protocol_version f (flist.files.length + 1) flist.files flist.low flist.high
  pure (r, { flist with files := files })

/-- The function `clear_file` of `flist.c` (lines 1502-1510): the header and the first
byte of the basename are zeroed, then both distances are set to 1. The extras before the
header are left as they are. -/
def clear_file (file : file_struct) : file_struct :=
  { file with modtime := 0, dirname := none, mode := 0, flags := 0, basename := [],
              len32 := 1, depth := 1 }

/-- Modelled from the spec: the flag `TOP_DIR` of `flags` (`FLAG_TOP_DIR == XMIT_TOP_DIR`,
line 339); the `FLAG_` values live in `rsync.h`, which is not under `src/`. -/
def FLAG_TOP_DIR : Nat := 1
/-- Modelled from the spec: the flag `XFER_DIR` of `flags`. -/
def FLAG_XFER_DIR : Nat := 2
/-- Modelled from the spec: the flag `MOUNT_DIR` of `flags`. -/
def FLAG_MOUNT_DIR : Nat := 4
/-- Modelled from the spec: the flag `HLINKED` of `flags`. -/
def FLAG_HLINKED : Nat := 8
/-- Modelled from the spec: the flag `LENGTH64` of `flags`. -/
def FLAG_LENGTH64 : Nat := 16

/-- The first loop of `clean_flist` (lines 1565-1570) from index `i`: the index of the
first active entry, or `none` when the loop runs to `count`. -/
def first_active : List file_struct → Nat → Option Nat
  | [], _ => none
  | file :: rest, i => if F_IS_ACTIVE file then some i else first_active rest (i + 1)

/-- The loop of lines 1617-1619: from `j`, the first index that is `i` or holds an active
entry. -/
def skip_cleared (files : List file_struct) (i : Int) : Nat → Int → outcome Int
  | 0, _ => outcome.bad fault.nofuel
  | fuel + 1, j =>
    if j < i then do
      let g ← files_get files j
      if !F_IS_ACTIVE g then skip_cleared files i fuel (j + 1) else pure j
    else pure j

/-- The variables that the main loop of `clean_flist` carries. -/
structure clean_state where
  flist : file_list
  prev_i : Int
deriving DecidableEq, Repr

/-- The lines 1578-1589 of `clean_flist`: the index `j` of an entry kept earlier that the
active entry `file` duplicates, or -1; the list comes back with `high` and the cached
distances as `flist_find` left them. -/
def clean_find_dup (protocol_version : Int) (st : clean_state) (file : file_struct) :
    outcome (Int × file_list) := do
  let prev ← files_get st.flist.files st.prev_i
  let dif ← run_cmp protocol_version (some file) (some prev)
  if dif = 0 then pure (st.prev_i, st.flist)
  else if protocol_version ≥ 29 ∧ S_ISDIR file.mode then
    flist_find protocol_version { st.flist with high := st.prev_i } { file with mode := S_IFREG }
  else pure (-1, st.flist)

/-- The assignment of lines 1610-1611 to the kept entry: it takes the flags `TOP_DIR` and
`XFER_DIR` of the dropped one. -/
def merge_flags (dropped : file_struct) (e : file_struct) : file_struct :=
  { e with flags := e.flags ||| (dropped.flags &&& (FLAG_TOP_DIR ||| FLAG_XFER_DIR)) }

/-- The lines 1590-1623 of `clean_flist`, for `j >= 0`: of the entries `i` and `j` one is
kept and takes the top-directory flags of the other, which is cleared. -/
def clean_drop (flist : file_list) (prev_i i j : Int) (file : file_struct) :
    outcome clean_state := do
  let fp ← files_get flist.files j
  let (keep, drop) : Int × Int :=
    if S_ISDIR file.mode ≠ S_ISDIR fp.mode then
      if S_ISDIR file.mode then (i, j) else (j, i)
    else (j, i)
  let dropped ← files_get flist.files drop
  let files := files_update flist.files keep (merge_flags dropped)
  let files := files_update files drop clear_file
  if keep = i then do
    let low ←
      (if flist.low = drop then skip_cleared files i files.length (drop + 1)
       else pure flist.low : outcome Int)
    pure { flist := { flist with files := files, low := low }, prev_i := i }
  else pure { flist := { flist with files := files }, prev_i := prev_i }

/-- The body of the main loop of `clean_flist` (lines 1573-1625) for the index `i`. -/
def clean_step (protocol_version : Int) (st : clean_state) (i : Int) : outcome clean_state := do
  let file ← files_get st.flist.files i
  if !F_IS_ACTIVE file then pure st
  else do
    let (j, flist) ← clean_find_dup protocol_version st file
    if j ≥ 0 then clean_drop flist st.prev_i i j file
    else pure { flist := flist, prev_i := i }

/-- The main loop of `clean_flist`, `while (++i < flist->count)`, entered with the value
of `i` before the increment; `n` bounds the iterations left. -/
def clean_loop (protocol_version : Int) : Nat → clean_state → Int → outcome clean_state
  | 0, st, i => if i + 1 < st.flist.count then outcome.bad fault.nofuel else pure st
  | n + 1, st, i =>
    if i + 1 < st.flist.count then do
      let st ← clean_step protocol_version st (i + 1)
      clean_loop protocol_version n st (i + 1)
    else pure st

/-- The pointer `file->dirname` after the loop of lines 1637-1640, from the address and
the string it starts with: leading slashes are skipped, each moving the address by one,
and a dirname that ends there becomes `NULL`. -/
def strip_slashes : Nat → List Nat → Option dir_ptr
  | _, [] => none
  | addr, c :: rest =>
    if c = 47 then strip_slashes (addr + 1) rest else some { addr := addr, str := c :: rest }

/-- The loop of lines 1632-1641 from index `i` for `n` entries. -/
def strip_root_loop : Nat → List file_struct → Int → outcome (List file_struct)
  | 0, files, _ => pure files
  | n + 1, files, i => do
    let _ ← files_get files i
    let files := files_update files i fun e =>
      match e.dirname with
      | none => e
      | some d => { e with dirname := strip_slashes d.addr d.str }
    strip_root_loop n files (i + 1)

/-- The function `clean_flist` of `flist.c` (lines 1550-1642) on a list that is not
`NULL`, up to the block for `prune_empty_dirs` (lines 1644-1708), which is skipped when
that option is off. `qsort` stands for the libc call of line 1562 with `file_compare`, as
the array that the call returns; the calls of `file_compare` that it makes, and the whole
function with the block for `prune_empty_dirs`, are in `clean_flist_full` below. -/
def clean_flist (qsort : List file_struct → List file_struct) (protocol_version : Int)
    (flist : file_list) (strip_root no_dups : Int) : outcome file_list :=
  if flist.count = 0 then pure { flist with high := -1 }
  else do
    let files := qsort flist.files
    let flist : file_list := { flist with files := files }
    let start : Option Nat := if no_dups ≠ 0 then first_active files 0 else none
    let prev_i : Int := match start with
      | some i => i
      | none => 0
    let i : Int := match start with
      | some i => i
      | none => flist.count
    let flist := { flist with low := prev_i }
    let st ← clean_loop protocol_version files.length { flist := flist, prev_i := prev_i } i
    let flist := { st.flist with
      high := if no_dups ≠ 0 then st.prev_i else st.flist.count - 1 }
    if strip_root ≠ 0 then do
      let files ← strip_root_loop (flist.high + 1 - flist.low).toNat flist.files flist.low
      pure { flist with files := files }
    else pure flist

/-! ## The state of a cleaned list, and what `flist_find` has to return -/

/-- `files[i]` exists and is active. -/
def active_at (files : List file_struct) (i : Int) : Prop :=
  ∃ g, files_get files i = outcome.ok g ∧ F_IS_ACTIVE g = true

/-- `files[i]` exists and is a cleared entry. -/
def cleared_at (files : List file_struct) (i : Int) : Prop :=
  ∃ g, files_get files i = outcome.ok g ∧ F_IS_ACTIVE g = false

/-- The distances of the cleared entry `e` at index `k` skip cleared entries only. -/
def cursor_ok (files : List file_struct) (k : Int) (e : file_struct) : Prop :=
  1 ≤ e.depth ∧ (∀ m, k < m → m < k + e.depth → cleared_at files m) ∧
  1 ≤ int_of_uint32 e.len32 ∧ (∀ m, k - int_of_uint32 e.len32 < m → m < k → cleared_at files m)

/-- The region `lo .. hi` of the array is bounded by two active entries, and every cleared
entry of the array from `lo` on has distances that skip cleared entries only. -/
structure region_ok (files : List file_struct) (lo hi : Int) : Prop where
  lo_le : lo ≤ hi
  lo_active : active_at files lo
  hi_active : active_at files hi
  cursors : ∀ k e, lo ≤ k → files_get files k = outcome.ok e →
    F_IS_ACTIVE e = false → cursor_ok files k e

/-- The entry `g'` is `g`, up to the two distances when `g` is cleared. -/
def same_entry (g g' : file_struct) : Prop :=
  (F_IS_ACTIVE g = true → g' = g) ∧
  (F_IS_ACTIVE g = false → ∃ d l, g' = { g with depth := d, len32 := l })

/-- The array `files'` is `files` up to the distances of cleared entries. -/
def same_files (files files' : List file_struct) : Prop :=
  files'.length = files.length ∧
  ∀ i g, files_get files i = outcome.ok g → ∃ g', files_get files' i = outcome.ok g' ∧ same_entry g g'

/-- What `flist_find` needs of the comparator: on every active entry of the region the
call `f_name_cmp(files[k], f)` returns, and its values pass from negative through zero to
positive as the index grows, zero at most once. -/
structure find_order (pv : Int) (f : file_struct) (files0 : List file_struct) (lo hi : Int)
    (cmpf : file_struct → Int) : Prop where
  defined : ∀ k g, lo ≤ k → k ≤ hi → files_get files0 k = outcome.ok g →
    F_IS_ACTIVE g = true → run_cmp pv (some g) (some f) = outcome.ok (cmpf g)
  mono : ∀ i j gi gj, lo ≤ i → i < j → j ≤ hi → files_get files0 i = outcome.ok gi →
    files_get files0 j = outcome.ok gj → F_IS_ACTIVE gi = true → F_IS_ACTIVE gj = true →
    cmpf gj ≤ 0 → cmpf gi < 0

/-- The value that `flist_find` has to return. -/
def find_result_ok (pv : Int) (f : file_struct) (files0 : List file_struct) (lo hi : Int)
    (cmpf : file_struct → Int) (r : Int) : Prop :=
  (r = -1 ∧ ∀ k g, lo ≤ k → k ≤ hi → files_get files0 k = outcome.ok g →
      F_IS_ACTIVE g = true →
      ¬ (cmpf g = 0 ∧ (pv < 29 → S_ISDIR g.mode = S_ISDIR f.mode))) ∨
  (lo ≤ r ∧ r ≤ hi ∧ ∃ g, files_get files0 r = outcome.ok g ∧ F_IS_ACTIVE g = true ∧
      cmpf g = 0 ∧ (pv < 29 → S_ISDIR g.mode = S_ISDIR f.mode))

/-- The window `low .. high` of the search: what lies below it compares before `f`, what
lies above it after `f`. -/
structure find_window (files0 : List file_struct) (lo hi : Int) (cmpf : file_struct → Int)
    (low high : Int) : Prop where
  lo_le : lo ≤ low
  le_hi : high ≤ hi
  below : ∀ k g, lo ≤ k → k < low → files_get files0 k = outcome.ok g →
    F_IS_ACTIVE g = true → cmpf g < 0
  above : ∀ k g, high < k → k ≤ hi → files_get files0 k = outcome.ok g →
    F_IS_ACTIVE g = true → 0 < cmpf g

/-! ## The state of `clean_flist` between two iterations, and what is asked of its input -/

/-- The entry `g` is the entry `s` up to its flags. -/
def flags_only (g s : file_struct) : Prop := g = { s with flags := g.flags }

/-- The names in the array `S` are those of active entries held in memory consistently,
no two of which make `f_name_cmp` run past the terminators. -/
structure names_ok (pv : Int) (S : List file_struct) : Prop where
  ok : ∀ s ∈ S, entry_ok s
  ptr : ∀ a ∈ S, ∀ b ∈ S, ptr_ok a b
  defined : ∀ a ∈ S, ∀ b ∈ S, ¬ fnc_overread pv a b

/-- The array `S` is in the order of `f_name_cmp`. -/
def keys_sorted (pv : Int) (S : List file_struct) : Prop :=
  ∀ i j si sj, i < j → files_get S i = outcome.ok si → files_get S j = outcome.ok sj →
    fnc_lex (fnc_key pv si) (fnc_key pv sj) ≤ 0

/-- The state of `clean_flist` with `no_dups` when its main loop has dealt with the
indices up to `i`: what is still active is an entry of the sorted array `S` up to its
flags, the entries after `i` are untouched, `lo` and `p` (`flist->low` and `prev_i`) are
the first and the last active index, and the active entries are strictly increasing. -/
structure clean_inv (pv : Int) (S files : List file_struct) (lo p i : Int) : Prop where
  len : files.length = S.length
  kept : ∀ k g, files_get files k = outcome.ok g → F_IS_ACTIVE g = true →
    ∃ s, files_get S k = outcome.ok s ∧ flags_only g s
  rest : ∀ k, i < k → files_get files k = files_get S k
  region : region_ok files lo p
  p_le : p ≤ i
  below : ∀ k, 0 ≤ k → k < lo → cleared_at files k
  above : ∀ k, p < k → k ≤ i → cleared_at files k
  sorted : ∀ k1 k2 s1 s2, k1 < k2 → k2 ≤ p → active_at files k1 → active_at files k2 →
    files_get S k1 = outcome.ok s1 → files_get S k2 = outcome.ok s2 →
    fnc_lex (fnc_key pv s1) (fnc_key pv s2) < 0

/-- The call of `f_name_cmp` returned. -/
def cmp_result.returned : cmp_result → Bool
  | cmp_result.ret _ => true
  | _ => false

/-- The call of `f_name_cmp` returned a value `<= 0`. -/
def cmp_result.le_zero : cmp_result → Bool
  | cmp_result.ret d => decide (d ≤ 0)
  | _ => false

/-- The entries of a list that `clean_flist` is given: all of them are active with C
strings as names, equal dirname pointers point to equal strings, and `f_name_cmp` returns
on every pair. -/
def list_ok (pv : Int) (files : List file_struct) : Prop :=
  (∀ s ∈ files, entry_ok s) ∧
  ∀ a ∈ files, ∀ b ∈ files, ptr_ok a b ∧ (f_name_cmp pv (some a) (some b)).returned = true

instance (pv : Int) (files : List file_struct) : Decidable (list_ok pv files) := by
  unfold list_ok; infer_instance

/-- The array is in the order of `file_compare`: `f_name_cmp` returns a value `<= 0` on
every entry and a later one. -/
def sorted_by_cmp (pv : Int) (files : List file_struct) : Prop :=
  files.Pairwise fun a b => (f_name_cmp pv (some a) (some b)).le_zero = true

instance (pv : Int) (files : List file_struct) : Decidable (sorted_by_cmp pv files) := by
  unfold sorted_by_cmp; infer_instance

/-- The entry `g` of the list is what `flist_find` looks for with `f`: it is active,
`f_name_cmp(g, f)` is 0 and, below protocol 29, both or neither are directories
(lines 1481-1486). -/
def find_match (pv : Int) (f g : file_struct) : Prop :=
  F_IS_ACTIVE g = true ∧ f_name_cmp pv (some g) (some f) = cmp_result.ret 0 ∧
    (pv < 29 → S_ISDIR g.mode = S_ISDIR f.mode)

/-- The answer `r` of `flist_find(flist, f)` is right: -1 when no entry of `low .. high`
matches, and else the index in `low .. high` of an entry that does. -/
def find_answer (pv : Int) (f : file_struct) (flist : file_list) (r : Int) : Prop :=
  (r = -1 ∧ ∀ k g, flist.low ≤ k → k ≤ flist.high →
      files_get flist.files k = outcome.ok g → ¬ find_match pv f g) ∨
  (flist.low ≤ r ∧ r ≤ flist.high ∧
    ∃ g, files_get flist.files r = outcome.ok g ∧ find_match pv f g)


/-! ## Names in a cleaned list -/

/-- Two entries with the same name: equal dirname strings (both `NULL` or both present)
and equal basenames. -/
def same_name (a b : file_struct) : Prop :=
  a.dirname.map dir_ptr.str = b.dirname.map dir_ptr.str ∧ a.basename = b.basename

instance (a b : file_struct) : Decidable (same_name a b) := by
  unfold same_name; infer_instance

/-- Every element of the key is compared as a path. -/
def all_path (k : List (fnc_type × Nat)) : Prop := ∀ x ∈ k, x.1 = t_PATH

/-- From protocol 29 on, no entry that is active at an index up to `p` has the key of a
non-directory with the name of a directory that is active at a later index up to `p`. -/
def twin_free (pv : Int) (S files : List file_struct) (p : Int) : Prop :=
  29 ≤ pv → ∀ k1 k2 s1 s2, k1 < k2 → k2 ≤ p → active_at files k1 → active_at files k2 →
    files_get S k1 = outcome.ok s1 → files_get S k2 = outcome.ok s2 →
    S_ISDIR s2.mode = true → fnc_key pv { s2 with mode := S_IFREG } ≠ fnc_key pv s1

/-- The body of the loop of lines 1632-1641 on one entry. -/
def strip_entry (e : file_struct) : file_struct :=
  match e.dirname with
  | none => e
  | some d => { e with dirname := strip_slashes d.addr d.str }

/-- The sequence of the active entries of `low .. high`, in the order of the array. -/
def active_entries (fl : file_list) : List file_struct :=
  ((fl.files.take (fl.high + 1).toNat).drop fl.low.toNat).filter F_IS_ACTIVE

/-- What the second sort needs to know of the active entries. -/
structure active_ok (pv : Int) (A : List file_struct) : Prop where
  names : names_ok pv A
  strict : A.Pairwise fun a b => fnc_lex (fnc_key pv a) (fnc_key pv b) < 0
  twin : A.Pairwise fun a b => 29 ≤ pv → S_ISDIR b.mode = true →
    fnc_key pv { b with mode := S_IFREG } ≠ fnc_key pv a

/-! ## src/flist.c: `clean_flist`, the block for `prune_empty_dirs` -/

/-- The variables that the block for `prune_empty_dirs` carries. -/
structure prune_state where
  files : List file_struct
  prev_i : Int
  prev_depth : Int
deriving DecidableEq, Repr

/-- The loop of lines 1657-1663, "dump empty dirs when coming back down", for the
directory at index `i`, entered with `j`: the chain of directories that starts at `prev_i`
is cleared while `j >= file->dir.depth`. `n` bounds the iterations. -/
def prune_dump (i : Int) : Nat → List file_struct → Int → Int → outcome (List file_struct × Int)
  | 0, _, _, _ => outcome.bad fault.nofuel
  | n + 1, files, j, prev_i => do
    let file ← files_get files i
    if j ≥ file.depth then do
      let fp ← files_get files prev_i
      if fp.depth ≥ 0 then pure (files, prev_i)
      else prune_dump i n (files_update files prev_i clear_file) (j - 1) (-fp.depth - 1)
    else pure (files, prev_i)

/-- The loops of lines 1668-1674 and 1680-1686, "keep dirs through this (non-)dir",
entered with `j`: every directory of the chain that starts at `prev_i` gets a depth
again. `n` bounds the iterations. -/
def prune_keep : Nat → List file_struct → Int → Int → outcome (List file_struct × Int)
  | 0, _, _, _ => outcome.bad fault.nofuel
  | n + 1, files, j, prev_i => do
    let fp ← files_get files prev_i
    if fp.depth ≥ 0 then pure (files, prev_i)
    else
      prune_keep n (files_update files prev_i fun e => { e with depth := j }) (j - 1)
        (-fp.depth - 1)

/-- The loop of lines 1690-1696, "dump all remaining empty dirs". `n` bounds the
iterations. -/
def prune_dump_all : Nat → List file_struct → Int → outcome (List file_struct × Int)
  | 0, _, _ => outcome.bad fault.nofuel
  | n + 1, files, prev_i => do
    let fp ← files_get files prev_i
    if fp.depth ≥ 0 then pure (files, prev_i)
    else prune_dump_all n (files_update files prev_i clear_file) (-fp.depth - 1)

/-- The body of the loop of lines 1649-1688 for the index `i`. `is_excluded` stands for
the call `is_excluded(f_name(file, fbuf), 1, ALL_FILTERS)`, whose function is not under
`src/`; it is given what `f_name` returns. -/
def prune_step (is_excluded : Option (List Nat) → Bool) (MAXPATHLEN : Nat)
    (st : prune_state) (i : Int) : outcome prune_state := do
  let file ← files_get st.files i
  if S_ISDIR file.mode ∧ file.depth ≠ 0 then do
    let (files, prev_i) ← prune_dump i (st.files.length + 1) st.files st.prev_depth st.prev_i
    let file ← files_get files i
    let prev_depth := file.depth
    if is_excluded (f_name MAXPATHLEN (some file)) then do
      let (files, _) ← prune_keep (files.length + 1) files (prev_depth - 1) prev_i
      pure { files := files, prev_i := i, prev_depth := prev_depth }
    else
      pure { files := files_update files i fun e => { e with depth := -prev_i - 1 },
             prev_i := i, prev_depth := prev_depth }
  else do
    let (files, prev_i) ← prune_keep (st.files.length + 1) st.files st.prev_depth st.prev_i
    pure { files := files, prev_i := prev_i, prev_depth := st.prev_depth }

/-- The loop of lines 1649-1688 from index `i` for `n` entries. -/
def prune_loop (is_excluded : Option (List Nat) → Bool) (MAXPATHLEN : Nat) :
    Nat → prune_state → Int → outcome prune_state
  | 0, st, _ => pure st
  | n + 1, st, i => do
    let st ← prune_step is_excluded MAXPATHLEN st i
    prune_loop is_excluded MAXPATHLEN n st (i + 1)

/-- The loop of lines 1698-1701 from index `i` for at most `n` entries: the first index
that holds an active entry, or the index after the last one looked at. -/
def prune_low (files : List file_struct) : Nat → Int → outcome Int
  | 0, i => pure i
  | n + 1, i => do
    let g ← files_get files i
    if F_IS_ACTIVE g then pure i else prune_low files n (i + 1)

/-- The loop of lines 1703-1706 from index `i` down for at most `n` entries. -/
def prune_high (files : List file_struct) : Nat → Int → outcome Int
  | 0, i => pure i
  | n + 1, i => do
    let g ← files_get files i
    if F_IS_ACTIVE g then pure i else prune_high files n (i - 1)

/-- The block of lines 1644-1708 of `clean_flist`, entered when `prune_empty_dirs` and
`no_dups` are set. -/
def prune_block (is_excluded : Option (List Nat) → Bool) (MAXPATHLEN : Nat)
    (flist : file_list) : outcome file_list := do
  let st ← prune_loop is_excluded MAXPATHLEN (flist.high + 1 - flist.low).toNat
    { files := flist.files, prev_i := 0, prev_depth := 0 } flist.low
  let (files, _) ← prune_dump_all (st.files.length + 1) st.files st.prev_i
  let low ← prune_low files (flist.high + 1 - flist.low).toNat flist.low
  let high ← prune_high files (flist.high + 1 - low).toNat flist.high
  pure { flist with files := files, low := low, high := high }

/-- The function `clean_flist` of `flist.c` (lines 1550-1709) in full: `clean_flist` above,
which ends before the block for `prune_empty_dirs`, and that block when the global
`prune_empty_dirs` and `no_dups` are set. An empty list returns at line 1559. -/
def clean_flist_prune (qsort : List file_struct → List file_struct)
    (is_excluded : Option (List Nat) → Bool) (MAXPATHLEN : Nat) (prune_empty_dirs : Bool)
    (protocol_version : Int) (flist : file_list) (strip_root no_dups : Int) :
    outcome file_list := do
  let cl ← clean_flist qsort protocol_version flist strip_root no_dups
  if flist.count ≠ 0 ∧ prune_empty_dirs ∧ no_dups ≠ 0 then
    prune_block is_excluded MAXPATHLEN cl
  else pure cl

/-! ## src/flist.c: the wire codec. Constants, options and the channel layer -/

/-- Modelled from the spec: the flag `TOP_DIR` of the wire stream, 0x01 (the `XMIT_`
values live in `rsync.h`, which is not under `src/`). -/
def XMIT_TOP_DIR : Nat := 0x01
/-- Modelled from the spec: the flag `SAME_MODE`, 0x02. -/
def XMIT_SAME_MODE : Nat := 0x02
/-- Modelled from the spec: the flag `EXTENDED_FLAGS`, 0x04. -/
def XMIT_EXTENDED_FLAGS : Nat := 0x04
/-- Modelled from the spec: the flag `SAME_RDEV_pre28`, for which the flag table of the
specification gives 0x08. -/
def XMIT_SAME_RDEV_pre28 : Nat := 0x08
/-- Modelled from the spec: the flag `SAME_UID`, 0x08. -/
def XMIT_SAME_UID : Nat := 0x08
/-- Modelled from the spec: the flag `SAME_GID`, 0x10. -/
def XMIT_SAME_GID : Nat := 0x10
/-- Modelled from the spec: the flag `SAME_NAME`, 0x20. -/
def XMIT_SAME_NAME : Nat := 0x20
/-- Modelled from the spec: the flag `LONG_NAME`, 0x40. -/
def XMIT_LONG_NAME : Nat := 0x40
/-- Modelled from the spec: the flag `SAME_TIME`, 0x80. -/
def XMIT_SAME_TIME : Nat := 0x80
/-- Modelled from the spec: the flag `SAME_RDEV_MAJOR` of the high byte; the specification
names the four flags of the high byte without their values, which are taken as the bits
8 to 11 in the order of `rsync.h`. -/
def XMIT_SAME_RDEV_MAJOR : Nat := 0x100
/-- Modelled from the spec: the flag `HAS_IDEV_DATA` of the high byte. -/
def XMIT_HAS_IDEV_DATA : Nat := 0x200
/-- Modelled from the spec: the flag `SAME_DEV` of the high byte. -/
def XMIT_SAME_DEV : Nat := 0x400
/-- Modelled from the spec: the flag `RDEV_MINOR_IS_SMALL` of the high byte. -/
def XMIT_RDEV_MINOR_IS_SMALL : Nat := 0x800

/-- Modelled from the spec: the length `MD4_SUM_LENGTH` of the checksum buffers. -/
def MD4_SUM_LENGTH : Nat := 16

/-- The type bits of a character device, `S_IFCHR`. -/
def S_IFCHR : Nat := 0o020000
/-- The type bits of a block device, `S_IFBLK`. -/
def S_IFBLK : Nat := 0o060000
/-- The type bits of a FIFO, `S_IFIFO`. -/
def S_IFIFO : Nat := 0o010000
/-- The type bits of a socket, `S_IFSOCK`. -/
def S_IFSOCK : Nat := 0o140000

/-- The macro `S_ISREG`. -/
def S_ISREG (mode : Nat) : Bool := mode &&& S_IFMT == S_IFREG
/-- Modelled from the spec: the macro `IS_DEVICE` of `rsync.h`, a block or character
device. -/
def IS_DEVICE (mode : Nat) : Bool :=
  mode &&& S_IFMT == S_IFCHR || mode &&& S_IFMT == S_IFBLK
/-- Modelled from the spec: the macro `IS_SPECIAL` of `rsync.h`, a socket or FIFO. -/
def IS_SPECIAL (mode : Nat) : Bool :=
  mode &&& S_IFMT == S_IFSOCK || mode &&& S_IFMT == S_IFIFO

/-- Modelled from the spec: the macro `F_LENGTH` of `rsync.h`: the 64-bit length of an
entry, `len32` with the extra word as high half when the flag `LENGTH64` is set. -/
def F_LENGTH (f : file_struct) : Int :=
  if has_flag f.flags FLAG_LENGTH64 then (f.len32 : Int) + (f.len_high : Int) * 2 ^ 32
  else (f.len32 : Int)

/-- The option variables that the codec reads (`options.c`), an `int` option as the
boolean "not 0". `checksum_len` is set by `init_flist` (line 93). -/
structure options where
  protocol_version : Int
  preserve_uid : Bool := false
  preserve_gid : Bool := false
  preserve_devices : Bool := false
  preserve_specials : Bool := false
  preserve_links : Bool := false
  preserve_hard_links : Bool := false
  always_checksum : Bool := false
  sanitize_paths : Bool := false
  chmod_modes : Bool := false
  recurse : Bool := false
  relative_paths : Bool := false
  checksum_len : Nat := 16

/-- What the codec takes from the platform and from `util.c` and `chmod.c`, none of which
is under `src/`: the constant `MAXPATHLEN`, the symlink type bits `_S_IFLNK`, the macros
`major`, `minor` and `MAKEDEV`, the conversion `(dev_t)` of an `int`, and the functions
`clean_fname(name, 0)`, `sanitize_path(p, p, "", depth, NULL)`, `tweak_mode(mode,
chmod_modes)` and `count_dir_elements`. -/
structure externals where
  MAXPATHLEN : Nat
  S_IFLNK : Nat
  major : Nat → Nat
  minor : Nat → Nat
  MAKEDEV : Nat → Nat → Nat
  dev_of_int : Int → Nat
  clean_fname : List Nat → List Nat
  sanitize_path : List Nat → Int → List Nat
  tweak_mode : Nat → Nat
  count_dir_elements : List Nat → Int

/-- The macro `S_ISLNK` with the symlink type bits of the platform. -/
def S_ISLNK (x : externals) (mode : Nat) : Bool := mode &&& S_IFMT == x.S_IFLNK

/-- The conversion of a 64-bit pattern to `int64`. -/
def int64_of_nat (n : Nat) : Int :=
  if n % 2 ^ 64 < 2 ^ 63 then (n % 2 ^ 64 : Nat) else (n % 2 ^ 64 : Nat) - 2 ^ 64

/-- The C string that a buffer holds: its bytes before the first NUL. -/
def cstr_of (buf : List Nat) : List Nat := buf.takeWhile fun c => c ≠ 0

/-- Modelled from the spec: `write_byte` of `io.c`, one byte on the stream. -/
def write_byte (x : Nat) : List Nat := [x % 256]

/-- Modelled from the spec: `write_shortint` of `io.c`, two bytes, low byte first. -/
def write_shortint (x : Nat) : List Nat := [x % 256, x / 256 % 256]

/-- The four bytes of a 32-bit pattern, low byte first. -/
def le_bytes32 (n : Nat) : List Nat :=
  [n % 256, n / 256 % 256, n / 65536 % 256, n / 16777216 % 256]

/-- Modelled from the spec: `write_int` of `io.c`, the `int32` as four bytes,
little-endian. -/
def write_int (x : Int) : List Nat := le_bytes32 (uint32_of_int x)

/-- Modelled from the spec: `write_longint` of `io.c`: a value of 0 .. 0x7FFFFFFF goes as
one `int`, any other `int64` as the `int` -1 followed by its low and its high 32 bits. -/
def write_longint (x : Int) : List Nat :=
  if 0 ≤ x ∧ x ≤ 0x7FFFFFFF then write_int x
  else write_int (-1) ++ write_int (x % 2 ^ 32) ++ write_int (x / 2 ^ 32)

/-- Modelled from the spec: `write_buf` of `io.c`, the first `len` bytes of the buffer. -/
def write_buf (buf : List Nat) (len : Nat) : List Nat := buf.take len

/-- Modelled from the spec: `read_byte` of `io.c`: the next byte and the stream after
it. -/
def read_byte : List Nat → outcome (Nat × List Nat)
  | [] => outcome.bad fault.end_of_stream
  | b :: rest => outcome.ok (b, rest)

/-- Modelled from the spec: `read_buf` of `io.c`, the next `len` bytes. -/
def read_buf (len : Nat) (s : List Nat) : outcome (List Nat × List Nat) :=
  if len ≤ s.length then outcome.ok (s.take len, s.drop len)
  else outcome.bad fault.end_of_stream

/-- Modelled from the spec: `read_int` of `io.c`, four bytes as an `int32`. -/
def read_int (s : List Nat) : outcome (Int × List Nat) :=
  match s with
  | b0 :: b1 :: b2 :: b3 :: rest =>
    outcome.ok (int_of_uint32 (b0 + 256 * b1 + 65536 * b2 + 16777216 * b3), rest)
  | _ => outcome.bad fault.end_of_stream

/-- Modelled from the spec: `read_longint` of `io.c`: an `int` that is not -1 is the
value, and -1 announces the low and the high 32 bits of an `int64`. -/
def read_longint (s : List Nat) : outcome (Int × List Nat) := do
  let (num, s) ← read_int s
  if num ≠ -1 then pure (num, s)
  else do
    let (lo, s) ← read_int s
    let (hi, s) ← read_int s
    pure (int64_of_nat (uint32_of_int lo + uint32_of_int hi * 2 ^ 32), s)


/-! ## src/flist.c: `send_file_entry` -/

/-- The function `to_wire_mode` (lines 242-251); the `#if` is the test on `_S_IFLNK`. -/
def to_wire_mode (x : externals) (mode : Nat) : Int :=
  if x.S_IFLNK ≠ 0o120000 ∧ S_ISLNK x mode then
    int_of_uint32 ((mode &&& (0xFFFFFFFF ^^^ S_IFMT)) ||| 0o120000)
  else int_of_uint32 mode

/-- The function `from_wire_mode` (lines 253-260) on the `int` read from the stream. -/
def from_wire_mode (x : externals) (mode : Int) : Nat :=
  if x.S_IFLNK ≠ 0o120000 ∧ uint32_of_int mode &&& S_IFMT = 0o120000 then
    (uint32_of_int mode &&& (0xFFFFFFFF ^^^ S_IFMT)) ||| x.S_IFLNK
  else uint32_of_int mode

/-- The variables `tmp_rdev`, `tmp_idev` and `tmp_sum` (lines 75-77), in which `make_file`
leaves what the sender does not keep in the entry. -/
structure tmp_vars where
  tmp_rdev : Nat := 0
  tmp_idev : idev := { dev := 0, ino := 0 }
  tmp_sum : List Nat := List.replicate 16 0
deriving DecidableEq, Repr

/-- The static variables of `send_file_entry` (lines 313-321). -/
structure send_state where
  modtime : Int := 0
  mode : Nat := 0
  dev : Int := 0
  rdev : Nat := 0
  rdev_major : Nat := 0
  uid : Nat := 0
  gid : Nat := 0
  lastname : List Nat := []
deriving DecidableEq, Repr

/-- The test `(preserve_devices && IS_DEVICE(mode)) || (preserve_specials &&
IS_SPECIAL(mode))` of both ends (lines 345, 441, 582, 693). -/
def carries_rdev (o : options) (mode : Nat) : Bool :=
  (o.preserve_devices && IS_DEVICE mode) || (o.preserve_specials && IS_SPECIAL mode)

/-- The statics after `send_file_entry(NULL, f)` (lines 328-334). -/
def send_reset (x : externals) : send_state :=
  { modtime := 0, mode := 0, dev := 0, rdev := x.MAKEDEV 0 0, rdev_major := 0, uid := 0,
    gid := 0, lastname := [] }

/-- The statics after the lines 339-389 of `send_file_entry`, each `else` branch an
assignment. -/
def send_delta_state (o : options) (x : externals) (tmp : tmp_vars) (st : send_state)
    (file : file_struct) : send_state :=
  let mode := if file.mode = st.mode then st.mode else file.mode
  { mode := mode
    rdev :=
      if carries_rdev o mode then
        if o.protocol_version < 28 then
          if tmp.tmp_rdev = st.rdev then st.rdev else tmp.tmp_rdev
        else tmp.tmp_rdev
      else if o.protocol_version < 28 then x.MAKEDEV 0 0
      else st.rdev
    rdev_major :=
      if carries_rdev o mode ∧ ¬ o.protocol_version < 28 then
        if x.major tmp.tmp_rdev % 2 ^ 32 = st.rdev_major then st.rdev_major
        else x.major tmp.tmp_rdev % 2 ^ 32
      else st.rdev_major
    uid := if o.preserve_uid then (if file.uid = st.uid then st.uid else file.uid) else st.uid
    gid := if o.preserve_gid then (if file.gid = st.gid then st.gid else file.gid) else st.gid
    modtime := if file.modtime = st.modtime then st.modtime else file.modtime
    dev :=
      if tmp.tmp_idev.dev ≠ 0 then
        if tmp.tmp_idev.dev = st.dev then st.dev else tmp.tmp_idev.dev
      else st.dev
    lastname := st.lastname }

/-- The value of `flags` after the lines 339-389 of `send_file_entry`, each
`if (c) flags |= X` as `| (c ? X : 0)`. -/
def send_delta_flags (o : options) (x : externals) (tmp : tmp_vars) (st : send_state)
    (file : file_struct) : Nat :=
  let mode := if file.mode = st.mode then st.mode else file.mode
  (file.flags &&& FLAG_TOP_DIR)
  ||| (if file.mode = st.mode then XMIT_SAME_MODE else 0)
  ||| (if carries_rdev o mode then
        if o.protocol_version < 28 then
          if tmp.tmp_rdev = st.rdev then XMIT_SAME_RDEV_pre28 else 0
        else
          (if x.major tmp.tmp_rdev % 2 ^ 32 = st.rdev_major then XMIT_SAME_RDEV_MAJOR else 0)
          ||| (if x.minor tmp.tmp_rdev % 2 ^ 32 ≤ 0xFF then XMIT_RDEV_MINOR_IS_SMALL else 0)
      else 0)
  ||| (if o.preserve_uid ∧ file.uid = st.uid then XMIT_SAME_UID else 0)
  ||| (if o.preserve_gid ∧ file.gid = st.gid then XMIT_SAME_GID else 0)
  ||| (if file.modtime = st.modtime then XMIT_SAME_TIME else 0)
  ||| (if tmp.tmp_idev.dev ≠ 0 then
        (if tmp.tmp_idev.dev = st.dev ∧ o.protocol_version ≥ 28 then XMIT_SAME_DEV else 0)
        ||| XMIT_HAS_IDEV_DATA
      else 0)

/-- The loop of lines 391-393 from `l1`, on what is left of `lastname` and `fname`:
the final `l1`. -/
def common_len : List Nat → List Nat → Nat → Nat
  | c :: lastname, d :: fname, l1 =>
    if d = c ∧ l1 < 255 then common_len lastname fname (l1 + 1) else l1
  | _, _, l1 => l1

/-- The lines 395-399 of `send_file_entry`: the flags of the name. -/
def send_name_flags (flags l1 l2 : Nat) : Nat :=
  let flags := if l1 > 0 then flags ||| XMIT_SAME_NAME else flags
  if l2 > 255 then flags ||| XMIT_LONG_NAME else flags

/-- The lines 405-418 of `send_file_entry`: the final value of `flags`, never a zero
low byte, and the bytes written for it. -/
def send_flag_bytes (o : options) (mode : Nat) (flags : Nat) : Nat × List Nat :=
  if o.protocol_version ≥ 28 then
    let flags := if flags = 0 ∧ ¬ S_ISDIR mode then flags ||| XMIT_TOP_DIR else flags
    if has_flag flags 0xFF00 ∨ flags = 0 then
      (flags ||| XMIT_EXTENDED_FLAGS, write_shortint (flags ||| XMIT_EXTENDED_FLAGS))
    else (flags, write_byte flags)
  else
    let flags :=
      if ¬ has_flag flags 0xFF then
        flags ||| (if S_ISDIR mode then XMIT_LONG_NAME else XMIT_TOP_DIR)
      else flags
    (flags, write_byte flags)

/-- The lines 419-424 of `send_file_entry`: the bytes of the name. -/
def send_name_bytes (fname : List Nat) (flags l1 l2 : Nat) : List Nat :=
  (if has_flag flags XMIT_SAME_NAME then write_byte l1 else [])
  ++ (if has_flag flags XMIT_LONG_NAME then write_int l2 else write_byte l2)
  ++ write_buf (fname.drop l1) l2

/-- The lines 426-455 of `send_file_entry`: the bytes of the fields from the length to the
device numbers, `st` being the statics after line 389. The calls `add_uid` and `add_gid`
fill the id lists of `uidlist.c` and write nothing. -/
def send_field_bytes (o : options) (x : externals) (st : send_state) (file : file_struct)
    (flags : Nat) : List Nat :=
  write_longint (F_LENGTH file)
  ++ (if ¬ has_flag flags XMIT_SAME_TIME then write_int st.modtime else [])
  ++ (if ¬ has_flag flags XMIT_SAME_MODE then write_int (to_wire_mode x st.mode) else [])
  ++ (if o.preserve_uid ∧ ¬ has_flag flags XMIT_SAME_UID then write_int st.uid else [])
  ++ (if o.preserve_gid ∧ ¬ has_flag flags XMIT_SAME_GID then write_int st.gid else [])
  ++ (if carries_rdev o st.mode then
        if o.protocol_version < 28 then
          if ¬ has_flag flags XMIT_SAME_RDEV_pre28 then write_int st.rdev else []
        else
          (if ¬ has_flag flags XMIT_SAME_RDEV_MAJOR then write_int (x.major st.rdev) else [])
          ++ (if has_flag flags XMIT_RDEV_MINOR_IS_SMALL then write_byte (x.minor st.rdev)
              else write_int (x.minor st.rdev))
      else [])

/-- The lines 457-464 of `send_file_entry`: the bytes of the symlink target. -/
def send_link_bytes (o : options) (x : externals) (st : send_state) (file : file_struct) :
    List Nat :=
  if o.preserve_links ∧ S_ISLNK x st.mode then
    write_int file.symlink.length ++ write_buf file.symlink file.symlink.length
  else []

/-- The lines 466-478 of `send_file_entry`: the bytes of the hard-link key. -/
def send_idev_bytes (o : options) (tmp : tmp_vars) (st : send_state) (flags : Nat) :
    List Nat :=
  if tmp.tmp_idev.dev ≠ 0 then
    if o.protocol_version < 26 then write_int st.dev ++ write_int tmp.tmp_idev.ino
    else
      (if ¬ has_flag flags XMIT_SAME_DEV then write_longint st.dev else [])
      ++ write_longint tmp.tmp_idev.ino
  else []

/-- The lines 480-486 of `send_file_entry`: the bytes of the checksum. -/
def send_sum_bytes (o : options) (tmp : tmp_vars) (st : send_state) : List Nat :=
  if o.always_checksum ∧ (S_ISREG st.mode ∨ o.protocol_version < 28) then
    write_buf (if S_ISREG st.mode then tmp.tmp_sum else List.replicate MD4_SUM_LENGTH 0)
      o.checksum_len
  else []

/-- The lines 419-486 of `send_file_entry`: the bytes written after the flags, `st` being
the statics after line 389. -/
def send_body (o : options) (x : externals) (tmp : tmp_vars) (st : send_state)
    (file : file_struct) (fname : List Nat) (flags l1 l2 : Nat) : List Nat :=
  send_name_bytes fname flags l1 l2 ++ send_field_bytes o x st file flags
  ++ send_link_bytes o x st file ++ send_idev_bytes o tmp st flags ++ send_sum_bytes o tmp st

/-- The function `send_file_entry` of `flist.c` (lines 310-492) for `f >= 0`, with
`SUPPORT_LINKS` and `SUPPORT_HARD_LINKS`: the bytes written and the statics afterwards.
`f_name` leaves `fname` unwritten for an entry that is not active, and the code goes on to
read it: here that read ends the run, and `send_file_entry_buf` below goes on with what
the buffer holds. -/
def send_file_entry (o : options) (x : externals) (tmp : tmp_vars) (st : send_state)
    (file : Option file_struct) : outcome (List Nat × send_state) :=
  match file with
  | none => outcome.ok (write_byte 0, send_reset x)
  | some file =>
    match f_name x.MAXPATHLEN (some file) with
    | none => outcome.bad fault.uninitialized
    | some fname =>
      let st1 := send_delta_state o x tmp st file
      let l1 := common_len st.lastname fname 0
      let l2 := fname.length - l1
      let fb := send_flag_bytes o st1.mode
        (send_name_flags (send_delta_flags o x tmp st file) l1 l2)
      outcome.ok (fb.2 ++ send_body o x tmp st1 file fname fb.1 l1 l2,
        { st1 with lastname := strlcpy fname x.MAXPATHLEN })

/-- The lines 336-492 of `send_file_entry` as the compiled code runs them on an entry
that is not `NULL`: the bytes written and the statics afterwards. `f_name` (line 336)
fills the local buffer `fname` for an active entry; for an entry that is not active it
returns `NULL` and writes nothing, and lines 391-394 read the buffer as the stack left
it, here the string `stack`. -/
def send_file_entry_buf (o : options) (x : externals) (tmp : tmp_vars) (st : send_state)
    (file : file_struct) (stack : List Nat) : List Nat × send_state :=
  let fname := (f_name x.MAXPATHLEN (some file)).getD stack
  let st1 := send_delta_state o x tmp st file
  let l1 := common_len st.lastname fname 0
  let l2 := fname.length - l1
  let fb := send_flag_bytes o st1.mode
    (send_name_flags (send_delta_flags o x tmp st file) l1 l2)
  (fb.2 ++ send_body o x tmp st1 file fname fb.1 l1 l2,
    { st1 with lastname := strlcpy fname x.MAXPATHLEN })


/-! ## src/flist.c: `recv_file_entry` and the loop of `recv_file_list` -/

/-- The static variables of `recv_file_entry` (lines 497-507). `lastdir` is `none` while
the pointer has never been set; `next_addr` is the address that the next `pool_alloc`
returns for a dirname. -/
structure recv_state where
  modtime : Int := 0
  mode : Nat := 0
  dev : Int := 0
  rdev : Nat := 0
  rdev_major : Nat := 0
  uid : Nat := 0
  gid : Nat := 0
  lastname : List Nat := []
  lastdir : Option dir_ptr := none
  lastdir_depth : Int := 0
  lastdir_len : Int := -1
  del_hier_name_len : Nat := 0
  in_del_hier : Bool := false
  next_addr : Nat := 0
deriving DecidableEq, Repr

/-- The statics after `recv_file_entry(NULL, 0, 0)` (lines 516-525). -/
def recv_reset (x : externals) (rs : recv_state) : recv_state :=
  { rs with modtime := 0, mode := 0, dev := 0, rdev := x.MAKEDEV 0 0, rdev_major := 0,
            uid := 0, gid := 0, lastname := [], lastdir_len := -1, in_del_hier := false }

/-- A field that is on the stream when `c` holds, and else keeps the value `old`. -/
def read_if {α : Type} (c : Bool) (read : List Nat → outcome (α × List Nat)) (old : α)
    (s : List Nat) : outcome (α × List Nat) :=
  if c then read s else outcome.ok (old, s)

/-- The call `read_int` with its result stored in a `uint32` or `unsigned int`. -/
def read_uint32 (s : List Nat) : outcome (Nat × List Nat) :=
  (read_int s).map fun p => (uint32_of_int p.1, p.2)

/-- The index of the last `/` of a string, for `strrchr(thisname, '/')`; `i` is the index
of the first byte of the list. -/
def last_slash : List Nat → Nat → Option Nat
  | [], _ => none
  | c :: rest, i =>
    match last_slash rest (i + 1) with
    | some j => some j
    | none => if c = 47 then some i else none

/-- The lines 527-546 of `recv_file_entry`: `l1`, `l2` and the string in `thisname`
before `clean_fname`. A `lastname` shorter than `l1` ends the string where it ends. -/
def recv_name (x : externals) (lastname : List Nat) (flags : Nat) (s : List Nat) :
    outcome ((Nat × Nat × List Nat) × List Nat) := do
  let (l1, s) ← read_if (has_flag flags XMIT_SAME_NAME) read_byte 0 s
  let (l2, s) ← if has_flag flags XMIT_LONG_NAME then read_uint32 s else read_byte s
  if l2 ≥ uint32_of_int ((x.MAXPATHLEN : Int) - (l1 : Int)) then
    outcome.bad fault.overflow_exit
  else do
    let (buf, s) ← read_buf l2 s
    let head := strlcpy lastname (l1 + 1)
    let thisname := if head.length < l1 then head else head ++ cstr_of buf
    pure ((l1, l2, thisname), s)

/-- The lines 567-601 of `recv_file_entry`: `file_length` and the statics after the
fields from the length to the device numbers. -/
def recv_fields (o : options) (x : externals) (rs : recv_state) (flags : Nat)
    (s : List Nat) : outcome ((Int × recv_state) × List Nat) := do
  let (file_length, s) ← read_longint s
  let (modtime, s) ← read_if (!has_flag flags XMIT_SAME_TIME) read_int rs.modtime s
  let (mode, s) ← read_if (!has_flag flags XMIT_SAME_MODE)
    (fun s => (read_int s).map fun p => (from_wire_mode x p.1, p.2)) rs.mode s
  let mode := if o.chmod_modes ∧ ¬ S_ISLNK x mode then x.tweak_mode mode else mode
  let (uid, s) ← read_if (o.preserve_uid && !has_flag flags XMIT_SAME_UID) read_uint32 rs.uid s
  let (gid, s) ← read_if (o.preserve_gid && !has_flag flags XMIT_SAME_GID) read_uint32 rs.gid s
  let rs := { rs with modtime := modtime, mode := mode, uid := uid, gid := gid }
  if carries_rdev o mode then
    if o.protocol_version < 28 then do
      let (rdev, s) ← read_if (!has_flag flags XMIT_SAME_RDEV_pre28)
        (fun s => (read_int s).map fun p => (x.dev_of_int p.1, p.2)) rs.rdev s
      pure ((0, { rs with rdev := rdev }), s)
    else do
      let (rdev_major, s) ← read_if (!has_flag flags XMIT_SAME_RDEV_MAJOR) read_uint32
        rs.rdev_major s
      let (rdev_minor, s) ←
        if has_flag flags XMIT_RDEV_MINOR_IS_SMALL then read_byte s else read_uint32 s
      pure ((0, { rs with rdev_major := rdev_major, rdev := x.MAKEDEV rdev_major rdev_minor }), s)
  else if o.protocol_version < 28 then
    pure ((file_length, { rs with rdev := x.MAKEDEV 0 0 }), s)
  else pure ((file_length, rs), s)

/-- The lines 603-623 of `recv_file_entry`: `linkname_len` and the value of `flags`
afterwards. -/
def recv_link_len (o : options) (x : externals) (mode : Nat) (flags : Nat) (s : List Nat) :
    outcome ((Int × Nat) × List Nat) := do
  let (linkname_len, s) ←
    if o.preserve_links ∧ S_ISLNK x mode then do
      let (len, s) ← read_int s
      if len + 1 ≤ 0 ∨ len + 1 > (x.MAXPATHLEN : Int) then outcome.bad fault.overflow_exit
      else pure (len + 1, s)
    else pure ((0 : Int), s)
  let flags :=
    if o.preserve_hard_links ∧ o.protocol_version < 28 ∧ S_ISREG mode then
      flags ||| XMIT_HAS_IDEV_DATA
    else flags
  pure ((linkname_len, flags), s)

/-- The lines 548-565 and 658-668 of `recv_file_entry`: the dirname pointer and the
basename of the entry for the name in `thisname`, with the statics `lastdir`,
`lastdir_len` and `lastdir_depth` (and the allocation address) afterwards, and
`dir.depth` before line 671. -/
def recv_split (x : externals) (rs : recv_state) (thisname : List Nat) :
    outcome ((Option dir_ptr × List Nat × Int) × recv_state) :=
  match last_slash thisname 0 with
  | some i =>
    let fresh : dir_ptr := { addr := rs.next_addr, str := thisname.take i }
    let copied : outcome ((Option dir_ptr × List Nat × Int) × recv_state) :=
      pure ((some fresh, thisname.drop (i + 1), x.count_dir_elements fresh.str + 1),
        { rs with lastdir := some fresh, lastdir_len := i,
                  lastdir_depth := x.count_dir_elements fresh.str,
                  next_addr := rs.next_addr + 1 })
    if rs.lastdir_len = (i : Int) then
      match rs.lastdir with
      | some d =>
        if thisname.take i = d.str then
          pure ((some d, thisname.drop (i + 1), rs.lastdir_depth + 1), rs)
        else copied
      | none => outcome.bad fault.uninitialized
    else copied
  | none => pure ((none, thisname, 1), rs)

/-- The lines 670-690 of `recv_file_entry` for a directory: `dir.depth`, the flags of the
entry and the statics of the delete hierarchy; `lastname` is read as a string, bytes
behind its end as NUL. -/
def recv_dir_flags (o : options) (rs : recv_state) (flags l1 l2 : Nat) (basename : List Nat)
    (depth : Int) (eflags : Nat) : Int × Nat × recv_state :=
  let depth := if basename = [46] then depth - 1 else depth
  if has_flag flags XMIT_TOP_DIR then
    let len := if depth = 0 then 0 else l1 + l2
    let len :=
      if o.relative_paths ∧ len > 2 ∧ rs.lastname.getD (len - 1) 0 = 46 ∧
          rs.lastname.getD (len - 2) 0 = 47 then len - 2
      else len
    (depth, eflags ||| (FLAG_TOP_DIR ||| FLAG_XFER_DIR),
      { rs with in_del_hier := o.recurse, del_hier_name_len := len })
  else if rs.in_del_hier then
    if ¬ o.relative_paths ∨ rs.del_hier_name_len = 0 ∨
        (l1 ≥ rs.del_hier_name_len ∧ rs.lastname.getD rs.del_hier_name_len 0 = 47) then
      (depth, eflags ||| FLAG_XFER_DIR, rs)
    else (depth, eflags, { rs with in_del_hier := false })
  else (depth, eflags, rs)

/-- The lines 709-724 of `recv_file_entry`: the hard-link key of the entry and the static
`dev` afterwards. -/
def recv_idev (o : options) (rs : recv_state) (flags : Nat) (s : List Nat) :
    outcome ((Option idev × recv_state) × List Nat) :=
  if o.preserve_hard_links ∧ has_flag flags XMIT_HAS_IDEV_DATA then
    if o.protocol_version < 26 then do
      let (dev, s) ← read_int s
      let (ino, s) ← read_int s
      pure ((some { dev := dev, ino := ino }, rs), s)
    else do
      let (dev, s) ← read_if (!has_flag flags XMIT_SAME_DEV) read_longint rs.dev s
      let (ino, s) ← read_longint s
      pure ((some { dev := dev, ino := ino }, { rs with dev := dev }), s)
  else pure ((none, rs), s)

/-- The lines 726-734 of `recv_file_entry`: the bytes of `F_SUM(file)`, an area of
`MD4_SUM_LENGTH` bytes that line 632 zeroed; for an entry that is not a regular file the
checksum goes to `tmp_sum`. -/
def recv_sum (o : options) (mode : Nat) (s : List Nat) : outcome (List Nat × List Nat) :=
  if o.always_checksum ∧ (S_ISREG mode ∨ o.protocol_version < 28) then do
    let (buf, s) ← read_buf o.checksum_len s
    if S_ISREG mode then pure (buf ++ List.replicate (MD4_SUM_LENGTH - o.checksum_len) 0, s)
    else pure ([], s)
  else pure ([], s)

/-- The lines 700-707 of `recv_file_entry`: the symlink target. -/
def recv_symlink (o : options) (x : externals) (rs : recv_state) (linkname_len : Int)
    (s : List Nat) : outcome (List Nat × List Nat) :=
  if linkname_len ≠ 0 then do
    let (buf, s) ← read_buf (linkname_len - 1).toNat s
    pure (if o.sanitize_paths then x.sanitize_path (cstr_of buf) rs.lastdir_depth
      else cstr_of buf, s)
  else pure ([], s)

/-- The lines 639-648 and 670-690 of `recv_file_entry`: `dir.depth` and the flags of the
entry (`HLINKED`, `LENGTH64` and the flags of a directory), with the statics afterwards. -/
def recv_entry_flags (o : options) (rs : recv_state) (flags l1 l2 : Nat)
    (basename : List Nat) (depth : Int) (file_length : Int) : Int × Nat × recv_state :=
  let eflags := if has_flag flags XMIT_HAS_IDEV_DATA then FLAG_HLINKED else 0
  let eflags :=
    if file_length > 0xFFFFFFFF ∧ S_ISREG rs.mode then eflags ||| FLAG_LENGTH64 else eflags
  if S_ISDIR rs.mode then recv_dir_flags o rs flags l1 l2 basename depth eflags
  else (depth, eflags, rs)

/-- The function `recv_file_entry` of `flist.c` (lines 494-737) for a list that is not
`NULL`, with `SUPPORT_LINKS` and `SUPPORT_HARD_LINKS`: the new entry, the statics and the
stream afterwards. The entry starts zeroed (line 632); the fields behind the `F_` macros
stay zero when the entry has no room for them. -/
def recv_file_entry (o : options) (x : externals) (rs : recv_state) (flags : Nat)
    (s : List Nat) : outcome ((file_struct × recv_state) × List Nat) := do
  let ((l1, l2, thisname), s) ← recv_name x rs.lastname flags s
  let rs := { rs with lastname := strlcpy thisname x.MAXPATHLEN }
  let thisname := x.clean_fname thisname
  let thisname := if o.sanitize_paths then x.sanitize_path thisname 0 else thisname
  let ((file_length, rs), s) ← recv_fields o x rs flags s
  let ((linkname_len, flags), s) ← recv_link_len o x rs.mode flags s
  let ((dirname, basename, depth), rs) ← recv_split x rs thisname
  let dir := recv_entry_flags o rs flags l1 l2 basename depth file_length
  let (symlink, s) ← recv_symlink o x dir.2.2 linkname_len s
  let ((hl_idev, rs), s) ← recv_idev o dir.2.2 flags s
  let (sum, s) ← recv_sum o rs.mode s
  let file : file_struct :=
    { modtime := rs.modtime
      dirname := dirname
      depth := dir.1
      len32 := uint32_of_int file_length
      mode := rs.mode
      flags := dir.2.1
      basename := basename
      symlink := symlink
      uid := if o.preserve_uid then rs.uid else 0
      gid := if o.preserve_gid then rs.gid else 0
      len_high :=
        if file_length > 0xFFFFFFFF ∧ S_ISREG rs.mode then uint32_of_int (file_length / 2 ^ 32)
        else 0
      rdev_major := if carries_rdev o rs.mode then x.major rs.rdev % 2 ^ 32 else 0
      rdev_minor := if carries_rdev o rs.mode then x.minor rs.rdev % 2 ^ 32 else 0
      hl_idev := hl_idev
      sum := sum }
  pure ((file, rs), s)

/-- The loop of `recv_file_list` (lines 1383-1404) with the call of line 1405 that
resets the statics: the entries in the order of the stream. `n` bounds the iterations. -/
def recv_file_list_loop (o : options) (x : externals) :
    Nat → recv_state → List file_struct → List Nat →
      outcome ((List file_struct × recv_state) × List Nat)
  | 0, _, _, _ => outcome.bad fault.nofuel
  | n + 1, rs, files, s => do
    let (flags, s) ← read_byte s
    if flags = 0 then pure ((files, recv_reset x rs), s)
    else do
      let (flags, s) ←
        if o.protocol_version ≥ 28 ∧ has_flag flags XMIT_EXTENDED_FLAGS then
          (read_byte s).map fun p => (flags ||| (p.1 <<< 8), p.2)
        else pure (flags, s)
      let ((file, rs), s) ← recv_file_entry o x rs flags s
      recv_file_list_loop o x n rs (files ++ [file]) s

/-- The successive calls of `send_file_entry` on the entries of a list, each with the
`tmp_` values that `make_file` left for it, and the call `send_file_entry(NULL, f)` that
ends the list (`send_file_list`): the bytes written and the statics afterwards. -/
def send_file_entries (o : options) (x : externals) :
    send_state → List (file_struct × tmp_vars) → outcome (List Nat × send_state)
  | st, [] => send_file_entry o x {} st none
  | st, (file, tmp) :: rest => do
    let (bytes, st) ← send_file_entry o x tmp st (some file)
    let (more, st) ← send_file_entries o x st rest
    pure (bytes ++ more, st)


/-! ## What the round trip through the stream asks for and gives -/

/-- The flags with which `recv_file_list` calls `recv_file_entry` for the flags `F` that
the sender wrote: all of them from protocol 28 on, the low byte before. -/
def recv_flags (o : options) (F : Nat) : Nat :=
  if o.protocol_version ≥ 28 then F else F % 256

/-- What the round trip asks of the platform and of the options: `MAXPATHLEN` fits an
`int`, the platform has the symlink type bits of the wire, `major` and `minor` take apart
what `MAKEDEV` puts together, the receiver neither sanitizes names nor tweaks modes, and a
checksum is not longer than its buffer. -/
structure codec_ok (o : options) (x : externals) : Prop where
  maxpath : x.MAXPATHLEN ≤ 2 ^ 31
  symlink_bits : x.S_IFLNK = 0o120000
  major_ok : ∀ a b, a < 2 ^ 32 → b < 2 ^ 32 → x.major (x.MAKEDEV a b) % 2 ^ 32 = a
  minor_ok : ∀ a b, a < 2 ^ 32 → b < 2 ^ 32 → x.minor (x.MAKEDEV a b) % 2 ^ 32 = b
  no_sanitize : o.sanitize_paths = false
  no_chmod : o.chmod_modes = false
  sum_len : o.checksum_len ≤ MD4_SUM_LENGTH

/-- An entry, with the `tmp_` values that go with it, that the stream carries whole: an
active entry with a clean name shorter than `MAXPATHLEN` and no `/` in the basename,
whose fields fit the fields of the wire (an `int32` modification time, 32-bit mode, uid and
gid, a length of 64 bits only on a regular file and of 0 on a device that is sent as one,
a symlink target shorter than `MAXPATHLEN`), whose device numbers travel by protocol 28
or later, and whose hard-link key is there exactly when the receiver reads one. -/
structure sendable (o : options) (x : externals) (file : file_struct) (tmp : tmp_vars) :
    Prop where
  name_ok : entry_ok file
  no_slash : 47 ∉ file.basename
  name_len : (joined_name file).length < x.MAXPATHLEN
  clean : x.clean_fname (joined_name file) = joined_name file
  modtime_lo : -2 ^ 31 ≤ file.modtime
  modtime_hi : file.modtime < 2 ^ 31
  mode_lt : file.mode < 2 ^ 32
  uid_lt : o.preserve_uid = true → file.uid < 2 ^ 32
  gid_lt : o.preserve_gid = true → file.gid < 2 ^ 32
  len32_lt : file.len32 < 2 ^ 32
  len_high_lt : file.len_high < 2 ^ 31
  long_reg : F_LENGTH file > 0xFFFFFFFF → S_ISREG file.mode = true
  rdev_new : carries_rdev o file.mode = true → o.protocol_version ≥ 28
  rdev_len : carries_rdev o file.mode = true → F_LENGTH file = 0
  link_ok : o.preserve_links = true → S_ISLNK x file.mode = true →
    cstr_ok file.symlink ∧ file.symlink.length < x.MAXPATHLEN
  dev_lo : -2 ^ 63 ≤ tmp.tmp_idev.dev
  dev_hi : tmp.tmp_idev.dev < 2 ^ 63
  ino_lo : -2 ^ 63 ≤ tmp.tmp_idev.ino
  ino_hi : tmp.tmp_idev.ino < 2 ^ 63
  idev_old : o.protocol_version < 26 → -2 ^ 31 ≤ tmp.tmp_idev.dev ∧ tmp.tmp_idev.dev < 2 ^ 31 ∧
    -2 ^ 31 ≤ tmp.tmp_idev.ino ∧ tmp.tmp_idev.ino < 2 ^ 31
  idev_opt : tmp.tmp_idev.dev ≠ 0 → o.preserve_hard_links = true
  idev_reg : o.protocol_version < 28 →
    (tmp.tmp_idev.dev ≠ 0 ↔ o.preserve_hard_links = true ∧ S_ISREG file.mode = true)
  sum_ok : tmp.tmp_sum.length = MD4_SUM_LENGTH

/-- The statics of the two ends agree on what the delta flags refer to, and the receiver
has set `lastdir` when `lastdir_len` says so. -/
structure coupled (o : options) (st : send_state) (rs : recv_state) : Prop where
  lastdir_set : 0 ≤ rs.lastdir_len → rs.lastdir ≠ none
  modtime : rs.modtime = st.modtime
  mode : rs.mode = st.mode
  uid : rs.uid = st.uid
  gid : rs.gid = st.gid
  rdev_major : rs.rdev_major = st.rdev_major
  dev : o.protocol_version ≥ 26 → rs.dev = st.dev
  lastname : rs.lastname = st.lastname

/-- The flags `F` that the sender writes an entry with, and the flags `R` that the
receiver is called with, say the same about the entry. -/
structure wire_flags (o : options) (x : externals) (tmp : tmp_vars) (st : send_state)
    (file : file_struct) (l1 l2 F R : Nat) : Prop where
  name_f : has_flag F XMIT_SAME_NAME = decide (l1 > 0)
  name_r : has_flag R XMIT_SAME_NAME = decide (l1 > 0)
  long_r : has_flag R XMIT_LONG_NAME = has_flag F XMIT_LONG_NAME
  long_f : has_flag F XMIT_LONG_NAME = false → l2 ≤ 255
  time_f : has_flag F XMIT_SAME_TIME = decide (file.modtime = st.modtime)
  time_r : has_flag R XMIT_SAME_TIME = decide (file.modtime = st.modtime)
  mode_f : has_flag F XMIT_SAME_MODE = decide (file.mode = st.mode)
  mode_r : has_flag R XMIT_SAME_MODE = decide (file.mode = st.mode)
  uid_f : has_flag F XMIT_SAME_UID = (o.preserve_uid && decide (file.uid = st.uid))
  uid_r : has_flag R XMIT_SAME_UID = (o.preserve_uid && decide (file.uid = st.uid))
  gid_f : has_flag F XMIT_SAME_GID = (o.preserve_gid && decide (file.gid = st.gid))
  gid_r : has_flag R XMIT_SAME_GID = (o.preserve_gid && decide (file.gid = st.gid))
  major_f : carries_rdev o file.mode = true → has_flag F XMIT_SAME_RDEV_MAJOR =
    decide (x.major tmp.tmp_rdev % 2 ^ 32 = st.rdev_major)
  major_r : carries_rdev o file.mode = true → has_flag R XMIT_SAME_RDEV_MAJOR =
    decide (x.major tmp.tmp_rdev % 2 ^ 32 = st.rdev_major)
  minor_f : carries_rdev o file.mode = true → has_flag F XMIT_RDEV_MINOR_IS_SMALL =
    decide (x.minor tmp.tmp_rdev % 2 ^ 32 ≤ 0xFF)
  minor_r : carries_rdev o file.mode = true → has_flag R XMIT_RDEV_MINOR_IS_SMALL =
    decide (x.minor tmp.tmp_rdev % 2 ^ 32 ≤ 0xFF)
  idev_r : has_flag R XMIT_HAS_IDEV_DATA =
    (decide (tmp.tmp_idev.dev ≠ 0) && decide (o.protocol_version ≥ 28))
  dev_f : has_flag F XMIT_SAME_DEV = (decide (tmp.tmp_idev.dev ≠ 0) &&
    decide (tmp.tmp_idev.dev = st.dev) && decide (o.protocol_version ≥ 28))
  dev_r : has_flag R XMIT_SAME_DEV = (decide (tmp.tmp_idev.dev ≠ 0) &&
    decide (tmp.tmp_idev.dev = st.dev) && decide (o.protocol_version ≥ 28))

/-- The statics of the receiver after the fields of an entry that met `sendable`. -/
def recv_fields_state (o : options) (x : externals) (tmp : tmp_vars) (file : file_struct)
    (rs : recv_state) : recv_state :=
  { rs with
    modtime := file.modtime
    mode := file.mode
    uid := if o.preserve_uid then file.uid else rs.uid
    gid := if o.preserve_gid then file.gid else rs.gid
    rdev_major :=
      if carries_rdev o file.mode then x.major tmp.tmp_rdev % 2 ^ 32 else rs.rdev_major
    rdev :=
      if carries_rdev o file.mode then
        x.MAKEDEV (x.major tmp.tmp_rdev % 2 ^ 32) (x.minor tmp.tmp_rdev % 2 ^ 32)
      else if o.protocol_version < 28 then x.MAKEDEV 0 0
      else rs.rdev }

/-- The flags of the receiver after line 619. -/
def recv_idev_flags (o : options) (mode R : Nat) : Nat :=
  if o.preserve_hard_links ∧ o.protocol_version < 28 ∧ S_ISREG mode then
    R ||| XMIT_HAS_IDEV_DATA
  else R

/-- The entry `g` that the receiver made carries the fields of the entry `file` that was
sent with the values `tmp`: the name, mode, modification time and length, uid and gid when
preserved, the device numbers when carried, the symlink target of a symlink, the hard-link
key, and of a regular file the checksum as far as `checksum_len` bytes go. -/
structure carried (o : options) (x : externals) (file : file_struct) (tmp : tmp_vars)
    (g : file_struct) : Prop where
  basename : g.basename = file.basename
  dirname : g.dirname.map dir_ptr.str = file.dirname.map dir_ptr.str
  mode : g.mode = file.mode
  modtime : g.modtime = file.modtime
  length : F_LENGTH g = F_LENGTH file
  uid : o.preserve_uid = true → g.uid = file.uid
  gid : o.preserve_gid = true → g.gid = file.gid
  rdev : carries_rdev o file.mode = true →
    g.rdev_major = x.major tmp.tmp_rdev % 2 ^ 32 ∧ g.rdev_minor = x.minor tmp.tmp_rdev % 2 ^ 32
  symlink : o.preserve_links = true → S_ISLNK x file.mode = true → g.symlink = file.symlink
  hl_idev : g.hl_idev = if tmp.tmp_idev.dev ≠ 0 then some tmp.tmp_idev else none
  sum : o.always_checksum = true → S_ISREG file.mode = true →
    g.sum = tmp.tmp_sum.take o.checksum_len ++
      List.replicate (MD4_SUM_LENGTH - o.checksum_len) 0


/-! ## src/flist.c: the entries of a list on the stream -/

/-- The successive calls of `send_file_entry` on the entries of a list, each with the
`tmp_` values that `make_file` left for it, before the call that ends the list: the bytes
written and the statics afterwards. -/
def send_file_run (o : options) (x : externals) :
    send_state → List (file_struct × tmp_vars) → outcome (List Nat × send_state)
  | st, [] => outcome.ok ([], st)
  | st, (file, tmp) :: rest => do
    let (bytes, st) ← send_file_entry o x tmp st (some file)
    let (more, st) ← send_file_run o x st rest
    pure (bytes ++ more, st)

/-! ## src/exclude.c: the rule list, and its stream -/

/-- Modelled from the spec: the bit `FATAL_ERRORS` of `xflags`; the `XFLG_` values live in
`rsync.h`, which is not under `src/`. -/
def XFLG_FATAL_ERRORS : Nat := 1
/-- Modelled from the spec: the bit `DEF_INCLUDE` of `xflags` (rules without a prefix are
include rules). -/
def XFLG_DEF_INCLUDE : Nat := 2
/-- Modelled from the spec: the bit `NO_PREFIXES` of `xflags` (a leading "+ " or "- " is
part of the pattern). -/
def XFLG_NO_PREFIXES : Nat := 4
/-- Modelled from the spec: the bit `WORD_SPLIT` of `xflags` (the text is split at white
space). -/
def XFLG_WORD_SPLIT : Nat := 8

/-- The libc function `isspace` in the C locale: the space and the bytes 9 .. 13. -/
def isspace (c : Nat) : Bool := c = 32 ∨ (9 ≤ c ∧ c ≤ 13)

/-- The test `strpbrk(s, "*[?") != NULL`. -/
def has_wild_char (s : List Nat) : Bool := s.any fun c => c = 42 ∨ c = 91 ∨ c = 63

/-- The test `strstr(s, "**") != NULL`. -/
def has_double_star : List Nat → Bool
  | [] => false
  | c :: rest => (c = 42 ∧ rest.headD 0 = 42) || has_double_star rest

/-- The function `make_exclude` of `exclude.c` (lines 37-84): the rule compiled from the
first `pat_len` bytes of the string `pattern`, under the global `exclude_path_prefix`. -/
def make_exclude ( exclude_path_prefix : Option (List Nat)) (pattern : List Nat)
    (pat_len : Nat) (include_ : Int) : exclude_struct :=
  let flags : Nat := if exclude_path_prefix.isSome then MATCHFLG_ABS_PATH else 0
  let ex : List Nat :=
    match exclude_path_prefix with
    | some pre => if pattern.headD 0 = 47 then pre else []
    | none => []
  let pat := ex ++ strlcpy pattern (pat_len + 1)
  let pat_len := pat_len + ex.length
  let flags :=
    if has_wild_char pat then
      if has_double_star pat then
        if pat.headD 0 = 42 ∧ pat.getD 1 0 = 42 then
          flags ||| MATCHFLG_WILD ||| MATCHFLG_WILD2 ||| MATCHFLG_WILD2_PREFIX
        else flags ||| MATCHFLG_WILD ||| MATCHFLG_WILD2
      else flags ||| MATCHFLG_WILD
    else flags
  let dir : Bool := decide (pat_len > 1) && decide (pat.getD (pat_len - 1) 0 = 47)
  let pat := if dir then pat.take (pat_len - 1) else pat
  { pattern := pat, match_flags := flags, include_ := include_,
    directory := if dir then 1 else 0, slash_cnt := pat.count 47 }

/-- The function `get_exclude_tok` of `exclude.c` (lines 234-256): the string from the
start of the next token on, and the length of the token (0 at the end of the text). -/
def get_exclude_tok (p : List Nat) (xflags : Nat) : List Nat × Nat :=
  let t := p.dropWhile isspace
  match t with
  | [] => (t, 0)
  | c :: _ =>
    let pre : Nat :=
      if ¬ has_flag xflags XFLG_NO_PREFIXES ∧ (c = 43 ∨ c = 45) ∧ t.getD 1 0 = 32 then 2
      else 0
    (t, pre + ((t.drop pre).takeWhile fun c => !isspace c).length)

/-- The counting loop of `add_exclude` in word-split mode (lines 274-283), entered with
`cp`, `add_cnt` and `pattern`: the count of tokens to add, the text after the last token
"!", and whether such a token called `free_exclude_list`. `n` bounds the iterations. -/
def count_exclude_toks (xflags : Nat) :
    Nat → List Nat → Int → List Nat → Bool → outcome (Int × List Nat × Bool)
  | 0, _, _, _, _ => outcome.bad fault.nofuel
  | n + 1, cp, add_cnt, pattern, reset =>
    let tok := get_exclude_tok cp xflags
    if tok.2 = 0 then outcome.ok (add_cnt, pattern, reset)
    else if tok.2 = 1 ∧ tok.1.headD 0 = 33 then
      count_exclude_toks xflags n (tok.1.drop 1) 0 (tok.1.drop 1) true
    else count_exclude_toks xflags n (tok.1.drop tok.2) (add_cnt + 1) pattern reset

/-- The loop of lines 306-324 of `add_exclude`, entered with `cp` and `pat_len`: every
token is compiled and appended to the list. `n` bounds the iterations. -/
def add_exclude_toks ( exclude_path_prefix : Option (List Nat)) (xflags : Nat) :
    Nat → List Nat → Nat → List exclude_struct → outcome (List exclude_struct)
  | 0, _, _, _ => outcome.bad fault.nofuel
  | n + 1, cp, pat_len, list =>
    if pat_len = 0 then outcome.ok list
    else
      let pre : Bool := !has_flag xflags XFLG_NO_PREFIXES
        && (decide (cp.headD 0 = 45) || decide (cp.headD 0 = 43))
        && decide (cp.getD 1 0 = 32)
      let incl : Int :=
        if pre then (if cp.headD 0 = 43 then 1 else 0)
        else ((xflags &&& XFLG_DEF_INCLUDE : Nat) : Int)
      let cp := if pre then cp.drop 2 else cp
      let pat_len := if pre then pat_len - 2 else pat_len
      let list := list ++ [make_exclude exclude_path_prefix cp pat_len incl]
      let tok := get_exclude_tok (cp.drop pat_len) xflags
      add_exclude_toks exclude_path_prefix xflags n tok.1 tok.2 list

/-- The function `add_exclude` of `exclude.c` (lines 261-327) on the list `*listp`
(`none` for `NULL`) and the text `pattern`: the list afterwards. The local `list` keeps
the pointer read at entry; once a token "!" has made `free_exclude_list` free that array,
line 298 reads freed memory through it. -/
def add_exclude ( exclude_path_prefix : Option (List Nat))
    (listp : Option (List exclude_struct)) (pattern : Option (List Nat)) (xflags : Nat) :
    outcome (Option (List exclude_struct)) :=
  match pattern with
  | none => outcome.ok listp
  | some pattern =>
    if has_flag xflags XFLG_WORD_SPLIT then do
      let (add_cnt, pattern, reset) ←
        count_exclude_toks xflags (pattern.length + 1) pattern 0 pattern false
      if add_cnt = 0 then pure (if reset then none else listp)
      else if reset ∧ listp.isSome then outcome.bad fault.use_after_free
      else do
        let tok := get_exclude_tok pattern xflags
        let list ← add_exclude_toks exclude_path_prefix xflags (pattern.length + 1)
          tok.1 tok.2 (listp.getD [])
        pure (some list)
    else if pattern.length = 1 ∧ pattern.headD 0 = 33 then pure none
    else do
      let list ← add_exclude_toks exclude_path_prefix xflags (pattern.length + 1)
        pattern pattern.length (listp.getD [])
      pure (some list)

/-- The body of the loop of `send_exclude_list` (lines 401-422): the bytes written for
one rule. -/
def send_exclude (MAXPATHLEN : Nat) (ex : exclude_struct) : List Nat :=
  let l := ex.pattern.length
  if l = 0 ∨ l ≥ MAXPATHLEN then []
  else
    let p := if ex.directory ≠ 0 then ex.pattern ++ [47] else ex.pattern
    let l := p.length
    if ex.include_ ≠ 0 then write_int (l + 2) ++ write_buf [43, 32] 2 ++ write_buf p l
    else if (p.headD 0 = 45 ∨ p.headD 0 = 43) ∧ p.getD 1 0 = 32 then
      write_int (l + 2) ++ write_buf [45, 32] 2 ++ write_buf p l
    else write_int l ++ write_buf p l

/-- The function `send_exclude_list` of `exclude.c` (lines 384-425) on the global
`exclude_list`: the bytes written, and the list afterwards. -/
def send_exclude_list (MAXPATHLEN : Nat) ( exclude_path_prefix : Option (List Nat))
    (list_only recurse : Bool) (exclude_list : Option (List exclude_struct)) :
    outcome (List Nat × Option (List exclude_struct)) := do
  let exclude_list ←
    if list_only ∧ ¬ recurse then
      add_exclude exclude_path_prefix exclude_list (some [47, 42, 47, 42]) 0
    else pure exclude_list
  match exclude_list with
  | none => pure (write_int 0, exclude_list)
  | some rules =>
    pure ((rules.map (send_exclude MAXPATHLEN)).flatten ++ write_int 0, exclude_list)

/-- The function `recv_exclude_list` of `exclude.c` (lines 428-439) on the global
`exclude_list` and the stream: the list afterwards and the rest of the stream. `n` bounds
the iterations. -/
def recv_exclude_list (MAXPATHLEN : Nat) ( exclude_path_prefix : Option (List Nat)) :
    Nat → Option (List exclude_struct) → List Nat →
      outcome (Option (List exclude_struct) × List Nat)
  | 0, _, _ => outcome.bad fault.nofuel
  | n + 1, exclude_list, s => do
    let (l, s) ← read_int s
    let l := uint32_of_int l
    if l = 0 then pure (exclude_list, s)
    else if l ≥ MAXPATHLEN + 1 then outcome.bad fault.overflow_exit
    else do
      let (line, s) ← read_buf l s
      let exclude_list ← add_exclude exclude_path_prefix exclude_list (some (cstr_of line)) 0
      recv_exclude_list MAXPATHLEN exclude_path_prefix n exclude_list s

/-! ## `lib/wildmatch.c`, as the specification describes it -/

/-- Modelled from the spec: the suffixes of a name that a `*` of shell globbing can leave,
the name itself and what follows any run of bytes other than `/` at its start. -/
def star_tails : List Nat → List (List Nat)
  | [] => [[]]
  | c :: rest => (c :: rest) :: (if c = 47 then [] else star_tails rest)

/-- Modelled from the spec: `wildmatch` of `lib/wildmatch.c` as shell globbing in which
`*` matches any run of bytes other than `/`, `**` any run of bytes, `?` one byte other
than `/`, and any other byte of the pattern itself; bracket expressions are left out.
`n` bounds the recursion. -/
def wildmatch_fuel : Nat → List Nat → List Nat → Bool
  | 0, _, _ => false
  | _ + 1, [], text => text.isEmpty
  | n + 1, c :: p, text =>
    if c = 42 then
      if p.headD 0 = 42 then text.tails.any fun s => wildmatch_fuel n p.tail s
      else (star_tails text).any fun s => wildmatch_fuel n p s
    else
      match text with
      | [] => false
      | d :: rest => (if c = 63 then d ≠ 47 else c = d) && wildmatch_fuel n p rest

/-- Modelled from the spec: `wildmatch(pattern, text)` of `lib/wildmatch.c`, shell
globbing in which `*` does not cross `/` and `**` does. -/
def wildmatch (pattern text : List Nat) : Bool :=
  wildmatch_fuel (pattern.length + 1) pattern text

/-- An environment of `check_one_exclude` with the globbing of the specification. -/
def ex_glob_env : exclude_env :=
  { wildmatch := wildmatch, pathjoin := fun p1 p2 => p1 ++ 47 :: p2, curr_dir := [47] }

/-! ## src/flist.c: what the terminator of a list leaves in the statics -/

/-- An entry without the address of its dirname: what of an entry does not depend on
where `pool_alloc` put the dirname. -/
def forget_addr (f : file_struct) : file_struct :=
  { f with dirname := f.dirname.map fun d => { d with addr := 0 } }

/-- The statics of `recv_file_entry` with other values in the four that the call
`recv_file_entry(NULL, 0, 0)` leaves as they are: `lastdir`, `lastdir_depth`,
`del_hier_name_len`, and the address of the next allocation. -/
def with_kept (rs : recv_state) (lastdir : Option dir_ptr) (lastdir_depth : Int)
    (del_hier_name_len next_addr : Nat) : recv_state :=
  { rs with lastdir := lastdir, lastdir_depth := lastdir_depth,
            del_hier_name_len := del_hier_name_len, next_addr := next_addr }

/-- Other values `L`, `D`, `H` of `lastdir`, `lastdir_depth` and `del_hier_name_len` that
`recv_file_entry` cannot tell from those of the statics `rs`: the directory is the same
string at the same depth while `lastdir_len` says that it is set, the length of the delete
hierarchy is the same while `in_del_hier` is set, and the depth is the same when symlink
targets are sanitized. -/
structure kept_agree (o : options) (rs : recv_state) (L : Option dir_ptr) (D : Int)
    (H : Nat) : Prop where
  lastdir : 0 ≤ rs.lastdir_len →
    rs.lastdir.map dir_ptr.str = L.map dir_ptr.str ∧ rs.lastdir_depth = D
  del_hier : rs.in_del_hier = true → rs.del_hier_name_len = H
  depth : o.sanitize_paths = true → o.preserve_links = true → rs.lastdir_depth = D

/-- Two runs fail alike or return results that `R` relates. -/
def outcome_rel {α β : Type} (R : α → β → Prop) : outcome α → outcome β → Prop
  | outcome.ok a, outcome.ok b => R a b
  | outcome.bad e, outcome.bad e' => e = e'
  | _, _ => False

/-- The statics `rs2` hold what the statics `rs` held of the directory and of the delete
hierarchy. -/
structure same_dir_statics (rs rs2 : recv_state) : Prop where
  lastdir : rs2.lastdir = rs.lastdir
  lastdir_depth : rs2.lastdir_depth = rs.lastdir_depth
  lastdir_len : rs2.lastdir_len = rs.lastdir_len
  del_hier_name_len : rs2.del_hier_name_len = rs.del_hier_name_len
  in_del_hier : rs2.in_del_hier = rs.in_del_hier

/-! ## Readers of the wire format and the statics they leave -/

/-- The reader `r` reads the value `v` from exactly the bytes `q`, whatever follows them
on the stream. -/
def reads_exactly {α : Type} (r : List Nat → outcome (α × List Nat)) (v : α)
    (q : List Nat) : Prop :=
  ∀ t : List Nat, r (q ++ t) = outcome.ok (v, t)

/-- Statics of `recv_file_entry` that hold values which the decoder can have read from the
stream: an `int32` modification time, a mode, uid and gid of 32 bits, and a mode whose
type bits are not 0120000 on a platform with other symlink type bits (`from_wire_mode`
returns no such mode). -/
structure wire_state (x : externals) (rs : recv_state) : Prop where
  modtime_lo : -2 ^ 31 ≤ rs.modtime
  modtime_hi : rs.modtime < 2 ^ 31
  mode_lt : rs.mode < 2 ^ 32
  mode_type : x.S_IFLNK = 0o120000 ∨ rs.mode &&& S_IFMT ≠ 0o120000
  uid_lt : rs.uid < 2 ^ 32
  gid_lt : rs.gid < 2 ^ 32

/-- A reader that reads its value from a part at the head of the stream and leaves the
rest: whenever it returns, it has read exactly the bytes that it took. -/
def exact_reader {α : Type} (r : List Nat → outcome (α × List Nat)) : Prop :=
  ∀ (s : List Nat) (v : α) (s1 : List Nat), r s = outcome.ok (v, s1) →
    ∃ q, s = q ++ s1 ∧ reads_exactly r v q

/-! ## src/flist.c: `flist_expand` and `is_excluded` -/

/-- The value of an `int` expression whose mathematical value is `i`, on a machine whose
`int` has 32 bits and wraps. -/
def int32_of_int (i : Int) : Int := int_of_uint32 (uint32_of_int i)

/-- The function `flist_expand` of `flist.c` (lines 273-308) on the members `count` and
`malloced` of the list: the value of `malloced` afterwards. `FLIST_START` and
`FLIST_LINEAR` are constants of `rsync.h`, which is not under `src/`, and
`realloc_array n` tells whether the allocation of `n` pointers succeeds (`util.c`); when
it fails the function leaves through `out_of_memory`. -/
def flist_expand (FLIST_START FLIST_LINEAR : Int) (realloc_array : Int → Bool)
    (count malloced : Int) : outcome Int :=
  if count < malloced then pure malloced
  else
    let malloced :=
      if malloced < FLIST_START then FLIST_START
      else if malloced ≥ FLIST_LINEAR then int32_of_int (malloced + FLIST_LINEAR)
      else int32_of_int (malloced * 2)
    let malloced := if malloced < count then count else malloced
    if realloc_array malloced then pure malloced
    else outcome.bad fault.out_of_memory

/-- The two filter lists that `is_excluded` can hand to `check_filter`. -/
inductive consulted where
  | server_filter_list
  | filter_list
deriving DecidableEq, Repr

/-- Modelled from the spec: the filter level `ALL_FILTERS` of `rsync.h`, which is not
under `src/`; the levels are `NO_FILTERS`, `SERVER_FILTERS` and `ALL_FILTERS`. -/
def ALL_FILTERS : Int := 2

/-- The tests of lines 220-229 of `is_excluded`: `fname` is not `NULL` and is "." or
begins with `/` and has `/` and `.` as its last two bytes. -/
def is_excluded_root (fname : Option (List Nat)) : Bool :=
  match fname with
  | some n =>
    (n.getD 0 0 = 46 ∧ n.getD 1 0 = 0) ∨
    (n.getD 0 0 = 47 ∧ n.getD (n.length - 1) 0 = 46 ∧ n.getD (n.length - 2) 0 = 47)
  | none => false

/-- The function `is_excluded` of `flist.c` (lines 214-240): the value returned and the
lists handed to `check_filter`, in the order of the calls. `server_head` and `user_head`
tell whether `server_filter_list.head` and `filter_list.head` are not `NULL`;
`check_filter` stands for the function of `exclude.c` of this name, which is not under
`src/`, called with the list, `fname` and `is_dir`. -/
def is_excluded (check_filter : consulted → Option (List Nat) → Int → Int)
    (server_head user_head : Bool) (fname : Option (List Nat)) (is_dir filter_level : Int) :
    Int × List consulted :=
  if is_excluded_root fname then (0, [])
  else if server_head ∧ check_filter consulted.server_filter_list fname is_dir < 0 then
    (1, [consulted.server_filter_list])
  else
    let log := if server_head then [consulted.server_filter_list] else []
    if filter_level ≠ ALL_FILTERS then (0, log)
    else if user_head ∧ check_filter consulted.filter_list fname is_dir < 0 then
      (1, log ++ [consulted.filter_list])
    else (0, log ++ (if user_head then [consulted.filter_list] else []))

/-- An example of `check_filter`: the server list excludes every name, the user list
none. -/
def ex_check_filter (l : consulted) (_ : Option (List Nat)) (_ : Int) : Int :=
  match l with
  | consulted.server_filter_list => -1
  | consulted.filter_list => 0

/-! ## src/flist.c: the lengths that `recv_file_entry` receives -/

/-- The lines 527-533 of `recv_file_entry`: the lengths `l1` and `l2` as received. -/
def recv_lengths (flags : Nat) (s : List Nat) : outcome ((Nat × Nat) × List Nat) := do
  let (l1, s) ← read_if (has_flag flags XMIT_SAME_NAME) read_byte 0 s
  let (l2, s) ← if has_flag flags XMIT_LONG_NAME then read_uint32 s else read_byte s
  pure ((l1, l2), s)

/-- The run does not leave through `overflow_exit`. -/
def no_overflow_exit {α : Type} (m : outcome α) : Prop := m ≠ outcome.bad fault.overflow_exit

/-! ## src/flist.c: `flist_find` confined to its window, and the states a list reaches -/

/-- The read `files[i]` of a run that is confined to the indices `lo .. hi`: an index
outside them is a fault. -/
def files_get_in (lo hi : Int) (files : List file_struct) (i : Int) : outcome file_struct :=
  if lo ≤ i ∧ i ≤ hi then files_get files i else outcome.bad fault.out_of_bounds

/-- The write through `files[i]->` of a run that is confined to the indices `lo .. hi`. -/
def files_update_in (lo hi : Int) (files : List file_struct) (i : Int)
    (g : file_struct → file_struct) : outcome (List file_struct) :=
  if lo ≤ i ∧ i ≤ hi then outcome.ok (files_update files i g)
  else outcome.bad fault.out_of_bounds

/-- The loop of lines 1464-1466, confined to `lo .. hi`. -/
def scan_up_in (lo hi : Int) (files : List file_struct) : Nat → Int → outcome Int
  | 0, _ => outcome.bad fault.nofuel
  | fuel + 1, mid_up => do
    let cur ← files_get_in lo hi files mid_up
    let next := mid_up + cur.depth
    let g ← files_get_in lo hi files next
    if F_IS_ACTIVE g then pure next else scan_up_in lo hi files fuel next

/-- The loop of lines 1474-1476, confined to `lo .. hi`. -/
def scan_down_in (lo hi : Int) (files : List file_struct) : Nat → Int → outcome Int
  | 0, _ => outcome.bad fault.nofuel
  | fuel + 1, high => do
    let cur ← files_get_in lo hi files high
    let next := high - int_of_uint32 cur.len32
    let g ← files_get_in lo hi files next
    if F_IS_ACTIVE g then pure next else scan_down_in lo hi files fuel next

/-- The lines 1482-1493 of `flist_find`, confined to `lo .. hi`. -/
def find_compare_in (lo hi : Int) (protocol_version : Int) (files : List file_struct)
    (f : file_struct) (low high mid mid_up : Int) : outcome (Int ⊕ (Int × Int)) := do
  let g ← files_get_in lo hi files mid_up
  let diff ← run_cmp protocol_version (some g) (some f)
  if diff = 0 then
    if protocol_version < 29 ∧ S_ISDIR g.mode ≠ S_ISDIR f.mode then pure (Sum.inl (-1))
    else pure (Sum.inl mid_up)
  else if diff < 0 then pure (Sum.inr (mid_up + 1, high))
  else pure (Sum.inr (low, mid - 1))

/-- The lines 1462-1468 of `flist_find`, confined to `lo .. hi`. -/
def find_mid_up_in (lo hi : Int) (files : List file_struct) (mid : Int) :
    outcome (Int × List file_struct) := do
  let fmid ← files_get_in lo hi files mid
  let mid_up := mid + fmid.depth
  let g ← files_get_in lo hi files mid_up
  if !F_IS_ACTIVE g then do
    let m ← scan_up_in lo hi files files.length mid_up
    let files ← files_update_in lo hi files mid fun e => { e with depth := m - mid }
    pure (m, files)
  else pure (mid_up, files)

/-- The lines 1472-1478 of `flist_find`, confined to `lo .. hi`. -/
def find_high_in (lo hi : Int) (files : List file_struct) (mid : Int) :
    outcome (Int × List file_struct) := do
  let fmid ← files_get_in lo hi files mid
  let high := mid - int_of_uint32 fmid.len32
  let h ← files_get_in lo hi files high
  if !F_IS_ACTIVE h then do
    let m ← scan_down_in lo hi files files.length high
    let files ← files_update_in lo hi files mid fun e =>
      { e with len32 := uint32_of_int (mid - m) }
    pure (m, files)
  else pure (high, files)

/-- The `while` loop of `flist_find` (lines 1454-1494), every read and write of the array
confined to the indices `lo .. hi`. -/
def flist_find_loop_in (lo hi : Int) (protocol_version : Int) (f : file_struct) :
    Nat → List file_struct → Int → Int → outcome (Int × List file_struct)
  | 0, _, _, _ => outcome.bad fault.nofuel
  | fuel + 1, files, low, high =>
    if low ≤ high then do
      let mid := Int.tdiv (low + high) 2
      let fmid ← files_get_in lo hi files mid
      if F_IS_ACTIVE fmid then
        match ← find_compare_in lo hi protocol_version files f low high mid mid with
        | Sum.inl r => pure (r, files)
        | Sum.inr (low, high) =>
          flist_find_loop_in lo hi protocol_version f fuel files low high
      else do
        let (mid_up, files) ← find_mid_up_in lo hi files mid
        if mid_up > high then do
          let (high, files) ← find_high_in lo hi files mid
          flist_find_loop_in lo hi protocol_version f fuel files low high
        else
          match ← find_compare_in lo hi protocol_version files f low high mid mid_up with
          | Sum.inl r => pure (r, files)
          | Sum.inr (low, high) =>
            flist_find_loop_in lo hi protocol_version f fuel files low high
    else pure (-1, files)

/-- The function `flist_find` of `flist.c` (lines 1449-1496) as a run in which every
index of `files` that is read or written has to lie in `low .. high` as they are on
entry: the run is that of `flist_find`, and an index outside them ends it with a fault. -/
def flist_find_in (protocol_version : Int) (flist : file_list) (f : file_struct) :
    outcome (Int × file_list) := do
  let (r, files) ←
    flist_find_loop_in flist.low flist.high protocol_version f (flist.files.length + 1)
      flist.files flist.low flist.high
  pure (r, { flist with files := files })

/-- The indices `lo .. hi` of the array are bounded by two active entries, and every
cleared entry among them has distances of at least 1 that skip cleared entries only. -/
structure window_ok (files : List file_struct) (lo hi : Int) : Prop where
  lo_le : lo ≤ hi
  lo_active : active_at files lo
  hi_active : active_at files hi
  cursors : ∀ k e, lo ≤ k → k ≤ hi → files_get files k = outcome.ok e →
    F_IS_ACTIVE e = false → cursor_ok files k e

/-- The fault `e` is that of a call `f_name_cmp(files[k], f)` on an active entry of
`lo .. hi`. -/
def cmp_fault (pv : Int) (f : file_struct) (files : List file_struct) (lo hi : Int)
    (e : fault) : Prop :=
  ∃ k g, lo ≤ k ∧ k ≤ hi ∧ files_get files k = outcome.ok g ∧ F_IS_ACTIVE g = true ∧
    run_cmp pv (some g) (some f) = outcome.bad e

/-- The states that the list `cl` can reach through calls of `clear_file` on entries
between `files[low]` and `files[high]` and through calls of `flist_find` that return. -/
inductive flist_reachable (pv : Int) (cl : file_list) : file_list → Prop where
  | start : flist_reachable pv cl cl
  | clear (fl : file_list) (i : Int) : flist_reachable pv cl fl → fl.low < i → i < fl.high →
      flist_reachable pv cl { fl with files := files_update fl.files i clear_file }
  | find (fl : file_list) (f : file_struct) (r : Int) (fl' : file_list) :
      flist_reachable pv cl fl → flist_find pv fl f = outcome.ok (r, fl') →
      flist_reachable pv cl fl'

/-! ## src/flist.c: the loop of `send_file_list` over the roots -/

/-- The test `strncmp(s, needle, strlen(needle)) == 0`: the string begins with
`needle`. -/
def starts_with : List Nat → List Nat → Bool
  | _, [] => true
  | [], _ :: _ => false
  | a :: s, b :: n => a == b && starts_with s n

/-- The libc function `strstr(hay, needle)`: the index of the first occurrence of
`needle`, `none` for `NULL`. -/
def strstr : List Nat → List Nat → Option Nat
  | [], needle => if needle = [] then some 0 else none
  | c :: rest, needle =>
    if starts_with (c :: rest) needle then some 0
    else (strstr rest needle).map fun i => i + 1

/-- The globals that the loop of `send_file_list` reads, and `use_ff_fd`. -/
structure send_list_options where
  relative_paths : Bool := false
  implied_dirs : Bool := false
  sanitize_paths : Bool := false
  use_ff_fd : Bool := false
  xfer_dirs : Bool := false
  recurse : Bool := false
  copy_links : Bool := false
  copy_unsafe_links : Bool := false
deriving DecidableEq, Repr

/-- What the loop of `send_file_list` asks of the file system and of the functions it
calls: `link_stat path` is `none` when the call fails and else tells whether the path is
a directory; `push_dir` and `pop_dir` tell whether the call succeeds; `send_file_name`
tells, for the value of `flist_dir` and the name, whether the call returns an entry;
`curr_dir` is the global of that name when a root is taken up, the directory that
`pop_dir` returns to. -/
structure send_list_world where
  link_stat : List Nat → Option Bool
  push_dir : List Nat → Bool
  pop_dir : List Nat → Bool
  send_file_name : Option (List Nat) → List Nat → Bool
  curr_dir : List Nat

/-- The calls that the loop of `send_file_list` makes, with their arguments: for
`send_file_name` the value of `flist_dir`, the name, whether `stp` is not `NULL`, the
flags, and the globals `xfer_dirs` and `copy_links` at the call. -/
inductive send_list_event where
  | send_file_name (flist_dir : Option (List Nat)) (fname : List Nat) (stp : Bool)
      (flags : Nat) (xfer_dirs copy_links : Bool)
  | send_if_directory (flist_dir : Option (List Nat)) (fbuf : List Nat) (len : Nat)
  | push_dir (dir : List Nat)
  | pop_dir (dir : List Nat)
deriving DecidableEq, Repr

/-- What the loop of `send_file_list` keeps from one root to the next: `lastpath`, the
static `lastdir`, the global `flist_dir`, the bit `IOERR_GENERAL` of `io_error`, and the
calls made so far. -/
structure send_list_state where
  lastpath : List Nat := []
  lastdir : Option (List Nat) := none
  flist_dir : Option (List Nat) := none
  io_error : Bool := false
  log : List send_list_event := []
deriving DecidableEq, Repr

/-- The lines 1133-1143 of `send_file_list`: the path in `fbuf` for the root `arg`, an
argument or a line of the files-from input. -/
def root_path (o : send_list_options) (x : externals) (arg : List Nat) : List Nat :=
  if o.use_ff_fd then x.sanitize_path arg 0
  else
    let fbuf := strlcpy arg x.MAXPATHLEN
    if o.sanitize_paths then x.sanitize_path fbuf 0 else fbuf

/-- The lines 1145-1170 of `send_file_list`: `fbuf`, `len` and `is_dot_dir` before the
call of `link_stat`. -/
def root_dot_dir (o : send_list_options) (x : externals) (fbuf : List Nat) :
    outcome (List Nat × Nat × Bool) :=
  let len := fbuf.length
  if o.relative_paths then pure (fbuf, len, false)
  else if len = 0 ∨ fbuf.getD (len - 1) 0 = 47 then
    if len = 2 ∧ fbuf.getD 0 0 = 46 then pure (fbuf.take 1, len, true)
    else if len + 1 ≥ x.MAXPATHLEN then outcome.bad fault.overflow_exit
    else pure (fbuf ++ [46], len + 1, true)
  else if len > 1 ∧ fbuf.getD (len - 1) 0 = 46 ∧ fbuf.getD (len - 2) 0 = 46 ∧
      (len = 2 ∨ fbuf.getD (len - 3) 0 = 47) then
    if len + 2 ≥ x.MAXPATHLEN then outcome.bad fault.overflow_exit
    else pure (fbuf ++ [47, 46], len + 2, true)
  else pure (fbuf, len, fbuf.getD (len - 1) 0 = 46 ∧ (len = 1 ∨ fbuf.getD (len - 2) 0 = 47))

/-- The lines 1188-1198 of `send_file_list`, without `relative_paths`: `dir`, `fn` and
`len`. -/
def split_plain (fbuf : List Nat) (len : Nat) : Option (List Nat) × List Nat × Nat :=
  match last_slash fbuf 0 with
  | some i => (some (if i = 0 then [47] else fbuf.take i), fbuf.drop (i + 1), len - (i + 1))
  | none => (none, fbuf, len)

/-- The loop of lines 1212-1229: `len` and `is_dot_dir` once the trailing "/" and "/."
of `fn` are gone; `no_dir` is `!dir`. Each iteration shortens `len`, so `len` iterations
are enough. -/
def trim_tail (no_dir : Bool) (fn : List Nat) : Nat → Nat → Bool → Nat × Bool
  | 0, len, dot => (len, dot)
  | fuel + 1, len, dot =>
    if len = 0 then (len, dot)
    else if fn.getD (len - 1) 0 = 47 then
      if len - 1 = 0 ∧ no_dir then (len - 1 + 1, true)
      else trim_tail no_dir fn fuel (len - 1) true
    else if len ≥ 2 ∧ fn.getD (len - 1) 0 = 46 ∧ fn.getD (len - 2) 0 = 47 then
      if len - 2 = 0 ∧ no_dir then (len - 2 + 1, true)
      else trim_tail no_dir fn fuel (len - 2) true
    else (len, dot)

/-- The loop of lines 1234-1242 from the index `p` of `fn`: it leaves through
`exit_cleanup(RERR_SYNTAX)` at a ".." that `/` or the ends of the string bound on both
sides. Each iteration moves `p` by two bytes at least. -/
def reject_dotdot (fn : List Nat) : Nat → Nat → outcome Unit
  | 0, _ => outcome.bad fault.nofuel
  | fuel + 1, p =>
    match strstr (fn.drop p) [46, 46] with
    | none => pure ()
    | some i =>
      let q := p + i
      if (fn.getD (q + 2) 0 = 47 ∨ fn.getD (q + 2) 0 = 0) ∧
          (q = 0 ∨ fn.getD (q - 1) 0 = 47) then
        outcome.bad fault.syntax_exit
      else reject_dotdot fn fuel (q + 2)

/-- The lines 1199-1243 of `send_file_list`, with `relative_paths`: `dir`, `fn`, `len`
and `is_dot_dir`, or the exit on a ".." in `fn`. -/
def split_relative (fbuf : List Nat) (len : Nat) :
    outcome (Option (List Nat) × List Nat × Nat × Bool) :=
  let (dir, fn, len) : Option (List Nat) × List Nat × Nat :=
    match strstr fbuf [47, 46, 47] with
    | some i => (some (if i = 0 then [47] else fbuf.take i), fbuf.drop (i + 3), len - (i + 3))
    | none => (none, fbuf, len)
  let (len, is_dot_dir) := trim_tail dir.isNone fn len len false
  let (fn, len) : List Nat × Nat :=
    if len = 1 ∧ fn.getD 0 0 = 47 then ([47, 46], 2) else (fn.take len, len)
  do
    reject_dotdot fn (fn.length + 1) 0
    pure (dir, fn, len, is_dot_dir)

/-- The index of the first `/` of `s` at the index `i` or later, for `strchr`. -/
def next_slash (s : List Nat) : Nat → Nat → Option Nat
  | 0, _ => none
  | fuel + 1, i =>
    if i ≥ s.length then none
    else if s.getD i 0 = 47 then some i
    else next_slash s fuel (i + 1)

/-- The loop of lines 1281-1284 over the bytes of `fbuf` before `p`: where `fn` stops and
the last `/` passed, as indices of `fbuf`, with what is left of `lastpath`. -/
def common_dirs (fbuf : List Nat) (p : Nat) : Nat → Nat → Nat → List Nat → Nat × Nat × List Nat
  | 0, fn, slash, lp => (fn, slash, lp)
  | fuel + 1, fn, slash, lp =>
    if fn < p ∧ fbuf.getD fn 0 ≠ 0 ∧ lp.headD 0 = fbuf.getD fn 0 then
      common_dirs fbuf p fuel (fn + 1) (if fbuf.getD fn 0 = 47 then fn else slash) lp.tail
    else (fn, slash, lp)

/-- The loop of lines 1291-1295: one call `send_file_name(f, flist, fbuf, NULL, 0)` for
every `/` of `fbuf` behind the index `slash`, on the bytes before it. -/
def send_implied (o : send_list_options) (flist_dir : Option (List Nat)) (fbuf : List Nat) :
    Nat → Nat → List send_list_event
  | 0, _ => []
  | fuel + 1, slash =>
    match next_slash fbuf fbuf.length (slash + 1) with
    | none => []
    | some i =>
      send_list_event.send_file_name flist_dir (fbuf.take i) false 0 true
          (o.copy_links || o.copy_unsafe_links) ::
        send_implied o flist_dir fbuf fuel i

/-- The lines 1275-1303 of `send_file_list`: the calls for the implied directories of
`fbuf`, and `lastpath` afterwards. -/
def implied_dirs_block (o : send_list_options) (x : externals) (flist_dir : Option (List Nat))
    (lastpath fbuf : List Nat) : List send_list_event × List Nat :=
  match last_slash fbuf 0 with
  | some p =>
    if o.implied_dirs ∧ p ≠ 0 then
      let (fn, slash, lp) := common_dirs fbuf p p 0 0 lastpath
      if fn ≠ p ∨ (lp.headD 0 ≠ 0 ∧ lp.headD 0 ≠ 47) then
        (send_implied o flist_dir fbuf fbuf.length slash, strlcpy (fbuf.take p) x.MAXPATHLEN)
      else ([], lastpath)
    else ([], lastpath)
  | none => ([], lastpath)

/-- The lines 1308-1314 of `send_file_list`: the call of `send_file_name` for the root
itself and, for a root sent as a top directory, the call of `send_if_directory` when
`send_file_name` returned an entry. -/
def send_named (o : send_list_options) (w : send_list_world) (flist_dir : Option (List Nat))
    (fbuf : List Nat) (len : Nat) (is_dot_dir : Bool) : List send_list_event :=
  if o.recurse ∨ (o.xfer_dirs ∧ is_dot_dir) then
    send_list_event.send_file_name flist_dir fbuf true FLAG_TOP_DIR o.xfer_dirs o.copy_links ::
      (if w.send_file_name flist_dir fbuf then
        [send_list_event.send_if_directory flist_dir fbuf len] else [])
  else [send_list_event.send_file_name flist_dir fbuf true 0 o.xfer_dirs o.copy_links]

/-- The lines 1245-1324 of `send_file_list`: with `dir`, `fn`, `len` and `is_dot_dir`
settled, the change into `dir`, the implied directories of `fn`, the call for `fn`
itself, and the way back. -/
def send_split (o : send_list_options) (x : externals) (w : send_list_world)
    (st : send_list_state) (dir : Option (List Nat)) (fn : List Nat) (len : Nat)
    (is_dot_dir : Bool) : outcome send_list_state :=
  let (fn, len) : List Nat × Nat := if fn.headD 0 = 0 then ([46], 1) else (fn, len)
  let pushed : Bool :=
    match dir with
    | some d => d.headD 0 ≠ 0
    | none => false
  if pushed ∧ ¬ w.push_dir (dir.getD []) then pure { st with io_error := true }
  else
    let log := if pushed then st.log ++ [send_list_event.push_dir (dir.getD [])] else st.log
    let lastdir := if pushed then dir else st.lastdir
    let flist_dir : Option (List Nat) := if pushed then dir else st.flist_dir
    let fbuf := fn.take len
    let (implied, lastpath) := implied_dirs_block o x flist_dir st.lastpath fbuf
    let log := log ++ implied ++ send_named o w flist_dir fbuf len is_dot_dir
    let st := { st with lastpath := lastpath, lastdir := lastdir, flist_dir := flist_dir,
                        log := log }
    if pushed ∧ w.curr_dir.headD 0 ≠ 0 then
      if w.pop_dir w.curr_dir then
        pure { st with flist_dir := none,
                       log := st.log ++ [send_list_event.pop_dir w.curr_dir] }
      else outcome.bad fault.fileselect_exit
    else pure st

/-- The body of the loop of `send_file_list` (lines 1129-1325) for one root: the state
afterwards, with the calls made appended to the log. A root on which `link_stat` or
`push_dir` fails sets `io_error` and is passed over, as is a directory when `xfer_dirs`
is off. -/
def send_root (o : send_list_options) (x : externals) (w : send_list_world)
    (st : send_list_state) (arg : List Nat) : outcome send_list_state := do
  let (fbuf, len, is_dot_dir) ← root_dot_dir o x (root_path o x arg)
  match w.link_stat fbuf with
  | none => pure { st with io_error := true }
  | some is_dir =>
    if is_dir ∧ ¬ o.xfer_dirs then pure st
    else if ¬ o.relative_paths then
      send_split o x w st (split_plain fbuf len).1 (split_plain fbuf len).2.1
        (split_plain fbuf len).2.2 is_dot_dir
    else do
      let (dir, fn, len, is_dot_dir) ← split_relative fbuf len
      send_split o x w st dir fn len is_dot_dir

/-- The loop of `send_file_list` (lines 1128-1325) over the roots, from the state at its
start. -/
def send_roots (o : send_list_options) (x : externals) (w : send_list_world) :
    send_list_state → List (List Nat) → outcome send_list_state
  | st, [] => pure st
  | st, arg :: rest => do
    let st ← send_root o x w st arg
    send_roots o x w st rest

/-! ## The active part of a relative path -/

/-- A reversed string without the "/" and "/." at its end. -/
def strip_trailing_rev : List Nat → List Nat
  | 47 :: r => strip_trailing_rev r
  | 46 :: 47 :: r => strip_trailing_rev r
  | l => l

/-- A string with the trailing "/" and "/." removed, as often as there is one. -/
def strip_trailing (s : List Nat) : List Nat := (strip_trailing_rev s.reverse).reverse

/-- The active part of a relative path, in the words of the specification: the part
after the first "/./", or the whole path when there is none, with trailing "/" and "/."
removed. -/
def active_part (path : List Nat) : List Nat :=
  strip_trailing
    (match strstr path [47, 46, 47] with
     | some i => path.drop (i + 3)
     | none => path)

/-- The bytes `c` and `c + 1` of the string are a path component "..": both are `.`, the
string ends behind them or goes on with `/`, and it begins with them or has a `/` in
front of them. -/
def dotdot_at (s : List Nat) (c : Nat) : Prop :=
  s.getD c 0 = 46 ∧ s.getD (c + 1) 0 = 46 ∧ (s.getD (c + 2) 0 = 47 ∨ c + 2 = s.length) ∧
    (c = 0 ∨ s.getD (c - 1) 0 = 47)

instance (s : List Nat) (c : Nat) : Decidable (dotdot_at s c) := by
  unfold dotdot_at; infer_instance

/-- The string has a path component equal to "..". -/
def has_dotdot (s : List Nat) : Prop := ∃ c, c < s.length ∧ dotdot_at s c

instance (s : List Nat) : Decidable (has_dotdot s) := by
  unfold has_dotdot; infer_instance

/-! ## src/flist.c: `clean_flist` with the comparisons that `qsort` makes -/

/-- The function `file_compare` of `flist.c` (lines 1442-1445), the comparator that
`clean_flist` hands to `qsort`. -/
def file_compare (protocol_version : Int) (file1 file2 : file_struct) : outcome Int :=
  run_cmp protocol_version (some file1) (some file2)

/-- The function `clean_flist` of `flist.c` (lines 1550-1709) in full, with the call of
`qsort` at line 1562 as a run: `qsort` is the libc function, given the comparator and the
array, and a call of `file_compare` in which `f_name_cmp` reads past the end of a string
ends the run of `qsort` and with it the run of `clean_flist`. An empty list returns at
line 1559 before the sort. The lines 1564-1709 run on the array as `qsort` left it; they
are `clean_flist_prune` above, the block for `prune_empty_dirs` included. -/
def clean_flist_full
    (qsort : (file_struct → file_struct → outcome Int) → List file_struct →
      outcome (List file_struct))
    (is_excluded : Option (List Nat) → Bool) (MAXPATHLEN : Nat) (prune_empty_dirs : Bool)
    (protocol_version : Int) (flist : file_list) (strip_root no_dups : Int) :
    outcome file_list :=
  if flist.count = 0 then pure { flist with high := -1 }
  else do
    let files ← qsort (file_compare protocol_version) flist.files
    clean_flist_prune (fun _ => files) is_excluded MAXPATHLEN prune_empty_dirs
      protocol_version flist strip_root no_dups

/-- The array that a sort returned, or the array given when the sort did not return. -/
def sorted_or_given (m : outcome (List file_struct)) (given : List file_struct) :
    List file_struct :=
  match m with
  | outcome.ok s => s
  | outcome.bad _ => given

/-! ## Entries used as examples -/

/-- An entry with the given dirname pointer, basename and mode, every other field zero. -/
def mk_entry (dirname : Option dir_ptr) (basename : List Nat) (mode : Nat) : file_struct :=
  { dirname := dirname, basename := basename, mode := mode }

/-- The directory `a`, at the root of the transfer. -/
def ex_dir_a : file_struct := mk_entry none [97] S_IFDIR
/-- The directory `a/.`: basename "." under the dirname "a". -/
def ex_dir_a_dot : file_struct := mk_entry (some ⟨1, [97]⟩) [46] S_IFDIR
/-- The regular file `a/b.txt`. -/
def ex_file_a_b_txt : file_struct := mk_entry (some ⟨1, [97]⟩) [98, 46, 116, 120, 116] S_IFREG
/-- The directory `a/c`. -/
def ex_dir_a_c : file_struct := mk_entry (some ⟨1, [97]⟩) [99] S_IFDIR
/-- The regular file `a/c/d.txt`. -/
def ex_file_a_c_d_txt : file_struct :=
  mk_entry (some ⟨2, [97, 47, 99]⟩) [100, 46, 116, 120, 116] S_IFREG
/-- The directory `.` at the root of the transfer. -/
def ex_dir_dot : file_struct := mk_entry none [46] S_IFDIR
/-- The regular file `a` at the root of the transfer. -/
def ex_file_a : file_struct := mk_entry none [97] S_IFREG

/-- An environment for examples on literal rules: a `wildmatch` that matches nothing, and
the root as current directory. -/
def ex_env : exclude_env :=
  { wildmatch := fun _ _ => false, pathjoin := fun p1 p2 => p1 ++ 47 :: p2, curr_dir := [47] }

/-- The literal include rule `+ x.c`. -/
def ex_rule_x_c : exclude_struct :=
  { pattern := [120, 46, 99], match_flags := 0, include_ := 1, directory := 0, slash_cnt := 0 }
/-- The literal exclude rule `- x.o`. -/
def ex_rule_x_o : exclude_struct :=
  { pattern := [120, 46, 111], match_flags := 0, include_ := 0, directory := 0, slash_cnt := 0 }
/-- The literal include rule `+ x.o`. -/
def ex_rule_inc_x_o : exclude_struct :=
  { pattern := [120, 46, 111], match_flags := 0, include_ := 1, directory := 0, slash_cnt := 0 }

/-- A second directory `a/.`, made after an entry of another directory: its dirname is
the same string at another address. -/
def ex_dir_a_dot2 : file_struct := mk_entry (some ⟨3, [97]⟩) [46] S_IFDIR
/-- The regular file `/z/x`, a name with the root directory in front. -/
def ex_file_root_z_x : file_struct := mk_entry (some ⟨10, [47, 122]⟩) [120] S_IFREG
/-- The regular file `z/x`: the entry `/z/x` once `clean_flist` has stripped the root. -/
def ex_file_z_x : file_struct := mk_entry (some ⟨11, [122]⟩) [120] S_IFREG
/-- The regular file `a/y`. -/
def ex_file_a_y : file_struct := mk_entry (some ⟨1, [97]⟩) [121] S_IFREG
/-- A sorted list that names the file `a/b.txt` twice. -/
def ex_list_dup : file_list :=
  { files := [ex_dir_a, ex_file_a_b_txt, ex_file_a_b_txt, ex_dir_a_c], low := 0, high := 0 }


/-- A platform for examples: `MAXPATHLEN` 4096, the symlink type bits of the wire, a
`dev_t` of 64 bits with the major number in its high half, and a `clean_fname` and a
`sanitize_path` that find nothing to change. -/
def ex_externals : externals :=
  { MAXPATHLEN := 4096, S_IFLNK := 0o120000,
    major := fun d => d / 2 ^ 32, minor := fun d => d % 2 ^ 32,
    MAKEDEV := fun a b => a * 2 ^ 32 + b,
    dev_of_int := fun i => (i % 2 ^ 64).toNat,
    clean_fname := fun n => n, sanitize_path := fun p _ => p, tweak_mode := fun m => m,
    count_dir_elements := fun p => (p.filter fun c => c = 47).length + 1 }

/-- The options of the examples: protocol 29, uid and gid preserved. -/
def ex_options : options :=
  { protocol_version := 29, preserve_uid := true, preserve_gid := true }

/-- The options of an old peer: protocol 25 with hard links preserved. -/
def ex_options_old : options := { protocol_version := 25, preserve_hard_links := true }

/-- The regular file `a`, which `make_file` found on device 3 with the inode number
2^40. -/
def ex_file_linked : file_struct × tmp_vars :=
  ({ basename := [97], mode := S_IFREG + 0o644, modtime := 1000, len32 := 5 },
   { tmp_idev := { dev := 3, ino := 1099511627776 } })

/-- The directory `a` and the regular file `a/b.txt`, as a sender holds them. -/
def ex_send_list : List (file_struct × tmp_vars) :=
  [({ basename := [97], mode := S_IFDIR + 0o755, modtime := 1000, uid := 5, gid := 6 }, {}),
   ({ dirname := some ⟨1, [97]⟩, basename := [98, 46, 116, 120, 116], mode := S_IFREG + 0o644,
      modtime := 1000, uid := 5, gid := 7, len32 := 77 }, {})]

/-- The sorted list of the regular file `a` and the directory `a`. -/
def ex_list_twin : file_list := { files := [ex_file_a, ex_dir_a], low := 0, high := 0 }

/-- The directory `a` twice, the second time as a top directory of the transfer. -/
def ex_list_top : file_list :=
  { files := [ex_dir_a, { ex_dir_a with flags := FLAG_TOP_DIR }], low := 0, high := 0 }

/-- The regular file `/a/x`, a name with the root directory in front. -/
def ex_file_root_a_x : file_struct := mk_entry (some ⟨20, [47, 97]⟩) [120] S_IFREG
/-- The regular file `a/x`. -/
def ex_file_a_x : file_struct := mk_entry (some ⟨1, [97]⟩) [120] S_IFREG
/-- The regular file `a/x` that `clean_flist` makes of `/a/x` when it strips the root. -/
def ex_file_a_x_stripped : file_struct := mk_entry (some ⟨21, [97]⟩) [120] S_IFREG
/-- A non-directory with the basename ".". -/
def ex_file_dot : file_struct := mk_entry none [46] S_IFREG

/-- The regular file `/b/x`, a name with the root directory in front. -/
def ex_file_root_b_x : file_struct := mk_entry (some ⟨30, [47, 98]⟩) [120] S_IFREG
/-- The regular file `b/x` that `clean_flist` makes of `/b/x` when it strips the root. -/
def ex_file_b_x_stripped : file_struct := mk_entry (some ⟨31, [98]⟩) [120] S_IFREG
/-- The regular file `/a/y`, a name with the root directory in front. -/
def ex_file_root_a_y : file_struct := mk_entry (some ⟨40, [47, 97]⟩) [121] S_IFREG
/-- The regular file `a/y` that `clean_flist` makes of `/a/y` when it strips the root. -/
def ex_file_a_y_stripped : file_struct := mk_entry (some ⟨41, [97]⟩) [121] S_IFREG
/-- A list of names with and without the root directory in front, in order. -/
def ex_list_rooted : file_list :=
  { files := [ex_file_root_a_y, ex_file_root_b_x, ex_file_a_y], low := 0, high := 0 }

/-- A sort that stands for `qsort` with `file_compare` in examples: an insertion sort
that puts `a` before `b` when `f_name_cmp(a, b) <= 0`. -/
def ex_qsort (pv : Int) (l : List file_struct) : List file_struct :=
  l.insertionSort fun a b => (f_name_cmp pv (some a) (some b)).le_zero = true

/-- The rule compiled from "a". -/
def ex_rule_a : exclude_struct := make_exclude none [97] 1 0
/-- The exclude rule with the pattern "!", as `add_exclude` compiles it from "- !". -/
def ex_rule_bang : exclude_struct := make_exclude none [33] 1 0
/-- The rule compiled from "b". -/
def ex_rule_b : exclude_struct := make_exclude none [98] 1 0
/-- The rule compiled from "y". -/
def ex_rule_y : exclude_struct := make_exclude none [121] 1 0
/-- The include rule whose pattern is 4095 bytes "a", one byte less than a `MAXPATHLEN` of
4096. -/
def ex_rule_long : exclude_struct :=
  { pattern := List.replicate 4095 97, match_flags := 0, include_ := 1, directory := 0,
    slash_cnt := 0 }

/-- The directory `a` at depth 1. -/
def ex_dir_a_deep : file_struct := { ex_dir_a with depth := 1 }
/-- The directory `b` at depth 1. -/
def ex_dir_b_deep : file_struct := { mk_entry none [98] S_IFDIR with depth := 1 }

/-! ## More examples -/

/-- The regular file `ac`. -/
def ex_file_ac : file_struct := mk_entry none [97, 99] S_IFREG

/-- A `sanitize_path` for the examples: a leading "../" is dropped from a path unless
`depth` allows to go up. -/
def ex_sanitize_path (p : List Nat) (depth : Int) : List Nat :=
  if depth ≤ 0 ∧ p.take 3 = [46, 46, 47] then p.drop 3 else p

/-- The platform of the examples with a `sanitize_path` that looks at `depth`. -/
def ex_externals_sanitize : externals :=
  { ex_externals with sanitize_path := ex_sanitize_path }

/-- The options of a receiver that sanitizes paths: protocol 29, links preserved. -/
def ex_options_sanitize : options :=
  { protocol_version := 29, preserve_links := true, sanitize_paths := true }

/-- The regular file `d/f`. -/
def ex_file_d_f : file_struct := mk_entry (some ⟨1, [100]⟩) [102] S_IFREG

/-- The symlink `l` with the target `../x`. -/
def ex_link_l : file_struct :=
  { mk_entry none [108] 0o120777 with symlink := [46, 46, 47, 120] }

/-- The list `a`, `a/b.txt`, `a/b.txt`, `a/c` as `clean_flist` leaves it under protocol
29: the second `a/b.txt` is cleared. -/
def ex_list_cleaned : file_list :=
  { files := [ex_dir_a, ex_file_a_b_txt, clear_file ex_file_a_b_txt, ex_dir_a_c],
    low := 0, high := 3 }

/-- The list of the directory `a`, the file `a/b.txt`, the directory `a/c` and the file
`a/c/d.txt`, in order, as `clean_flist` leaves it. -/
def ex_list_four : file_list :=
  { files := [ex_dir_a, ex_file_a_b_txt, ex_dir_a_c, ex_file_a_c_d_txt], low := 0, high := 3 }

/-- The list `ex_list_four` after `clear_file` on its entries 1 and 2. -/
def ex_list_two_cleared : file_list :=
  { files := [ex_dir_a, clear_file ex_file_a_b_txt, clear_file ex_dir_a_c, ex_file_a_c_d_txt],
    low := 0, high := 3 }

/-- A world for the examples: every path names a file that is not a directory, every
call succeeds, and the current directory is `/h`. -/
def ex_world : send_list_world :=
  { link_stat := fun _ => some false, push_dir := fun _ => true, pop_dir := fun _ => true,
    send_file_name := fun _ _ => true, curr_dir := [47, 104] }

/-- Relative paths with implied directories. -/
def ex_relative : send_list_options := { relative_paths := true, implied_dirs := true }

/-- A world for the examples in which no path exists: `link_stat` fails on every
path. -/
def ex_world_missing : send_list_world :=
  { ex_world with link_stat := fun _ => none }

/-- The insertion of `a` into a sorted array, each comparison a call of `cmp`. -/
def ex_insert (cmp : file_struct → file_struct → outcome Int) (a : file_struct) :
    List file_struct → outcome (List file_struct)
  | [] => pure [a]
  | b :: rest => do
    let d ← cmp a b
    if d ≤ 0 then pure (a :: b :: rest)
    else do
      let rest ← ex_insert cmp a rest
      pure (b :: rest)

/-- A sort that stands for `qsort` in examples: an insertion sort that calls the
comparator it is given. -/
def ex_qsort_cmp (cmp : file_struct → file_struct → outcome Int) :
    List file_struct → outcome (List file_struct)
  | [] => pure []
  | a :: rest => do
    let sorted ← ex_qsort_cmp cmp rest
    ex_insert cmp a sorted

/-! ## Theorems -/

/-! ### The exclude list: the first matching rule decides -/

/-- C1: `check_exclude` is decided by the first rule of the list that matches the name
under `check_one_exclude`. If no rule of `L` matches, the result is 0 (keep). If `L` is
`pre ++ ex :: post` where no rule of `pre` matches and `ex` matches, the result is
non-zero (drop) exactly when `ex` is an exclude rule and 0 when `ex` is an include rule,
whatever the later rules `post` are. -/
theorem check_exclude_first_match (env : exclude_env) (name : List Nat) (name_is_dir : Int) :
    (∀ L : List exclude_struct,
      (∀ r ∈ L, check_one_exclude env name r name_is_dir = 0) →
        check_exclude env L name name_is_dir = 0) ∧
    (∀ (pre post : List exclude_struct) (ex : exclude_struct),
      (∀ r ∈ pre, check_one_exclude env name r name_is_dir = 0) →
      check_one_exclude env name ex name_is_dir ≠ 0 →
        (check_exclude env (pre ++ ex :: post) name name_is_dir ≠ 0 ↔ ex.include_ = 0) ∧
        (ex.include_ ≠ 0 → check_exclude env (pre ++ ex :: post) name name_is_dir = 0) ∧
        check_exclude env (pre ++ ex :: post) name name_is_dir =
          check_exclude env [ex] name name_is_dir) := by
  constructor
  · intro L
    induction L with
    | nil => intro _; rfl
    | cons r rest ih =>
      intro h
      have hr : check_one_exclude env name r name_is_dir = 0 := h r (List.mem_cons_self _ _)
      have hrest : ∀ q ∈ rest, check_one_exclude env name q name_is_dir = 0 :=
        fun q hq => h q (List.mem_cons_of_mem _ hq)
      simp [check_exclude, hr, ih hrest]
  · intro pre post ex hpre hex
    have key : check_exclude env (pre ++ ex :: post) name name_is_dir =
        if ex.include_ ≠ 0 then 0 else 1 := by
      induction pre with
      | nil => simp [check_exclude, hex]
      | cons r rest ih =>
        have hr : check_one_exclude env name r name_is_dir = 0 :=
          hpre r (List.mem_cons_self _ _)
        have hrest : ∀ q ∈ rest, check_one_exclude env name q name_is_dir = 0 :=
          fun q hq => hpre q (List.mem_cons_of_mem _ hq)
        simp [check_exclude, hr, ih hrest]
    have single : check_exclude env [ex] name name_is_dir =
        if ex.include_ ≠ 0 then 0 else 1 := by
      simp [check_exclude, hex]
    refine ⟨?_, ?_, ?_⟩
    · rw [key]; by_cases hi : ex.include_ = 0 <;> simp [hi]
    · intro hi; rw [key]; simp [hi]
    · rw [key, single]

/-- A witness for C1: the name `x.o` against the rules `+ x.c`, `- x.o`, `+ x.o` is
dropped by the second rule, the first that matches; against `+ x.c` alone it is kept. -/
theorem check_exclude_first_match_witness :
    check_exclude ex_env ([ex_rule_x_c] ++ ex_rule_x_o :: [ex_rule_inc_x_o])
      [120, 46, 111] 0 ≠ 0 ∧
    check_exclude ex_env [ex_rule_x_c] [120, 46, 111] 0 = 0 :=
  ⟨((check_exclude_first_match ex_env [120, 46, 111] 0).2 [ex_rule_x_c] [ex_rule_inc_x_o]
      ex_rule_x_o (by decide) (by decide)).1.2 (by decide),
   (check_exclude_first_match ex_env [120, 46, 111] 0).1 [ex_rule_x_c] (by decide)⟩

/-! ### The loop of `f_name_cmp` compares two keys -/

theorem headD_eq_zero_iff {c : List Nat} (h : cstr_ok c) : c.headD 0 = 0 ↔ c = [] := by
  cases c with
  | nil => simp
  | cons a r =>
    have : a ≠ 0 := h a (List.mem_cons_self _ _)
    simp [this]

theorem cstr_ok_tail {c : List Nat} (h : cstr_ok c) : cstr_ok c.tail := by
  intro x hx
  exact h x (List.mem_of_mem_tail hx)

theorem cstr_ok_nil : cstr_ok [] := by
  intro x hx; cases hx

theorem cstr_ok_slash : cstr_ok [47] := by
  intro x hx; simp at hx; omega

theorem fnc_enter_base_dot {t_path : fnc_type} {f : file_struct} (h : fnc_is_dot t_path f) :
    fnc_enter_base t_path f = { c := [], state := s_TRAILING, type := t_ITEM } := by
  unfold fnc_is_dot fnc_base_type at h
  unfold fnc_enter_base
  simp only [h, if_true, and_self]

theorem fnc_enter_base_plain {t_path : fnc_type} {f : file_struct} (h : ¬ fnc_is_dot t_path f) :
    fnc_enter_base t_path f =
      { c := f.basename, state := s_BASE, type := fnc_base_type t_path f } := by
  unfold fnc_is_dot fnc_base_type at h
  unfold fnc_enter_base fnc_base_type
  simp only [h, if_false]

theorem fnc_switch2_eq (t_path : fnc_type) (f : file_struct) (c1 : List Nat) (s : fnc_side) :
    fnc_switch2 t_path f c1 s =
      if c1.headD 0 = 0 ∧ (s.state = s_TRAILING ∨ (s.state = s_BASE ∧ s.type ≠ t_PATH)) then none
      else some (fnc_switch1 t_path f s) := by
  obtain ⟨c, st, ty⟩ := s
  cases st <;> cases ty <;> by_cases h : c1.headD 0 = 0 <;> simp [fnc_switch2, fnc_switch1, h]

theorem fnc_norm_ok (t_path : fnc_type) (f : file_struct) (s : fnc_side)
    (hb : cstr_ok f.basename) (hc : cstr_ok s.c) : cstr_ok (fnc_norm t_path f s).c := by
  unfold fnc_norm
  split
  · obtain ⟨c, st, ty⟩ := s
    cases st <;> simp only [fnc_switch1]
    · exact cstr_ok_slash
    · by_cases hd : fnc_is_dot t_path f
      · rw [fnc_enter_base_dot hd]; exact cstr_ok_nil
      · rw [fnc_enter_base_plain hd]; exact hb
    · split
      · exact cstr_ok_slash
      · exact hc
    · exact hc
  · exact hc

theorem fnc_rest_norm (t_path : fnc_type) (f : file_struct) (s : fnc_side)
    (hc : cstr_ok s.c) :
    fnc_rest t_path f (fnc_norm t_path f s) = fnc_rest t_path f s := by
  unfold fnc_norm
  split
  · rename_i h
    have hnil : s.c = [] := (headD_eq_zero_iff hc).1 h
    obtain ⟨c, st, ty⟩ := s
    simp only at hnil
    subst hnil
    cases st
    · simp [fnc_switch1, fnc_rest, fnc_tag]
    · simp only [fnc_switch1]
      by_cases hd : fnc_is_dot t_path f
      · rw [fnc_enter_base_dot hd]; simp [fnc_rest, fnc_tag, fnc_base_key, hd]
      · rw [fnc_enter_base_plain hd]; simp [fnc_rest, fnc_tag, fnc_base_key, hd]
    · cases ty <;> simp [fnc_switch1, fnc_rest, fnc_tag]
    · simp [fnc_switch1, fnc_rest, fnc_tag]
  · rfl

/-- After the switch a side either stands on a byte or has nothing left at all. -/
theorem fnc_norm_nil (t_path : fnc_type) (f : file_struct) (s : fnc_side)
    (hb : f.basename ≠ []) (hc : cstr_ok s.c) (h : (fnc_norm t_path f s).c = []) :
    fnc_rest t_path f (fnc_norm t_path f s) = [] ∧ (fnc_norm t_path f s).type = t_ITEM ∧
      s.c = [] ∧
      ((s.state = s_SLASH ∧ fnc_is_dot t_path f) ∨
       (s.state = s_TRAILING ∨ (s.state = s_BASE ∧ s.type ≠ t_PATH))) := by
  have hnil : s.c = [] := by
    by_contra hne
    have h0 : ¬ s.c.headD 0 = 0 := fun h0 => hne ((headD_eq_zero_iff hc).1 h0)
    simp only [fnc_norm, h0, if_false] at h
    exact hne h
  obtain ⟨c, st, ty⟩ := s
  simp only at hnil
  subst hnil
  cases st
  · simp [fnc_norm, fnc_switch1] at h
  · by_cases hd : fnc_is_dot t_path f
    · simp [fnc_norm, fnc_switch1, fnc_enter_base_dot hd, fnc_rest, fnc_tag, hd]
    · simp [fnc_norm, fnc_switch1, fnc_enter_base_plain hd] at h
      exact absurd h hb
  · cases ty
    · simp [fnc_norm, fnc_switch1] at h
    · simp [fnc_norm, fnc_switch1, fnc_rest, fnc_tag]
  · simp [fnc_norm, fnc_switch1, fnc_rest, fnc_tag]

theorem fnc_rest_cons (t_path : fnc_type) (f : file_struct) (s : fnc_side) (a : Nat)
    (r : List Nat) (h : s.c = a :: r) :
    fnc_rest t_path f s = (s.type, a) :: fnc_rest t_path f { s with c := r } := by
  obtain ⟨c, st, ty⟩ := s
  simp only at h
  subst h
  cases st <;> simp [fnc_rest, fnc_tag]

theorem fnc_dot_end_norm (t_path : fnc_type) (f : file_struct) (s : fnc_side) (r : List Nat)
    (hn : (fnc_norm t_path f s).c ≠ []) :
    fnc_dot_end t_path f { fnc_norm t_path f s with c := r } ↔ fnc_dot_end t_path f s := by
  unfold fnc_norm at hn ⊢
  split
  · rename_i h0
    simp only [h0, if_true] at hn
    obtain ⟨c, st, ty⟩ := s
    cases st
    · simp [fnc_switch1, fnc_dot_end]
    · by_cases hd : fnc_is_dot t_path f
      · simp [fnc_switch1, fnc_enter_base_dot hd] at hn
      · simp [fnc_switch1, fnc_enter_base_plain hd, fnc_dot_end, hd]
    · cases ty <;> simp [fnc_switch1, fnc_dot_end]
    · simp [fnc_switch1, fnc_dot_end]
  · simp [fnc_dot_end]

/-- One iteration of the loop, in terms of the two sides after their switch. -/
theorem fnc_loop_step (t_path : fnc_type) (f1 f2 : file_struct) (fuel : Nat)
    (s1 s2 : fnc_side) (ht : s1.type = s2.type) :
    fnc_loop t_path f1 f2 (fuel + 1) s1 s2 =
      if (fnc_norm t_path f1 s1).c.headD 0 = 0 ∧ s2.c.headD 0 = 0 ∧
          (s2.state = s_TRAILING ∨ (s2.state = s_BASE ∧ s2.type ≠ t_PATH)) then
        cmp_result.ret 0
      else if (fnc_norm t_path f1 s1).type ≠ (fnc_norm t_path f2 s2).type then
        cmp_result.ret (fnc_type_dif (fnc_norm t_path f1 s1).type)
      else if ((fnc_norm t_path f1 s1).c.headD 0 : Int) -
          ((fnc_norm t_path f2 s2).c.headD 0 : Int) ≠ 0 then
        cmp_result.ret (((fnc_norm t_path f1 s1).c.headD 0 : Int) -
          ((fnc_norm t_path f2 s2).c.headD 0 : Int))
      else if (fnc_norm t_path f1 s1).c.headD 0 = 0 then cmp_result.overread
      else fnc_loop t_path f1 f2 fuel
        { fnc_norm t_path f1 s1 with c := (fnc_norm t_path f1 s1).c.tail }
        { fnc_norm t_path f2 s2 with c := (fnc_norm t_path f2 s2).c.tail } := by
  rw [fnc_loop]
  by_cases h1 : s1.c.headD 0 = 0 <;> by_cases h2 : s2.c.headD 0 = 0
  · by_cases hn : (fnc_switch1 t_path f1 s1).c.headD 0 = 0 ∧
        (s2.state = s_TRAILING ∨ (s2.state = s_BASE ∧ s2.type ≠ t_PATH))
    · simp [-List.headD_eq_head?_getD, fnc_norm, h1, h2, fnc_switch2_eq, hn]
    · simp [-List.headD_eq_head?_getD, fnc_norm, h1, h2, fnc_switch2_eq, hn]
  · simp [-List.headD_eq_head?_getD, fnc_norm, h1, h2]
  · simp [-List.headD_eq_head?_getD, fnc_norm, h1, h2, fnc_switch2_eq]
  · simp [-List.headD_eq_head?_getD, fnc_norm, h1, h2, ht]

theorem fnc_norm_stuck (t_path : fnc_type) (f : file_struct) (s : fnc_side)
    (h0 : s.c.headD 0 = 0) (hc : cstr_ok s.c)
    (hs : s.state = s_TRAILING ∨ (s.state = s_BASE ∧ s.type ≠ t_PATH)) :
    (fnc_norm t_path f s).c = [] := by
  have hnil : s.c = [] := (headD_eq_zero_iff hc).1 h0
  obtain ⟨c, st, ty⟩ := s
  simp only at hnil hs
  subst hnil
  rcases hs with h | ⟨h, h'⟩
  · subst h; simp [fnc_norm, fnc_switch1]
  · subst h; cases ty
    · exact absurd rfl h'
    · simp [fnc_norm, fnc_switch1]

theorem fnc_lex_nil_cons_ne (t : fnc_type) (b : Nat) (r : List (fnc_type × Nat)) (hb : b ≠ 0) :
    fnc_lex [] ((t, b) :: r) ≠ 0 := by
  unfold fnc_lex
  split <;> omega

/-- The loop of `f_name_cmp` returns the verdict on the remaining keys, given fuel for one
iteration more than the first key has elements. -/
theorem fnc_loop_eq (t_path : fnc_type) (f1 f2 : file_struct)
    (hn1 : f1.basename ≠ []) (hb1 : cstr_ok f1.basename)
    (hn2 : f2.basename ≠ []) (hb2 : cstr_ok f2.basename) :
    ∀ (fuel : Nat) (s1 s2 : fnc_side), cstr_ok s1.c → cstr_ok s2.c → s1.type = s2.type →
      (fnc_rest t_path f1 s1).length < fuel →
      fnc_loop t_path f1 f2 fuel s1 s2 = fnc_spec t_path f1 f2 s1 s2 := by
  intro fuel
  induction fuel with
  | zero => intro s1 s2 _ _ _ h; omega
  | succ fuel ih =>
    intro s1 s2 hc1 hc2 ht hlen
    rw [fnc_loop_step t_path f1 f2 fuel s1 s2 ht]
    have R1 := fnc_rest_norm t_path f1 s1 hc1
    have R2 := fnc_rest_norm t_path f2 s2 hc2
    have ok1 := fnc_norm_ok t_path f1 s1 hb1 hc1
    have ok2 := fnc_norm_ok t_path f2 s2 hb2 hc2
    have nil1 := fnc_norm_nil t_path f1 s1 hn1 hc1
    have nil2 := fnc_norm_nil t_path f2 s2 hn2 hc2
    have D2 := fnc_dot_end_norm t_path f2 s2
    have stuck2 := fnc_norm_stuck t_path f2 s2
    have spec_eq : fnc_spec t_path f1 f2 s1 s2 =
        if fnc_rest t_path f1 (fnc_norm t_path f1 s1) = fnc_rest t_path f2 (fnc_norm t_path f2 s2) then
          if fnc_dot_end t_path f2 s2 then cmp_result.overread else cmp_result.ret 0
        else cmp_result.ret (fnc_lex (fnc_rest t_path f1 (fnc_norm t_path f1 s1))
          (fnc_rest t_path f2 (fnc_norm t_path f2 s2))) := by
      rw [R1, R2]; rfl
    rw [spec_eq]
    rw [← R1] at hlen
    generalize fnc_norm t_path f1 s1 = n1 at *
    generalize fnc_norm t_path f2 s2 = n2 at *
    obtain ⟨c1, st1, ty1⟩ := n1
    obtain ⟨c2, st2, ty2⟩ := n2
    simp only at ok1 ok2 nil1 nil2 stuck2 D2
    cases c1 with
    | nil =>
      obtain ⟨r1, t1, -, -⟩ := nil1 rfl
      subst t1
      cases c2 with
      | nil =>
        obtain ⟨r2, t2, e2, o2⟩ := nil2 rfl
        subst t2
        rw [r1, r2]
        rcases o2 with ⟨hs, hd⟩ | hs
        · have hde : fnc_dot_end t_path f2 s2 := ⟨Or.inr hs, hd⟩
          simp [hs, hde]
        · have hde : ¬ fnc_dot_end t_path f2 s2 := by
            intro h
            rcases h.1 with h' | h' <;> rcases hs with h'' | ⟨h'', -⟩ <;> rw [h'] at h'' <;>
              cases h''
          simp [hs, hde, e2]
      | cons b r2 =>
        have hb : b ≠ 0 := ok2 b (List.mem_cons_self _ _)
        have hst : ¬ (s2.c.headD 0 = 0 ∧
            (s2.state = s_TRAILING ∨ (s2.state = s_BASE ∧ s2.type ≠ t_PATH))) := by
          intro h
          have := stuck2 h.1 hc2 h.2
          cases this
        rw [r1, fnc_rest_cons t_path f2 _ b r2 rfl]
        cases ty2
        · simp [-List.headD_eq_head?_getD, hst, fnc_type_dif, fnc_lex]
        · simp [-List.headD_eq_head?_getD, hst, fnc_lex, hb]
    | cons a r1 =>
      have ha : a ≠ 0 := ok1 a (List.mem_cons_self _ _)
      cases c2 with
      | nil =>
        obtain ⟨r2, t2, e2, o2⟩ := nil2 rfl
        subst t2
        rw [r2, fnc_rest_cons t_path f1 _ a r1 rfl]
        cases ty1
        · simp [fnc_type_dif, fnc_lex, ha]
        · simp [fnc_lex, ha]
      | cons b r2 =>
        have hb : b ≠ 0 := ok2 b (List.mem_cons_self _ _)
        rw [fnc_rest_cons t_path f1 _ a r1 rfl, fnc_rest_cons t_path f2 _ b r2 rfl]
        rw [fnc_rest_cons t_path f1 _ a r1 rfl] at hlen
        by_cases hty : ty1 = ty2
        · subst hty
          by_cases hab : a = b
          · subst hab
            have := ih { c := r1, state := st1, type := ty1 } { c := r2, state := st2, type := ty1 }
              (cstr_ok_tail ok1) (cstr_ok_tail ok2) rfl (by simp at hlen ⊢; omega)
            simp only [List.headD_cons, List.tail_cons, ne_eq, not_true_eq_false, sub_self,
              if_false, ha, false_and, this, fnc_spec, List.cons.injEq, true_and,
              D2 r2 (by simp)]
            simp [fnc_lex]
          · have hab' : (a : Int) - (b : Int) ≠ 0 := by omega
            simp [fnc_lex, hab, hab', ha]
        · simp [fnc_lex, hty, ha]

theorem entry_ok_dir {f : file_struct} (h : entry_ok f) (d : dir_ptr)
    (hd : f.dirname = some d) : cstr_ok d.str := by
  have := h.2.2
  simpa [dirname_str, hd] using this

theorem entry_ok_active {f : file_struct} (h : entry_ok f) : F_IS_ACTIVE f = true := by
  obtain ⟨hn, hc, -⟩ := h
  unfold F_IS_ACTIVE
  have := (headD_eq_zero_iff hc).not.2 hn
  simpa [-List.headD_eq_head?_getD] using this

theorem fnc_lex_head_type (k1 k2 : List (fnc_type × Nat))
    (h : fnc_head_type k1 ≠ fnc_head_type k2) :
    k1 ≠ k2 ∧ fnc_lex k1 k2 = fnc_type_dif (fnc_head_type k1) := by
  constructor
  · intro e; rw [e] at h; exact h rfl
  · match k1, k2 with
    | [], [] => exact absurd rfl h
    | [], (t, b) :: _ =>
      cases t
      · simp [fnc_lex, fnc_head_type, fnc_type_dif]
      · exact absurd rfl h
    | (t, a) :: _, [] =>
      cases t
      · simp [fnc_lex, fnc_head_type, fnc_type_dif]
      · exact absurd rfl h
    | (t1, a) :: _, (t2, b) :: _ =>
      have : t1 ≠ t2 := h
      simp [fnc_lex, fnc_head_type, this]

theorem fnc_lex_append (p k1 k2 : List (fnc_type × Nat)) :
    fnc_lex (p ++ k1) (p ++ k2) = fnc_lex k1 k2 := by
  induction p with
  | nil => rfl
  | cons x p ih =>
    obtain ⟨t, a⟩ := x
    simp [fnc_lex, ih]

theorem fnc_init_rest (t_path : fnc_type) (f : file_struct) (c : Option (List Nat)) :
    fnc_rest t_path f (fnc_init t_path f c) = fnc_dir_key t_path c ++ fnc_base_key t_path f := by
  cases c with
  | none =>
    by_cases hd : fnc_is_dot t_path f
    · simp [fnc_init, fnc_enter_base_dot hd, fnc_rest, fnc_tag, fnc_dir_key, fnc_base_key, hd]
    · simp [fnc_init, fnc_enter_base_plain hd, fnc_rest, fnc_tag, fnc_dir_key, fnc_base_key, hd]
  | some d => simp [fnc_init, fnc_rest, fnc_dir_key]

theorem fnc_init_type (t_path : fnc_type) (f : file_struct) (c : Option (List Nat))
    (hn : f.basename ≠ []) :
    (fnc_init t_path f c).type = fnc_head_type (fnc_rest t_path f (fnc_init t_path f c)) := by
  cases c with
  | none =>
    by_cases hd : fnc_is_dot t_path f
    · simp [fnc_init, fnc_enter_base_dot hd, fnc_rest, fnc_tag, fnc_head_type]
    · obtain ⟨b, r, hbr⟩ := List.exists_cons_of_ne_nil hn
      simp [fnc_init, fnc_enter_base_plain hd, fnc_rest, fnc_tag, fnc_head_type, hbr]
  | some d =>
    cases d with
    | nil => simp [fnc_init, fnc_rest, fnc_tag, fnc_head_type]
    | cons a r => simp [fnc_init, fnc_rest, fnc_tag, fnc_head_type]

theorem fnc_init_ok (t_path : fnc_type) (f : file_struct) (c : Option (List Nat))
    (hb : cstr_ok f.basename) (hc : ∀ d, c = some d → cstr_ok d) :
    cstr_ok (fnc_init t_path f c).c := by
  cases c with
  | none =>
    by_cases hd : fnc_is_dot t_path f
    · simp only [fnc_init, fnc_enter_base_dot hd]; exact cstr_ok_nil
    · simp only [fnc_init, fnc_enter_base_plain hd]; exact hb
  | some d => exact hc d rfl

theorem fnc_init_dot_end (t_path : fnc_type) (f : file_struct) (c : Option (List Nat)) :
    fnc_dot_end t_path f (fnc_init t_path f c) ↔ c ≠ none ∧ fnc_is_dot t_path f := by
  cases c with
  | none =>
    by_cases hd : fnc_is_dot t_path f
    · simp [fnc_init, fnc_enter_base_dot hd, fnc_dot_end]
    · simp [fnc_init, fnc_enter_base_plain hd, fnc_dot_end]
  | some d => simp [fnc_init, fnc_dot_end]

theorem fnc_base_key_length (t_path : fnc_type) (f : file_struct) :
    (fnc_base_key t_path f).length ≤ f.basename.length + 1 := by
  unfold fnc_base_key
  split
  · simp
  · split <;> simp [fnc_tag]

theorem fnc_lex_self (k : List (fnc_type × Nat)) : fnc_lex k k = 0 := by
  induction k with
  | nil => rfl
  | cons x k ih => obtain ⟨t, a⟩ := x; simp [fnc_lex, ih]

/-- The type test of line 1814 followed by the loop, on the two sides as set up. -/
theorem fnc_init_cmp (t_path : fnc_type) (f1 f2 : file_struct) (c1 c2 : Option (List Nat))
    (fuel : Nat)
    (hn1 : f1.basename ≠ []) (hb1 : cstr_ok f1.basename)
    (hn2 : f2.basename ≠ []) (hb2 : cstr_ok f2.basename)
    (hc1 : ∀ d, c1 = some d → cstr_ok d) (hc2 : ∀ d, c2 = some d → cstr_ok d)
    (hfuel : (fnc_dir_key t_path c1 ++ fnc_base_key t_path f1).length < fuel) :
    (if (fnc_init t_path f1 c1).type ≠ (fnc_init t_path f2 c2).type then
        cmp_result.ret (fnc_type_dif (fnc_init t_path f1 c1).type)
      else fnc_loop t_path f1 f2 fuel (fnc_init t_path f1 c1) (fnc_init t_path f2 c2)) =
    if fnc_dir_key t_path c1 ++ fnc_base_key t_path f1 =
        fnc_dir_key t_path c2 ++ fnc_base_key t_path f2 then
      if c2 ≠ none ∧ fnc_is_dot t_path f2 then cmp_result.overread else cmp_result.ret 0
    else cmp_result.ret (fnc_lex (fnc_dir_key t_path c1 ++ fnc_base_key t_path f1)
      (fnc_dir_key t_path c2 ++ fnc_base_key t_path f2)) := by
  have e1 := fnc_init_rest t_path f1 c1
  have e2 := fnc_init_rest t_path f2 c2
  have t1 := fnc_init_type t_path f1 c1 hn1
  have t2 := fnc_init_type t_path f2 c2 hn2
  have de := fnc_init_dot_end t_path f2 c2
  rw [← e1] at hfuel
  by_cases ht : (fnc_init t_path f1 c1).type = (fnc_init t_path f2 c2).type
  · have := fnc_loop_eq t_path f1 f2 hn1 hb1 hn2 hb2 fuel _ _
      (fnc_init_ok t_path f1 c1 hb1 hc1) (fnc_init_ok t_path f2 c2 hb2 hc2) ht hfuel
    simp only [ne_eq, ht, not_true_eq_false, if_false, this, fnc_spec, e1, e2]
    by_cases hk : fnc_dir_key t_path c1 ++ fnc_base_key t_path f1 =
        fnc_dir_key t_path c2 ++ fnc_base_key t_path f2
    · simp only [hk, if_true]
      by_cases hd : fnc_dot_end t_path f2 (fnc_init t_path f2 c2)
      · simp only [hd, if_true]; rw [if_pos (by simpa using de.1 hd)]
      · simp only [hd, if_false]; rw [if_neg (fun h => hd (de.2 (by simpa using h)))]
    · simp only [hk, if_false]
  · rw [if_pos ht]
    rw [t1, t2] at ht
    obtain ⟨hne, hlex⟩ := fnc_lex_head_type _ _ ht
    rw [e1, e2] at hne hlex
    rw [if_neg hne, hlex, t1, e1]

/-- What `f_name_cmp` returns on two active entries: it runs past the terminators in the
case `fnc_overread`, and else returns the verdict of `fnc_lex` on the two keys. -/
theorem f_name_cmp_eq (pv : Int) (f1 f2 : file_struct) (h1 : entry_ok f1) (h2 : entry_ok f2)
    (hp : ptr_ok f1 f2) :
    f_name_cmp pv (some f1) (some f2) =
      if fnc_overread pv f1 f2 then cmp_result.overread
      else cmp_result.ret (fnc_lex (fnc_key pv f1) (fnc_key pv f2)) := by
  have a1 := entry_ok_active h1
  have a2 := entry_ok_active h2
  have hd1 := entry_ok_dir h1
  have hd2 := entry_ok_dir h2
  obtain ⟨hn1, hb1, -⟩ := h1
  obtain ⟨hn2, hb2, -⟩ := h2
  have hc1 : ∀ d, f1.dirname.map dir_ptr.str = some d → cstr_ok d := by
    intro d hd
    cases h : f1.dirname with
    | none => simp [h] at hd
    | some p => simp [h] at hd; subst hd; exact hd1 p h
  have hc2 : ∀ d, f2.dirname.map dir_ptr.str = some d → cstr_ok d := by
    intro d hd
    cases h : f2.dirname with
    | none => simp [h] at hd
    | some p => simp [h] at hd; subst hd; exact hd2 p h
  unfold f_name_cmp
  simp only [is_inactive, a1, a2, Bool.not_true, Bool.false_eq_true, if_false]
  by_cases hs : f1.dirname.map dir_ptr.addr = f2.dirname.map dir_ptr.addr
  · have hstr := hp hs
    simp only [hs, decide_True, if_true]
    have hfuel : (fnc_dir_key (fnc_t_path pv) none ++ fnc_base_key (fnc_t_path pv) f1).length <
        fnc_fuel f1 f2 := by
      have := fnc_base_key_length (fnc_t_path pv) f1
      simp [fnc_dir_key, fnc_fuel]; omega
    rw [fnc_init_cmp (fnc_t_path pv) f1 f2 none none (fnc_fuel f1 f2) hn1 hb1 hn2 hb2
      (by simp) (by simp) hfuel]
    have hno : ¬ fnc_overread pv f1 f2 := fun h => h.2.2.1 hs
    rw [if_neg hno]
    simp only [fnc_key, hstr, fnc_lex_append, fnc_dir_key, List.nil_append, ne_eq,
      not_true_eq_false, false_and, if_false]
    split
    · rename_i h; rw [h, fnc_lex_self]
    · rfl
  · simp only [hs, decide_False, Bool.false_eq_true, if_false]
    have hfuel : (fnc_dir_key (fnc_t_path pv) (f1.dirname.map dir_ptr.str) ++
        fnc_base_key (fnc_t_path pv) f1).length < fnc_fuel f1 f2 := by
      have := fnc_base_key_length (fnc_t_path pv) f1
      cases h : f1.dirname <;> simp [fnc_dir_key, fnc_fuel, fnc_tag, h] <;> omega
    rw [fnc_init_cmp (fnc_t_path pv) f1 f2 _ _ (fnc_fuel f1 f2) hn1 hb1 hn2 hb2 hc1 hc2 hfuel]
    by_cases hk : fnc_key pv f1 = fnc_key pv f2
    · have hk' := hk
      unfold fnc_key at hk'
      rw [if_pos hk']
      by_cases hd : fnc_is_dot (fnc_t_path pv) f2 ∧ f2.dirname ≠ none
      · have : fnc_overread pv f1 f2 := ⟨hk, hd.2, hs, hd.1⟩
        rw [if_pos this, if_pos (by
          refine ⟨?_, hd.1⟩
          cases h : f2.dirname with
          | none => exact absurd h hd.2
          | some p => simp)]
      · have : ¬ fnc_overread pv f1 f2 := fun h => hd ⟨h.2.2.2, h.2.1⟩
        rw [if_neg this, hk, fnc_lex_self, if_neg]
        intro h
        apply hd
        refine ⟨h.2, ?_⟩
        intro hnone
        apply h.1
        simp [hnone]
    · have hk' := hk
      unfold fnc_key at hk'
      have : ¬ fnc_overread pv f1 f2 := fun h => hk h.1
      rw [if_neg hk', if_neg this]
      rfl

/-! ### The order of keys -/

theorem fnc_type_dif_path : fnc_type_dif t_PATH = 1 := rfl
theorem fnc_type_dif_item : fnc_type_dif t_ITEM = -1 := rfl

theorem fnc_lex_antisymm (k1 k2 : List (fnc_type × Nat)) :
    fnc_lex k2 k1 = - fnc_lex k1 k2 := by
  induction k1 generalizing k2 with
  | nil =>
    cases k2 with
    | nil => simp [fnc_lex]
    | cons y k2 => obtain ⟨t, b⟩ := y; cases t <;> simp [fnc_lex]
  | cons x k1 ih =>
    obtain ⟨t1, a⟩ := x
    cases k2 with
    | nil => cases t1 <;> simp [fnc_lex]
    | cons y k2 =>
      obtain ⟨t2, b⟩ := y
      by_cases ht : t1 = t2
      · subst ht
        by_cases hab : a = b
        · subst hab; simp [fnc_lex, ih]
        · have hba : b ≠ a := fun h => hab h.symm
          simp [fnc_lex, hab, hba]
      · have ht' : t2 ≠ t1 := fun h => ht h.symm
        cases t1 <;> cases t2 <;> simp_all [fnc_lex, fnc_type_dif]

theorem fnc_lex_eq_zero (k1 k2 : List (fnc_type × Nat)) (h1 : key_ok k1) (h2 : key_ok k2) :
    fnc_lex k1 k2 = 0 ↔ k1 = k2 := by
  induction k1 generalizing k2 with
  | nil =>
    cases k2 with
    | nil => simp [fnc_lex]
    | cons y k2 =>
      obtain ⟨t, b⟩ := y
      have hb : b ≠ 0 := h2 (t, b) (List.mem_cons_self _ _)
      cases t <;> simp [fnc_lex, hb]
  | cons x k1 ih =>
    obtain ⟨t1, a⟩ := x
    have ha : a ≠ 0 := h1 (t1, a) (List.mem_cons_self _ _)
    cases k2 with
    | nil => cases t1 <;> simp [fnc_lex, ha]
    | cons y k2 =>
      obtain ⟨t2, b⟩ := y
      have h1' : key_ok k1 := fun x hx => h1 x (List.mem_cons_of_mem _ hx)
      have h2' : key_ok k2 := fun x hx => h2 x (List.mem_cons_of_mem _ hx)
      by_cases ht : t1 = t2
      · subst ht
        by_cases hab : a = b
        · subst hab; simp [fnc_lex, ih k2 h1' h2']
        · have : (a : Int) - (b : Int) ≠ 0 := by omega
          simp [fnc_lex, hab, this]
      · cases t1 <;> cases t2 <;> simp_all [fnc_lex, fnc_type_dif]

theorem fnc_lex_trans (k1 k2 k3 : List (fnc_type × Nat)) (h1 : key_ok k1) (h2 : key_ok k2)
    (h3 : key_ok k3) (h12 : fnc_lex k1 k2 ≤ 0) (h23 : fnc_lex k2 k3 ≤ 0) :
    fnc_lex k1 k3 ≤ 0 := by
  induction k1 generalizing k2 k3 with
  | nil =>
    cases k3 with
    | nil => simp [fnc_lex]
    | cons z k3 => obtain ⟨t, c⟩ := z; cases t <;> simp [fnc_lex]
  | cons x k1 ih =>
    obtain ⟨t1, a⟩ := x
    have ha : a ≠ 0 := h1 (t1, a) (List.mem_cons_self _ _)
    have h1' : key_ok k1 := fun x hx => h1 x (List.mem_cons_of_mem _ hx)
    cases k2 with
    | nil => cases t1 <;> simp [fnc_lex] at h12; omega
    | cons y k2 =>
      obtain ⟨t2, b⟩ := y
      have hb : b ≠ 0 := h2 (t2, b) (List.mem_cons_self _ _)
      have h2' : key_ok k2 := fun x hx => h2 x (List.mem_cons_of_mem _ hx)
      cases k3 with
      | nil => cases t2 <;> simp [fnc_lex] at h23; omega
      | cons z k3 =>
        obtain ⟨t3, c⟩ := z
        have h3' : key_ok k3 := fun x hx => h3 x (List.mem_cons_of_mem _ hx)
        by_cases hab : a = b
        · subst hab
          by_cases hbc : a = c
          · subst hbc
            cases t1 <;> cases t2 <;> cases t3 <;>
              simp [fnc_lex, fnc_type_dif] at h12 h23 ⊢ <;>
              exact ih k2 k3 h1' h2' h3' h12 h23
          · cases t1 <;> cases t2 <;> cases t3 <;>
              simp [fnc_lex, fnc_type_dif, hbc] at h12 h23 ⊢ <;> omega
        · by_cases hbc : b = c
          · subst hbc
            cases t1 <;> cases t2 <;> cases t3 <;>
              simp [fnc_lex, fnc_type_dif, hab] at h12 h23 ⊢ <;> omega
          · by_cases hac : a = c
            · subst hac
              cases t1 <;> cases t2 <;> cases t3 <;>
                simp [fnc_lex, fnc_type_dif, hab, hbc] at h12 h23 ⊢ <;> omega
            · cases t1 <;> cases t2 <;> cases t3 <;>
                simp [fnc_lex, fnc_type_dif, hab, hbc, hac] at h12 h23 ⊢ <;> omega

theorem basename_is_dot {b : List Nat} (hb : cstr_ok b) :
    (b.headD 0 = 46 ∧ b.getD 1 0 = 0) ↔ b = [46] := by
  constructor
  · rintro ⟨h0, h1⟩
    match b, hb, h0, h1 with
    | [], _, h0, _ => simp at h0
    | [a], _, h0, _ => simp at h0; rw [h0]
    | a :: c :: r, hb, _, h1 =>
      have : c ≠ 0 := hb c (by simp)
      simp at h1; exact absurd h1 this
  · intro h; subst h; simp

theorem fnc_t_path_new {pv : Int} (h : 29 ≤ pv) : fnc_t_path pv = t_PATH := by
  simp [fnc_t_path, h]

theorem fnc_t_path_old {pv : Int} (h : pv < 29) : fnc_t_path pv = t_ITEM := by
  have : ¬ (pv ≥ 29) := by omega
  simp [fnc_t_path, this]

theorem fnc_tag_ok (t : fnc_type) (c : List Nat) (h : cstr_ok c) : key_ok (fnc_tag t c) := by
  intro x hx
  simp [fnc_tag] at hx
  obtain ⟨a, ha, rfl⟩ := hx
  exact h a ha

theorem key_ok_append {k1 k2 : List (fnc_type × Nat)} (h1 : key_ok k1) (h2 : key_ok k2) :
    key_ok (k1 ++ k2) := by
  intro x hx
  rcases List.mem_append.1 hx with h | h
  · exact h1 x h
  · exact h2 x h

theorem fnc_key_ok (pv : Int) (f : file_struct) (h : entry_ok f) : key_ok (fnc_key pv f) := by
  have hd := entry_ok_dir h
  obtain ⟨-, hb, -⟩ := h
  unfold fnc_key
  apply key_ok_append
  · cases hdn : f.dirname with
    | none => intro x hx; simp [fnc_dir_key] at hx
    | some p =>
      simp only [Option.map_some', fnc_dir_key]
      apply key_ok_append (fnc_tag_ok _ _ (hd p hdn))
      intro x hx; simp at hx; subst hx; simp
  · unfold fnc_base_key
    split
    · intro x hx; cases hx
    · apply key_ok_append (fnc_tag_ok _ _ hb)
      split
      · intro x hx; simp at hx; subst hx; simp
      · intro x hx; cases hx

/-- Where it returns, `f_name_cmp` returns the verdict of `fnc_lex` on the keys. -/
theorem f_name_cmp_ret (pv : Int) (f1 f2 : file_struct) (h1 : entry_ok f1) (h2 : entry_ok f2)
    (hp : ptr_ok f1 f2) (x : Int) (h : f_name_cmp pv (some f1) (some f2) = cmp_result.ret x) :
    ¬ fnc_overread pv f1 f2 ∧ x = fnc_lex (fnc_key pv f1) (fnc_key pv f2) := by
  rw [f_name_cmp_eq pv f1 f2 h1 h2 hp] at h
  by_cases ho : fnc_overread pv f1 f2
  · rw [if_pos ho] at h; cases h
  · rw [if_neg ho] at h; injection h with h; exact ⟨ho, h.symm⟩

theorem ptr_ok_symm {f g : file_struct} (h : ptr_ok f g) : ptr_ok g f :=
  fun e => (h e.symm).symm

/-- Where both calls return, the two results of `f_name_cmp` are opposite. -/
theorem f_name_cmp_antisymm (pv : Int) (f1 f2 : file_struct) (h1 : entry_ok f1)
    (h2 : entry_ok f2) (hp : ptr_ok f1 f2) (x y : Int)
    (hx : f_name_cmp pv (some f1) (some f2) = cmp_result.ret x)
    (hy : f_name_cmp pv (some f2) (some f1) = cmp_result.ret y) : y = -x := by
  obtain ⟨-, ex⟩ := f_name_cmp_ret pv f1 f2 h1 h2 hp x hx
  obtain ⟨-, ey⟩ := f_name_cmp_ret pv f2 f1 h2 h1 (ptr_ok_symm hp) y hy
  rw [ex, ey, fnc_lex_antisymm]

theorem fnc_base_key_nil (t_path : fnc_type) (f : file_struct) (hn : f.basename ≠ [])
    (h : fnc_base_key t_path f = []) : fnc_is_dot t_path f := by
  by_contra hd
  simp [fnc_base_key, hd, fnc_tag, hn] at h

/-! ### The name comparator: what the order does -/

/-- C5: for protocol 29, the directory `a` and the directory `a/.`, `f_name_cmp(a/., a)`
returns 0, while `f_name_cmp(a, a/.)` takes the "." branch of `case s_SLASH` on its
second side with the first side exhausted, finds no difference and advances both
pointers past their NUL: it returns no value that could be the opposite of 0. -/
theorem f_name_cmp_dot_dir_overread :
    f_name_cmp 29 (some ex_dir_a) (some ex_dir_a_dot) = cmp_result.overread ∧
    f_name_cmp 29 (some ex_dir_a_dot) (some ex_dir_a) = cmp_result.ret 0 := by
  decide

/-- C6: `f_name_cmp` is transitive on active entries, for every protocol version: if
`f_name_cmp(a, b)` returns a value `<= 0` and `f_name_cmp(b, c)` returns a value `<= 0`,
then `f_name_cmp(a, c)` returns a value `<= 0`. -/
theorem f_name_cmp_transitive (pv : Int) (a b c : file_struct)
    (ha : entry_ok a) (hb : entry_ok b) (hc : entry_ok c)
    (pab : ptr_ok a b) (pbc : ptr_ok b c) (pac : ptr_ok a c) (x y : Int)
    (hab : f_name_cmp pv (some a) (some b) = cmp_result.ret x) (hx : x ≤ 0)
    (hbc : f_name_cmp pv (some b) (some c) = cmp_result.ret y) (hy : y ≤ 0) :
    ∃ z, f_name_cmp pv (some a) (some c) = cmp_result.ret z ∧ z ≤ 0 := by
  obtain ⟨nab, ex⟩ := f_name_cmp_ret pv a b ha hb pab x hab
  obtain ⟨nbc, ey⟩ := f_name_cmp_ret pv b c hb hc pbc y hbc
  have ka := fnc_key_ok pv a ha
  have kb := fnc_key_ok pv b hb
  have kc := fnc_key_ok pv c hc
  subst ex ey
  have hac := fnc_lex_trans _ _ _ ka kb kc hx hy
  refine ⟨fnc_lex (fnc_key pv a) (fnc_key pv c), ?_, hac⟩
  rw [f_name_cmp_eq pv a c ha hc pac, if_neg]
  rintro ⟨hk, hcd, hne, hdot⟩
  -- the three keys are equal
  have hba : fnc_lex (fnc_key pv b) (fnc_key pv a) ≤ 0 := by rw [hk]; exact hy
  have hab0 : fnc_lex (fnc_key pv a) (fnc_key pv b) = 0 := by
    have := fnc_lex_antisymm (fnc_key pv a) (fnc_key pv b)
    omega
  have hkab : fnc_key pv a = fnc_key pv b := (fnc_lex_eq_zero _ _ ka kb).1 hab0
  have hkbc : fnc_key pv b = fnc_key pv c := hkab.symm.trans hk
  -- b shares the pointer of c, so it is a "." directory too
  have hbcp : b.dirname.map dir_ptr.addr = c.dirname.map dir_ptr.addr := by
    by_contra hne'
    exact nbc ⟨hkbc, hcd, hne', hdot⟩
  have hstr := pbc hbcp
  have hbd : b.dirname ≠ none := by
    intro h
    rw [h] at hbcp
    cases hc' : c.dirname with
    | none => exact hcd hc'
    | some p => rw [hc'] at hbcp; simp at hbcp
  have hbdot : fnc_is_dot (fnc_t_path pv) b := by
    apply fnc_base_key_nil _ _ hb.1
    have h := hkbc
    unfold fnc_key at h
    rw [hstr] at h
    have h' := List.append_cancel_left h
    rw [h']
    simp [fnc_base_key, hdot]
  apply nab
  refine ⟨hkab, hbd, ?_, hbdot⟩
  rw [hbcp]; exact hne

/-- A witness for C6: the file `a`, the directory `a` and the file `a/b.txt` under
protocol 29. -/
theorem f_name_cmp_transitive_witness :
    ∃ z, f_name_cmp 29 (some ex_file_a) (some ex_file_a_b_txt) = cmp_result.ret z ∧ z ≤ 0 :=
  f_name_cmp_transitive 29 ex_file_a ex_dir_a ex_file_a_b_txt
    (by decide) (by decide) (by decide) (by decide) (by decide) (by decide) (-1) (-98)
    (by decide) (by decide) (by decide) (by decide)

theorem fnc_lex_tag_item (s1 s2 : List Nat) :
    fnc_lex (fnc_tag t_ITEM s1) (fnc_tag t_ITEM s2) = strcmp s1 s2 := by
  induction s1 generalizing s2 with
  | nil => cases s2 <;> simp [fnc_tag, fnc_lex, strcmp]
  | cons a r ih =>
    cases s2 with
    | nil => simp [fnc_tag, fnc_lex, strcmp]
    | cons b r2 =>
      have := ih r2
      simp only [fnc_tag] at this
      simp [fnc_tag, fnc_lex, strcmp, this]

theorem fnc_not_dot_old (f : file_struct) : ¬ fnc_is_dot t_ITEM f := by
  intro h
  have := h.1
  unfold fnc_base_type at this
  split at this <;> cases this

theorem fnc_key_old {pv : Int} (hpv : pv < 29) (f : file_struct) :
    fnc_key pv f = fnc_tag t_ITEM (joined_name f) := by
  have hb : fnc_base_type t_ITEM f = t_ITEM := by
    unfold fnc_base_type; split <;> rfl
  unfold fnc_key joined_name
  rw [fnc_t_path_old hpv]
  cases h : f.dirname with
  | none => simp [fnc_dir_key, fnc_base_key, fnc_not_dot_old, hb]
  | some d => simp [fnc_dir_key, fnc_base_key, fnc_not_dot_old, hb, fnc_tag]

/-- C7: for `protocol_version < 29` and two active entries, `f_name_cmp` returns a value
of the same sign as `strcmp` on their joined names (dirname, "/" and basename, or the
basename alone when the dirname is NULL). -/
theorem f_name_cmp_old_protocol_strcmp (pv : Int) (hpv : pv < 29) (f1 f2 : file_struct)
    (h1 : entry_ok f1) (h2 : entry_ok f2) (hp : ptr_ok f1 f2) :
    ∃ d, f_name_cmp pv (some f1) (some f2) = cmp_result.ret d ∧
      sign_of d = sign_of (strcmp (joined_name f1) (joined_name f2)) := by
  refine ⟨strcmp (joined_name f1) (joined_name f2), ?_, rfl⟩
  rw [f_name_cmp_eq pv f1 f2 h1 h2 hp, if_neg, fnc_key_old hpv, fnc_key_old hpv,
    fnc_lex_tag_item]
  intro h
  have := h.2.2.2
  rw [fnc_t_path_old hpv] at this
  exact fnc_not_dot_old f2 this

/-- A witness for C7: the directory `a/c` and the file `a/b.txt` under protocol 28. -/
theorem f_name_cmp_old_protocol_strcmp_witness :
    ∃ d, f_name_cmp 28 (some ex_dir_a_c) (some ex_file_a_b_txt) = cmp_result.ret d ∧
      sign_of d = sign_of (strcmp (joined_name ex_dir_a_c) (joined_name ex_file_a_b_txt)) :=
  f_name_cmp_old_protocol_strcmp 28 (by decide) ex_dir_a_c ex_file_a_b_txt
    (by decide) (by decide) (by decide)

theorem fnc_base_key_dir {pv : Int} (hpv : 29 ≤ pv) (f : file_struct)
    (hb : cstr_ok f.basename) (hdir : S_ISDIR f.mode = true) (hnd : f.basename ≠ [46]) :
    fnc_base_key (fnc_t_path pv) f = fnc_tag t_PATH f.basename ++ [(t_PATH, 47)] := by
  rw [fnc_t_path_new hpv]
  have hd : ¬ fnc_is_dot t_PATH f := fun h => hnd ((basename_is_dot hb).1 h.2)
  simp [fnc_base_key, hd, fnc_base_type, hdir]

theorem fnc_base_key_file (t_path : fnc_type) (f : file_struct)
    (hdir : S_ISDIR f.mode = false) :
    fnc_base_key t_path f = fnc_tag t_ITEM f.basename := by
  have hd : ¬ fnc_is_dot t_path f := by
    intro h
    have := h.1
    simp [fnc_base_type, hdir] at this
  simp [fnc_base_key, hd, fnc_base_type, hdir]

theorem fnc_base_key_dot {pv : Int} (hpv : 29 ≤ pv) (f : file_struct)
    (hdir : S_ISDIR f.mode = true) (hdot : f.basename = [46]) :
    fnc_base_key (fnc_t_path pv) f = [] := by
  rw [fnc_t_path_new hpv]
  have hd : fnc_is_dot t_PATH f := by
    refine ⟨?_, ?_, ?_⟩
    · simp [fnc_base_type, hdir]
    · simp [hdot]
    · simp [hdot]
  simp [fnc_base_key, hd]

/-- C8: for `protocol_version >= 29`, a directory whose basename is not "." compares after
a non-directory with the same dirname, whatever the two basenames: `f_name_cmp(f1, f2)`
returns a value `> 0` and `f_name_cmp(f2, f1)` a value `< 0`; so the two never compare
equal. -/
theorem f_name_cmp_dir_after_file (pv : Int) (hpv : 29 ≤ pv) (f1 f2 : file_struct)
    (h1 : entry_ok f1) (h2 : entry_ok f2)
    (hsame : f1.dirname.map dir_ptr.str = f2.dirname.map dir_ptr.str)
    (hdir : S_ISDIR f1.mode = true) (hnd : f1.basename ≠ [46])
    (hfile : S_ISDIR f2.mode = false) :
    ∃ x y, f_name_cmp pv (some f1) (some f2) = cmp_result.ret x ∧ 0 < x ∧
      f_name_cmp pv (some f2) (some f1) = cmp_result.ret y ∧ y < 0 := by
  have hp : ptr_ok f1 f2 := fun _ => hsame
  have k1 : fnc_key pv f1 = fnc_dir_key (fnc_t_path pv) (f2.dirname.map dir_ptr.str) ++
      (fnc_tag t_PATH f1.basename ++ [(t_PATH, 47)]) := by
    unfold fnc_key; rw [hsame, fnc_base_key_dir hpv f1 h1.2.1 hdir hnd]
  have k2 : fnc_key pv f2 = fnc_dir_key (fnc_t_path pv) (f2.dirname.map dir_ptr.str) ++
      fnc_tag t_ITEM f2.basename := by
    unfold fnc_key; rw [fnc_base_key_file _ f2 hfile]
  obtain ⟨a, r1, e1⟩ := List.exists_cons_of_ne_nil h1.1
  obtain ⟨b, r2, e2⟩ := List.exists_cons_of_ne_nil h2.1
  have hlex : fnc_lex (fnc_key pv f1) (fnc_key pv f2) = 1 := by
    rw [k1, k2, fnc_lex_append, e1, e2]
    simp [fnc_tag, fnc_lex, fnc_type_dif]
  have hne : fnc_key pv f1 ≠ fnc_key pv f2 := by
    intro h; rw [h, fnc_lex_self] at hlex; omega
  refine ⟨1, -1, ?_, by omega, ?_, by omega⟩
  · rw [f_name_cmp_eq pv f1 f2 h1 h2 hp, if_neg (fun h => hne h.1), hlex]
  · rw [f_name_cmp_eq pv f2 f1 h2 h1 (ptr_ok_symm hp), if_neg (fun h => hne h.1.symm),
      fnc_lex_antisymm, hlex]

/-- A witness for C8: the directory `a/c` and the file `a/b.txt` under protocol 29. -/
theorem f_name_cmp_dir_after_file_witness :
    ∃ x y, f_name_cmp 29 (some ex_dir_a_c) (some ex_file_a_b_txt) = cmp_result.ret x ∧ 0 < x ∧
      f_name_cmp 29 (some ex_file_a_b_txt) (some ex_dir_a_c) = cmp_result.ret y ∧ y < 0 :=
  f_name_cmp_dir_after_file 29 (by decide) ex_dir_a_c ex_file_a_b_txt (by decide) (by decide)
    (by decide) (by decide) (by decide) (by decide)

theorem fnc_lex_prefix_neg (k r : List (fnc_type × Nat)) (hr : key_ok r) (hne : r ≠ []) :
    fnc_lex k (k ++ r) < 0 := by
  have h := fnc_lex_append k [] r
  rw [List.append_nil] at h
  rw [h]
  obtain ⟨x, r', rfl⟩ := List.exists_cons_of_ne_nil hne
  obtain ⟨t, b⟩ := x
  have hb : b ≠ 0 := hr (t, b) (List.mem_cons_self _ _)
  cases t
  · simp [fnc_lex]
  · simp [fnc_lex]; omega

theorem key_ok_of_append_right {k r : List (fnc_type × Nat)} (h : key_ok (k ++ r)) :
    key_ok r := fun x hx => h x (List.mem_append_right _ hx)

/-- An entry whose key continues the key of another compares after it. -/
theorem f_name_cmp_key_prefix (pv : Int) (d e : file_struct) (hd : entry_ok d)
    (he : entry_ok e) (hp : ptr_ok d e) (r : List (fnc_type × Nat)) (hne : r ≠ [])
    (hk : fnc_key pv e = fnc_key pv d ++ r) :
    ∃ x, f_name_cmp pv (some d) (some e) = cmp_result.ret x ∧ x < 0 := by
  have hr : key_ok r := key_ok_of_append_right (hk ▸ fnc_key_ok pv e he)
  have hlt := fnc_lex_prefix_neg (fnc_key pv d) r hr hne
  rw [← hk] at hlt
  refine ⟨_, ?_, hlt⟩
  rw [f_name_cmp_eq pv d e hd he hp, if_neg]
  intro h
  rw [h.1, fnc_lex_self] at hlt
  omega

theorem fnc_tag_append (t : fnc_type) (a b : List Nat) :
    fnc_tag t (a ++ b) = fnc_tag t a ++ fnc_tag t b := by
  simp [fnc_tag]

theorem fnc_dir_key_some (t : fnc_type) (s : List Nat) :
    fnc_dir_key t (some s) = fnc_tag t (s ++ [47]) := by
  simp [fnc_dir_key, fnc_tag]

/-- The key of a directory under protocol 29 and later, from its joined name. -/
theorem fnc_key_dir {pv : Int} (hpv : 29 ≤ pv) (d : file_struct) (hb : cstr_ok d.basename)
    (hdir : S_ISDIR d.mode = true) :
    (d.basename ≠ [46] → fnc_key pv d = fnc_tag t_PATH (joined_name d ++ [47])) ∧
    (d.basename = [46] → fnc_key pv d ++ [(t_PATH, 46)] = fnc_tag t_PATH (joined_name d)) := by
  constructor
  · intro hnd
    unfold fnc_key joined_name
    rw [fnc_base_key_dir hpv d hb hdir hnd, fnc_t_path_new hpv]
    cases h : d.dirname with
    | none => simp [fnc_dir_key, fnc_tag]
    | some p => simp [fnc_dir_key, fnc_tag]
  · intro hdot
    unfold fnc_key joined_name
    rw [fnc_base_key_dot hpv d hdir hdot, fnc_t_path_new hpv]
    cases h : d.dirname with
    | none => simp [fnc_dir_key, fnc_tag, hdot]
    | some p => simp [fnc_dir_key, fnc_tag, hdot]

/-- C9, the failing case: for protocol 29, the directory `a` and the directory `a/.`,
whose dirname is `a`: `f_name_cmp(a, a/.)` returns no negative value (it runs past the
terminators), and `f_name_cmp(a/., a)` returns 0: the two do not compare as different. -/
theorem f_name_cmp_dir_vs_its_dot :
    (¬ ∃ x, f_name_cmp 29 (some ex_dir_a) (some ex_dir_a_dot) = cmp_result.ret x ∧ x < 0) ∧
    f_name_cmp 29 (some ex_dir_a_dot) (some ex_dir_a) = cmp_result.ret 0 := by
  constructor
  · rintro ⟨x, hx, -⟩
    have : f_name_cmp 29 (some ex_dir_a) (some ex_dir_a_dot) = cmp_result.overread := by decide
    rw [this] at hx
    cases hx
  · decide

/-- C9 as amended: for `protocol_version >= 29`, a directory entry `d` with joined name `P`
compares strictly less than every active entry `e` whose dirname is `P` or begins with
`P` followed by "/", unless `e` is a directory named "." with dirname `P` and `d` is not
itself named "." (such an `e` stands for `d`). In particular `a` (dir), `a/b.txt` (file),
`a/c` (dir), `a/c/d.txt` (file) are strictly increasing in that order. -/
theorem f_name_cmp_dir_before_content (pv : Int) (hpv : 29 ≤ pv) (d e : file_struct)
    (hd : entry_ok d) (he : entry_ok e) (hp : ptr_ok d e) (hdir : S_ISDIR d.mode = true)
    (q : dir_ptr) (hq : e.dirname = some q)
    (hin : q.str = joined_name d ∨ (joined_name d ++ [47]) <+: q.str)
    (hnot : ¬ (q.str = joined_name d ∧ S_ISDIR e.mode = true ∧ e.basename = [46] ∧
      d.basename ≠ [46])) :
    (∃ x, f_name_cmp pv (some d) (some e) = cmp_result.ret x ∧ x < 0) ∧
    (∃ x y z, f_name_cmp 29 (some ex_dir_a) (some ex_file_a_b_txt) = cmp_result.ret x ∧ x < 0 ∧
      f_name_cmp 29 (some ex_file_a_b_txt) (some ex_dir_a_c) = cmp_result.ret y ∧ y < 0 ∧
      f_name_cmp 29 (some ex_dir_a_c) (some ex_file_a_c_d_txt) = cmp_result.ret z ∧ z < 0) := by
  refine ⟨?_, ⟨-98, -1, -100, by decide⟩⟩
  have hke : fnc_key pv e = fnc_tag t_PATH (q.str ++ [47]) ++ fnc_base_key (fnc_t_path pv) e := by
    unfold fnc_key
    rw [hq, fnc_t_path_new hpv]
    simp [fnc_dir_key, fnc_tag]
  obtain ⟨knd, kdot⟩ := fnc_key_dir hpv d hd.2.1 hdir
  by_cases hdot : d.basename = [46]
  · -- the key of `d` stops before its "."
    have hkd := kdot hdot
    have hq' : ∃ t, q.str = joined_name d ++ t := by
      rcases hin with h | ⟨t, h⟩
      · exact ⟨[], by simp [h]⟩
      · exact ⟨47 :: t, by rw [← h]; simp⟩
    obtain ⟨t, ht⟩ := hq'
    apply f_name_cmp_key_prefix pv d e hd he hp
      ((t_PATH, 46) :: (fnc_tag t_PATH (t ++ [47]) ++ fnc_base_key (fnc_t_path pv) e))
      (by simp)
    rw [hke, ht, List.append_assoc, fnc_tag_append, ← hkd]
    simp
  · have hkd := knd hdot
    rcases hin with h | ⟨t, h⟩
    · have hbe : fnc_base_key (fnc_t_path pv) e ≠ [] := by
        intro hnil
        have hd' := fnc_base_key_nil _ _ he.1 hnil
        rw [fnc_t_path_new hpv] at hd'
        apply hnot
        refine ⟨h, ?_, (basename_is_dot he.2.1).1 hd'.2, hdot⟩
        have := hd'.1
        unfold fnc_base_type at this
        split at this
        · assumption
        · cases this
      apply f_name_cmp_key_prefix pv d e hd he hp _ hbe
      rw [hke, h, hkd]
    · apply f_name_cmp_key_prefix pv d e hd he hp
        (fnc_tag t_PATH (t ++ [47]) ++ fnc_base_key (fnc_t_path pv) e) (by simp [fnc_tag])
      rw [hke, ← h, hkd, List.append_assoc, fnc_tag_append, List.append_assoc]

/-- A witness for C9 as amended: the directory `a` and the file `a/c/d.txt`. -/
theorem f_name_cmp_dir_before_content_witness :
    ∃ x, f_name_cmp 29 (some ex_dir_a) (some ex_file_a_c_d_txt) = cmp_result.ret x ∧ x < 0 :=
  (f_name_cmp_dir_before_content 29 (by decide) ex_dir_a ex_file_a_c_d_txt (by decide)
    (by decide) (by decide) (by decide) ⟨2, [97, 47, 99]⟩ rfl (by decide) (by decide)).1

/-- C10: for `protocol_version >= 29`, a directory entry whose basename is exactly "."
compares strictly less than every active entry with the same dirname whose basename is
not ".", and when its dirname is NULL (a root-level ".") strictly less than every active
entry that is not itself a root-level ".". -/
theorem f_name_cmp_dot_dir_first (pv : Int) (hpv : 29 ≤ pv) (d e : file_struct)
    (hd : entry_ok d) (he : entry_ok e) (hdir : S_ISDIR d.mode = true)
    (hdot : d.basename = [46]) :
    (d.dirname.map dir_ptr.str = e.dirname.map dir_ptr.str → e.basename ≠ [46] →
      ∃ x, f_name_cmp pv (some d) (some e) = cmp_result.ret x ∧ x < 0) ∧
    (d.dirname = none → ¬ (e.dirname = none ∧ e.basename = [46]) →
      ∃ x, f_name_cmp pv (some d) (some e) = cmp_result.ret x ∧ x < 0) := by
  have hbd := fnc_base_key_dot hpv d hdir hdot
  have hnd : e.basename ≠ [46] → fnc_base_key (fnc_t_path pv) e ≠ [] := by
    intro hne hnil
    have hd' := fnc_base_key_nil _ _ he.1 hnil
    exact hne ((basename_is_dot he.2.1).1 hd'.2)
  constructor
  · intro hsame hne
    apply f_name_cmp_key_prefix pv d e hd he (fun _ => hsame) _ (hnd hne)
    unfold fnc_key
    rw [hbd, hsame, List.append_nil]
  · intro hnone hroot
    have hp : ptr_ok d e := by
      intro h
      rw [hnone] at h ⊢
      cases hq : e.dirname with
      | none => rfl
      | some q => rw [hq] at h; simp at h
    have hkd : fnc_key pv d = [] := by
      unfold fnc_key; rw [hbd, hnone]; simp [fnc_dir_key]
    apply f_name_cmp_key_prefix pv d e hd he hp (fnc_key pv e) _ (by rw [hkd]; rfl)
    unfold fnc_key
    cases hq : e.dirname with
    | none =>
      have := hnd (fun h => hroot ⟨hq, h⟩)
      simpa [fnc_dir_key] using this
    | some q => simp [fnc_dir_key]

/-- A witness for C10: the root-level "." and the file `a/b.txt`, and the root-level "."
and the file `a` beside it. -/
theorem f_name_cmp_dot_dir_first_witness :
    (∃ x, f_name_cmp 29 (some ex_dir_dot) (some ex_file_a) = cmp_result.ret x ∧ x < 0) ∧
    (∃ x, f_name_cmp 29 (some ex_dir_dot) (some ex_file_a_b_txt) = cmp_result.ret x ∧ x < 0) :=
  ⟨(f_name_cmp_dot_dir_first 29 (by decide) ex_dir_dot ex_file_a (by decide) (by decide)
      (by decide) (by decide)).1 (by decide) (by decide),
   (f_name_cmp_dot_dir_first 29 (by decide) ex_dir_dot ex_file_a_b_txt (by decide) (by decide)
      (by decide) (by decide)).2 (by decide) (by decide)⟩

/-! ### `flist_find`: termination and result -/

@[simp] theorem outcome_bind_ok {α β : Type} (a : α) (k : α → outcome β) :
    (outcome.ok a >>= k) = k a := rfl

@[simp] theorem outcome_bind_bad {α β : Type} (w : fault) (k : α → outcome β) :
    (outcome.bad w >>= k) = outcome.bad w := rfl

@[simp] theorem outcome_pure {α : Type} (a : α) : (pure a : outcome α) = outcome.ok a := rfl

@[simp] theorem outcome_map_ok {α β : Type} (u : α → β) (a : α) :
    outcome.map u (outcome.ok a) = outcome.ok (u a) := rfl

@[simp] theorem outcome_map_bad {α β : Type} (u : α → β) (w : fault) :
    outcome.map u (outcome.bad w : outcome α) = outcome.bad w := rfl

theorem files_get_ok_iff (files : List file_struct) (i : Int) (g : file_struct) :
    files_get files i = outcome.ok g ↔ 0 ≤ i ∧ files.get? i.toNat = some g := by
  unfold files_get
  by_cases h : 0 ≤ i
  · simp only [h, if_true, true_and]
    cases hg : files.get? i.toNat with
    | none => simp
    | some x => simp
  · simp [h]

theorem files_get_in_range (files : List file_struct) (i : Int) (h0 : 0 ≤ i)
    (h1 : i < files.length) : ∃ g, files_get files i = outcome.ok g := by
  have : i.toNat < files.length := by omega
  refine ⟨files.get ⟨i.toNat, this⟩, ?_⟩
  rw [files_get_ok_iff]
  exact ⟨h0, List.get?_eq_get this⟩

theorem files_get_range {files : List file_struct} {i : Int} {g : file_struct}
    (h : files_get files i = outcome.ok g) : 0 ≤ i ∧ i < files.length := by
  rw [files_get_ok_iff] at h
  obtain ⟨h0, h1⟩ := h
  have := List.get?_eq_some.1 h1
  obtain ⟨hlt, -⟩ := this
  omega

theorem files_update_length (files : List file_struct) (k : Int) (u : file_struct → file_struct) :
    (files_update files k u).length = files.length := by
  unfold files_update
  split <;> simp

theorem files_get_update (files : List file_struct) (k i : Int)
    (u : file_struct → file_struct) :
    files_get (files_update files k u) i =
      if i = k then outcome.map u (files_get files k) else files_get files i := by
  unfold files_update files_get
  by_cases hk : 0 ≤ k
  · by_cases hi : 0 ≤ i
    · simp only [hk, hi, if_true]
      by_cases e : i = k
      · subst e
        simp only [if_true]
        rw [List.get?_eq_getElem?, List.get?_eq_getElem?, List.getElem?_modify]
        cases h : files[i.toNat]? <;> simp [outcome.map]
      · have : i.toNat ≠ k.toNat := by omega
        simp only [e, if_false]
        rw [List.get?_eq_getElem?, List.get?_eq_getElem?, List.getElem?_modify]
        simp [Ne.symm this]
    · have e : i ≠ k := by omega
      simp [hi, e]
  · by_cases e : i = k
    · subst e; simp [hk, outcome.map]
    · simp [hk, e]

theorem not_active_and_cleared {files : List file_struct} {i : Int}
    (ha : active_at files i) (hc : cleared_at files i) : False := by
  obtain ⟨g, hg, a⟩ := ha
  obtain ⟨g', hg', c⟩ := hc
  rw [hg] at hg'
  injection hg' with e
  subst e
  rw [a] at c
  cases c

theorem active_or_cleared {files : List file_struct} {i : Int} {g : file_struct}
    (h : files_get files i = outcome.ok g) : active_at files i ∨ cleared_at files i := by
  cases ha : F_IS_ACTIVE g
  · exact Or.inr ⟨g, h, ha⟩
  · exact Or.inl ⟨g, h, ha⟩

theorem region_hi_range {files : List file_struct} {lo hi : Int} (hr : region_ok files lo hi) :
    0 ≤ lo ∧ hi < files.length := by
  obtain ⟨g, hg, -⟩ := hr.lo_active
  obtain ⟨g', hg', -⟩ := hr.hi_active
  exact ⟨(files_get_range hg).1, (files_get_range hg').2⟩

theorem scan_up_spec (files : List file_struct) (lo hi : Int) (hr : region_ok files lo hi) :
    ∀ (fuel : Nat) (s : Int), lo < s → s < hi → cleared_at files s → (hi - s).toNat ≤ fuel →
      ∃ m, scan_up files fuel s = outcome.ok m ∧ s < m ∧ m ≤ hi ∧ active_at files m ∧
        ∀ x, s < x → x < m → cleared_at files x := by
  intro fuel
  induction fuel with
  | zero => intro s _ h2 _ h; omega
  | succ fuel ih =>
    intro s h1 h2 hc hf
    obtain ⟨e, he, hce⟩ := hc
    obtain ⟨d1, dskip, -, -⟩ := hr.cursors s e (by omega) he hce
    have hnext : s + e.depth ≤ hi := by
      by_contra hgt
      exact not_active_and_cleared hr.hi_active (dskip hi h2 (by omega))
    obtain ⟨hlo0, hhi⟩ := region_hi_range hr
    obtain ⟨g, hg⟩ := files_get_in_range files (s + e.depth) (by omega) (by omega)
    unfold scan_up
    simp only [he, hg, outcome_bind_ok]
    cases ha : F_IS_ACTIVE g
    · -- still cleared: go on
      have hlt : s + e.depth < hi := by
        rcases lt_or_eq_of_le hnext with h | h
        · exact h
        · exfalso
          rw [h] at hg
          exact not_active_and_cleared hr.hi_active ⟨g, hg, ha⟩
      obtain ⟨m, hm, hsm, hmh, hma, hbetween⟩ :=
        ih (s + e.depth) (by omega) hlt ⟨g, hg, ha⟩ (by omega)
      refine ⟨m, ?_, by omega, hmh, hma, ?_⟩
      · simpa using hm
      · intro x hx1 hx2
        rcases Int.lt_trichotomy x (s + e.depth) with h | h | h
        · exact dskip x hx1 h
        · rw [h]; exact ⟨g, hg, ha⟩
        · exact hbetween x h hx2
    · refine ⟨s + e.depth, by simp, by omega, hnext, ⟨g, hg, ha⟩, ?_⟩
      intro x hx1 hx2
      exact dskip x hx1 hx2

theorem scan_down_spec (files : List file_struct) (lo hi : Int) (hr : region_ok files lo hi) :
    ∀ (fuel : Nat) (s : Int), lo < s → s < hi → cleared_at files s → (s - lo).toNat ≤ fuel →
      ∃ m, scan_down files fuel s = outcome.ok m ∧ m < s ∧ lo ≤ m ∧ active_at files m ∧
        ∀ x, m < x → x < s → cleared_at files x := by
  intro fuel
  induction fuel with
  | zero => intro s h1 _ _ h; omega
  | succ fuel ih =>
    intro s h1 h2 hc hf
    obtain ⟨e, he, hce⟩ := hc
    obtain ⟨-, -, l1, lskip⟩ := hr.cursors s e (by omega) he hce
    have hnext : lo ≤ s - int_of_uint32 e.len32 := by
      by_contra hgt
      exact not_active_and_cleared hr.lo_active (lskip lo (by omega) h1)
    obtain ⟨hlo0, hhi⟩ := region_hi_range hr
    obtain ⟨g, hg⟩ := files_get_in_range files (s - int_of_uint32 e.len32) (by omega) (by omega)
    unfold scan_down
    simp only [he, hg, outcome_bind_ok]
    cases ha : F_IS_ACTIVE g
    · have hlt : lo < s - int_of_uint32 e.len32 := by
        rcases lt_or_eq_of_le hnext with h | h
        · exact h
        · exfalso
          rw [← h] at hg
          exact not_active_and_cleared hr.lo_active ⟨g, hg, ha⟩
      obtain ⟨m, hm, hsm, hmh, hma, hbetween⟩ :=
        ih (s - int_of_uint32 e.len32) hlt (by omega) ⟨g, hg, ha⟩ (by omega)
      refine ⟨m, ?_, by omega, hmh, hma, ?_⟩
      · simpa using hm
      · intro x hx1 hx2
        rcases Int.lt_trichotomy x (s - int_of_uint32 e.len32) with h | h | h
        · exact hbetween x hx1 h
        · rw [h]; exact ⟨g, hg, ha⟩
        · exact lskip x h hx2
    · refine ⟨s - int_of_uint32 e.len32, by simp, by omega, hnext, ⟨g, hg, ha⟩, ?_⟩
      intro x hx1 hx2
      exact lskip x hx1 hx2

theorem same_entry_refl (g : file_struct) : same_entry g g :=
  ⟨fun _ => rfl, fun _ => ⟨g.depth, g.len32, rfl⟩⟩

theorem same_entry_active {g g' : file_struct} (h : same_entry g g') :
    F_IS_ACTIVE g' = F_IS_ACTIVE g := by
  cases ha : F_IS_ACTIVE g
  · obtain ⟨d, l, e⟩ := h.2 ha
    rw [e]
    simpa [F_IS_ACTIVE] using ha
  · rw [h.1 ha, ha]

theorem same_entry_trans {g g' g'' : file_struct} (h1 : same_entry g g')
    (h2 : same_entry g' g'') : same_entry g g'' := by
  constructor
  · intro ha
    have e := h1.1 ha
    subst e
    exact h2.1 ha
  · intro ha
    obtain ⟨d, l, e⟩ := h1.2 ha
    have ha' : F_IS_ACTIVE g' = false := by rw [same_entry_active h1]; exact ha
    obtain ⟨d', l', e'⟩ := h2.2 ha'
    exact ⟨d', l', by rw [e', e]⟩

theorem same_files_refl (files : List file_struct) : same_files files files :=
  ⟨rfl, fun _ g h => ⟨g, h, same_entry_refl g⟩⟩

theorem same_files_trans {a b c : List file_struct} (h1 : same_files a b)
    (h2 : same_files b c) : same_files a c := by
  refine ⟨h2.1.trans h1.1, ?_⟩
  intro i g hg
  obtain ⟨g', hg', s1⟩ := h1.2 i g hg
  obtain ⟨g'', hg'', s2⟩ := h2.2 i g' hg'
  exact ⟨g'', hg'', same_entry_trans s1 s2⟩

theorem same_files_get {a b : List file_struct} (h : same_files a b) {i : Int}
    {g' : file_struct} (hg' : files_get b i = outcome.ok g') :
    ∃ g, files_get a i = outcome.ok g ∧ same_entry g g' := by
  obtain ⟨r0, r1⟩ := files_get_range hg'
  rw [h.1] at r1
  obtain ⟨g, hg⟩ := files_get_in_range a i r0 r1
  obtain ⟨g2, hg2, s⟩ := h.2 i g hg
  rw [hg'] at hg2
  injection hg2 with e
  subst e
  exact ⟨g, hg, s⟩

theorem same_files_active {a b : List file_struct} (h : same_files a b) (i : Int) :
    active_at b i ↔ active_at a i := by
  constructor
  · rintro ⟨g', hg', ha⟩
    obtain ⟨g, hg, s⟩ := same_files_get h hg'
    exact ⟨g, hg, by rw [← same_entry_active s]; exact ha⟩
  · rintro ⟨g, hg, ha⟩
    obtain ⟨g', hg', s⟩ := h.2 i g hg
    exact ⟨g', hg', by rw [same_entry_active s]; exact ha⟩

theorem same_files_cleared {a b : List file_struct} (h : same_files a b) (i : Int) :
    cleared_at b i ↔ cleared_at a i := by
  constructor
  · rintro ⟨g', hg', ha⟩
    obtain ⟨g, hg, s⟩ := same_files_get h hg'
    exact ⟨g, hg, by rw [← same_entry_active s]; exact ha⟩
  · rintro ⟨g, hg, ha⟩
    obtain ⟨g', hg', s⟩ := h.2 i g hg
    exact ⟨g', hg', by rw [same_entry_active s]; exact ha⟩

/-- An active entry is the same in both arrays. -/
theorem same_files_active_get {a b : List file_struct} (h : same_files a b) {i : Int}
    {g : file_struct} (hg : files_get b i = outcome.ok g) (ha : F_IS_ACTIVE g = true) :
    files_get a i = outcome.ok g := by
  obtain ⟨g0, hg0, s⟩ := same_files_get h hg
  have : F_IS_ACTIVE g0 = true := by rw [← same_entry_active s]; exact ha
  rw [← s.1 this] at hg0
  exact hg0

/-- Writing new distances into a cleared entry gives the same array up to distances. -/
theorem same_files_update (files : List file_struct) (k : Int) (u : file_struct → file_struct)
    (hc : cleared_at files k) (hu : ∀ e, ∃ d l, u e = { e with depth := d, len32 := l }) :
    same_files files (files_update files k u) := by
  refine ⟨files_update_length files k u, ?_⟩
  intro i g hg
  rw [files_get_update]
  by_cases e : i = k
  · subst e
    obtain ⟨g0, hg0, hc0⟩ := hc
    rw [hg] at hg0
    injection hg0 with e0
    subst e0
    simp only [if_true, hg, outcome_map_ok]
    refine ⟨u g, rfl, ?_, fun _ => hu g⟩
    intro ha
    rw [ha] at hc0
    cases hc0
  · simp only [e, if_false]
    exact ⟨g, hg, same_entry_refl g⟩

theorem int_of_uint32_of_int (x : Int) (h0 : 0 ≤ x) (h1 : x < 2 ^ 31) :
    int_of_uint32 (uint32_of_int x) = x := by
  unfold int_of_uint32 uint32_of_int
  have e1 : x % 2 ^ 32 = x := Int.emod_eq_of_lt h0 (by omega)
  rw [e1]
  have e2 : x.toNat % 2 ^ 32 = x.toNat := Nat.mod_eq_of_lt (by omega)
  rw [e2]
  have : x.toNat < 2 ^ 31 := by omega
  simp only [this, if_true]
  omega

theorem cursor_ok_same_files {files files' : List file_struct} (h : same_files files files')
    {k : Int} {e : file_struct} (hc : cursor_ok files k e) : cursor_ok files' k e := by
  obtain ⟨d, ds, l, ls⟩ := hc
  exact ⟨d, fun m h1 h2 => (same_files_cleared h m).2 (ds m h1 h2), l,
    fun m h1 h2 => (same_files_cleared h m).2 (ls m h1 h2)⟩

/-- A region stays in order when the distances of one cleared entry inside it are
replaced by distances that skip cleared entries only. -/
theorem region_ok_update (files : List file_struct) (lo hi k : Int)
    (u : file_struct → file_struct) (hr : region_ok files lo hi) (hc : cleared_at files k)
    (hu : ∀ e, ∃ d l, u e = { e with depth := d, len32 := l })
    (hk : ∀ e, files_get files k = outcome.ok e → cursor_ok files k (u e)) :
    region_ok (files_update files k u) lo hi := by
  have hs := same_files_update files k u hc hu
  refine ⟨hr.lo_le, (same_files_active hs lo).2 hr.lo_active,
    (same_files_active hs hi).2 hr.hi_active, ?_⟩
  intro x e' hlx hx hcl
  rw [files_get_update] at hx
  by_cases e : x = k
  · subst e
    simp only [if_true] at hx
    obtain ⟨g0, hg0, -⟩ := hc
    rw [hg0, outcome_map_ok] at hx
    injection hx with hx
    subst hx
    exact cursor_ok_same_files hs (hk g0 hg0)
  · simp only [e, if_false] at hx
    exact cursor_ok_same_files hs (hr.cursors x e' hlx hx hcl)

theorem find_mid_up_spec (files : List file_struct) (lo hi mid : Int)
    (hr : region_ok files lo hi) (h1 : lo < mid) (h2 : mid < hi) (hc : cleared_at files mid) :
    ∃ m files', find_mid_up files mid = outcome.ok (m, files') ∧ mid < m ∧ m ≤ hi ∧
      active_at files m ∧ (∀ x, mid < x → x < m → cleared_at files x) ∧
      same_files files files' ∧ region_ok files' lo hi := by
  obtain ⟨e, he, hce⟩ := hc
  obtain ⟨d1, dskip, l1, lskip⟩ := hr.cursors mid e (by omega) he hce
  have hnext : mid + e.depth ≤ hi := by
    by_contra hgt
    exact not_active_and_cleared hr.hi_active (dskip hi h2 (by omega))
  obtain ⟨hlo0, hhi⟩ := region_hi_range hr
  obtain ⟨g, hg⟩ := files_get_in_range files (mid + e.depth) (by omega) (by omega)
  unfold find_mid_up
  simp only [he, hg, outcome_bind_ok]
  cases ha : F_IS_ACTIVE g
  · have hlt : mid + e.depth < hi := by
      rcases lt_or_eq_of_le hnext with h | h
      · exact h
      · exfalso
        rw [h] at hg
        exact not_active_and_cleared hr.hi_active ⟨g, hg, ha⟩
    obtain ⟨m, hm, hsm, hmh, hma, hbetween⟩ :=
      scan_up_spec files lo hi hr files.length (mid + e.depth) (by omega) hlt ⟨g, hg, ha⟩
        (by omega)
    have hall : ∀ x, mid < x → x < m → cleared_at files x := by
      intro x hx1 hx2
      rcases Int.lt_trichotomy x (mid + e.depth) with h | h | h
      · exact dskip x hx1 h
      · rw [h]; exact ⟨g, hg, ha⟩
      · exact hbetween x h hx2
    have hu : ∀ e : file_struct, ∃ d l,
        ({ e with depth := m - mid } : file_struct) = { e with depth := d, len32 := l } :=
      fun e => ⟨m - mid, e.len32, rfl⟩
    refine ⟨m, files_update files mid fun e => { e with depth := m - mid }, ?_, by omega,
      hmh, hma, hall, same_files_update files mid _ ⟨e, he, hce⟩ hu, ?_⟩
    · simp [hm]
    · apply region_ok_update files lo hi mid _ hr ⟨e, he, hce⟩ hu
      intro e0 he0
      rw [he] at he0
      injection he0 with he0
      subst he0
      refine ⟨by simp only; omega, ?_, l1, lskip⟩
      intro x hx1 hx2
      exact hall x hx1 (by simp only at hx2; omega)
  · refine ⟨mid + e.depth, files, by simp, by omega, hnext, ⟨g, hg, ha⟩, dskip,
      same_files_refl files, hr⟩

theorem find_high_spec (files : List file_struct) (lo hi mid : Int)
    (hlen : (files.length : Int) < 2 ^ 31)
    (hr : region_ok files lo hi) (h1 : lo < mid) (h2 : mid < hi) (hc : cleared_at files mid) :
    ∃ m files', find_high files mid = outcome.ok (m, files') ∧ m < mid ∧ lo ≤ m ∧
      active_at files m ∧ (∀ x, m < x → x < mid → cleared_at files x) ∧
      same_files files files' ∧ region_ok files' lo hi := by
  obtain ⟨e, he, hce⟩ := hc
  obtain ⟨d1, dskip, l1, lskip⟩ := hr.cursors mid e (by omega) he hce
  have hnext : lo ≤ mid - int_of_uint32 e.len32 := by
    by_contra hgt
    exact not_active_and_cleared hr.lo_active (lskip lo (by omega) h1)
  obtain ⟨hlo0, hhi⟩ := region_hi_range hr
  obtain ⟨g, hg⟩ := files_get_in_range files (mid - int_of_uint32 e.len32) (by omega) (by omega)
  unfold find_high
  simp only [he, hg, outcome_bind_ok]
  cases ha : F_IS_ACTIVE g
  · have hlt : lo < mid - int_of_uint32 e.len32 := by
      rcases lt_or_eq_of_le hnext with h | h
      · exact h
      · exfalso
        rw [← h] at hg
        exact not_active_and_cleared hr.lo_active ⟨g, hg, ha⟩
    obtain ⟨m, hm, hsm, hmh, hma, hbetween⟩ :=
      scan_down_spec files lo hi hr files.length (mid - int_of_uint32 e.len32) hlt (by omega)
        ⟨g, hg, ha⟩ (by omega)
    have hall : ∀ x, m < x → x < mid → cleared_at files x := by
      intro x hx1 hx2
      rcases Int.lt_trichotomy x (mid - int_of_uint32 e.len32) with h | h | h
      · exact hbetween x hx1 h
      · rw [h]; exact ⟨g, hg, ha⟩
      · exact lskip x h hx2
    have hu : ∀ e : file_struct, ∃ d l,
        ({ e with len32 := uint32_of_int (mid - m) } : file_struct) =
          { e with depth := d, len32 := l } :=
      fun e => ⟨e.depth, uint32_of_int (mid - m), rfl⟩
    refine ⟨m, files_update files mid fun e => { e with len32 := uint32_of_int (mid - m) }, ?_,
      by omega, hmh, hma, hall, same_files_update files mid _ ⟨e, he, hce⟩ hu, ?_⟩
    · simp [hm]
    · apply region_ok_update files lo hi mid _ hr ⟨e, he, hce⟩ hu
      intro e0 he0
      rw [he] at he0
      injection he0 with he0
      subst he0
      have hrt : int_of_uint32 (uint32_of_int (mid - m)) = mid - m :=
        int_of_uint32_of_int _ (by omega) (by omega)
      refine ⟨d1, dskip, by simp only; rw [hrt]; omega, ?_⟩
      intro x hx1 hx2
      simp only [hrt] at hx1
      exact hall x (by omega) hx2
  · refine ⟨mid - int_of_uint32 e.len32, files, by simp, by omega, hnext, ⟨g, hg, ha⟩, lskip,
      same_files_refl files, hr⟩

/-- The comparison at an active entry `p`, reached from `mid` over cleared entries: either
the search ends with the right value, or the window shrinks. -/
theorem find_compare_spec (pv : Int) (f : file_struct) (files0 files : List file_struct)
    (lo hi : Int) (cmpf : file_struct → Int) (ho : find_order pv f files0 lo hi cmpf)
    (hs : same_files files0 files) (low high mid p : Int)
    (hw : find_window files0 lo hi cmpf low high)
    (h1 : low ≤ mid) (h2 : mid ≤ p) (h3 : p ≤ high)
    (hp : active_at files p) (hcl : ∀ x, mid ≤ x → x < p → cleared_at files x) :
    ∃ res, find_compare pv files f low high mid p = outcome.ok res ∧
      match res with
      | Sum.inl r => find_result_ok pv f files0 lo hi cmpf r
      | Sum.inr (low', high') => find_window files0 lo hi cmpf low' high' ∧
          (high' - low' + 1).toNat < (high - low + 1).toNat := by
  obtain ⟨g, hg, ha⟩ := hp
  have hg0 : files_get files0 p = outcome.ok g := same_files_active_get hs hg ha
  have hlo := hw.lo_le
  have hhi := hw.le_hi
  have hd := ho.defined p g (by omega) (by omega) hg0 ha
  -- an active entry of the original array is not cleared in the current one
  have hact : ∀ k gk, files_get files0 k = outcome.ok gk → F_IS_ACTIVE gk = true →
      ¬ cleared_at files k := by
    intro k gk hk hak hc
    exact not_active_and_cleared ((same_files_active hs k).2 ⟨gk, hk, hak⟩) hc
  unfold find_compare
  simp only [hg, hd, outcome_bind_ok]
  by_cases hz : cmpf g = 0
  · simp only [hz, if_true]
    by_cases hm : pv < 29 ∧ S_ISDIR g.mode ≠ S_ISDIR f.mode
    · refine ⟨Sum.inl (-1), by simp [hm], ?_⟩
      left
      refine ⟨rfl, ?_⟩
      intro k gk hk1 hk2 hgk hak ⟨hzk, hdir⟩
      rcases Int.lt_trichotomy k p with h | h | h
      · have := ho.mono k p gk g hk1 h (by omega) hgk hg0 hak ha (by omega)
        omega
      · subst h
        rw [hg0] at hgk
        injection hgk with e
        subst e
        exact hm.2 (hdir hm.1)
      · have := ho.mono p k g gk (by omega) h hk2 hg0 hgk ha hak (by omega)
        omega
    · refine ⟨Sum.inl p, by simp [hm], ?_⟩
      right
      refine ⟨by omega, by omega, g, hg0, ha, hz, ?_⟩
      intro hpv
      by_contra hne
      exact hm ⟨hpv, hne⟩
  · by_cases hneg : cmpf g < 0
    · refine ⟨Sum.inr (p + 1, high), by simp [hz, hneg], ?_, by omega⟩
      refine ⟨by omega, hhi, ?_, hw.above⟩
      intro k gk hk1 hk2 hgk hak
      rcases lt_or_eq_of_le (show k ≤ p by omega) with h | h
      · exact ho.mono k p gk g hk1 h (by omega) hgk hg0 hak ha (by omega)
      · subst h
        rw [hg0] at hgk
        injection hgk with e
        subst e
        exact hneg
    · refine ⟨Sum.inr (low, mid - 1), by simp [hz, hneg], ?_, by omega⟩
      refine ⟨hlo, by omega, hw.below, ?_⟩
      intro k gk hk1 hk2 hgk hak
      rcases Int.lt_trichotomy k p with h | h | h
      · exact absurd (hcl k (by omega) h) (hact k gk hgk hak)
      · subst h
        rw [hg0] at hgk
        injection hgk with e
        subst e
        omega
      · by_contra hle
        have := ho.mono p k g gk (by omega) h hk2 hg0 hgk ha hak (by omega)
        omega

/-- The loop of `flist_find` ends, with the right value, and leaves the array as it was up
to the distances of cleared entries. -/
theorem flist_find_loop_spec (pv : Int) (f : file_struct) (files0 : List file_struct)
    (lo hi : Int) (cmpf : file_struct → Int) (hlen : (files0.length : Int) < 2 ^ 31)
    (ho : find_order pv f files0 lo hi cmpf) :
    ∀ (fuel : Nat) (files : List file_struct) (low high : Int),
      same_files files0 files → region_ok files lo hi →
      find_window files0 lo hi cmpf low high → (high - low + 1).toNat < fuel →
      ∃ r files', flist_find_loop pv f fuel files low high = outcome.ok (r, files') ∧
        same_files files0 files' ∧ region_ok files' lo hi ∧
        find_result_ok pv f files0 lo hi cmpf r := by
  intro fuel
  induction fuel with
  | zero => intro files low high _ _ _ h; omega
  | succ fuel ih =>
    intro files low high hs hr hw hfuel
    obtain ⟨hlo0, hhi⟩ := region_hi_range hr
    have hlo := hw.lo_le
    have hhi' := hw.le_hi
    rw [flist_find_loop]
    by_cases hlh : low ≤ high
    · simp only [hlh, if_true]
      have hmid_eq : Int.tdiv (low + high) 2 = (low + high) / 2 :=
        Int.tdiv_eq_ediv (by omega) (by omega)
      rw [hmid_eq]
      generalize hmid : (low + high) / 2 = mid
      have hm1 : low ≤ mid := by omega
      have hm2 : mid ≤ high := by omega
      obtain ⟨fmid, hfmid⟩ := files_get_in_range files mid (by omega) (by omega)
      simp only [hfmid, outcome_bind_ok]
      cases ha : F_IS_ACTIVE fmid
      · -- a cleared entry in the middle
        simp only [Bool.false_eq_true, if_false]
        have hc : cleared_at files mid := ⟨fmid, hfmid, ha⟩
        have hlm : lo < mid := by
          rcases lt_or_eq_of_le (show lo ≤ mid by omega) with h | h
          · exact h
          · exfalso; rw [← h] at hc; exact not_active_and_cleared hr.lo_active hc
        have hmh : mid < hi := by
          rcases lt_or_eq_of_le (show mid ≤ hi by omega) with h | h
          · exact h
          · exfalso; rw [h] at hc; exact not_active_and_cleared hr.hi_active hc
        obtain ⟨m, files1, hfm, hm3, hm4, hma, hbetween, hs1, hr1⟩ :=
          find_mid_up_spec files lo hi mid hr hlm hmh hc
        simp only [hfm, outcome_bind_ok]
        have hs01 := same_files_trans hs hs1
        by_cases hgt : m > high
        · simp only [hgt, if_true]
          have hlen1 : (files1.length : Int) < 2 ^ 31 := by rw [hs01.1]; exact hlen
          obtain ⟨h, files2, hfh, hh1, hh2, hha, hbelow, hs2, hr2⟩ :=
            find_high_spec files1 lo hi mid hlen1 hr1 hlm hmh ((same_files_cleared hs1 mid).2 hc)
          simp only [hfh, outcome_bind_ok]
          have hs02 := same_files_trans hs01 hs2
          have hw2 : find_window files0 lo hi cmpf low h := by
            refine ⟨hlo, by omega, hw.below, ?_⟩
            intro k gk hk1 hk2 hgk hak
            by_cases hkh : k ≤ high
            · exfalso
              have hkc : cleared_at files k := by
                rcases Int.lt_trichotomy k mid with h' | h' | h'
                · exact (same_files_cleared hs1 k).1 (hbelow k hk1 h')
                · rw [h']; exact hc
                · exact hbetween k h' (by omega)
              exact not_active_and_cleared ((same_files_active hs k).2 ⟨gk, hgk, hak⟩) hkc
            · exact hw.above k gk (by omega) hk2 hgk hak
          exact ih files2 low h hs02 hr2 hw2 (by omega)
        · simp only [hgt, if_false]
          obtain ⟨res, hres, hspec⟩ := find_compare_spec pv f files0 files1 lo hi cmpf ho hs01
            low high mid m hw hm1 (by omega) (by omega) ((same_files_active hs1 m).2 hma)
            (by
              intro x hx1 hx2
              rcases lt_or_eq_of_le hx1 with h' | h'
              · exact (same_files_cleared hs1 x).2 (hbetween x h' hx2)
              · rw [← h']; exact (same_files_cleared hs1 mid).2 hc)
          simp only [hres, outcome_bind_ok]
          match res, hspec with
          | Sum.inl r, hspec => exact ⟨r, files1, rfl, hs01, hr1, hspec⟩
          | Sum.inr (low', high'), hspec =>
            exact ih files1 low' high' hs01 hr1 hspec.1 (by omega)
      · simp only [if_true]
        obtain ⟨res, hres, hspec⟩ := find_compare_spec pv f files0 files lo hi cmpf ho hs
          low high mid mid hw hm1 (le_refl _) hm2 ⟨fmid, hfmid, ha⟩
          (by intro x hx1 hx2; omega)
        simp only [hres, outcome_bind_ok]
        match res, hspec with
        | Sum.inl r, hspec => exact ⟨r, files, rfl, hs, hr, hspec⟩
        | Sum.inr (low', high'), hspec =>
          exact ih files low' high' hs hr hspec.1 (by omega)
    · simp only [hlh, if_false]
      refine ⟨-1, files, rfl, hs, hr, Or.inl ⟨rfl, ?_⟩⟩
      intro k gk hk1 hk2 hgk hak ⟨hz, _⟩
      by_cases hkl : k < low
      · have := hw.below k gk hk1 hkl hgk hak
        omega
      · have := hw.above k gk (by omega) hk2 hgk hak
        omega

/-- The function `flist_find` on a region in order: it returns, with the right value, and
changes nothing but the distances of cleared entries. -/
theorem flist_find_spec (pv : Int) (f : file_struct) (flist : file_list)
    (cmpf : file_struct → Int) (hlen : (flist.files.length : Int) < 2 ^ 31)
    (hr : region_ok flist.files flist.low flist.high)
    (ho : find_order pv f flist.files flist.low flist.high cmpf) :
    ∃ r files', flist_find pv flist f = outcome.ok (r, { flist with files := files' }) ∧
      same_files flist.files files' ∧ region_ok files' flist.low flist.high ∧
      find_result_ok pv f flist.files flist.low flist.high cmpf r := by
  obtain ⟨hlo0, hhi⟩ := region_hi_range hr
  have hw : find_window flist.files flist.low flist.high cmpf flist.low flist.high :=
    ⟨le_refl _, le_refl _, fun k g h1 h2 => by omega, fun k g h1 h2 => by omega⟩
  obtain ⟨r, files', hrun, hs, hr', hres⟩ :=
    flist_find_loop_spec pv f flist.files flist.low flist.high cmpf hlen ho
      (flist.files.length + 1) flist.files flist.low flist.high (same_files_refl _) hr hw
      (by omega)
  refine ⟨r, files', ?_, hs, hr', hres⟩
  unfold flist_find
  simp [hrun]

/-! ## `clean_flist` keeps its invariant -/

theorem flags_only_refl (s : file_struct) : flags_only s s := rfl

theorem flags_only_key (pv : Int) {g s : file_struct} (h : flags_only g s) :
    fnc_key pv g = fnc_key pv s := by
  rw [h]; rfl

theorem flags_only_entry_ok {g s : file_struct} (h : flags_only g s) (hs : entry_ok s) :
    entry_ok g := by
  rw [h]; exact hs

theorem flags_only_ptr_ok {g s g' s' : file_struct} (h : flags_only g s)
    (h' : flags_only g' s') (hp : ptr_ok s s') : ptr_ok g g' := by
  rw [h, h']; exact hp

theorem flags_only_overread (pv : Int) {g s g' s' : file_struct} (h : flags_only g s)
    (h' : flags_only g' s') (hp : ¬ fnc_overread pv s s') : ¬ fnc_overread pv g g' := by
  rw [h, h']; exact hp

theorem flags_only_isdir {g s : file_struct} (h : flags_only g s) :
    S_ISDIR g.mode = S_ISDIR s.mode := by
  rw [h]

theorem files_get_mem {S : List file_struct} {k : Int} {s : file_struct}
    (h : files_get S k = outcome.ok s) : s ∈ S := by
  rw [files_get_ok_iff] at h
  exact List.get?_mem h.2

/-- The comparator on two entries that are entries of `S` up to their flags. -/
theorem run_cmp_names (pv : Int) (S : List file_struct) (hn : names_ok pv S)
    {g s g' s' : file_struct} (h : flags_only g s) (h' : flags_only g' s')
    (hs : s ∈ S) (hs' : s' ∈ S) :
    run_cmp pv (some g) (some g') = outcome.ok (fnc_lex (fnc_key pv s) (fnc_key pv s')) := by
  unfold run_cmp
  rw [f_name_cmp_eq pv g g' (flags_only_entry_ok h (hn.ok s hs))
    (flags_only_entry_ok h' (hn.ok s' hs')) (flags_only_ptr_ok h h' (hn.ptr s hs s' hs')),
    if_neg (flags_only_overread pv h h' (hn.defined s hs s' hs')),
    flags_only_key pv h, flags_only_key pv h']

/-- Strict steps of the key order compose with weak ones. -/
theorem fnc_lex_lt_of_lt_of_le (k1 k2 k3 : List (fnc_type × Nat)) (h1 : key_ok k1)
    (h2 : key_ok k2) (h3 : key_ok k3) (h12 : fnc_lex k1 k2 < 0) (h23 : fnc_lex k2 k3 ≤ 0) :
    fnc_lex k1 k3 < 0 := by
  have hle := fnc_lex_trans k1 k2 k3 h1 h2 h3 (by omega) h23
  rcases lt_or_eq_of_le hle with h | h
  · exact h
  · exfalso
    have e := (fnc_lex_eq_zero k1 k3 h1 h3).1 h
    subst e
    have := fnc_lex_antisymm k1 k2
    omega

theorem fnc_lex_lt_of_le_of_lt (k1 k2 k3 : List (fnc_type × Nat)) (h1 : key_ok k1)
    (h2 : key_ok k2) (h3 : key_ok k3) (h12 : fnc_lex k1 k2 ≤ 0) (h23 : fnc_lex k2 k3 < 0) :
    fnc_lex k1 k3 < 0 := by
  have hle := fnc_lex_trans k1 k2 k3 h1 h2 h3 h12 (by omega)
  rcases lt_or_eq_of_le hle with h | h
  · exact h
  · exfalso
    have e := (fnc_lex_eq_zero k1 k3 h1 h3).1 h
    subst e
    have := fnc_lex_antisymm k1 k2
    omega

theorem merge_flags_active (d e : file_struct) :
    F_IS_ACTIVE (merge_flags d e) = F_IS_ACTIVE e := rfl

theorem clear_file_inactive (e : file_struct) : F_IS_ACTIVE (clear_file e) = false := rfl

theorem flags_only_merge {g s : file_struct} (d : file_struct) (h : flags_only g s) :
    flags_only (merge_flags d g) s := by
  unfold flags_only merge_flags at *
  rw [h]

/-- The array after lines 1610-1613: the flags of entry `a` merged, entry `d` cleared. -/
theorem files_get_merge_clear (files : List file_struct) (a d k : Int) (dr : file_struct)
    (had : a ≠ d) :
    files_get (files_update (files_update files a (merge_flags dr)) d clear_file) k =
      if k = d then outcome.map clear_file (files_get files d)
      else if k = a then outcome.map (merge_flags dr) (files_get files a)
      else files_get files k := by
  rw [files_get_update]
  by_cases hk : k = d
  · subst hk
    simp only [if_true]
    rw [files_get_update]
    simp [Ne.symm had]
  · simp only [hk, if_false]
    rw [files_get_update]

/-- What is active after lines 1610-1613. -/
theorem active_merge_clear (files : List file_struct) (a d k : Int) (dr : file_struct)
    (had : a ≠ d) :
    active_at (files_update (files_update files a (merge_flags dr)) d clear_file) k ↔
      active_at files k ∧ k ≠ d := by
  unfold active_at
  rw [files_get_merge_clear files a d k dr had]
  by_cases hk : k = d
  · subst hk
    simp only [if_true, ne_eq, not_true_eq_false, and_false, iff_false]
    rintro ⟨g, hg, ha⟩
    cases h : files_get files k with
    | ok e => rw [h, outcome_map_ok] at hg; injection hg with hg; subst hg; cases ha
    | bad w => rw [h] at hg; cases hg
  · simp only [hk, if_false, ne_eq, not_false_eq_true, and_true]
    by_cases hka : k = a
    · subst hka
      simp only [if_true]
      cases h : files_get files k with
      | ok e =>
        simp only [outcome_map_ok]
        constructor
        · rintro ⟨g, hg, ha⟩
          injection hg with hg; subst hg
          exact ⟨e, rfl, ha⟩
        · rintro ⟨g, hg, ha⟩
          injection hg with hg; subst hg
          exact ⟨merge_flags dr e, rfl, ha⟩
      | bad w => simp
    · simp only [hka, if_false]

/-- What is cleared after lines 1610-1613. -/
theorem cleared_merge_clear (files : List file_struct) (a d k : Int) (dr : file_struct)
    (had : a ≠ d) (hd : ∃ e, files_get files d = outcome.ok e) :
    cleared_at (files_update (files_update files a (merge_flags dr)) d clear_file) k ↔
      cleared_at files k ∨ k = d := by
  unfold cleared_at
  rw [files_get_merge_clear files a d k dr had]
  by_cases hk : k = d
  · subst hk
    obtain ⟨e, he⟩ := hd
    simp only [if_true, he, or_true, iff_true, outcome_map_ok]
    exact ⟨clear_file e, rfl, rfl⟩
  · simp only [hk, if_false, or_false]
    by_cases hka : k = a
    · subst hka
      simp only [if_true]
      cases h : files_get files k with
      | ok e =>
        simp only [outcome_map_ok]
        constructor
        · rintro ⟨g, hg, ha⟩
          injection hg with hg; subst hg
          exact ⟨e, rfl, ha⟩
        · rintro ⟨g, hg, ha⟩
          injection hg with hg; subst hg
          exact ⟨merge_flags dr e, rfl, ha⟩
      | bad w => simp
    · simp only [hka, if_false]

theorem cursor_ok_clear_file (files : List file_struct) (k : Int) (e : file_struct) :
    cursor_ok files k (clear_file e) := by
  have hl : int_of_uint32 (clear_file e).len32 = 1 := by
    show int_of_uint32 1 = 1
    decide
  refine ⟨by simp [clear_file], ?_, by rw [hl], ?_⟩
  · intro m h1 h2
    simp only [clear_file] at h2
    omega
  · intro m h1 h2
    rw [hl] at h1
    omega

/-- The distances of cleared entries stay in order through lines 1610-1613. -/
theorem cursors_merge_clear (files : List file_struct) (a d lo : Int) (dr : file_struct)
    (had : a ≠ d) (hd : ∃ e, files_get files d = outcome.ok e)
    (hc : ∀ k e, lo ≤ k → files_get files k = outcome.ok e → F_IS_ACTIVE e = false →
      cursor_ok files k e) :
    ∀ k e, lo ≤ k →
      files_get (files_update (files_update files a (merge_flags dr)) d clear_file) k =
        outcome.ok e → F_IS_ACTIVE e = false →
      cursor_ok (files_update (files_update files a (merge_flags dr)) d clear_file) k e := by
  intro k e hlk hk hcl
  have mono : ∀ m, cleared_at files m →
      cleared_at (files_update (files_update files a (merge_flags dr)) d clear_file) m :=
    fun m h => (cleared_merge_clear files a d m dr had hd).2 (Or.inl h)
  rw [files_get_merge_clear files a d k dr had] at hk
  by_cases hkd : k = d
  · subst hkd
    obtain ⟨e0, he0⟩ := hd
    simp only [if_true, he0, outcome_map_ok] at hk
    injection hk with hk
    subst hk
    exact cursor_ok_clear_file _ _ _
  · simp only [hkd, if_false] at hk
    have hold : ∃ e0, files_get files k = outcome.ok e0 ∧ F_IS_ACTIVE e0 = false ∧
        e0.depth = e.depth ∧ e0.len32 = e.len32 := by
      by_cases hka : k = a
      · subst hka
        simp only [if_true] at hk
        cases h : files_get files k with
        | ok e0 =>
          rw [h, outcome_map_ok] at hk
          injection hk with hk
          subst hk
          exact ⟨e0, rfl, hcl, rfl, rfl⟩
        | bad w => rw [h] at hk; cases hk
      · simp only [hka, if_false] at hk
        exact ⟨e, hk, hcl, rfl, rfl⟩
    obtain ⟨e0, h0, hc0, hd0, hl0⟩ := hold
    obtain ⟨d1, ds, l1, ls⟩ := hc k e0 hlk h0 hc0
    rw [hd0] at d1 ds
    rw [hl0] at l1 ls
    exact ⟨d1, fun m h1 h2 => mono m (ds m h1 h2), l1, fun m h1 h2 => mono m (ls m h1 h2)⟩

theorem files_get_bad {files : List file_struct} {k : Int} {w : fault}
    (h : files_get files k = outcome.bad w) : w = fault.out_of_bounds := by
  unfold files_get at h
  split at h
  · split at h
    · cases h
    · injection h with h; exact h.symm
  · injection h with h; exact h.symm

theorem names_active {pv : Int} {S : List file_struct} (hn : names_ok pv S) {k : Int}
    {s : file_struct} (h : files_get S k = outcome.ok s) : F_IS_ACTIVE s = true :=
  entry_ok_active (hn.ok s (files_get_mem h))

/-- The next entry is still the entry of the sorted array, and active. -/
theorem clean_inv_next {pv : Int} {S files : List file_struct} {lo p i : Int}
    (hn : names_ok pv S) (h : clean_inv pv S files lo p i) (hi : i + 1 < files.length) :
    ∃ s, files_get files (i + 1) = outcome.ok s ∧ files_get S (i + 1) = outcome.ok s ∧
      F_IS_ACTIVE s = true := by
  have hp0 := (region_hi_range h.region).1
  have := h.region.lo_le
  have := h.p_le
  obtain ⟨s, hs⟩ := files_get_in_range files (i + 1) (by omega) hi
  have hS : files_get S (i + 1) = outcome.ok s := by rw [← h.rest (i + 1) (by omega)]; exact hs
  exact ⟨s, hs, hS, names_active hn hS⟩

/-- The new entry is dropped: entry `i + 1` is cleared and the kept entry `a` takes its
flags (lines 1600-1613 with `keep = j`). -/
theorem clean_inv_drop_new {pv : Int} {S files : List file_struct} {lo p i a : Int}
    (hn : names_ok pv S) (h : clean_inv pv S files lo p i) (hi : i + 1 < files.length)
    (ha : a ≤ p) (dr : file_struct) :
    clean_inv pv S (files_update (files_update files a (merge_flags dr)) (i + 1) clear_file)
      lo p (i + 1) := by
  have hle := h.p_le
  have had : a ≠ i + 1 := by omega
  obtain ⟨s, hs, hS, hsa⟩ := clean_inv_next hn h hi
  have hd : ∃ e, files_get files (i + 1) = outcome.ok e := ⟨s, hs⟩
  have hact := fun k => active_merge_clear files a (i + 1) k dr had
  have hclr := fun k => cleared_merge_clear files a (i + 1) k dr had hd
  refine ⟨?_, ?_, ?_, ?_, by omega, ?_, ?_, ?_⟩
  · rw [files_update_length, files_update_length]; exact h.len
  · intro k g hk hg
    rw [files_get_merge_clear files a (i + 1) k dr had] at hk
    by_cases hkd : k = i + 1
    · subst hkd
      simp only [if_true, hs, outcome_map_ok] at hk
      injection hk with hk
      subst hk
      cases hg
    · simp only [hkd, if_false] at hk
      by_cases hka : k = a
      · subst hka
        simp only [if_true] at hk
        cases hf : files_get files k with
        | ok e =>
          rw [hf, outcome_map_ok] at hk
          injection hk with hk
          subst hk
          obtain ⟨s', hs', hfl⟩ := h.kept k e hf hg
          exact ⟨s', hs', flags_only_merge dr hfl⟩
        | bad w => rw [hf] at hk; cases hk
      · simp only [hka, if_false] at hk
        exact h.kept k g hk hg
  · intro k hk
    rw [files_get_merge_clear files a (i + 1) k dr had]
    have h1 : k ≠ i + 1 := by omega
    have h2 : k ≠ a := by omega
    simp only [h1, h2, if_false]
    exact h.rest k (by omega)
  · refine ⟨h.region.lo_le, ?_, ?_, ?_⟩
    · exact (hact lo).2 ⟨h.region.lo_active, by have := h.region.lo_le; omega⟩
    · exact (hact p).2 ⟨h.region.hi_active, by omega⟩
    · exact cursors_merge_clear files a (i + 1) lo dr had hd h.region.cursors
  · intro k h0 h1
    exact (hclr k).2 (Or.inl (h.below k h0 h1))
  · intro k h0 h1
    by_cases hk : k = i + 1
    · exact (hclr k).2 (Or.inr hk)
    · exact (hclr k).2 (Or.inl (h.above k h0 (by omega)))
  · intro k1 k2 s1 s2 h12 h2p a1 a2 hs1 hs2
    exact h.sorted k1 k2 s1 s2 h12 h2p ((hact k1).1 a1).1 ((hact k2).1 a2).1 hs1 hs2

/-- Nothing is dropped: the new entry becomes the last active one (line 1625). -/
theorem clean_inv_advance {pv : Int} {S files : List file_struct} {lo p i : Int}
    (hn : names_ok pv S) (h : clean_inv pv S files lo p i) (hi : i + 1 < files.length)
    (hord : ∀ k sk s, k ≤ p → active_at files k → files_get S k = outcome.ok sk →
      files_get S (i + 1) = outcome.ok s → fnc_lex (fnc_key pv sk) (fnc_key pv s) < 0) :
    clean_inv pv S files lo (i + 1) (i + 1) := by
  have hle := h.p_le
  have hlo := h.region.lo_le
  obtain ⟨s, hs, hS, hsa⟩ := clean_inv_next hn h hi
  refine ⟨h.len, h.kept, fun k hk => h.rest k (by omega), ?_, le_refl _, h.below,
    fun k h1 h2 => by omega, ?_⟩
  · exact ⟨by omega, h.region.lo_active, ⟨s, hs, hsa⟩, h.region.cursors⟩
  · intro k1 k2 s1 s2 h12 h2p a1 a2 hs1 hs2
    by_cases hk2 : k2 ≤ p
    · exact h.sorted k1 k2 s1 s2 h12 hk2 a1 a2 hs1 hs2
    · have hk2' : k2 = i + 1 := by
        by_contra hne
        exact not_active_and_cleared a2 (h.above k2 (by omega) (by omega))
      subst hk2'
      have hk1 : k1 ≤ p := by
        by_contra hgt
        exact not_active_and_cleared a1 (h.above k1 (by omega) (by omega))
      exact hord k1 s1 s2 hk1 a1 hs1 hs2

/-- The array may differ in the distances of cleared entries (after `flist_find`). -/
theorem clean_inv_same_files {pv : Int} {S files files' : List file_struct} {lo p i : Int}
    (hn : names_ok pv S) (h : clean_inv pv S files lo p i) (hs : same_files files files')
    (hr : region_ok files' lo p) : clean_inv pv S files' lo p i := by
  refine ⟨hs.1.trans h.len, ?_, ?_, hr, h.p_le, ?_, ?_, ?_⟩
  · intro k g hk hg
    exact h.kept k g (same_files_active_get hs hk hg) hg
  · intro k hk
    rw [← h.rest k hk]
    cases hf : files_get files k with
    | ok e =>
      have hS : files_get S k = outcome.ok e := by rw [← h.rest k hk]; exact hf
      obtain ⟨g', hg', se⟩ := hs.2 k e hf
      rw [hg', se.1 (names_active hn hS)]
    | bad w =>
      cases hf' : files_get files' k with
      | ok e' =>
        obtain ⟨r0, r1⟩ := files_get_range hf'
        rw [hs.1] at r1
        obtain ⟨e, he⟩ := files_get_in_range files k r0 r1
        rw [he] at hf; cases hf
      | bad w' => rw [files_get_bad hf, files_get_bad hf']
  · intro k h0 h1
    exact (same_files_cleared hs k).2 (h.below k h0 h1)
  · intro k h0 h1
    exact (same_files_cleared hs k).2 (h.above k h0 h1)
  · intro k1 k2 s1 s2 h12 h2p a1 a2 hs1 hs2
    exact h.sorted k1 k2 s1 s2 h12 h2p ((same_files_active hs k1).1 a1)
      ((same_files_active hs k2).1 a2) hs1 hs2

theorem skip_cleared_spec (files : List file_struct) (i : Int) :
    ∀ (fuel : Nat) (j : Int), 0 ≤ j → j ≤ i → i < files.length → (i - j).toNat < fuel →
      ∃ r, skip_cleared files i fuel j = outcome.ok r ∧ j ≤ r ∧ r ≤ i ∧
        (∀ x, j ≤ x → x < r → cleared_at files x) ∧ (r < i → active_at files r) := by
  intro fuel
  induction fuel with
  | zero => intro j _ _ _ h; omega
  | succ fuel ih =>
    intro j h0 h1 h2 hf
    rw [skip_cleared]
    by_cases hji : j < i
    · simp only [hji, if_true]
      obtain ⟨g, hg⟩ := files_get_in_range files j h0 (by omega)
      simp only [hg, outcome_bind_ok]
      cases ha : F_IS_ACTIVE g
      · simp only [Bool.not_false, if_true]
        obtain ⟨r, hr, r1, r2, r3, r4⟩ := ih (j + 1) (by omega) (by omega) h2 (by omega)
        refine ⟨r, hr, by omega, r2, ?_, r4⟩
        intro x hx1 hx2
        rcases lt_or_eq_of_le hx1 with h | h
        · exact r3 x (by omega) hx2
        · rw [← h]; exact ⟨g, hg, ha⟩
      · simp only [Bool.not_true, Bool.false_eq_true, if_false]
        exact ⟨j, rfl, le_refl _, h1, fun x a b => by omega, fun _ => ⟨g, hg, ha⟩⟩
    · simp only [hji, if_false]
      exact ⟨j, rfl, le_refl _, h1, fun x a b => by omega, fun h => by omega⟩

/-- The new entry replaces an entry kept earlier: entry `j` is cleared, entry `i + 1`
takes its flags and becomes the last active one, and `low` moves up when it was `j`
(lines 1598 and 1610-1622). -/
theorem clean_inv_replace {pv : Int} {S files : List file_struct} {lo p i j : Int}
    (hn : names_ok pv S) (h : clean_inv pv S files lo p i) (hi : i + 1 < files.length)
    (hj1 : lo ≤ j) (hj2 : j ≤ p) (dr : file_struct)
    (hord : ∀ k sk s, k ≤ p → k ≠ j → active_at files k → files_get S k = outcome.ok sk →
      files_get S (i + 1) = outcome.ok s → fnc_lex (fnc_key pv sk) (fnc_key pv s) < 0) :
    ∃ low', (if lo = j then
          skip_cleared (files_update (files_update files (i + 1) (merge_flags dr)) j clear_file)
            (i + 1)
            (files_update (files_update files (i + 1) (merge_flags dr)) j clear_file).length
            (j + 1)
        else outcome.ok lo) = outcome.ok low' ∧
      clean_inv pv S (files_update (files_update files (i + 1) (merge_flags dr)) j clear_file)
        low' (i + 1) (i + 1) := by
  have hle := h.p_le
  have hlo := h.region.lo_le
  obtain ⟨hlo0, hphi⟩ := region_hi_range h.region
  have had : i + 1 ≠ j := by omega
  obtain ⟨s, hs, hS, hsa⟩ := clean_inv_next hn h hi
  have hd : ∃ e, files_get files j = outcome.ok e :=
    files_get_in_range files j (by omega) (by omega)
  generalize hf2 : files_update (files_update files (i + 1) (merge_flags dr)) j clear_file = files2
  have hact : ∀ k, active_at files2 k ↔ active_at files k ∧ k ≠ j := by
    intro k; rw [← hf2]; exact active_merge_clear files (i + 1) j k dr had
  have hclr : ∀ k, cleared_at files2 k ↔ cleared_at files k ∨ k = j := by
    intro k; rw [← hf2]; exact cleared_merge_clear files (i + 1) j k dr had hd
  have hget : ∀ k, files_get files2 k =
      if k = j then outcome.map clear_file (files_get files j)
      else if k = i + 1 then outcome.map (merge_flags dr) (files_get files (i + 1))
      else files_get files k := by
    intro k; rw [← hf2]; exact files_get_merge_clear files (i + 1) j k dr had
  have hlen2 : files2.length = files.length := by
    rw [← hf2, files_update_length, files_update_length]
  have hnew : active_at files2 (i + 1) := (hact (i + 1)).2 ⟨⟨s, hs, hsa⟩, had⟩
  -- the invariant, for any `low'` that is the first active index
  have main : ∀ low', lo ≤ low' → low' ≤ i + 1 → active_at files2 low' →
      (∀ k, 0 ≤ k → k < low' → cleared_at files2 k) →
      clean_inv pv S files2 low' (i + 1) (i + 1) := by
    intro low' hl1 hl2 hla hlb
    refine ⟨hlen2.trans h.len, ?_, ?_, ?_, le_refl _, hlb, fun k a b => by omega, ?_⟩
    · intro k g hk hg
      rw [hget] at hk
      by_cases hkd : k = j
      · subst hkd
        obtain ⟨e, he⟩ := hd
        simp only [if_true, he, outcome_map_ok] at hk
        injection hk with hk
        subst hk
        cases hg
      · simp only [hkd, if_false] at hk
        by_cases hka : k = i + 1
        · subst hka
          simp only [if_true, hs, outcome_map_ok] at hk
          injection hk with hk
          subst hk
          exact ⟨s, hS, flags_only_merge dr (flags_only_refl s)⟩
        · simp only [hka, if_false] at hk
          exact h.kept k g hk hg
    · intro k hk
      rw [hget]
      have h1 : k ≠ j := by omega
      have h2 : k ≠ i + 1 := by omega
      simp only [h1, h2, if_false]
      exact h.rest k (by omega)
    · refine ⟨hl2, hla, hnew, ?_⟩
      rw [← hf2]
      intro k e hlk
      exact cursors_merge_clear files (i + 1) j lo dr had hd h.region.cursors k e (by omega)
    · intro k1 k2 s1 s2 h12 h2p a1 a2 hs1 hs2
      obtain ⟨a1', n1⟩ := (hact k1).1 a1
      obtain ⟨a2', n2⟩ := (hact k2).1 a2
      have hk1 : k1 ≤ p := by
        by_contra hgt
        exact not_active_and_cleared a1' (h.above k1 (by omega) (by omega))
      by_cases hk2 : k2 ≤ p
      · exact h.sorted k1 k2 s1 s2 h12 hk2 a1' a2' hs1 hs2
      · have hk2' : k2 = i + 1 := by
          by_contra hne
          exact not_active_and_cleared a2' (h.above k2 (by omega) (by omega))
        subst hk2'
        exact hord k1 s1 s2 hk1 n1 a1' hs1 hs2
  by_cases hlj : lo = j
  · simp only [hlj, if_true]
    obtain ⟨r, hr, r1, r2, r3, r4⟩ := skip_cleared_spec files2 (i + 1) files2.length (j + 1)
      (by omega) (by omega) (by omega) (by omega)
    refine ⟨r, hr, main r (by omega) r2 ?_ ?_⟩
    · rcases lt_or_eq_of_le r2 with h' | h'
      · exact r4 h'
      · rw [h']; exact hnew
    · intro k h0 h1
      rcases Int.lt_trichotomy k j with h' | h' | h'
      · exact (hclr k).2 (Or.inl (h.below k h0 (by omega)))
      · exact (hclr k).2 (Or.inr h')
      · exact r3 k (by omega) h1
  · simp only [hlj, if_false]
    refine ⟨lo, rfl, main lo (le_refl _) (by omega) ?_ ?_⟩
    · exact (hact lo).2 ⟨h.region.lo_active, hlj⟩
    · intro k h0 h1
      exact (hclr k).2 (Or.inl (h.below k h0 h1))

/-- The lines 1590-1623 keep the loop invariant. -/
theorem clean_drop_spec {pv : Int} {S files : List file_struct} {lo p i j : Int}
    (hn : names_ok pv S) (h : clean_inv pv S files lo p i) (hi : i + 1 < files.length)
    (hj1 : lo ≤ j) (hj2 : j ≤ p) (file : file_struct)
    (hfile : files_get files (i + 1) = outcome.ok file) (high : Int)
    (hord : ∀ k sk s, k ≤ p → k ≠ j → active_at files k → files_get S k = outcome.ok sk →
      files_get S (i + 1) = outcome.ok s → fnc_lex (fnc_key pv sk) (fnc_key pv s) < 0) :
    ∃ st', clean_drop { files := files, low := lo, high := high } p (i + 1) j file =
        outcome.ok st' ∧
      clean_inv pv S st'.flist.files st'.flist.low st'.prev_i (i + 1) := by
  have hle := h.p_le
  have hlo := h.region.lo_le
  obtain ⟨hlo0, hphi⟩ := region_hi_range h.region
  obtain ⟨fp, hfp⟩ := files_get_in_range files j (by omega) (by omega)
  unfold clean_drop
  simp only [hfp, outcome_bind_ok]
  by_cases hc : S_ISDIR file.mode ≠ S_ISDIR fp.mode ∧ S_ISDIR file.mode = true
  · -- the new entry is a directory and is kept
    obtain ⟨hc1, hc2⟩ := hc
    have hkd : (if S_ISDIR file.mode ≠ S_ISDIR fp.mode then
        if S_ISDIR file.mode = true then (i + 1, j) else (j, i + 1)
      else (j, i + 1)) = (i + 1, j) := by
      rw [if_pos hc1, if_pos hc2]
    obtain ⟨low', hlow, hinv⟩ := clean_inv_replace hn h hi hj1 hj2 fp hord
    simp only [hkd, hfp, outcome_bind_ok, if_true, outcome_pure, hlow]
    exact ⟨_, rfl, hinv⟩
  · have hne : j ≠ i + 1 := by omega
    have hkd : (if S_ISDIR file.mode ≠ S_ISDIR fp.mode then
        if S_ISDIR file.mode = true then (i + 1, j) else (j, i + 1)
      else (j, i + 1)) = (j, i + 1) := by
      by_cases h1 : S_ISDIR file.mode ≠ S_ISDIR fp.mode
      · have h2 : ¬ S_ISDIR file.mode = true := fun h2 => hc ⟨h1, h2⟩
        rw [if_pos h1, if_neg h2]
      · rw [if_neg h1]
    simp only [hkd, hfile, outcome_bind_ok, hne, if_false, outcome_pure]
    exact ⟨_, rfl, clean_inv_drop_new hn h hi hj2 file⟩

theorem files_get_unique {S : List file_struct} {k : Int} {a b : file_struct}
    (ha : files_get S k = outcome.ok a) (hb : files_get S k = outcome.ok b) : a = b := by
  rw [ha] at hb; injection hb

/-- The key that line 1585 looks for: the entry as a regular file. -/
theorem regular_not_dot (t_path : fnc_type) (file : file_struct) :
    ¬ fnc_is_dot t_path { file with mode := S_IFREG } := by
  intro h
  have := h.1
  have hd : S_ISDIR S_IFREG = false := by decide
  simp [fnc_base_type, hd] at this

/-- The comparator on an entry of `S` (up to flags) and the new entry taken as a regular
file. -/
theorem run_cmp_regular (pv : Int) (S : List file_struct) (hn : names_ok pv S)
    {g sk file : file_struct} (h : flags_only g sk) (hsk : sk ∈ S) (hfile : file ∈ S) :
    run_cmp pv (some g) (some { file with mode := S_IFREG }) =
      outcome.ok (fnc_lex (fnc_key pv g) (fnc_key pv { file with mode := S_IFREG })) := by
  unfold run_cmp
  have e1 : entry_ok g := flags_only_entry_ok h (hn.ok sk hsk)
  have e2 : entry_ok { file with mode := S_IFREG } := hn.ok file hfile
  have hp : ptr_ok g { file with mode := S_IFREG } := by
    rw [h]; exact hn.ptr sk hsk file hfile
  rw [f_name_cmp_eq pv g _ e1 e2 hp, if_neg]
  intro ho
  exact regular_not_dot _ file ho.2.2.2

/-- The search of line 1586 meets the conditions of `flist_find`. -/
theorem clean_find_order {pv : Int} {S files : List file_struct} {lo p i : Int}
    (hn : names_ok pv S) (h : clean_inv pv S files lo p i) (file : file_struct)
    (hfile : file ∈ S) :
    find_order pv { file with mode := S_IFREG } files lo p
      (fun g => fnc_lex (fnc_key pv g) (fnc_key pv { file with mode := S_IFREG })) := by
  have e2 : entry_ok { file with mode := S_IFREG } := hn.ok file hfile
  constructor
  · intro k g _ _ hg ha
    obtain ⟨sk, hsk, hfl⟩ := h.kept k g hg ha
    exact run_cmp_regular pv S hn hfl (files_get_mem hsk) hfile
  · intro k1 k2 g1 g2 _ h12 h2p hg1 hg2 a1 a2 hle
    obtain ⟨s1, hs1, f1⟩ := h.kept k1 g1 hg1 a1
    obtain ⟨s2, hs2, f2⟩ := h.kept k2 g2 hg2 a2
    have hlt := h.sorted k1 k2 s1 s2 h12 h2p ⟨g1, hg1, a1⟩ ⟨g2, hg2, a2⟩ hs1 hs2
    simp only at hle ⊢
    rw [flags_only_key pv f1]
    rw [flags_only_key pv f2] at hle
    exact fnc_lex_lt_of_lt_of_le _ _ _ (fnc_key_ok pv s1 (hn.ok s1 (files_get_mem hs1)))
      (fnc_key_ok pv s2 (hn.ok s2 (files_get_mem hs2))) (fnc_key_ok pv _ e2) hlt hle

/-- One iteration of the main loop of `clean_flist` keeps the invariant. -/
theorem clean_step_spec {pv : Int} {S files : List file_struct} {lo p i : Int}
    (hn : names_ok pv S) (hsort : keys_sorted pv S) (hlen : (S.length : Int) < 2 ^ 31)
    (h : clean_inv pv S files lo p i) (hi : i + 1 < files.length) (high : Int) :
    ∃ st', clean_step pv { flist := { files := files, low := lo, high := high }, prev_i := p }
        (i + 1) = outcome.ok st' ∧
      clean_inv pv S st'.flist.files st'.flist.low st'.prev_i (i + 1) := by
  have hle := h.p_le
  have hlo := h.region.lo_le
  obtain ⟨hlo0, hphi⟩ := region_hi_range h.region
  obtain ⟨s, hs, hS, hsa⟩ := clean_inv_next hn h hi
  have hsm : s ∈ S := files_get_mem hS
  obtain ⟨gp, hgp, hgpa⟩ := h.region.hi_active
  obtain ⟨sp, hsp, hflp⟩ := h.kept p gp hgp hgpa
  have hspm : sp ∈ S := files_get_mem hsp
  have ks := fnc_key_ok pv s (hn.ok s hsm)
  have ksp := fnc_key_ok pv sp (hn.ok sp hspm)
  have hcmp := run_cmp_names pv S hn (flags_only_refl s) hflp hsm hspm
  have hps : fnc_lex (fnc_key pv sp) (fnc_key pv s) ≤ 0 := hsort p (i + 1) sp s (by omega) hsp hS
  have hanti := fnc_lex_antisymm (fnc_key pv sp) (fnc_key pv s)
  unfold clean_step
  simp only [hs, outcome_bind_ok, hsa, Bool.not_true, Bool.false_eq_true, if_false]
  unfold clean_find_dup
  simp only [hgp, outcome_bind_ok, hcmp]
  by_cases hd : fnc_lex (fnc_key pv s) (fnc_key pv sp) = 0
  · -- the names are equal
    simp only [hd, if_true, outcome_pure, outcome_bind_ok]
    have hkeq : fnc_key pv s = fnc_key pv sp := (fnc_lex_eq_zero _ _ ks ksp).1 hd
    have hp0 : p ≥ 0 := by omega
    simp only [hp0, if_true]
    apply clean_drop_spec hn h hi hlo (le_refl _) s hs high
    intro k sk s' hk1 hk2 hka hsk hs'
    have e := files_get_unique hS hs'
    subst e
    rw [hkeq]
    exact h.sorted k p sk sp (by omega) (le_refl _) hka h.region.hi_active hsk hsp
  · simp only [hd, if_false]
    have hlt : fnc_lex (fnc_key pv sp) (fnc_key pv s) < 0 := by omega
    have hord : ∀ k sk s', k ≤ p → active_at files k → files_get S k = outcome.ok sk →
        files_get S (i + 1) = outcome.ok s' →
        fnc_lex (fnc_key pv sk) (fnc_key pv s') < 0 := by
      intro k sk s' hk1 hka hsk hs'
      have e := files_get_unique hS hs'
      subst e
      rcases lt_or_eq_of_le hk1 with hk | hk
      · have := h.sorted k p sk sp hk (le_refl _) hka h.region.hi_active hsk hsp
        exact fnc_lex_lt_of_lt_of_le _ _ _ (fnc_key_ok pv sk (hn.ok sk (files_get_mem hsk)))
          ksp ks this (by omega)
      · subst hk
        rw [files_get_unique hsk hsp]
        exact hlt
    by_cases hfind : pv ≥ 29 ∧ S_ISDIR s.mode = true
    · simp only [hfind, and_self, if_true]
      have hfo := clean_find_order hn h s hsm
      have hlen' : ((({ files := files, low := lo, high := p } : file_list).files.length : Nat)
          : Int) < 2 ^ 31 := by
        simp only; rw [h.len]; exact hlen
      obtain ⟨r, files', hrun, hsame, hreg, hres⟩ :=
        flist_find_spec pv { s with mode := S_IFREG } { files := files, low := lo, high := p }
          _ hlen' h.region hfo
      simp only [hrun, outcome_bind_ok]
      have h' := clean_inv_same_files hn h hsame hreg
      have hi' : i + 1 < files'.length := by rw [hsame.1]; exact hi
      have hs' : files_get files' (i + 1) = outcome.ok s := by
        rw [h'.rest (i + 1) (by omega)]; exact hS
      by_cases hr0 : r ≥ 0
      · simp only [hr0, if_true]
        rcases hres with ⟨hr1, -⟩ | ⟨hr1, hr2, -⟩
        · omega
        · apply clean_drop_spec hn h' hi' hr1 hr2 s hs' p
          intro k sk s'' hk1 _ hka hsk hs''
          exact hord k sk s'' hk1 ((same_files_active hsame k).1 hka) hsk hs''
      · simp only [hr0, if_false, outcome_pure]
        refine ⟨_, rfl, clean_inv_advance hn h' hi' ?_⟩
        intro k sk s'' hk1 hka hsk hs''
        exact hord k sk s'' hk1 ((same_files_active hsame k).1 hka) hsk hs''
    · simp only [hfind, if_false, outcome_pure, outcome_bind_ok]
      have : ¬ ((-1 : Int) ≥ 0) := by omega
      simp only [this, if_false]
      exact ⟨_, rfl, clean_inv_advance hn h hi hord⟩

/-- The main loop of `clean_flist` ends, and keeps the invariant. -/
theorem clean_loop_spec {pv : Int} {S : List file_struct}
    (hn : names_ok pv S) (hsort : keys_sorted pv S) (hlen : (S.length : Int) < 2 ^ 31) :
    ∀ (n : Nat) (st : clean_state) (i : Int),
      clean_inv pv S st.flist.files st.flist.low st.prev_i i →
      (st.flist.files.length : Int) ≤ i + 1 + n →
      ∃ st' i', clean_loop pv n st i = outcome.ok st' ∧
        clean_inv pv S st'.flist.files st'.flist.low st'.prev_i i' := by
  intro n
  induction n with
  | zero =>
    intro st i h hb
    refine ⟨st, i, ?_, h⟩
    unfold clean_loop
    rw [if_neg]
    · rfl
    · unfold file_list.count; push_cast at hb; omega
  | succ n ih =>
    intro st i h hb
    unfold clean_loop
    by_cases hc : i + 1 < st.flist.count
    · rw [if_pos hc]
      obtain ⟨⟨files, lo, high⟩, p⟩ := st
      simp only at h hb hc
      obtain ⟨st1, hst1, h1⟩ := clean_step_spec hn hsort hlen h hc high
      simp only [hst1, outcome_bind_ok]
      apply ih st1 (i + 1) h1
      rw [h1.len, ← h.len]
      push_cast at hb ⊢
      omega
    · rw [if_neg hc]
      exact ⟨st, i, rfl, h⟩

theorem files_get_zero (s : file_struct) (rest : List file_struct) :
    files_get (s :: rest) 0 = outcome.ok s := by
  rw [files_get_ok_iff]
  exact ⟨le_refl _, rfl⟩

/-- The state in which `clean_flist` enters its main loop. -/
theorem clean_inv_init {pv : Int} {S : List file_struct} (hn : names_ok pv S) (hne : S ≠ []) :
    clean_inv pv S S 0 0 0 := by
  obtain ⟨s, rest, rfl⟩ := List.exists_cons_of_ne_nil hne
  have ha : ∀ k g, files_get (s :: rest) k = outcome.ok g → F_IS_ACTIVE g = true :=
    fun k g hg => entry_ok_active (hn.ok g (files_get_mem hg))
  have h0 : active_at (s :: rest) 0 := ⟨s, files_get_zero s rest, ha 0 s (files_get_zero s rest)⟩
  refine ⟨rfl, ?_, fun _ _ => rfl, ⟨le_refl _, h0, h0, ?_⟩, le_refl _, ?_, ?_, ?_⟩
  · intro k g hg _
    exact ⟨g, hg, flags_only_refl g⟩
  · intro k e _ he hna
    rw [ha k e he] at hna
    cases hna
  · intro k h1 h2
    omega
  · intro k h1 h2
    omega
  · intro k1 k2 s1 s2 h12 h2 _ _ hs1 _
    have := ((files_get_ok_iff _ _ _).1 hs1).1
    omega

theorem first_active_cons {s : file_struct} (rest : List file_struct)
    (h : F_IS_ACTIVE s = true) : first_active (s :: rest) 0 = some 0 := by
  unfold first_active
  rw [if_pos h]

/-- On a sorted array of well-formed names `clean_flist` with `no_dups` and without
`strip_root` returns, and leaves the array in a state of the invariant with `low` and
`high` as its first and last active index. -/
theorem clean_flist_spec {pv : Int} (qsort : List file_struct → List file_struct)
    (flist : file_list) (no_dups : Int) (hnd : no_dups ≠ 0)
    (hn : names_ok pv (qsort flist.files)) (hsort : keys_sorted pv (qsort flist.files))
    (hlen : ((qsort flist.files).length : Int) < 2 ^ 31)
    (hl : (qsort flist.files).length = flist.files.length) (hne : flist.files ≠ []) :
    ∃ cl i, clean_flist qsort pv flist 0 no_dups = outcome.ok cl ∧
      clean_inv pv (qsort flist.files) cl.files cl.low cl.high i := by
  have hne' : qsort flist.files ≠ [] := by
    intro h
    rw [h] at hl
    exact hne (List.length_eq_zero.1 hl.symm)
  have hc : flist.count ≠ 0 := by
    unfold file_list.count
    intro h
    exact hne (List.length_eq_zero.1 (by exact_mod_cast h))
  obtain ⟨s, rest, hS⟩ := List.exists_cons_of_ne_nil hne'
  have hfa : first_active (qsort flist.files) 0 = some 0 := by
    rw [hS]
    exact first_active_cons rest (entry_ok_active (hn.ok s (by rw [hS]; exact List.mem_cons_self _ _)))
  have hinit := clean_inv_init hn hne'
  obtain ⟨st', i', hrun, hinv⟩ := clean_loop_spec hn hsort hlen (qsort flist.files).length
    { flist := { files := qsort flist.files, low := 0, high := flist.high }, prev_i := 0 } 0
    hinit (by simp only; omega)
  refine ⟨{ st'.flist with high := st'.prev_i }, i', ?_, hinv⟩
  unfold clean_flist
  simp only [hc, if_false, hnd, ne_eq, not_false_eq_true, if_true, hfa, Nat.cast_zero,
    outcome_bind_ok, hrun, not_true_eq_false, outcome_pure]

theorem run_cmp_ok_iff (pv : Int) (a b : Option file_struct) (x : Int) :
    run_cmp pv a b = outcome.ok x ↔ f_name_cmp pv a b = cmp_result.ret x := by
  unfold run_cmp
  cases f_name_cmp pv a b <;> simp

theorem returned_not_overread {pv : Int} {a b : file_struct} (ha : entry_ok a)
    (hb : entry_ok b) (hp : ptr_ok a b)
    (h : (f_name_cmp pv (some a) (some b)).returned = true) : ¬ fnc_overread pv a b := by
  intro ho
  rw [f_name_cmp_eq pv a b ha hb hp, if_pos ho] at h
  cases h

theorem list_ok_names {pv : Int} {S files : List file_struct} (hp : S.Perm files)
    (h : list_ok pv files) : names_ok pv S := by
  refine ⟨fun s hs => h.1 s (hp.mem_iff.1 hs), fun a ha b hb => ?_, fun a ha b hb => ?_⟩
  · exact (h.2 a (hp.mem_iff.1 ha) b (hp.mem_iff.1 hb)).1
  · have := h.2 a (hp.mem_iff.1 ha) b (hp.mem_iff.1 hb)
    exact returned_not_overread (h.1 a (hp.mem_iff.1 ha)) (h.1 b (hp.mem_iff.1 hb)) this.1 this.2

theorem sorted_keys {pv : Int} {S : List file_struct} (hn : names_ok pv S)
    (h : sorted_by_cmp pv S) : keys_sorted pv S := by
  intro i j si sj hij hi hj
  rw [files_get_ok_iff] at hi hj
  obtain ⟨hi0, hi⟩ := hi
  obtain ⟨hj0, hj⟩ := hj
  obtain ⟨hli, hgi⟩ := List.get?_eq_some.1 hi
  obtain ⟨hlj, hgj⟩ := List.get?_eq_some.1 hj
  have hlt : (⟨i.toNat, hli⟩ : Fin S.length) < ⟨j.toNat, hlj⟩ := by
    show i.toNat < j.toNat
    omega
  have := (List.pairwise_iff_get.1 h) _ _ hlt
  rw [hgi, hgj] at this
  have hsi : si ∈ S := List.get?_mem hi
  have hsj : sj ∈ S := List.get?_mem hj
  rw [f_name_cmp_eq pv si sj (hn.ok si hsi) (hn.ok sj hsj) (hn.ptr si hsi sj hsj),
    if_neg (hn.defined si hsi sj hsj)] at this
  simpa [cmp_result.le_zero] using this

/-- The comparator on an entry of `S` (up to flags) and a name `f` that is looked up. -/
theorem run_cmp_query (pv : Int) {g s f : file_struct} (h : flags_only g s)
    (hs : entry_ok s) (hf : entry_ok f) (hp : ptr_ok s f) (ho : ¬ fnc_overread pv s f) :
    run_cmp pv (some g) (some f) = outcome.ok (fnc_lex (fnc_key pv g) (fnc_key pv f)) := by
  unfold run_cmp
  have hp' : ptr_ok g f := by rw [h]; exact hp
  have ho' : ¬ fnc_overread pv g f := by rw [h]; exact ho
  rw [f_name_cmp_eq pv g f (flags_only_entry_ok h hs) hf hp', if_neg ho']

/-- A search of the cleaned list meets the conditions of `flist_find`. -/
theorem clean_find_order_query {pv : Int} {S files : List file_struct} {lo p i : Int}
    (hn : names_ok pv S) (h : clean_inv pv S files lo p i) (f : file_struct)
    (hf : entry_ok f) (hq : ∀ s ∈ S, ptr_ok s f ∧ ¬ fnc_overread pv s f) :
    find_order pv f files lo p (fun g => fnc_lex (fnc_key pv g) (fnc_key pv f)) := by
  constructor
  · intro k g _ _ hg ha
    obtain ⟨sk, hsk, hfl⟩ := h.kept k g hg ha
    have hm := files_get_mem hsk
    exact run_cmp_query pv hfl (hn.ok sk hm) hf (hq sk hm).1 (hq sk hm).2
  · intro k1 k2 g1 g2 _ h12 h2p hg1 hg2 a1 a2 hle
    obtain ⟨s1, hs1, f1⟩ := h.kept k1 g1 hg1 a1
    obtain ⟨s2, hs2, f2⟩ := h.kept k2 g2 hg2 a2
    have hlt := h.sorted k1 k2 s1 s2 h12 h2p ⟨g1, hg1, a1⟩ ⟨g2, hg2, a2⟩ hs1 hs2
    simp only at hle ⊢
    rw [flags_only_key pv f1]
    rw [flags_only_key pv f2] at hle
    exact fnc_lex_lt_of_lt_of_le _ _ _ (fnc_key_ok pv s1 (hn.ok s1 (files_get_mem hs1)))
      (fnc_key_ok pv s2 (hn.ok s2 (files_get_mem hs2))) (fnc_key_ok pv _ hf) hlt hle

/-- The answer of `flist_find`, from the verdicts of the comparator to matches. -/
theorem find_result_answer {pv : Int} {f : file_struct} {cl : file_list}
    {cmpf : file_struct → Int} {r : Int}
    (ho : find_order pv f cl.files cl.low cl.high cmpf)
    (h : find_result_ok pv f cl.files cl.low cl.high cmpf r) : find_answer pv f cl r := by
  rcases h with ⟨hr, hno⟩ | ⟨h1, h2, g, hg, ha, hz, hm⟩
  · left
    refine ⟨hr, ?_⟩
    intro k g hk1 hk2 hg hmatch
    have hd := (run_cmp_ok_iff _ _ _ _).1 (ho.defined k g hk1 hk2 hg hmatch.1)
    apply hno k g hk1 hk2 hg hmatch.1
    rw [hmatch.2.1] at hd
    injection hd with hd
    exact ⟨hd.symm, hmatch.2.2⟩
  · right
    refine ⟨h1, h2, g, hg, ha, ?_, hm⟩
    have hd := (run_cmp_ok_iff _ _ _ _).1 (ho.defined r g h1 h2 hg ha)
    rw [hd, hz]


/-! ## The cleaned list and its lookups -/

/-- C3: for protocol 29 and the list of the two directory entries `a/.` whose dirnames are
two copies of the string "a", `clean_flist` with `strip_root = 0` and `no_dups = 1` does
not reach a sorted list: in whichever order `qsort` leaves the two entries, the call
`f_name_cmp(file, flist->files[prev_i])` of line 1578 runs past the terminators. -/
theorem clean_flist_dot_dirs_overread :
    clean_flist (fun _ => [ex_dir_a_dot, ex_dir_a_dot2]) 29
      { files := [ex_dir_a_dot, ex_dir_a_dot2], low := 0, high := 0 } 0 1 =
      outcome.bad fault.overread ∧
    clean_flist (fun _ => [ex_dir_a_dot2, ex_dir_a_dot]) 29
      { files := [ex_dir_a_dot, ex_dir_a_dot2], low := 0, high := 0 } 0 1 =
      outcome.bad fault.overread := by
  constructor <;> decide

/-- C4, as stated, fails with `strip_root`: the list of `/z/x` and `a/y` is in the order
of `f_name_cmp`, `clean_flist` with `strip_root` and `no_dups` turns it into `z/x`, `a/y`
with `low .. high` = `0 .. 1`, in which `a/y` is active at index 1 and compares equal to
itself, and `flist_find` for `a/y` returns -1. -/
theorem flist_find_after_strip_root :
    sorted_by_cmp 29 [ex_file_root_z_x, ex_file_a_y] ∧
    clean_flist id 29 { files := [ex_file_root_z_x, ex_file_a_y], low := 0, high := 0 } 1 1 =
      outcome.ok { files := [ex_file_z_x, ex_file_a_y], low := 0, high := 1 } ∧
    find_match 29 ex_file_a_y ex_file_a_y ∧
    outcome.map Prod.fst
      (flist_find 29 { files := [ex_file_z_x, ex_file_a_y], low := 0, high := 1 } ex_file_a_y) =
      outcome.ok (-1) := by
  refine ⟨by decide, by decide, ⟨by decide, by decide, by decide⟩, by decide⟩

/-- C4, amended: let a non-empty list of active entries on whose pairs `f_name_cmp`
returns be cleaned by `clean_flist` with `no_dups` set and `strip_root` = 0, `qsort`
having put the array in the order of `file_compare`. Then `clean_flist` returns a list
`cl`, and for every name `f` on which `f_name_cmp` returns against the entries,
`flist_find(cl, f)` returns: -1 exactly when no active entry of `low .. high` compares
equal to `f` (and, below protocol 29, agrees with `f` on being a directory), and else the
index in `low .. high` of such an entry; the entries that `clean_flist` cleared inside the
region do not change this. -/
theorem clean_flist_then_flist_find (qsort : List file_struct → List file_struct)
    (pv : Int) (flist : file_list) (no_dups : Int) (f : file_struct)
    (hne : flist.files ≠ []) (hlen : (flist.files.length : Int) < 2 ^ 31)
    (hl : list_ok pv flist.files)
    (hperm : (qsort flist.files).Perm flist.files)
    (hsorted : sorted_by_cmp pv (qsort flist.files))
    (hnd : no_dups ≠ 0) (hf : entry_ok f)
    (hq : ∀ g ∈ flist.files,
      ptr_ok g f ∧ (f_name_cmp pv (some g) (some f)).returned = true) :
    ∃ cl r cl', clean_flist qsort pv flist 0 no_dups = outcome.ok cl ∧
      flist_find pv cl f = outcome.ok (r, cl') ∧ find_answer pv f cl r := by
  have hn := list_ok_names hperm hl
  have hks := sorted_keys hn hsorted
  have hlen' : ((qsort flist.files).length : Int) < 2 ^ 31 := by
    rw [hperm.length_eq]; exact hlen
  obtain ⟨cl, i, hrun, hinv⟩ :=
    clean_flist_spec qsort flist no_dups hnd hn hks hlen' hperm.length_eq hne
  have hq' : ∀ s ∈ qsort flist.files, ptr_ok s f ∧ ¬ fnc_overread pv s f := by
    intro s hs
    have hm := hperm.mem_iff.1 hs
    exact ⟨(hq s hm).1, returned_not_overread (hl.1 s hm) hf (hq s hm).1 (hq s hm).2⟩
  have ho := clean_find_order_query hn hinv f hf hq'
  have hlc : (cl.files.length : Int) < 2 ^ 31 := by
    rw [hinv.len]; exact hlen'
  obtain ⟨r, files', hfind, -, -, hres⟩ := flist_find_spec pv f cl _ hlc hinv.region ho
  exact ⟨cl, r, _, hrun, hfind, find_result_answer ho hres⟩

/-- A witness for C4: under protocol 29 the sorted list `a`, `a/b.txt`, `a/b.txt`, `a/c`
is cleaned and searched for `a/b.txt`. -/
theorem clean_flist_then_flist_find_witness :
    ∃ cl r cl', clean_flist id 29 ex_list_dup 0 1 = outcome.ok cl ∧
      flist_find 29 cl ex_file_a_b_txt = outcome.ok (r, cl') ∧
      find_answer 29 ex_file_a_b_txt cl r :=
  clean_flist_then_flist_find id 29 ex_list_dup 1 ex_file_a_b_txt (by decide) (by decide)
    (by decide) (List.Perm.refl _) (by decide) (by decide) (by decide) (by decide)


/-! ## The wire codec -/

/-! ### The channel layer reads back what it wrote -/

theorem uint32_of_int_lt (v : Int) : uint32_of_int v < 2 ^ 32 := by
  unfold uint32_of_int
  have h1 : 0 ≤ v % 2 ^ 32 := Int.emod_nonneg _ (by norm_num)
  have h2 : v % 2 ^ 32 < 2 ^ 32 := Int.emod_lt_of_pos _ (by norm_num)
  omega

theorem uint32_of_int_cast (v : Int) : ((uint32_of_int v : Nat) : Int) = v % 2 ^ 32 := by
  unfold uint32_of_int
  have h1 : 0 ≤ v % 2 ^ 32 := Int.emod_nonneg _ (by norm_num)
  omega

theorem uint32_of_int_nat (n : Nat) : uint32_of_int (n : Int) = n % 2 ^ 32 := by
  have := uint32_of_int_cast (n : Int)
  omega

theorem int_of_uint32_of_int32 (v : Int) (h1 : -2 ^ 31 ≤ v) (h2 : v < 2 ^ 31) :
    int_of_uint32 (uint32_of_int v) = v := by
  have hc := uint32_of_int_cast v
  have hl := uint32_of_int_lt v
  unfold int_of_uint32
  rw [Nat.mod_eq_of_lt hl]
  split_ifs with h <;> omega

theorem uint32_of_int_of_uint32 (n : Nat) : uint32_of_int (int_of_uint32 n) = n % 2 ^ 32 := by
  have hc := uint32_of_int_cast (int_of_uint32 n)
  have hn : n % 2 ^ 32 < 2 ^ 32 := Nat.mod_lt _ (by norm_num)
  have hm : int_of_uint32 n = (n % 2 ^ 32 : Nat) ∨
      int_of_uint32 n = (n % 2 ^ 32 : Nat) - 2 ^ 32 := by
    unfold int_of_uint32
    split_ifs
    · exact Or.inl rfl
    · exact Or.inr rfl
  generalize int_of_uint32 n = m at hc hm
  rcases hm with hm | hm <;> omega

theorem le_bytes32_value (n : Nat) (h : n < 2 ^ 32) :
    n % 256 + 256 * (n / 256 % 256) + 65536 * (n / 65536 % 256)
      + 16777216 * (n / 16777216 % 256) = n := by
  omega

theorem read_byte_write_byte (v : Nat) (r : List Nat) :
    read_byte (write_byte v ++ r) = outcome.ok (v % 256, r) := rfl

theorem read_int_write_int (v : Int) (r : List Nat) :
    read_int (write_int v ++ r) = outcome.ok (int_of_uint32 (uint32_of_int v), r) := by
  unfold write_int le_bytes32 read_int
  simp only [List.cons_append, List.nil_append]
  rw [le_bytes32_value _ (uint32_of_int_lt v)]

theorem read_uint32_write_int (v : Int) (r : List Nat) :
    read_uint32 (write_int v ++ r) = outcome.ok (uint32_of_int v, r) := by
  unfold read_uint32
  rw [read_int_write_int, outcome_map_ok, uint32_of_int_of_uint32,
    Nat.mod_eq_of_lt (uint32_of_int_lt v)]

theorem read_longint_write_longint (v : Int) (r : List Nat) (h1 : -2 ^ 63 ≤ v)
    (h2 : v < 2 ^ 63) : read_longint (write_longint v ++ r) = outcome.ok (v, r) := by
  unfold write_longint read_longint
  split_ifs with h
  · rw [read_int_write_int, int_of_uint32_of_int32 v (by omega) (by omega)]
    simp only [outcome_bind_ok]
    have : v ≠ -1 := by omega
    simp [this]
  · simp only [List.append_assoc, read_int_write_int, outcome_bind_ok]
    have e1 : int_of_uint32 (uint32_of_int (-1)) = -1 := by decide
    simp only [e1, ne_eq, not_true_eq_false, if_false, uint32_of_int_of_uint32,
      Nat.mod_eq_of_lt (uint32_of_int_lt _), outcome_pure]
    congr 2
    have c1 := uint32_of_int_cast (v % 2 ^ 32)
    have c2 := uint32_of_int_cast (v / 2 ^ 32)
    have l1 := uint32_of_int_lt (v % 2 ^ 32)
    have l2 := uint32_of_int_lt (v / 2 ^ 32)
    unfold int64_of_nat
    have hd : v = 2 ^ 32 * (v / 2 ^ 32) + v % 2 ^ 32 := (Int.ediv_add_emod v (2 ^ 32)).symm
    split_ifs with hlt <;> omega

theorem read_buf_write_buf (buf : List Nat) (len : Nat) (r : List Nat)
    (h : len ≤ buf.length) :
    read_buf len (write_buf buf len ++ r) = outcome.ok (buf.take len, r) := by
  unfold read_buf write_buf
  have hl : (List.take len buf).length = len := by simp [h]
  rw [if_pos (by simp; omega)]
  congr 2
  · rw [List.take_append_eq_append_take]; simp [hl]
  · rw [List.drop_append_eq_append_drop]; simp [hl]

theorem read_if_true {α : Type} (read : List Nat → outcome (α × List Nat)) (old : α)
    (s : List Nat) : read_if true read old s = read s := rfl

theorem read_if_false {α : Type} (read : List Nat → outcome (α × List Nat)) (old : α)
    (s : List Nat) : read_if false read old s = outcome.ok (old, s) := rfl

theorem cstr_of_ok {c : List Nat} (h : cstr_ok c) : cstr_of c = c := by
  unfold cstr_of
  rw [List.takeWhile_eq_self_iff]
  intro a ha
  simpa using h a ha

/-! ### The flag word, bit by bit -/

theorem has_flag_two_pow (a k : Nat) : has_flag a (2 ^ k) = a.testBit k := by
  unfold has_flag
  cases h : a.testBit k
  · have : a &&& 2 ^ k = 0 := by
      apply Nat.eq_of_testBit_eq
      intro i
      rw [Nat.testBit_and, Nat.testBit_two_pow, Nat.zero_testBit]
      by_cases hki : k = i
      · subst hki; simp [h]
      · simp [hki]
    simp [this]
  · have : (a &&& 2 ^ k).testBit k = true := by
      rw [Nat.testBit_and, Nat.testBit_two_pow_self, h]; rfl
    have hne : a &&& 2 ^ k ≠ 0 := by
      intro h0
      rw [h0, Nat.zero_testBit] at this
      cases this
    simp [hne]

theorem has_flag_low_byte (a : Nat) : has_flag a 0xFF = decide (a % 256 ≠ 0) := by
  unfold has_flag
  have : a &&& 0xFF = a % 256 := Nat.and_pow_two_sub_one_eq_mod a 8
  rw [this]
  by_cases h : a % 256 = 0 <;> simp [h]

theorem testBit_high_mask (i : Nat) : Nat.testBit 0xFF00 i = (decide (8 ≤ i) && decide (i < 16)) := by
  by_cases h : i < 16
  · interval_cases i <;> rfl
  · have : Nat.testBit 0xFF00 i = false :=
      Nat.testBit_lt_two_pow (Nat.lt_of_lt_of_le (by norm_num : 0xFF00 < 2 ^ 16)
        (Nat.pow_le_pow_right (by norm_num) (by omega)))
    simp [this, h]

theorem has_flag_high_byte (a : Nat) (h : a < 65536) : has_flag a 0xFF00 = decide (256 ≤ a) := by
  unfold has_flag
  by_cases hlt : 256 ≤ a
  · obtain ⟨i, hi, hb⟩ := Nat.ge_two_pow_implies_high_bit_true (show a ≥ 2 ^ 8 from hlt)
    have hi16 : i < 16 := by
      by_contra hge
      have : a.testBit i = false :=
        Nat.testBit_lt_two_pow (Nat.lt_of_lt_of_le (show a < 2 ^ 16 from h)
          (Nat.pow_le_pow_right (by norm_num) (by omega)))
      rw [this] at hb; cases hb
    have hbit : (a &&& 0xFF00).testBit i = true := by
      rw [Nat.testBit_and, hb, testBit_high_mask]; simp [hi, hi16]
    have hne : a &&& 0xFF00 ≠ 0 := by
      intro h0; rw [h0, Nat.zero_testBit] at hbit; cases hbit
    simp [hne, hlt]
  · have : a &&& 0xFF00 = 0 := by
      apply Nat.eq_of_testBit_eq
      intro i
      rw [Nat.testBit_and, testBit_high_mask, Nat.zero_testBit]
      by_cases hi : 8 ≤ i
      · have : a.testBit i = false :=
          Nat.testBit_lt_two_pow (Nat.lt_of_lt_of_le (show a < 2 ^ 8 by omega)
            (Nat.pow_le_pow_right (by norm_num) hi))
        simp [this]
      · simp [hi]
    simp [this, hlt]

theorem testBit_ite (c : Prop) [Decidable c] (a b k : Nat) :
    (if c then a else b).testBit k = if c then a.testBit k else b.testBit k := by
  split_ifs <;> rfl

theorem short_bytes_join (F : Nat) (h : F < 65536) :
    (F % 256) ||| ((F / 256 % 256) <<< 8) = F := by
  apply Nat.eq_of_testBit_eq
  intro i
  have e1 : F % 256 = F % 2 ^ 8 := rfl
  have e2 : F / 256 % 256 = (F >>> 8) % 2 ^ 8 := by
    rw [Nat.shiftRight_eq_div_pow]; norm_num
  rw [e1, e2, Nat.testBit_or, Nat.testBit_mod_two_pow, Nat.testBit_shiftLeft,
    Nat.testBit_mod_two_pow, Nat.testBit_shiftRight]
  by_cases h8 : i < 8
  · have : ¬ i ≥ 8 := by omega
    simp [h8, this]
  · by_cases h16 : i < 16
    · have e : 8 + (i - 8) = i := by omega
      have h' : i - 8 < 8 := by omega
      simp [h8, h', e, show i ≥ 8 by omega]
    · have : F.testBit i = false :=
        Nat.testBit_lt_two_pow (Nat.lt_of_lt_of_le (show F < 2 ^ 16 from h)
          (Nat.pow_le_pow_right (by norm_num) (by omega)))
      have h' : ¬ i - 8 < 8 := by omega
      simp [h8, h', this]

theorem XMIT_TOP_DIR_eq : XMIT_TOP_DIR = 2 ^ 0 := rfl
theorem XMIT_SAME_MODE_eq : XMIT_SAME_MODE = 2 ^ 1 := rfl
theorem XMIT_EXTENDED_FLAGS_eq : XMIT_EXTENDED_FLAGS = 2 ^ 2 := rfl
theorem XMIT_SAME_RDEV_pre28_eq : XMIT_SAME_RDEV_pre28 = 2 ^ 3 := rfl
theorem XMIT_SAME_UID_eq : XMIT_SAME_UID = 2 ^ 3 := rfl
theorem XMIT_SAME_GID_eq : XMIT_SAME_GID = 2 ^ 4 := rfl
theorem XMIT_SAME_NAME_eq : XMIT_SAME_NAME = 2 ^ 5 := rfl
theorem XMIT_LONG_NAME_eq : XMIT_LONG_NAME = 2 ^ 6 := rfl
theorem XMIT_SAME_TIME_eq : XMIT_SAME_TIME = 2 ^ 7 := rfl
theorem XMIT_SAME_RDEV_MAJOR_eq : XMIT_SAME_RDEV_MAJOR = 2 ^ 8 := rfl
theorem XMIT_HAS_IDEV_DATA_eq : XMIT_HAS_IDEV_DATA = 2 ^ 9 := rfl
theorem XMIT_SAME_DEV_eq : XMIT_SAME_DEV = 2 ^ 10 := rfl
theorem XMIT_RDEV_MINOR_IS_SMALL_eq : XMIT_RDEV_MINOR_IS_SMALL = 2 ^ 11 := rfl
theorem FLAG_TOP_DIR_eq : FLAG_TOP_DIR = 2 ^ 0 := rfl
theorem FLAG_XFER_DIR_eq : FLAG_XFER_DIR = 2 ^ 1 := rfl
theorem FLAG_HLINKED_eq : FLAG_HLINKED = 2 ^ 3 := rfl
theorem FLAG_LENGTH64_eq : FLAG_LENGTH64 = 2 ^ 4 := rfl

/-- The bits of `flags` before the lines 405-418 of `send_file_entry`. -/
theorem send_delta_flags_testBit (o : options) (x : externals) (tmp : tmp_vars)
    (st : send_state) (file : file_struct) (i : Nat) :
    (send_delta_flags o x tmp st file).testBit i =
    (((((((file.flags.testBit i && decide (0 = i) ||
      if file.mode = st.mode then decide (1 = i) else false) ||
      if carries_rdev o file.mode = true then
        if o.protocol_version < 28 then if tmp.tmp_rdev = st.rdev then decide (3 = i) else false
        else
          (if x.major tmp.tmp_rdev % 2 ^ 32 = st.rdev_major then decide (8 = i) else false) ||
            if x.minor tmp.tmp_rdev % 2 ^ 32 ≤ 255 then decide (11 = i) else false
      else false) ||
      if o.preserve_uid = true ∧ file.uid = st.uid then decide (3 = i) else false) ||
      if o.preserve_gid = true ∧ file.gid = st.gid then decide (4 = i) else false) ||
      if file.modtime = st.modtime then decide (7 = i) else false) ||
      if tmp.tmp_idev.dev ≠ 0 then
        (if tmp.tmp_idev.dev = st.dev ∧ o.protocol_version ≥ 28 then decide (10 = i) else false)
          || decide (9 = i)
      else false)) := by
  have hm : (if file.mode = st.mode then st.mode else file.mode) = file.mode := by
    split_ifs with h
    · exact h.symm
    · rfl
  unfold send_delta_flags
  simp only [hm, XMIT_SAME_MODE_eq, XMIT_SAME_RDEV_pre28_eq, XMIT_SAME_UID_eq, XMIT_SAME_GID_eq,
    XMIT_SAME_TIME_eq, XMIT_SAME_RDEV_MAJOR_eq, XMIT_HAS_IDEV_DATA_eq, XMIT_SAME_DEV_eq,
    XMIT_RDEV_MINOR_IS_SMALL_eq, FLAG_TOP_DIR_eq, Nat.testBit_or, Nat.testBit_and, testBit_ite,
    Nat.testBit_two_pow, Nat.zero_testBit]

theorem send_name_flags_testBit (flags l1 l2 i : Nat) :
    (send_name_flags flags l1 l2).testBit i =
      (flags.testBit i || (decide (l1 > 0) && decide (5 = i))
        || (decide (l2 > 255) && decide (6 = i))) := by
  unfold send_name_flags
  simp only [XMIT_SAME_NAME_eq, XMIT_LONG_NAME_eq, testBit_ite, Nat.testBit_or,
    Nat.testBit_two_pow]
  by_cases h1 : l1 > 0 <;> by_cases h2 : l2 > 255 <;> simp [h1, h2]

/-- The flags before line 405 fit in 12 bits. -/
theorem send_name_flags_lt (o : options) (x : externals) (tmp : tmp_vars)
    (st : send_state) (file : file_struct) (l1 l2 : Nat) :
    send_name_flags (send_delta_flags o x tmp st file) l1 l2 < 2 ^ 12 := by
  apply Nat.lt_pow_two_of_testBit
  intro i hi
  rw [send_name_flags_testBit, send_delta_flags_testBit]
  have e0 : ¬ 0 = i := by omega
  have e1 : ¬ 1 = i := by omega
  have e3 : ¬ 3 = i := by omega
  have e4 : ¬ 4 = i := by omega
  have e5 : ¬ 5 = i := by omega
  have e6 : ¬ 6 = i := by omega
  have e7 : ¬ 7 = i := by omega
  have e8 : ¬ 8 = i := by omega
  have e9 : ¬ 9 = i := by omega
  have e10 : ¬ 10 = i := by omega
  have e11 : ¬ 11 = i := by omega
  simp [e0, e1, e3, e4, e5, e6, e7, e8, e9, e10, e11]

/-- The sender never sets the bit of `EXTENDED_FLAGS` before line 405. -/
theorem send_name_flags_bit2 (o : options) (x : externals) (tmp : tmp_vars)
    (st : send_state) (file : file_struct) (l1 l2 : Nat) :
    (send_name_flags (send_delta_flags o x tmp st file) l1 l2).testBit 2 = false := by
  rw [send_name_flags_testBit, send_delta_flags_testBit]
  simp

/-! ### The flag bytes and the head of the loop of `recv_file_list` -/

theorem testBit_high_false {a n i : Nat} (h : a < 2 ^ n) (hi : n ≤ i) : a.testBit i = false :=
  Nat.testBit_lt_two_pow (Nat.lt_of_lt_of_le h (Nat.pow_le_pow_right (by norm_num) hi))

theorem ne_zero_of_testBit {a i : Nat} (h : a.testBit i = true) : a ≠ 0 := by
  intro h0
  rw [h0, Nat.zero_testBit] at h
  cases h

/-- The bits of the final `flags` of `send_file_entry`: lines 405-418 add filler bits
only. -/
theorem send_flag_bytes_testBit (o : options) (mode N i : Nat) (h0 : i ≠ 0) (h2 : i ≠ 2)
    (h6 : i ≠ 6) : (send_flag_bytes o mode N).1.testBit i = N.testBit i := by
  have e0 : ¬ 0 = i := fun h => h0 h.symm
  have e2 : ¬ 2 = i := fun h => h2 h.symm
  have e6 : ¬ 6 = i := fun h => h6 h.symm
  unfold send_flag_bytes
  simp only [XMIT_TOP_DIR_eq, XMIT_EXTENDED_FLAGS_eq, XMIT_LONG_NAME_eq]
  split_ifs <;>
    simp only [Nat.testBit_or, Nat.testBit_two_pow_of_ne e0, Nat.testBit_two_pow_of_ne e2,
      Nat.testBit_two_pow_of_ne e6, Bool.or_false]

theorem send_flag_bytes_bit6 (o : options) (mode N : Nat) (h : N.testBit 6 = true) :
    (send_flag_bytes o mode N).1.testBit 6 = true := by
  unfold send_flag_bytes
  simp only [XMIT_TOP_DIR_eq, XMIT_EXTENDED_FLAGS_eq, XMIT_LONG_NAME_eq]
  split_ifs <;> simp only [Nat.testBit_or, Nat.testBit_two_pow] <;> simp [h]

theorem send_flag_bytes_bit6_new (o : options) (mode N : Nat) (hpv : o.protocol_version ≥ 28) :
    (send_flag_bytes o mode N).1.testBit 6 = N.testBit 6 := by
  unfold send_flag_bytes
  simp only [XMIT_TOP_DIR_eq, XMIT_EXTENDED_FLAGS_eq, XMIT_LONG_NAME_eq, hpv, if_true]
  split_ifs <;> simp only [Nat.testBit_or, Nat.testBit_two_pow] <;> try simp

/-- One turn of the loop of `recv_file_list` on the flag bytes of `send_file_entry`: the
first byte is not 0, and `recv_file_entry` is called with the flags of the sender. -/
theorem recv_file_list_loop_flags (o : options) (x : externals) (n : Nat) (rs : recv_state)
    (files : List file_struct) (mode N : Nat) (body : List Nat) (hN : N < 2 ^ 12)
    (hb2 : N.testBit 2 = false) :
    recv_file_list_loop o x (n + 1) rs files ((send_flag_bytes o mode N).2 ++ body) =
      (recv_file_entry o x rs (recv_flags o (send_flag_bytes o mode N).1) body).bind
        fun r => recv_file_list_loop o x n r.1.2 (files ++ [r.1.1]) r.2 := by
  unfold recv_flags
  by_cases hpv : o.protocol_version ≥ 28
  · -- the flags travel as one or two bytes
    have hN1lt : (if N = 0 ∧ ¬ S_ISDIR mode = true then N ||| XMIT_TOP_DIR else N) < 2 ^ 12 := by
      split_ifs
      · exact Nat.or_lt_two_pow hN (by decide)
      · exact hN
    have hN1b : (if N = 0 ∧ ¬ S_ISDIR mode = true then N ||| XMIT_TOP_DIR else N).testBit 2
        = false := by
      split_ifs
      · rw [Nat.testBit_or, hb2]; rfl
      · exact hb2
    generalize hN1 : (if N = 0 ∧ ¬ S_ISDIR mode = true then N ||| XMIT_TOP_DIR else N) = N1
      at hN1lt hN1b
    have hsfb : send_flag_bytes o mode N =
        if has_flag N1 0xFF00 = true ∨ N1 = 0 then
          (N1 ||| XMIT_EXTENDED_FLAGS, write_shortint (N1 ||| XMIT_EXTENDED_FLAGS))
        else (N1, write_byte N1) := by
      unfold send_flag_bytes
      simp only [hpv, if_true, hN1]
    rw [hsfb, if_pos hpv]
    by_cases hext : has_flag N1 0xFF00 = true ∨ N1 = 0
    · rw [if_pos hext]
      have hF : N1 ||| XMIT_EXTENDED_FLAGS < 65536 :=
        Nat.lt_of_lt_of_le (Nat.or_lt_two_pow hN1lt (by decide : XMIT_EXTENDED_FLAGS < 2 ^ 12))
          (by norm_num)
      have hbit : ((N1 ||| XMIT_EXTENDED_FLAGS) % 256).testBit 2 = true := by
        have : (256 : Nat) = 2 ^ 8 := rfl
        rw [this, Nat.testBit_mod_two_pow, Nat.testBit_or, XMIT_EXTENDED_FLAGS_eq,
          Nat.testBit_two_pow_self]
        simp
      have hne : (N1 ||| XMIT_EXTENDED_FLAGS) % 256 ≠ 0 := ne_zero_of_testBit hbit
      have hx : has_flag ((N1 ||| XMIT_EXTENDED_FLAGS) % 256) XMIT_EXTENDED_FLAGS = true := by
        rw [XMIT_EXTENDED_FLAGS_eq, has_flag_two_pow, ← XMIT_EXTENDED_FLAGS_eq]; exact hbit
      conv_lhs => unfold recv_file_list_loop
      unfold write_shortint
      simp only [List.cons_append, List.nil_append, read_byte, outcome_bind_ok, hne, if_false,
        hpv, hx, and_self, if_true, outcome_map_ok, short_bytes_join _ hF]
      rfl
    · rw [if_neg hext]
      have hlt : N1 < 256 := by
        by_contra hge
        apply hext
        left
        rw [has_flag_high_byte N1 (Nat.lt_of_lt_of_le hN1lt (by norm_num))]
        simp; omega
      have hne : N1 ≠ 0 := fun h => hext (Or.inr h)
      have hx : has_flag N1 XMIT_EXTENDED_FLAGS = false := by
        rw [XMIT_EXTENDED_FLAGS_eq, has_flag_two_pow]; exact hN1b
      conv_lhs => unfold recv_file_list_loop
      unfold write_byte
      simp only [List.cons_append, List.nil_append, read_byte, outcome_bind_ok,
        Nat.mod_eq_of_lt hlt, hne, if_false, hx, and_false, Bool.false_eq_true, outcome_pure]
      rfl
  · -- only the low byte travels
    have hsfb : (send_flag_bytes o mode N).2 = write_byte (send_flag_bytes o mode N).1 := by
      unfold send_flag_bytes
      simp only [hpv, if_false]
    have hne : (send_flag_bytes o mode N).1 % 256 ≠ 0 := by
      unfold send_flag_bytes
      simp only [hpv, if_false]
      by_cases hl : has_flag N 0xFF = true
      · simp only [hl, not_true_eq_false, if_false]
        rw [has_flag_low_byte] at hl
        simpa using hl
      · have hl2 : has_flag N 0xFF = false := by simpa using hl
        simp only [hl2, Bool.false_eq_true, not_false_eq_true, if_true]
        have e : (256 : Nat) = 2 ^ 8 := rfl
        by_cases hd : S_ISDIR mode = true
        · apply ne_zero_of_testBit (i := 6)
          rw [e, Nat.testBit_mod_two_pow, Nat.testBit_or, if_pos hd, XMIT_LONG_NAME_eq,
            Nat.testBit_two_pow_self]
          simp
        · apply ne_zero_of_testBit (i := 0)
          rw [e, Nat.testBit_mod_two_pow, Nat.testBit_or, if_neg hd, XMIT_TOP_DIR_eq,
            Nat.testBit_two_pow_self]
          simp
    rw [hsfb, if_neg hpv]
    conv_lhs => unfold recv_file_list_loop
    unfold write_byte
    simp only [List.cons_append, List.nil_append, read_byte, outcome_bind_ok, hne, if_false,
      hpv, false_and, outcome_pure]
    rfl

/-- The loop of `recv_file_list` ends at a zero flag byte and resets the statics. -/
theorem recv_file_list_loop_end (o : options) (x : externals) (n : Nat) (rs : recv_state)
    (files : List file_struct) (rest : List Nat) :
    recv_file_list_loop o x (n + 1) rs files (write_byte 0 ++ rest) =
      outcome.ok ((files, recv_reset x rs), rest) := by
  unfold recv_file_list_loop write_byte
  simp only [List.cons_append, List.nil_append, read_byte, outcome_bind_ok]
  rfl

/-! ### The segments of an entry, read back -/

theorem common_len_spec (lastname fname : List Nat) (l1 : Nat) :
    ∃ k, common_len lastname fname l1 = l1 + k ∧ k ≤ lastname.length ∧ k ≤ fname.length ∧
      lastname.take k = fname.take k ∧ (l1 ≤ 255 → l1 + k ≤ 255) := by
  induction lastname generalizing fname l1 with
  | nil => exact ⟨0, by simp [common_len], by simp, by simp, by simp, by simp⟩
  | cons c rest ih =>
    cases fname with
    | nil => exact ⟨0, by simp [common_len], by simp, by simp, by simp, by simp⟩
    | cons d frest =>
      unfold common_len
      by_cases h : d = c ∧ l1 < 255
      · rw [if_pos h]
        obtain ⟨k, hk, h1, h2, h3, h4⟩ := ih frest (l1 + 1)
        refine ⟨k + 1, by omega, by simp; omega, by simp; omega, ?_, ?_⟩
        · simp [List.take_succ_cons, h.1, h3]
        · intro _; have := h4 (by omega); omega
      · rw [if_neg h]
        exact ⟨0, by simp, by simp, by simp, by simp, by simp⟩

theorem recv_name_send (x : externals) (lastname fname : List Nat) (F R l1 l2 : Nat)
    (tail : List Nat)
    (hn : has_flag R XMIT_SAME_NAME = decide (l1 > 0))
    (hn2 : has_flag F XMIT_SAME_NAME = decide (l1 > 0))
    (hl : has_flag R XMIT_LONG_NAME = has_flag F XMIT_LONG_NAME)
    (hl2 : has_flag F XMIT_LONG_NAME = false → l2 ≤ 255)
    (h1 : l1 ≤ 255) (hpre : lastname.take l1 = fname.take l1) (hl1 : l1 ≤ lastname.length)
    (hlen : l1 + l2 = fname.length) (hmax : fname.length < x.MAXPATHLEN)
    (hM : x.MAXPATHLEN ≤ 2 ^ 31) (hc : cstr_ok fname) :
    recv_name x lastname R (send_name_bytes fname F l1 l2 ++ tail) =
      outcome.ok ((l1, l2, fname), tail) := by
  have hover : ¬ l2 ≥ uint32_of_int ((x.MAXPATHLEN : Int) - (l1 : Int)) := by
    have hc := uint32_of_int_cast ((x.MAXPATHLEN : Int) - (l1 : Int))
    have : ((x.MAXPATHLEN : Int) - (l1 : Int)) % 2 ^ 32 = (x.MAXPATHLEN : Int) - (l1 : Int) :=
      Int.emod_eq_of_lt (by omega) (by omega)
    omega
  have hbuf : read_buf l2 (write_buf (fname.drop l1) l2 ++ tail) =
      outcome.ok (fname.drop l1, tail) := by
    rw [read_buf_write_buf _ _ _ (by simp; omega), List.take_of_length_le (by simp; omega)]
  have hname : (if (strlcpy lastname (l1 + 1)).length < l1 then strlcpy lastname (l1 + 1)
      else strlcpy lastname (l1 + 1) ++ cstr_of (fname.drop l1)) = fname := by
    have hs : strlcpy lastname (l1 + 1) = fname.take l1 := by
      unfold strlcpy; simpa using hpre
    have hlen2 : (fname.take l1).length = l1 := by simp; omega
    rw [hs, if_neg (by omega), cstr_of_ok, List.take_append_drop]
    intro c hcm
    exact hc c (List.mem_of_mem_drop hcm)
  unfold recv_name send_name_bytes
  rw [hn, hl]
  simp only [hn2, List.append_assoc]
  by_cases hp : l1 > 0
  · simp only [hp, decide_True, read_if_true, if_true, read_byte_write_byte, outcome_bind_ok,
      Nat.mod_eq_of_lt (show l1 < 256 by omega)]
    cases hF : has_flag F XMIT_LONG_NAME
    · have := hl2 hF
      simp only [Bool.false_eq_true, if_false, read_byte_write_byte, outcome_bind_ok,
        Nat.mod_eq_of_lt (show l2 < 256 by omega), hover, hbuf, hname, outcome_pure]
    · simp only [if_true, read_uint32_write_int, outcome_bind_ok, uint32_of_int_nat,
        Nat.mod_eq_of_lt (show l2 < 2 ^ 32 by omega), hover, if_false, hbuf, hname, outcome_pure]
  · have h0 : l1 = 0 := by omega
    subst h0
    simp only [gt_iff_lt, lt_self_iff_false, decide_False, read_if_false, Bool.false_eq_true,
      if_false, List.nil_append, outcome_bind_ok]
    cases hF : has_flag F XMIT_LONG_NAME
    · have := hl2 hF
      simp only [Bool.false_eq_true, if_false, read_byte_write_byte, outcome_bind_ok,
        Nat.mod_eq_of_lt (show l2 < 256 by omega), hover, hbuf, hname, outcome_pure]
    · simp only [if_true, read_uint32_write_int, outcome_bind_ok, uint32_of_int_nat,
        Nat.mod_eq_of_lt (show l2 < 2 ^ 32 by omega), hover, if_false, hbuf, hname, outcome_pure]

theorem recv_flags_testBit (o : options) (F k : Nat) :
    (recv_flags o F).testBit k =
      (F.testBit k && (decide (o.protocol_version ≥ 28) || decide (k < 8))) := by
  unfold recv_flags
  by_cases h : o.protocol_version ≥ 28
  · simp [h]
  · have e : (256 : Nat) = 2 ^ 8 := rfl
    rw [if_neg h, e, Nat.testBit_mod_two_pow]
    simp [h, Bool.and_comm]

/-- The flags of an entry whose device numbers travel by protocol 28 or later. -/
theorem wire_flags_send (o : options) (x : externals) (tmp : tmp_vars) (st : send_state)
    (file : file_struct) (l1 l2 mode : Nat)
    (hcar : carries_rdev o file.mode = true → o.protocol_version ≥ 28) :
    wire_flags o x tmp st file l1 l2
      (send_flag_bytes o mode (send_name_flags (send_delta_flags o x tmp st file) l1 l2)).1
      (recv_flags o
        (send_flag_bytes o mode (send_name_flags (send_delta_flags o x tmp st file) l1 l2)).1)
      := by
  have b1 : (send_name_flags (send_delta_flags o x tmp st file) l1 l2).testBit 1 =
      decide (file.mode = st.mode) := by
    rw [send_name_flags_testBit, send_delta_flags_testBit]; simp
  have b3 : (send_name_flags (send_delta_flags o x tmp st file) l1 l2).testBit 3 =
      (o.preserve_uid && decide (file.uid = st.uid)) := by
    rw [send_name_flags_testBit, send_delta_flags_testBit]
    by_cases hc : carries_rdev o file.mode = true
    · have := hcar hc
      have h28 : ¬ o.protocol_version < 28 := by omega
      simp [hc, h28]
    · simp [hc]
  have b4 : (send_name_flags (send_delta_flags o x tmp st file) l1 l2).testBit 4 =
      (o.preserve_gid && decide (file.gid = st.gid)) := by
    rw [send_name_flags_testBit, send_delta_flags_testBit]; simp
  have b5 : (send_name_flags (send_delta_flags o x tmp st file) l1 l2).testBit 5 =
      decide (l1 > 0) := by
    rw [send_name_flags_testBit, send_delta_flags_testBit]; simp
  have b6 : (send_name_flags (send_delta_flags o x tmp st file) l1 l2).testBit 6 =
      decide (l2 > 255) := by
    rw [send_name_flags_testBit, send_delta_flags_testBit]; simp
  have b7 : (send_name_flags (send_delta_flags o x tmp st file) l1 l2).testBit 7 =
      decide (file.modtime = st.modtime) := by
    rw [send_name_flags_testBit, send_delta_flags_testBit]; simp
  have b8 : carries_rdev o file.mode = true →
      (send_name_flags (send_delta_flags o x tmp st file) l1 l2).testBit 8 =
      decide (x.major tmp.tmp_rdev % 2 ^ 32 = st.rdev_major) := by
    intro hc
    have := hcar hc
    have h28 : ¬ o.protocol_version < 28 := by omega
    rw [send_name_flags_testBit, send_delta_flags_testBit]; simp [hc, h28]
  have b11 : carries_rdev o file.mode = true →
      (send_name_flags (send_delta_flags o x tmp st file) l1 l2).testBit 11 =
      decide (x.minor tmp.tmp_rdev % 2 ^ 32 ≤ 0xFF) := by
    intro hc
    have := hcar hc
    have h28 : ¬ o.protocol_version < 28 := by omega
    rw [send_name_flags_testBit, send_delta_flags_testBit]; simp [hc, h28]
  have b9 : (send_name_flags (send_delta_flags o x tmp st file) l1 l2).testBit 9 =
      decide (tmp.tmp_idev.dev ≠ 0) := by
    rw [send_name_flags_testBit, send_delta_flags_testBit]; simp
  have b10 : (send_name_flags (send_delta_flags o x tmp st file) l1 l2).testBit 10 =
      (decide (tmp.tmp_idev.dev ≠ 0) && decide (tmp.tmp_idev.dev = st.dev) &&
        decide (o.protocol_version ≥ 28)) := by
    rw [send_name_flags_testBit, send_delta_flags_testBit]
    by_cases hd : tmp.tmp_idev.dev = 0 <;> by_cases he : tmp.tmp_idev.dev = st.dev <;>
      by_cases hp : o.protocol_version ≥ 28 <;> simp [hd, he, hp]
  constructor
  · rw [XMIT_SAME_NAME_eq, has_flag_two_pow,
      send_flag_bytes_testBit _ _ _ _ (by decide) (by decide) (by decide), b5]
  · rw [XMIT_SAME_NAME_eq, has_flag_two_pow, recv_flags_testBit,
      send_flag_bytes_testBit _ _ _ _ (by decide) (by decide) (by decide), b5]
    simp
  · rw [XMIT_LONG_NAME_eq, has_flag_two_pow, has_flag_two_pow, recv_flags_testBit]
    simp
  · intro h
    rw [XMIT_LONG_NAME_eq, has_flag_two_pow] at h
    by_contra hgt
    have : (send_name_flags (send_delta_flags o x tmp st file) l1 l2).testBit 6 = true := by
      rw [b6]; simp; omega
    rw [send_flag_bytes_bit6 _ _ _ this] at h
    cases h
  · rw [XMIT_SAME_TIME_eq, has_flag_two_pow,
      send_flag_bytes_testBit _ _ _ _ (by decide) (by decide) (by decide), b7]
  · rw [XMIT_SAME_TIME_eq, has_flag_two_pow, recv_flags_testBit,
      send_flag_bytes_testBit _ _ _ _ (by decide) (by decide) (by decide), b7]
    simp
  · rw [XMIT_SAME_MODE_eq, has_flag_two_pow,
      send_flag_bytes_testBit _ _ _ _ (by decide) (by decide) (by decide), b1]
  · rw [XMIT_SAME_MODE_eq, has_flag_two_pow, recv_flags_testBit,
      send_flag_bytes_testBit _ _ _ _ (by decide) (by decide) (by decide), b1]
    simp
  · rw [XMIT_SAME_UID_eq, has_flag_two_pow,
      send_flag_bytes_testBit _ _ _ _ (by decide) (by decide) (by decide), b3]
  · rw [XMIT_SAME_UID_eq, has_flag_two_pow, recv_flags_testBit,
      send_flag_bytes_testBit _ _ _ _ (by decide) (by decide) (by decide), b3]
    simp
  · rw [XMIT_SAME_GID_eq, has_flag_two_pow,
      send_flag_bytes_testBit _ _ _ _ (by decide) (by decide) (by decide), b4]
  · rw [XMIT_SAME_GID_eq, has_flag_two_pow, recv_flags_testBit,
      send_flag_bytes_testBit _ _ _ _ (by decide) (by decide) (by decide), b4]
    simp
  · intro hc
    rw [XMIT_SAME_RDEV_MAJOR_eq, has_flag_two_pow,
      send_flag_bytes_testBit _ _ _ _ (by decide) (by decide) (by decide), b8 hc]
  · intro hc
    rw [XMIT_SAME_RDEV_MAJOR_eq, has_flag_two_pow, recv_flags_testBit,
      send_flag_bytes_testBit _ _ _ _ (by decide) (by decide) (by decide), b8 hc]
    simp [hcar hc]
  · intro hc
    rw [XMIT_RDEV_MINOR_IS_SMALL_eq, has_flag_two_pow,
      send_flag_bytes_testBit _ _ _ _ (by decide) (by decide) (by decide), b11 hc]
  · intro hc
    rw [XMIT_RDEV_MINOR_IS_SMALL_eq, has_flag_two_pow, recv_flags_testBit,
      send_flag_bytes_testBit _ _ _ _ (by decide) (by decide) (by decide), b11 hc]
    simp [hcar hc]
  · rw [XMIT_HAS_IDEV_DATA_eq, has_flag_two_pow, recv_flags_testBit,
      send_flag_bytes_testBit _ _ _ _ (by decide) (by decide) (by decide), b9]
    simp
  · rw [XMIT_SAME_DEV_eq, has_flag_two_pow,
      send_flag_bytes_testBit _ _ _ _ (by decide) (by decide) (by decide), b10]
  · rw [XMIT_SAME_DEV_eq, has_flag_two_pow, recv_flags_testBit,
      send_flag_bytes_testBit _ _ _ _ (by decide) (by decide) (by decide), b10]
    by_cases hp : o.protocol_version ≥ 28 <;> simp [hp]

theorem ite_same_eq {α : Type} [DecidableEq α] (a b : α) : (if a = b then b else a) = a := by
  split_ifs with h
  · exact h.symm
  · rfl

/-- The statics of the sender after line 389. -/
theorem send_delta_state_eq (o : options) (x : externals) (tmp : tmp_vars) (st : send_state)
    (file : file_struct) :
    send_delta_state o x tmp st file =
      { modtime := file.modtime
        mode := file.mode
        dev := if tmp.tmp_idev.dev ≠ 0 then tmp.tmp_idev.dev else st.dev
        rdev :=
          if carries_rdev o file.mode then tmp.tmp_rdev
          else if o.protocol_version < 28 then x.MAKEDEV 0 0
          else st.rdev
        rdev_major :=
          if carries_rdev o file.mode ∧ ¬ o.protocol_version < 28 then
            x.major tmp.tmp_rdev % 2 ^ 32
          else st.rdev_major
        uid := if o.preserve_uid then file.uid else st.uid
        gid := if o.preserve_gid then file.gid else st.gid
        lastname := st.lastname } := by
  unfold send_delta_state
  simp only [ite_same_eq, ite_self]

theorem F_LENGTH_range {file : file_struct} (h1 : file.len32 < 2 ^ 32)
    (h2 : file.len_high < 2 ^ 31) : 0 ≤ F_LENGTH file ∧ F_LENGTH file < 2 ^ 63 := by
  unfold F_LENGTH
  split_ifs <;> constructor <;> omega

theorem wire_mode_round (x : externals) (h : x.S_IFLNK = 0o120000) (mode : Nat)
    (hm : mode < 2 ^ 32) :
    from_wire_mode x (int_of_uint32 (uint32_of_int (to_wire_mode x mode))) = mode := by
  unfold from_wire_mode to_wire_mode
  have h1 : ¬ (x.S_IFLNK ≠ 0o120000) := fun hne => hne h
  simp only [h1, false_and, if_false, uint32_of_int_of_uint32, Nat.mod_mod]
  exact Nat.mod_eq_of_lt hm

theorem read_if_uint32 (c : Prop) [Decidable c] (v old : Nat) (T : List Nat) :
    read_if (!decide c) read_uint32 old
        ((if ¬ decide c = true then write_int (v : Nat) else []) ++ T) =
      outcome.ok (if c then old else v % 2 ^ 32, T) := by
  by_cases h : c
  · simp only [h, decide_True, Bool.not_true, read_if_false, not_true_eq_false, if_false,
      List.nil_append, if_true]
  · simp only [h, decide_False, Bool.not_false, read_if_true, Bool.false_eq_true,
      not_false_eq_true, if_true, read_uint32_write_int, uint32_of_int_nat, if_false]

/-- The fields from the length to the device numbers, read back (lines 567-601 on the
bytes of lines 426-455). -/
theorem recv_fields_send (o : options) (x : externals) (hk : codec_ok o x) (tmp : tmp_vars)
    (st : send_state) (file : file_struct) (hs : sendable o x file tmp) (rs : recv_state)
    (hc_modtime : rs.modtime = st.modtime) (hc_mode : rs.mode = st.mode)
    (hc_uid : rs.uid = st.uid) (hc_gid : rs.gid = st.gid)
    (hc_rdev_major : rs.rdev_major = st.rdev_major)
    (l1 l2 F R : Nat) (hw : wire_flags o x tmp st file l1 l2 F R)
    (tail : List Nat) :
    recv_fields o x rs R
        (send_field_bytes o x (send_delta_state o x tmp st file) file F ++ tail) =
      outcome.ok ((if carries_rdev o file.mode then 0 else F_LENGTH file,
        recv_fields_state o x tmp file rs), tail) := by
  have hlen := F_LENGTH_range hs.len32_lt hs.len_high_lt
  have e_time : ∀ T, read_if (!has_flag R XMIT_SAME_TIME) read_int rs.modtime
      ((if ¬ has_flag F XMIT_SAME_TIME = true then write_int file.modtime else []) ++ T) =
      outcome.ok (file.modtime, T) := by
    intro T
    rw [hw.time_r, hw.time_f]
    by_cases h : file.modtime = st.modtime
    · simp [h, read_if, hc_modtime]
    · simp [h, read_if, read_int_write_int,
        int_of_uint32_of_int32 _ hs.modtime_lo hs.modtime_hi]
  have e_mode : ∀ T, read_if (!has_flag R XMIT_SAME_MODE)
      (fun s => (read_int s).map fun p => (from_wire_mode x p.1, p.2)) rs.mode
      ((if ¬ has_flag F XMIT_SAME_MODE = true then write_int (to_wire_mode x file.mode) else [])
        ++ T) = outcome.ok (file.mode, T) := by
    intro T
    rw [hw.mode_r, hw.mode_f]
    by_cases h : file.mode = st.mode
    · simp [h, read_if, hc_mode]
    · simp [h, read_if, read_int_write_int, wire_mode_round x hk.symlink_bits _ hs.mode_lt]
  have e_uid : ∀ T, read_if (o.preserve_uid && !has_flag R XMIT_SAME_UID) read_uint32 rs.uid
      ((if o.preserve_uid = true ∧ ¬ has_flag F XMIT_SAME_UID = true then
          write_int (if o.preserve_uid then file.uid else st.uid : Nat) else []) ++ T) =
      outcome.ok ((if o.preserve_uid then file.uid else rs.uid : Nat), T) := by
    intro T
    rw [hw.uid_r, hw.uid_f]
    cases hp : o.preserve_uid
    · simp [read_if]
    · have := hs.uid_lt hp
      by_cases h : file.uid = st.uid
      · simp [h, read_if, hc_uid]
      · simp [h, read_if, read_uint32_write_int, uint32_of_int_nat]
        omega
  have e_gid : ∀ T, read_if (o.preserve_gid && !has_flag R XMIT_SAME_GID) read_uint32 rs.gid
      ((if o.preserve_gid = true ∧ ¬ has_flag F XMIT_SAME_GID = true then
          write_int (if o.preserve_gid then file.gid else st.gid : Nat) else []) ++ T) =
      outcome.ok ((if o.preserve_gid then file.gid else rs.gid : Nat), T) := by
    intro T
    rw [hw.gid_r, hw.gid_f]
    cases hp : o.preserve_gid
    · simp [read_if]
    · have := hs.gid_lt hp
      by_cases h : file.gid = st.gid
      · simp [h, read_if, hc_gid]
      · simp [h, read_if, read_uint32_write_int, uint32_of_int_nat]
        omega
  have hchmod : ¬ (o.chmod_modes = true ∧ ¬ S_ISLNK x file.mode = true) := by
    rw [hk.no_chmod]; simp
  unfold recv_fields send_field_bytes
  rw [send_delta_state_eq]
  simp only [List.append_assoc, read_longint_write_longint _ _ (by omega : -2 ^ 63 ≤ F_LENGTH file)
    hlen.2, outcome_bind_ok, e_time, e_mode, hchmod, if_false, e_uid, e_gid]
  by_cases hcar : carries_rdev o file.mode = true
  · have hpv := hs.rdev_new hcar
    have h28 : ¬ o.protocol_version < 28 := by omega
    have e_major : ∀ T, read_if (!has_flag R XMIT_SAME_RDEV_MAJOR) read_uint32 rs.rdev_major
        ((if ¬ has_flag F XMIT_SAME_RDEV_MAJOR = true then write_int (x.major tmp.tmp_rdev : Nat)
          else []) ++ T) = outcome.ok (x.major tmp.tmp_rdev % 2 ^ 32, T) := by
      intro T
      rw [hw.major_r hcar, hw.major_f hcar, read_if_uint32]
      by_cases h : x.major tmp.tmp_rdev % 2 ^ 32 = st.rdev_major
      · rw [if_pos h, hc_rdev_major, h]
      · rw [if_neg h]
    simp only [hcar, h28, if_true, if_false, and_self, not_false_eq_true, List.append_assoc,
      e_major, outcome_bind_ok, outcome_pure, recv_fields_state, hw.minor_r hcar,
      hw.minor_f hcar]
    by_cases h : x.minor tmp.tmp_rdev % 2 ^ 32 ≤ 0xFF
    · have e : x.minor tmp.tmp_rdev % 256 = x.minor tmp.tmp_rdev % 2 ^ 32 := by omega
      simp only [h, decide_True, if_true, read_byte_write_byte, outcome_bind_ok, e]
    · simp only [h, decide_False, Bool.false_eq_true, if_false, read_uint32_write_int,
        uint32_of_int_nat, outcome_bind_ok]
  · simp only [hcar, Bool.false_eq_true, if_false, false_and, List.nil_append,
      recv_fields_state]
    by_cases h28 : o.protocol_version < 28 <;> simp only [h28, if_true, if_false, outcome_pure]

/-- The length of the symlink target, read back (lines 603-623 on the bytes of lines
457-464); the target itself stays on the stream. -/
theorem recv_link_len_send (o : options) (x : externals) (hk : codec_ok o x)
    (file : file_struct) (tmp : tmp_vars) (hs : sendable o x file tmp) (st : send_state)
    (hst : st.mode = file.mode) (R : Nat) (tail : List Nat) :
    recv_link_len o x file.mode R (send_link_bytes o x st file ++ tail) =
      outcome.ok ((if o.preserve_links ∧ S_ISLNK x file.mode then
          (file.symlink.length : Int) + 1 else 0, recv_idev_flags o file.mode R),
        (if o.preserve_links ∧ S_ISLNK x file.mode then file.symlink else []) ++ tail) := by
  unfold recv_link_len send_link_bytes recv_idev_flags
  rw [hst]
  by_cases hl : o.preserve_links = true ∧ S_ISLNK x file.mode = true
  · have hlen := (hs.link_ok hl.1 hl.2).2
    have hM := hk.maxpath
    have e : int_of_uint32 (uint32_of_int (file.symlink.length : Int)) =
        (file.symlink.length : Int) := int_of_uint32_of_int32 _ (by omega) (by omega)
    have hno : ¬ ((file.symlink.length : Int) + 1 ≤ 0 ∨
        (file.symlink.length : Int) + 1 > (x.MAXPATHLEN : Int)) := by omega
    have hw : write_buf file.symlink file.symlink.length = file.symlink := by
      unfold write_buf; simp
    simp only [hl, and_self, if_true, List.append_assoc, read_int_write_int, e,
      outcome_bind_ok, hno, if_false, outcome_pure, hw]
  · simp only [hl, if_false, List.nil_append, outcome_pure, outcome_bind_ok]

/-- The symlink target, read back (lines 700-707). -/
theorem recv_symlink_send (o : options) (x : externals) (hk : codec_ok o x)
    (file : file_struct) (tmp : tmp_vars) (hs : sendable o x file tmp) (rs : recv_state)
    (tail : List Nat) :
    recv_symlink o x rs
        (if o.preserve_links ∧ S_ISLNK x file.mode then (file.symlink.length : Int) + 1 else 0)
        ((if o.preserve_links ∧ S_ISLNK x file.mode then file.symlink else []) ++ tail) =
      outcome.ok (if o.preserve_links ∧ S_ISLNK x file.mode then file.symlink else [],
        tail) := by
  unfold recv_symlink
  by_cases hl : o.preserve_links = true ∧ S_ISLNK x file.mode = true
  · have hc := (hs.link_ok hl.1 hl.2).1
    have hne : (file.symlink.length : Int) + 1 ≠ 0 := by omega
    have hn : ((file.symlink.length : Int) + 1 - 1).toNat = file.symlink.length := by omega
    have hb : read_buf file.symlink.length (file.symlink ++ tail) =
        outcome.ok (file.symlink, tail) := by
      have := read_buf_write_buf file.symlink file.symlink.length tail (le_refl _)
      unfold write_buf at this
      simpa using this
    simp only [hl, and_self, if_true, hne, ne_eq, not_false_eq_true, hn, hb, outcome_bind_ok,
      hk.no_sanitize, Bool.false_eq_true, if_false, cstr_of_ok hc, outcome_pure]
  · simp only [hl, if_false, ne_eq, not_true_eq_false, List.nil_append, outcome_pure]

/-- The receiver reads a hard-link key exactly when the sender wrote one. -/
theorem recv_idev_flags_has (o : options) (x : externals) (file : file_struct)
    (tmp : tmp_vars) (hs : sendable o x file tmp) (st : send_state) (l1 l2 F R : Nat)
    (hw : wire_flags o x tmp st file l1 l2 F R) :
    has_flag (recv_idev_flags o file.mode R) XMIT_HAS_IDEV_DATA = decide (tmp.tmp_idev.dev ≠ 0) ∧
    has_flag (recv_idev_flags o file.mode R) XMIT_SAME_DEV = has_flag F XMIT_SAME_DEV := by
  have hr := hw.idev_r
  have hd := hw.dev_r
  rw [← hw.dev_f] at hd
  rw [XMIT_HAS_IDEV_DATA_eq, has_flag_two_pow] at hr
  rw [XMIT_SAME_DEV_eq, has_flag_two_pow, has_flag_two_pow] at hd
  unfold recv_idev_flags
  rw [XMIT_HAS_IDEV_DATA_eq, XMIT_SAME_DEV_eq, has_flag_two_pow, has_flag_two_pow,
    has_flag_two_pow]
  by_cases hpv : o.protocol_version < 28
  · have h28 : ¬ o.protocol_version ≥ 28 := by omega
    have hreg := hs.idev_reg hpv
    simp only [h28, decide_False, Bool.and_false] at hr
    by_cases hc : o.preserve_hard_links = true ∧ S_ISREG file.mode = true
    · have hdev : tmp.tmp_idev.dev ≠ 0 := hreg.2 hc
      rw [if_pos ⟨hc.1, hpv, hc.2⟩, Nat.testBit_or, Nat.testBit_or, Nat.testBit_two_pow_self,
        Nat.testBit_two_pow_of_ne (by decide), hd]
      simp [hdev]
    · have hdev : ¬ tmp.tmp_idev.dev ≠ 0 := fun h => hc (hreg.1 h)
      rw [if_neg (fun h => hc ⟨h.1, h.2.2⟩), hr, hd]
      simp [hdev]
  · rw [if_neg (fun h => hpv h.2.1), hr, hd]
    have h28 : o.protocol_version ≥ 28 := by omega
    simp [h28]

/-- The hard-link key, read back (lines 709-724 on the bytes of lines 466-478). -/
theorem recv_idev_send (o : options) (x : externals) (file : file_struct) (tmp : tmp_vars)
    (hs : sendable o x file tmp) (st : send_state) (rs : recv_state)
    (hdev : o.protocol_version ≥ 26 → rs.dev = st.dev) (l1 l2 F R : Nat)
    (hw : wire_flags o x tmp st file l1 l2 F R) (tail : List Nat) :
    recv_idev o rs (recv_idev_flags o file.mode R)
        (send_idev_bytes o tmp (send_delta_state o x tmp st file) F ++ tail) =
      outcome.ok ((if tmp.tmp_idev.dev ≠ 0 then some tmp.tmp_idev else none,
        { rs with dev := if tmp.tmp_idev.dev ≠ 0 ∧ o.protocol_version ≥ 26 then
            tmp.tmp_idev.dev else rs.dev }), tail) := by
  obtain ⟨h1, h2⟩ := recv_idev_flags_has o x file tmp hs st l1 l2 F R hw
  unfold recv_idev send_idev_bytes
  rw [h1, h2, send_delta_state_eq]
  by_cases hd : tmp.tmp_idev.dev = 0
  · simp only [hd, ne_eq, not_true_eq_false, decide_False, Bool.false_eq_true, and_false,
      if_false, List.nil_append, outcome_pure, false_and]
  · have hpl := hs.idev_opt hd
    simp only [hd, ne_eq, not_false_eq_true, decide_True, hpl, and_self, if_true, true_and]
    by_cases h26 : o.protocol_version < 26
    · obtain ⟨a1, a2, a3, a4⟩ := hs.idev_old h26
      have hge : ¬ o.protocol_version ≥ 26 := by omega
      simp only [h26, if_true, List.append_assoc, read_int_write_int,
        int_of_uint32_of_int32 _ a1 a2, int_of_uint32_of_int32 _ a3 a4, outcome_bind_ok,
        outcome_pure, hge, if_false]
    · have hge : o.protocol_version ≥ 26 := by omega
      have hino : ∀ T, read_longint (write_longint tmp.tmp_idev.ino ++ T) =
          outcome.ok (tmp.tmp_idev.ino, T) :=
        fun T => read_longint_write_longint _ _ hs.ino_lo hs.ino_hi
      have hdv : ∀ T, read_longint (write_longint tmp.tmp_idev.dev ++ T) =
          outcome.ok (tmp.tmp_idev.dev, T) :=
        fun T => read_longint_write_longint _ _ hs.dev_lo hs.dev_hi
      simp only [h26, if_false, hge, if_true, List.append_assoc]
      cases hF : has_flag F XMIT_SAME_DEV
      · simp only [Bool.not_false, read_if_true, Bool.false_eq_true, not_false_eq_true, if_true,
          hdv, hino, outcome_bind_ok, outcome_pure]
      · have hsame : tmp.tmp_idev.dev = st.dev := by
          have := hw.dev_f
          rw [hF] at this
          simp at this
          exact this.1.2
        have hrs : rs.dev = tmp.tmp_idev.dev := by rw [hdev hge, hsame]
        simp only [Bool.not_true, read_if_false, not_true_eq_false, if_false, List.nil_append,
          hino, outcome_bind_ok, outcome_pure, hrs]

/-- The checksum, read back (lines 726-734 on the bytes of lines 480-486). -/
theorem recv_sum_send (o : options) (x : externals) (hk : codec_ok o x) (file : file_struct)
    (tmp : tmp_vars) (hs : sendable o x file tmp) (st : send_state)
    (hst : st.mode = file.mode) (tail : List Nat) :
    recv_sum o file.mode (send_sum_bytes o tmp st ++ tail) =
      outcome.ok (if o.always_checksum ∧ S_ISREG file.mode then
          tmp.tmp_sum.take o.checksum_len ++
            List.replicate (MD4_SUM_LENGTH - o.checksum_len) 0
        else [], tail) := by
  unfold recv_sum send_sum_bytes
  rw [hst]
  have hlen := hk.sum_len
  by_cases hc : o.always_checksum = true
  · by_cases hr : S_ISREG file.mode = true
    · simp only [hc, hr, true_or, and_self, if_true,
        read_buf_write_buf _ _ _ (by rw [hs.sum_ok]; exact hlen : o.checksum_len ≤ tmp.tmp_sum.length),
        outcome_bind_ok, outcome_pure]
    · by_cases hp : o.protocol_version < 28
      · simp only [hc, hr, hp, or_true, and_self, and_false, Bool.false_eq_true, if_true,
          if_false, false_or,
          read_buf_write_buf _ _ _ (by simp; exact hlen :
            o.checksum_len ≤ (List.replicate MD4_SUM_LENGTH 0).length),
          outcome_bind_ok, outcome_pure]
      · simp only [hc, hr, hp, or_self, and_false, Bool.false_eq_true, if_false,
          List.nil_append, outcome_pure]
  · simp only [hc, false_and, Bool.false_eq_true, if_false, List.nil_append, outcome_pure]

theorem last_slash_none (b : List Nat) (k : Nat) (h : 47 ∉ b) : last_slash b k = none := by
  induction b generalizing k with
  | nil => rfl
  | cons c rest ih =>
    have hc : c ≠ 47 := fun e => h (by rw [e]; exact List.mem_cons_self _ _)
    have hr : 47 ∉ rest := fun e => h (List.mem_cons_of_mem _ e)
    unfold last_slash
    rw [ih _ hr]
    simp [hc]

theorem last_slash_append (a b : List Nat) (k : Nat) (h : 47 ∉ b) :
    last_slash (a ++ 47 :: b) k = some (k + a.length) := by
  induction a generalizing k with
  | nil =>
    simp only [List.nil_append, List.length_nil, Nat.add_zero]
    unfold last_slash
    rw [last_slash_none b _ h]
    simp
  | cons c rest ih =>
    simp only [List.cons_append, List.length_cons]
    unfold last_slash
    rw [ih (k + 1)]
    simp only
    congr 1
    omega

theorem joined_name_cstr {file : file_struct} (h : entry_ok file) : cstr_ok (joined_name file) := by
  obtain ⟨_, hb, hd⟩ := h
  unfold joined_name
  unfold dirname_str at hd
  cases hdir : file.dirname with
  | none => simpa using hb
  | some d =>
    rw [hdir] at hd
    simp only at hd ⊢
    intro c hc
    simp only [List.append_assoc, List.singleton_append, List.mem_append, List.mem_cons] at hc
    rcases hc with hc | hc | hc
    · exact hd c hc
    · omega
    · exact hb c hc

/-- The name that `send_file_entry` takes from `f_name`. -/
theorem f_name_joined (M : Nat) {file : file_struct} (h : entry_ok file)
    (hlen : (joined_name file).length < M) :
    f_name M (some file) = some (joined_name file) := by
  have ha : is_inactive (some file) = false := by
    unfold is_inactive; simp [entry_ok_active h]
  unfold f_name
  unfold joined_name at hlen ⊢
  cases hdir : file.dirname with
  | none =>
    rw [hdir] at hlen
    simp only at hlen
    simp only [ha, Bool.false_eq_true, if_false, strlcpy]
    rw [List.take_of_length_le (by omega), hdir]
  | some d =>
    rw [hdir] at hlen
    simp only [List.append_assoc, List.singleton_append, List.length_append,
      List.length_cons] at hlen
    simp only [ha, Bool.false_eq_true, if_false, strlcpy, List.append_assoc,
      List.singleton_append]
    rw [hdir]
    simp only
    rw [List.take_of_length_le (by omega)]

/-- The receiver splits a joined name into the dirname and the basename it was joined
from (lines 548-565 and 658-668). -/
theorem recv_split_joined (x : externals) (rs : recv_state) (file : file_struct)
    (hno : 47 ∉ file.basename) (hset : 0 ≤ rs.lastdir_len → rs.lastdir ≠ none) :
    ∃ (d : Option dir_ptr) (depth : Int) (ld : Option dir_ptr) (ll lp : Int) (na : Nat),
      recv_split x rs (joined_name file) =
        outcome.ok ((d, file.basename, depth),
          { rs with lastdir := ld, lastdir_len := ll, lastdir_depth := lp, next_addr := na }) ∧
      d.map dir_ptr.str = file.dirname.map dir_ptr.str ∧ (0 ≤ ll → ld ≠ none) := by
  unfold joined_name recv_split
  cases hdir : file.dirname with
  | none =>
    simp only [last_slash_none _ _ hno]
    exact ⟨none, 1, rs.lastdir, rs.lastdir_len, rs.lastdir_depth, rs.next_addr, rfl, rfl, hset⟩
  | some d0 =>
    simp only [List.append_assoc, List.singleton_append, last_slash_append _ _ _ hno,
      Nat.zero_add, List.take_left', List.drop_left', outcome_pure]
    have hdrop : List.drop (d0.str.length + 1) (d0.str ++ 47 :: file.basename) =
        file.basename := by
      rw [List.drop_append_eq_append_drop]
      simp
    rw [hdrop]
    by_cases hl : rs.lastdir_len = (d0.str.length : Int)
    · rw [if_pos hl]
      cases hld : rs.lastdir with
      | none => exact absurd hld (hset (by omega))
      | some d1 =>
        simp only
        by_cases he : d0.str = d1.str
        · rw [if_pos he]
          refine ⟨some d1, rs.lastdir_depth + 1, rs.lastdir, rs.lastdir_len, rs.lastdir_depth,
            rs.next_addr, rfl, ?_, hset⟩
          simp [he]
        · rw [if_neg he]
          exact ⟨_, _, _, _, _, _, rfl, by simp, by simp⟩
    · rw [if_neg hl]
      exact ⟨_, _, _, _, _, _, rfl, by simp, by simp⟩

/-- The flags of the entry leave the statics of the delta fields alone. -/
theorem recv_entry_flags_state (o : options) (rs : recv_state) (flags l1 l2 : Nat)
    (basename : List Nat) (depth : Int) (file_length : Int) :
    ∃ (a : Bool) (b : Nat),
      (recv_entry_flags o rs flags l1 l2 basename depth file_length).2.2 =
        { rs with in_del_hier := a, del_hier_name_len := b } := by
  unfold recv_entry_flags
  simp only
  by_cases hd : S_ISDIR rs.mode = true
  · rw [if_pos hd]
    unfold recv_dir_flags
    simp only
    split_ifs
    all_goals exact ⟨_, _, rfl⟩
  · rw [if_neg hd]
    exact ⟨rs.in_del_hier, rs.del_hier_name_len, rfl⟩

/-- The flag `LENGTH64` of the entry is set for a regular file longer than 32 bits. -/
theorem recv_entry_flags_length64 (o : options) (rs : recv_state) (flags l1 l2 : Nat)
    (basename : List Nat) (depth : Int) (file_length : Int) :
    has_flag (recv_entry_flags o rs flags l1 l2 basename depth file_length).2.1 FLAG_LENGTH64 =
      decide (file_length > 0xFFFFFFFF ∧ S_ISREG rs.mode = true) := by
  unfold recv_entry_flags
  simp only [FLAG_LENGTH64_eq, FLAG_HLINKED_eq, has_flag_two_pow]
  by_cases hd : S_ISDIR rs.mode = true
  · rw [if_pos hd]
    unfold recv_dir_flags
    simp only [FLAG_TOP_DIR_eq, FLAG_XFER_DIR_eq]
    split_ifs <;> simp only [Nat.testBit_or, Nat.testBit_two_pow, Nat.zero_testBit] <;> simp [*]
  · rw [if_neg hd]
    simp only
    split_ifs <;> simp only [Nat.testBit_or, Nat.testBit_two_pow, Nat.zero_testBit] <;> simp [*]

/-- The length that the receiver stores is the length that was sent. -/
theorem recv_length (file : file_struct) (h1 : file.len32 < 2 ^ 32)
    (h2 : file.len_high < 2 ^ 31) (mode : Nat) (eflags : Nat)
    (hreg : F_LENGTH file > 0xFFFFFFFF → S_ISREG mode = true)
    (hfl : has_flag eflags FLAG_LENGTH64 =
      decide (F_LENGTH file > 0xFFFFFFFF ∧ S_ISREG mode = true)) (g : file_struct)
    (hg1 : g.len32 = uint32_of_int (F_LENGTH file))
    (hg2 : g.len_high = if decide (F_LENGTH file > 0xFFFFFFFF ∧ S_ISREG mode = true) = true
      then uint32_of_int (F_LENGTH file / 2 ^ 32) else 0)
    (hg3 : g.flags = eflags) : F_LENGTH g = F_LENGTH file := by
  have hr := F_LENGTH_range h1 h2
  have c1 := uint32_of_int_cast (F_LENGTH file)
  have c2 := uint32_of_int_cast (F_LENGTH file / 2 ^ 32)
  generalize F_LENGTH file = L at *
  unfold F_LENGTH
  rw [hg3, hfl, hg1, hg2]
  by_cases hL : L > 0xFFFFFFFF
  · have := hreg hL
    simp only [hL, this, and_self, decide_True, if_true]
    omega
  · simp only [hL, false_and, decide_False, Bool.false_eq_true, if_false]
    omega

/-- The entry that `recv_file_entry` makes from the bytes of `send_file_entry`, and the
statics of the two ends afterwards. -/
theorem recv_file_entry_send (o : options) (x : externals) (hk : codec_ok o x)
    (tmp : tmp_vars) (st : send_state) (file : file_struct) (hs : sendable o x file tmp)
    (rs : recv_state) (hc : coupled o st rs) (F R : Nat)
    (hw : wire_flags o x tmp st file (common_len st.lastname (joined_name file) 0)
      ((joined_name file).length - common_len st.lastname (joined_name file) 0) F R) :
    ∃ g rs', (∀ tail, recv_file_entry o x rs R
        (send_body o x tmp (send_delta_state o x tmp st file) file (joined_name file) F
          (common_len st.lastname (joined_name file) 0)
          ((joined_name file).length - common_len st.lastname (joined_name file) 0) ++ tail) =
        outcome.ok ((g, rs'), tail)) ∧
      coupled o { send_delta_state o x tmp st file with
        lastname := strlcpy (joined_name file) x.MAXPATHLEN } rs' ∧
      carried o x file tmp g := by
  obtain ⟨k, hk1, hk2, hk3, hk4, hk5⟩ := common_len_spec st.lastname (joined_name file) 0
  simp only [Nat.zero_add] at hk1
  rw [hk1] at hw ⊢
  have hk255 : k ≤ 255 := by have := hk5 (by omega); omega
  have hcstr := joined_name_cstr hs.name_ok
  have e_name := fun T => recv_name_send x rs.lastname (joined_name file) F R k
    ((joined_name file).length - k) T hw.name_r hw.name_f hw.long_r hw.long_f hk255
    (by rw [hc.lastname]; exact hk4) (by rw [hc.lastname]; exact hk2) (by omega) hs.name_len
    hk.maxpath hcstr
  have hstrl : strlcpy (joined_name file) x.MAXPATHLEN = joined_name file := by
    unfold strlcpy
    exact List.take_of_length_le (by have := hs.name_len; omega)
  have hsm : (send_delta_state o x tmp st file).mode = file.mode := by
    rw [send_delta_state_eq]
  -- the fields
  obtain ⟨rs2, e_fields, f_modtime, f_mode, f_uid, f_gid, f_major, f_rdev, f_dev, f_lastname,
      f_lastdir, f_lastdir_len⟩ :
      ∃ rs2 : recv_state,
        (∀ T, recv_fields o x { rs with lastname := joined_name file } R
          (send_field_bytes o x (send_delta_state o x tmp st file) file F ++ T) =
          outcome.ok ((if carries_rdev o file.mode then 0 else F_LENGTH file, rs2), T)) ∧
        rs2.modtime = file.modtime ∧ rs2.mode = file.mode ∧
        rs2.uid = (if o.preserve_uid then file.uid else rs.uid) ∧
        rs2.gid = (if o.preserve_gid then file.gid else rs.gid) ∧
        rs2.rdev_major =
          (if carries_rdev o file.mode then x.major tmp.tmp_rdev % 2 ^ 32 else rs.rdev_major) ∧
        (carries_rdev o file.mode = true → rs2.rdev =
          x.MAKEDEV (x.major tmp.tmp_rdev % 2 ^ 32) (x.minor tmp.tmp_rdev % 2 ^ 32)) ∧
        rs2.dev = rs.dev ∧ rs2.lastname = joined_name file ∧ rs2.lastdir = rs.lastdir ∧
        rs2.lastdir_len = rs.lastdir_len := by
    have e := fun T => recv_fields_send o x hk tmp st file hs
      { rs with lastname := joined_name file } hc.modtime hc.mode hc.uid hc.gid
      hc.rdev_major k ((joined_name file).length - k) F R hw T
    refine ⟨recv_fields_state o x tmp file { rs with lastname := joined_name file }, e,
      ?_, ?_, ?_, ?_, ?_, ?_, ?_, ?_, ?_, ?_⟩
    all_goals simp only [recv_fields_state]
    intro hcar
    simp only [hcar, if_true]
  have e_link := fun T => recv_link_len_send o x hk file tmp hs
    (send_delta_state o x tmp st file) hsm R T
  -- the name
  obtain ⟨d, depth, rs3, hsplit, hdstr, hldset, g_modtime, g_mode, g_uid, g_gid, g_major,
      g_rdev, g_dev, g_lastname⟩ :
      ∃ (d : Option dir_ptr) (depth : Int) (rs3 : recv_state),
        recv_split x rs2 (joined_name file) = outcome.ok ((d, file.basename, depth), rs3) ∧
        d.map dir_ptr.str = file.dirname.map dir_ptr.str ∧
        (0 ≤ rs3.lastdir_len → rs3.lastdir ≠ none) ∧
        rs3.modtime = rs2.modtime ∧ rs3.mode = rs2.mode ∧ rs3.uid = rs2.uid ∧
        rs3.gid = rs2.gid ∧ rs3.rdev_major = rs2.rdev_major ∧ rs3.rdev = rs2.rdev ∧
        rs3.dev = rs2.dev ∧ rs3.lastname = rs2.lastname := by
    obtain ⟨d, depth, ld, ll, lp, na, h1, h2, h3⟩ :=
      recv_split_joined x rs2 file hs.no_slash
        (by rw [f_lastdir, f_lastdir_len]; exact hc.lastdir_set)
    exact ⟨d, depth, _, h1, h2, h3, rfl, rfl, rfl, rfl, rfl, rfl, rfl, rfl⟩
  -- the flags of the entry
  obtain ⟨dd, ef, rs4, hD, hef, h_lastdir, h_lastdir_len, h_modtime, h_mode, h_uid, h_gid,
      h_major, h_rdev, h_dev, h_lastname⟩ :
      ∃ (dd : Int) (ef : Nat) (rs4 : recv_state),
        recv_entry_flags o rs3 (recv_idev_flags o file.mode R) k ((joined_name file).length - k)
          file.basename depth (if carries_rdev o file.mode then 0 else F_LENGTH file) =
          (dd, ef, rs4) ∧
        has_flag ef FLAG_LENGTH64 =
          decide ((if carries_rdev o file.mode then 0 else F_LENGTH file) > 0xFFFFFFFF ∧
            S_ISREG file.mode = true) ∧
        rs4.lastdir = rs3.lastdir ∧ rs4.lastdir_len = rs3.lastdir_len ∧
        rs4.modtime = rs3.modtime ∧ rs4.mode = rs3.mode ∧ rs4.uid = rs3.uid ∧
        rs4.gid = rs3.gid ∧ rs4.rdev_major = rs3.rdev_major ∧ rs4.rdev = rs3.rdev ∧
        rs4.dev = rs3.dev ∧ rs4.lastname = rs3.lastname := by
    have h1 := recv_entry_flags_state o rs3 (recv_idev_flags o file.mode R) k
      ((joined_name file).length - k) file.basename depth
      (if carries_rdev o file.mode then 0 else F_LENGTH file)
    have h2 := recv_entry_flags_length64 o rs3 (recv_idev_flags o file.mode R) k
      ((joined_name file).length - k) file.basename depth
      (if carries_rdev o file.mode then 0 else F_LENGTH file)
    rw [g_mode, f_mode] at h2
    generalize recv_entry_flags o rs3 (recv_idev_flags o file.mode R) k
      ((joined_name file).length - k) file.basename depth
      (if carries_rdev o file.mode then 0 else F_LENGTH file) = D at h1 h2
    obtain ⟨dd, ef, rs4⟩ := D
    obtain ⟨a, b, h1⟩ := h1
    simp only at h1 h2
    subst h1
    exact ⟨dd, ef, _, rfl, h2, rfl, rfl, rfl, rfl, rfl, rfl, rfl, rfl, rfl, rfl⟩
  have e_sym := fun T => recv_symlink_send o x hk file tmp hs rs4 T
  have e_idev := fun T => recv_idev_send o x file tmp hs st rs4
    (by intro h; rw [h_dev, g_dev, f_dev]; exact hc.dev h) _ _ F R hw T
  have e_sum := fun T => recv_sum_send o x hk file tmp hs
    (send_delta_state o x tmp st file) hsm T
  have hmode4 : rs4.mode = file.mode := by rw [h_mode, g_mode, f_mode]
  refine ⟨
    { modtime := rs4.modtime, dirname := d, depth := dd,
      len32 := uint32_of_int (if carries_rdev o file.mode = true then 0 else F_LENGTH file),
      mode := file.mode, flags := ef, basename := file.basename,
      symlink := if o.preserve_links = true ∧ S_ISLNK x file.mode = true then file.symlink
        else [],
      uid := if o.preserve_uid = true then rs4.uid else 0,
      gid := if o.preserve_gid = true then rs4.gid else 0,
      len_high :=
        if (if carries_rdev o file.mode = true then 0 else F_LENGTH file) > 4294967295 ∧
            S_ISREG file.mode = true then
          uint32_of_int ((if carries_rdev o file.mode = true then 0 else F_LENGTH file) / 2 ^ 32)
        else 0,
      rdev_major := if carries_rdev o file.mode = true then x.major rs4.rdev % 2 ^ 32 else 0,
      rdev_minor := if carries_rdev o file.mode = true then x.minor rs4.rdev % 2 ^ 32 else 0,
      hl_idev := if tmp.tmp_idev.dev ≠ 0 then some tmp.tmp_idev else none,
      sum :=
        if o.always_checksum = true ∧ S_ISREG file.mode = true then
          List.take o.checksum_len tmp.tmp_sum ++
            List.replicate (MD4_SUM_LENGTH - o.checksum_len) 0
        else [] },
    { rs4 with
      mode := file.mode
      dev := if tmp.tmp_idev.dev ≠ 0 ∧ o.protocol_version ≥ 26 then tmp.tmp_idev.dev
        else rs4.dev },
    fun tail => ?_, ?_, ?_⟩
  · unfold recv_file_entry send_body
    simp only [List.append_assoc, e_name, outcome_bind_ok, hstrl, hs.clean, hk.no_sanitize,
      Bool.false_eq_true, if_false, e_fields, f_mode, e_link, hsplit, hD, e_sym, e_idev,
      hmode4, e_sum, outcome_pure]
  · rw [send_delta_state_eq]
    constructor
    · simp only [h_lastdir_len, h_lastdir]
      exact hldset
    · simp only [h_modtime, g_modtime, f_modtime]
    · simp only
    · simp only [h_uid, g_uid, f_uid, hc.uid]
    · simp only [h_gid, g_gid, f_gid, hc.gid]
    · simp only [h_major, g_major, f_major, hc.rdev_major]
      by_cases hcar : carries_rdev o file.mode = true
      · have := hs.rdev_new hcar
        have h28 : ¬ o.protocol_version < 28 := by omega
        simp only [hcar, h28, not_false_eq_true, and_self, if_true]
      · simp only [hcar, Bool.false_eq_true, false_and, if_false]
    · intro h26
      simp only [h_dev, g_dev, f_dev, hc.dev h26, h26, and_true]
    · simp only [h_lastname, g_lastname, f_lastname, hstrl]
  · constructor
    · rfl
    · exact hdstr
    · rfl
    · simp only [h_modtime, g_modtime, f_modtime]
    · by_cases hcar : carries_rdev o file.mode = true
      · have h0 := hs.rdev_len hcar
        apply recv_length file hs.len32_lt hs.len_high_lt file.mode ef hs.long_reg
        · rw [hef]; simp only [hcar, if_true, h0]
        · simp only [hcar, if_true, h0]
        · simp only [hcar, if_true, h0]
          simp
        · rfl
      · apply recv_length file hs.len32_lt hs.len_high_lt file.mode ef hs.long_reg
        · rw [hef]; simp only [hcar, Bool.false_eq_true, if_false]
        · simp only [hcar, Bool.false_eq_true, if_false]
        · simp only [hcar, Bool.false_eq_true, if_false, decide_eq_true_eq]
        · rfl
    · intro hp
      simp only [hp, if_true, h_uid, g_uid, f_uid]
    · intro hp
      simp only [hp, if_true, h_gid, g_gid, f_gid]
    · intro hcar
      have hM : x.major tmp.tmp_rdev % 2 ^ 32 < 2 ^ 32 := Nat.mod_lt _ (by norm_num)
      have hm : x.minor tmp.tmp_rdev % 2 ^ 32 < 2 ^ 32 := Nat.mod_lt _ (by norm_num)
      simp only [hcar, if_true, h_rdev, g_rdev, f_rdev hcar, hk.major_ok _ _ hM hm,
        hk.minor_ok _ _ hM hm, and_self]
    · intro h1 h2
      simp only [h1, h2, and_self, if_true]
    · rfl
    · intro h1 h2
      simp only [h1, h2, and_self, if_true]

theorem coupled_init (o : options) : coupled o {} {} := by
  constructor
  · intro h
    simp at h
  all_goals first | rfl | exact fun _ => rfl

/-- The statics of the two ends stay coupled when the list ends. -/
theorem coupled_reset (o : options) (x : externals) (rs : recv_state) :
    coupled o (send_reset x) (recv_reset x rs) := by
  constructor
  · intro h0
    simp [recv_reset] at h0
  all_goals first | rfl | exact fun _ => rfl

/-- One entry through `send_file_entry` and one turn of the loop of `recv_file_list`. -/
theorem recv_file_list_loop_entry (o : options) (x : externals) (hk : codec_ok o x)
    (tmp : tmp_vars) (st : send_state) (file : file_struct) (hs : sendable o x file tmp)
    (rs : recv_state) (hc : coupled o st rs) :
    ∃ bytes st' g rs', send_file_entry o x tmp st (some file) = outcome.ok (bytes, st') ∧
      coupled o st' rs' ∧ carried o x file tmp g ∧
      ∀ n files rest, recv_file_list_loop o x (n + 1) rs files (bytes ++ rest) =
        recv_file_list_loop o x n rs' (files ++ [g]) rest := by
  have hf := f_name_joined x.MAXPATHLEN hs.name_ok hs.name_len
  have hw := wire_flags_send o x tmp st file (common_len st.lastname (joined_name file) 0)
    ((joined_name file).length - common_len st.lastname (joined_name file) 0)
    (send_delta_state o x tmp st file).mode hs.rdev_new
  obtain ⟨g, rs', hrecv, hcpl, hcar⟩ := recv_file_entry_send o x hk tmp st file hs rs hc _ _ hw
  refine ⟨(send_flag_bytes o (send_delta_state o x tmp st file).mode
        (send_name_flags (send_delta_flags o x tmp st file)
          (common_len st.lastname (joined_name file) 0)
          ((joined_name file).length - common_len st.lastname (joined_name file) 0))).2 ++
      send_body o x tmp (send_delta_state o x tmp st file) file (joined_name file)
        (send_flag_bytes o (send_delta_state o x tmp st file).mode
          (send_name_flags (send_delta_flags o x tmp st file)
            (common_len st.lastname (joined_name file) 0)
            ((joined_name file).length - common_len st.lastname (joined_name file) 0))).1
        (common_len st.lastname (joined_name file) 0)
        ((joined_name file).length - common_len st.lastname (joined_name file) 0),
    { send_delta_state o x tmp st file with
      lastname := strlcpy (joined_name file) x.MAXPATHLEN }, g, rs', ?_, hcpl, hcar, ?_⟩
  · unfold send_file_entry
    simp only [hf]
  · intro n files rest
    rw [List.append_assoc, recv_file_list_loop_flags o x n rs files _ _ _
      (send_name_flags_lt o x tmp st file _ _) (send_name_flags_bit2 o x tmp st file _ _),
      hrecv]
    rfl

/-- A list of entries through `send_file_entry` and the loop of `recv_file_list`. -/
theorem recv_file_list_loop_send (o : options) (x : externals) (hk : codec_ok o x) :
    ∀ (L : List (file_struct × tmp_vars)) (st : send_state) (rs : recv_state),
      coupled o st rs → (∀ p ∈ L, sendable o x p.1 p.2) →
      ∃ bytes st' gs rs', send_file_entries o x st L = outcome.ok (bytes, st') ∧
        List.Forall₂ (fun p g => carried o x p.1 p.2 g) L gs ∧
        ∀ n files rest, L.length + 1 ≤ n →
          recv_file_list_loop o x n rs files (bytes ++ rest) =
            outcome.ok ((files ++ gs, rs'), rest) := by
  intro L
  induction L with
  | nil =>
    intro st rs _ _
    refine ⟨write_byte 0, send_reset x, [], recv_reset x rs, rfl, List.Forall₂.nil, ?_⟩
    intro n files rest hn
    obtain ⟨m, rfl⟩ : ∃ m, n = m + 1 := ⟨n - 1, by simp at hn; omega⟩
    rw [recv_file_list_loop_end, List.append_nil]
  | cons p L ih =>
    intro st rs hc hL
    obtain ⟨file, tmp⟩ := p
    have hs : sendable o x file tmp := hL (file, tmp) (List.mem_cons_self _ _)
    obtain ⟨bytes, st1, g, rs1, hsend, hc1, hcar, hloop⟩ :=
      recv_file_list_loop_entry o x hk tmp st file hs rs hc
    obtain ⟨more, st2, gs, rs2, hsend2, hall, hloop2⟩ :=
      ih st1 rs1 hc1 (fun q hq => hL q (List.mem_cons_of_mem _ hq))
    refine ⟨bytes ++ more, st2, g :: gs, rs2, ?_, List.Forall₂.cons hcar hall, ?_⟩
    · unfold send_file_entries
      simp only [hsend, outcome_bind_ok, hsend2, outcome_pure]
    · intro n files rest hn
      obtain ⟨m, rfl⟩ : ∃ m, n = m + 1 := ⟨n - 1, by simp at hn; omega⟩
      rw [List.append_assoc, hloop, hloop2 m _ rest (by simp at hn; omega), List.append_assoc]
      rfl

theorem fnc_key_carried (pv : Int) {g f : file_struct} (hb : g.basename = f.basename)
    (hd : g.dirname.map dir_ptr.str = f.dirname.map dir_ptr.str) (hm : g.mode = f.mode) :
    fnc_key pv g = fnc_key pv f := by
  unfold fnc_key fnc_base_key fnc_is_dot fnc_base_type
  simp only [hb, hd, hm]

theorem entry_ok_carried {g f : file_struct} (hb : g.basename = f.basename)
    (hd : g.dirname.map dir_ptr.str = f.dirname.map dir_ptr.str) (h : entry_ok f) :
    entry_ok g := by
  have hds : dirname_str g = dirname_str f := by
    unfold dirname_str
    cases hg : g.dirname <;> cases hf : f.dirname <;> rw [hg, hf] at hd <;>
      simp only [Option.map, reduceCtorEq, Option.some.injEq] at hd
    · exact hd
  unfold entry_ok at h ⊢
  rw [hb, hds]
  exact h

/-- The entry that the receiver made compares equal to the one that was sent, wherever
`f_name_cmp` returns. -/
theorem f_name_cmp_carried (pv : Int) {g f : file_struct} (hb : g.basename = f.basename)
    (hd : g.dirname.map dir_ptr.str = f.dirname.map dir_ptr.str) (hm : g.mode = f.mode)
    (h : entry_ok f) (hp : ptr_ok g f) (ho : ¬ fnc_overread pv g f) :
    f_name_cmp pv (some g) (some f) = cmp_result.ret 0 := by
  rw [f_name_cmp_eq pv g f (entry_ok_carried hb hd h) h hp, if_neg ho,
    fnc_key_carried pv hb hd hm, fnc_lex_self]


/-! ## The round trip of the file-list stream -/

/-- C2, as stated, fails on a hard-link key that does not fit the fields of an old
protocol: under protocol 25 with hard links preserved, the regular file `a` with the key
(device 3, inode 2^40) is sent by `send_file_entry` with "32-bit dev_t and ino_t"
(line 468) and read back by the loop of `recv_file_list` with the key (3, 0). -/
theorem round_trip_old_inode_wraps :
    ex_file_linked.2.tmp_idev = { dev := 3, ino := 1099511627776 } ∧
    (send_file_entries ex_options_old ex_externals {} [ex_file_linked]).bind
      (fun p => (recv_file_list_loop ex_options_old ex_externals (p.1.length + 1) {} [] p.1).map
        fun r => r.1.1.map fun g => (g.basename, g.hl_idev)) =
      outcome.ok [([97], some { dev := 3, ino := 0 })] := by
  constructor
  · rfl
  · decide

/-- C2, amended: let the platform and the options meet `codec_ok`, the statics of the two
ends be coupled (as they are before the first entry and after each terminator), and every
entry of the list meet `sendable`. Then the successive calls of `send_file_entry`,
followed by the terminator, write bytes from which the loop of `recv_file_list` reads,
with enough iterations, a list of as many entries in the same order and leaves what
follows the terminator on the stream; each entry carries the fields of the entry at its
place (basename and dirname string, mode, modification time, length, uid and gid when
preserved, device numbers, symlink target, hard-link key, checksum) and compares equal to
it under `f_name_cmp` wherever that call returns. -/
theorem send_recv_round_trip (o : options) (x : externals) (hk : codec_ok o x)
    (L : List (file_struct × tmp_vars)) (st : send_state) (rs : recv_state)
    (hc : coupled o st rs) (hL : ∀ p ∈ L, sendable o x p.1 p.2) :
    ∃ bytes st' gs rs', send_file_entries o x st L = outcome.ok (bytes, st') ∧
      (∀ n rest, L.length + 1 ≤ n →
        recv_file_list_loop o x n rs [] (bytes ++ rest) = outcome.ok ((gs, rs'), rest)) ∧
      List.Forall₂ (fun p g => carried o x p.1 p.2 g ∧
        (ptr_ok g p.1 → ¬ fnc_overread o.protocol_version g p.1 →
          f_name_cmp o.protocol_version (some g) (some p.1) = cmp_result.ret 0)) L gs := by
  obtain ⟨bytes, st', gs, rs', hsend, hall, hloop⟩ := recv_file_list_loop_send o x hk L st rs hc hL
  refine ⟨bytes, st', gs, rs', hsend, fun n rest hn => ?_, ?_⟩
  · rw [hloop n [] rest hn, List.nil_append]
  · clear hsend hloop
    induction hall with
    | nil => exact List.Forall₂.nil
    | @cons p g L gs hpg _ ih =>
      refine List.Forall₂.cons ⟨hpg, fun hp ho => ?_⟩
        (ih (fun q hq => hL q (List.mem_cons_of_mem _ hq)))
      exact f_name_cmp_carried o.protocol_version hpg.basename hpg.dirname hpg.mode
        (hL p (List.mem_cons_self _ _)).name_ok hp ho

/-- A witness for C2: under protocol 29, with uid and gid preserved, the directory `a` and
the regular file `a/b.txt` go through the stream from the initial statics. -/
theorem send_recv_round_trip_witness :
    ∃ bytes st' gs rs',
      send_file_entries ex_options ex_externals {} ex_send_list = outcome.ok (bytes, st') ∧
      (∀ n rest, ex_send_list.length + 1 ≤ n →
        recv_file_list_loop ex_options ex_externals n {} [] (bytes ++ rest) =
          outcome.ok ((gs, rs'), rest)) ∧
      List.Forall₂ (fun p g => carried ex_options ex_externals p.1 p.2 g ∧
        (ptr_ok g p.1 → ¬ fnc_overread ex_options.protocol_version g p.1 →
          f_name_cmp ex_options.protocol_version (some g) (some p.1) = cmp_result.ret 0))
        ex_send_list gs :=
  send_recv_round_trip ex_options ex_externals
    ⟨by decide, rfl,
      fun a b ha hb => by
        show (a * 2 ^ 32 + b) / 2 ^ 32 % 2 ^ 32 = a
        omega,
      fun a b ha hb => by
        show (a * 2 ^ 32 + b) % 2 ^ 32 % 2 ^ 32 = b
        omega,
      rfl, rfl, by decide⟩
    ex_send_list {} {}
    ⟨fun h => absurd h (by decide), rfl, rfl, rfl, rfl, rfl, fun _ => rfl, rfl⟩
    (by
      intro p hp
      simp only [ex_send_list, List.mem_cons, List.mem_singleton, List.not_mem_nil,
        or_false] at hp
      rcases hp with rfl | rfl <;> constructor <;> decide)


/-! ### The flag byte at the head of an entry -/

/-- The first byte that lines 405-418 of `send_file_entry` write is never 0. -/
theorem send_flag_bytes_head (o : options) (mode N : Nat) (hN : N < 2 ^ 12) :
    ∃ b t, (send_flag_bytes o mode N).2 = b :: t ∧ b ≠ 0 ∧ b < 256
      ∧ (send_flag_bytes o mode N).1 % 256 = b := by
  have e : (256 : Nat) = 2 ^ 8 := rfl
  unfold send_flag_bytes
  by_cases hpv : o.protocol_version ≥ 28
  · simp only [hpv, if_true]
    have hN1lt : (if N = 0 ∧ ¬ S_ISDIR mode = true then N ||| XMIT_TOP_DIR else N) < 2 ^ 12 := by
      split_ifs
      · exact Nat.or_lt_two_pow hN (by decide)
      · exact hN
    generalize (if N = 0 ∧ ¬ S_ISDIR mode = true then N ||| XMIT_TOP_DIR else N) = N1
      at hN1lt
    by_cases hext : has_flag N1 0xFF00 = true ∨ N1 = 0
    · rw [if_pos hext]
      refine ⟨(N1 ||| XMIT_EXTENDED_FLAGS) % 256, _, rfl, ?_, Nat.mod_lt _ (by norm_num), rfl⟩
      apply ne_zero_of_testBit (i := 2)
      rw [e, Nat.testBit_mod_two_pow, Nat.testBit_or, XMIT_EXTENDED_FLAGS_eq,
        Nat.testBit_two_pow_self]
      simp
    · rw [if_neg hext]
      have hlt : N1 < 256 := by
        by_contra hge
        apply hext
        left
        rw [has_flag_high_byte N1 (Nat.lt_of_lt_of_le hN1lt (by norm_num))]
        simp; omega
      have hne : N1 ≠ 0 := fun h => hext (Or.inr h)
      refine ⟨N1 % 256, _, rfl, ?_, Nat.mod_lt _ (by norm_num), rfl⟩
      rw [Nat.mod_eq_of_lt hlt]
      exact hne
  · simp only [hpv, if_false]
    refine ⟨_, _, rfl, ?_, Nat.mod_lt _ (by norm_num), rfl⟩
    by_cases hl : has_flag N 0xFF = true
    · simp only [hl, not_true_eq_false, if_false]
      rw [has_flag_low_byte] at hl
      simpa using hl
    · have hl2 : has_flag N 0xFF = false := by simpa using hl
      simp only [hl2, Bool.false_eq_true, not_false_eq_true, if_true]
      by_cases hd : S_ISDIR mode = true
      · apply ne_zero_of_testBit (i := 6)
        rw [e, Nat.testBit_mod_two_pow, Nat.testBit_or, if_pos hd, XMIT_LONG_NAME_eq,
          Nat.testBit_two_pow_self]
        simp
      · apply ne_zero_of_testBit (i := 0)
        rw [e, Nat.testBit_mod_two_pow, Nat.testBit_or, if_neg hd, XMIT_TOP_DIR_eq,
          Nat.testBit_two_pow_self]
        simp

/-- The buffer `fname` of `send_file_entry` is filled for every active entry. -/
theorem f_name_active (M : Nat) (file : file_struct) (h : F_IS_ACTIVE file = true) :
    ∃ fname, f_name M (some file) = some fname := by
  unfold f_name is_inactive
  simp only [h, Bool.not_true, Bool.false_eq_true, if_false]
  cases file.dirname <;> exact ⟨_, rfl⟩

/-! ## Inactive entries in the order, and the flag byte of an entry -/

/-- C11: against an active entry, a NULL or cleared entry is given the answer -1 when it
is the first argument of `f_name_cmp` and 1 when it is the second, at every protocol
version: the comparator puts it before the active entry, not after it. -/
theorem f_name_cmp_inactive_first (pv : Int) (a : file_struct) (c : Option file_struct)
    (ha : F_IS_ACTIVE a = true) (hc : is_inactive c = true) :
    f_name_cmp pv (some a) c = cmp_result.ret 1
      ∧ f_name_cmp pv c (some a) = cmp_result.ret (-1) := by
  have ha2 : is_inactive (some a) = false := by simp [is_inactive, ha]
  constructor
  · unfold f_name_cmp
    simp only [ha2, hc, Bool.false_eq_true, if_false, if_true]
  · unfold f_name_cmp
    simp only [ha2, hc, Bool.false_eq_true, if_false, if_true]

theorem f_name_cmp_inactive_first_witness :
    (F_IS_ACTIVE ex_file_a = true ∧ is_inactive (some (clear_file ex_dir_a)) = true)
      ∧ f_name_cmp 29 (some ex_file_a) (some (clear_file ex_dir_a)) = cmp_result.ret 1
      ∧ f_name_cmp 29 (some (clear_file ex_dir_a)) (some ex_file_a) = cmp_result.ret (-1) :=
  ⟨by decide, f_name_cmp_inactive_first 29 ex_file_a (some (clear_file ex_dir_a))
    (by decide) (by decide)⟩

/-- On an active entry the buffer is what `f_name` wrote, whatever the stack held. -/
theorem send_file_entry_buf_active (o : options) (x : externals) (tmp : tmp_vars)
    (st : send_state) (file : file_struct) (stack : List Nat)
    (h : F_IS_ACTIVE file = true) :
    send_file_entry o x tmp st (some file) =
      outcome.ok (send_file_entry_buf o x tmp st file stack) := by
  obtain ⟨fname, hf⟩ := f_name_active x.MAXPATHLEN file h
  unfold send_file_entry send_file_entry_buf
  simp only [hf, Option.getD_some]

/-- C12: for every protocol version, option setting and retained state, for every entry
that is not `NULL`, active or cleared, and whatever string the buffer `fname` holds when
`f_name` has not filled it, the first byte that `send_file_entry` writes is the low byte
of its flags and is not 0. On an active entry that is the run of the embedding
`send_file_entry`. The loop of `recv_file_list` that meets these bytes does not end the
list: it calls `recv_file_entry` with these flags on the bytes after them. -/
theorem send_file_entry_flag_byte_nonzero (o : options) (x : externals) (tmp : tmp_vars)
    (st : send_state) (file : file_struct) (stack : List Nat) :
    ∃ b rest st1 F body, send_file_entry_buf o x tmp st file stack = (b :: rest, st1)
      ∧ b ≠ 0 ∧ b < 256 ∧ F % 256 = b
      ∧ (F_IS_ACTIVE file = true →
          send_file_entry o x tmp st (some file) = outcome.ok (b :: rest, st1))
      ∧ ∀ (n : Nat) (rs : recv_state) (files : List file_struct) (tail : List Nat),
          recv_file_list_loop o x (n + 1) rs files (b :: rest ++ tail)
            = (recv_file_entry o x rs (recv_flags o F) (body ++ tail)).bind
                fun r => recv_file_list_loop o x n r.1.2 (files ++ [r.1.1]) r.2 := by
  generalize hfn : (f_name x.MAXPATHLEN (some file)).getD stack = fname
  have hN := send_name_flags_lt o x tmp st file (common_len st.lastname fname 0)
    (fname.length - common_len st.lastname fname 0)
  have hb2 := send_name_flags_bit2 o x tmp st file (common_len st.lastname fname 0)
    (fname.length - common_len st.lastname fname 0)
  obtain ⟨b, t, hbt, hb0, hb256, hF⟩ :=
    send_flag_bytes_head o (send_delta_state o x tmp st file).mode _ hN
  generalize hfb : send_flag_bytes o (send_delta_state o x tmp st file).mode
    (send_name_flags (send_delta_flags o x tmp st file) (common_len st.lastname fname 0)
      (fname.length - common_len st.lastname fname 0)) = fb at hbt hF
  have hrun : send_file_entry_buf o x tmp st file stack =
      (b :: (t ++ send_body o x tmp (send_delta_state o x tmp st file) file fname fb.1
        (common_len st.lastname fname 0) (fname.length - common_len st.lastname fname 0)),
      { send_delta_state o x tmp st file with lastname := strlcpy fname x.MAXPATHLEN }) := by
    unfold send_file_entry_buf
    simp only [hfn, hfb, hbt, List.cons_append]
  refine ⟨b, t ++ send_body o x tmp (send_delta_state o x tmp st file) file fname fb.1
      (common_len st.lastname fname 0) (fname.length - common_len st.lastname fname 0),
    { send_delta_state o x tmp st file with lastname := strlcpy fname x.MAXPATHLEN },
    fb.1, send_body o x tmp (send_delta_state o x tmp st file) file fname fb.1
      (common_len st.lastname fname 0) (fname.length - common_len st.lastname fname 0),
    hrun, hb0, hb256, hF, ?_, ?_⟩
  · intro hact
    rw [send_file_entry_buf_active o x tmp st file stack hact, hrun]
  · intro n rs files tail
    have hl := recv_file_list_loop_flags o x n rs files
      (send_delta_state o x tmp st file).mode _ (send_body o x tmp
        (send_delta_state o x tmp st file) file fname fb.1
        (common_len st.lastname fname 0) (fname.length - common_len st.lastname fname 0)
        ++ tail) hN hb2
    rw [hfb, hbt] at hl
    rw [← hl]
    simp only [List.cons_append, List.append_assoc]

/-- The cleared entry of the file `a`, sent with the options of the examples from the
statics of the start of a list while the buffer holds the string "x" or the empty
string: the flag byte is 154 both times. -/
theorem send_file_entry_buf_cleared :
    F_IS_ACTIVE (clear_file ex_file_a) = false ∧
    (send_file_entry_buf ex_options ex_externals {} {} (clear_file ex_file_a) [120]).1 =
      [154, 1, 120, 1, 0, 0, 0] ∧
    (send_file_entry_buf ex_options ex_externals {} {} (clear_file ex_file_a) []).1 =
      [154, 0, 1, 0, 0, 0] := by
  decide

/-! ### One duplicate dropped -/

/-- The lines 1590-1623 of `clean_flist` return: when the current entry `i` is a
directory and the earlier entry `j` is not, `i` is kept and `j` is cleared, and else `j`
is kept and `i` is cleared; the kept entry takes the top-directory flags of the other. -/
theorem clean_drop_run (flist : file_list) (prev_i i j : Int) (file fp : file_struct)
    (hj0 : 0 ≤ j) (hji : j < i) (hi : i < flist.files.length)
    (hfile : files_get flist.files i = outcome.ok file)
    (hfp : files_get flist.files j = outcome.ok fp) :
    ∃ st', clean_drop flist prev_i i j file = outcome.ok st' ∧
      st'.flist.files =
        (if S_ISDIR file.mode = true ∧ S_ISDIR fp.mode = false then
          files_update (files_update flist.files i (merge_flags fp)) j clear_file
        else files_update (files_update flist.files j (merge_flags file)) i clear_file) ∧
      st'.prev_i = (if S_ISDIR file.mode = true ∧ S_ISDIR fp.mode = false then i else prev_i)
      ∧ st'.flist.high = flist.high := by
  unfold clean_drop
  simp only [hfp, outcome_bind_ok]
  by_cases hk : S_ISDIR file.mode = true ∧ S_ISDIR fp.mode = false
  · have hkd : (if S_ISDIR file.mode ≠ S_ISDIR fp.mode then
        if S_ISDIR file.mode = true then (i, j) else (j, i)
      else (j, i)) = (i, j) := by
      have hne : S_ISDIR file.mode ≠ S_ISDIR fp.mode := by rw [hk.1, hk.2]; decide
      rw [if_pos hne, if_pos hk.1]
    simp only [hkd, hfp, outcome_bind_ok, if_true]
    rw [if_pos hk, if_pos hk]
    by_cases hlow : flist.low = j
    · have hlen : (files_update (files_update flist.files i (merge_flags fp)) j
          clear_file).length = flist.files.length := by
        rw [files_update_length, files_update_length]
      obtain ⟨r, hr, -⟩ := skip_cleared_spec
        (files_update (files_update flist.files i (merge_flags fp)) j clear_file) i
        (files_update (files_update flist.files i (merge_flags fp)) j clear_file).length
        (j + 1) (by omega) (by omega) (by rw [hlen]; exact hi) (by rw [hlen]; omega)
      simp only [hlow, if_true, hr, outcome_bind_ok, outcome_pure]
      exact ⟨_, rfl, rfl, rfl, rfl⟩
    · simp only [hlow, if_false, outcome_pure, outcome_bind_ok]
      exact ⟨_, rfl, rfl, rfl, rfl⟩
  · have hji2 : ¬ j = i := by omega
    have hkd : (if S_ISDIR file.mode ≠ S_ISDIR fp.mode then
        if S_ISDIR file.mode = true then (i, j) else (j, i)
      else (j, i)) = (j, i) := by
      by_cases h1 : S_ISDIR file.mode ≠ S_ISDIR fp.mode
      · have h2 : ¬ S_ISDIR file.mode = true := by
          intro hf
          apply hk
          refine ⟨hf, ?_⟩
          cases hfpd : S_ISDIR fp.mode
          · rfl
          · rw [hf, hfpd] at h1; exact absurd rfl h1
        rw [if_pos h1, if_neg h2]
      · rw [if_neg h1]
    simp only [hkd, hfile, outcome_bind_ok, hji2, if_false, outcome_pure]
    rw [if_neg hk, if_neg hk]
    exact ⟨_, rfl, rfl, rfl, rfl⟩

/-- The body of the main loop on an active entry that duplicates an earlier one is the
lines 1590-1623 on the index that lines 1578-1589 found. -/
theorem clean_step_dup (pv : Int) (st : clean_state) (i j : Int) (file : file_struct)
    (fl : file_list) (hfile : files_get st.flist.files i = outcome.ok file)
    (ha : F_IS_ACTIVE file = true)
    (hdup : clean_find_dup pv st file = outcome.ok (j, fl)) (hj0 : 0 ≤ j) :
    clean_step pv st i = clean_drop fl st.prev_i i j file := by
  unfold clean_step
  simp only [hfile, outcome_bind_ok, ha, Bool.not_true, Bool.false_eq_true, if_false, hdup]
  have : j ≥ 0 := hj0
  simp only [this, if_true]

/-- The bit `TOP_DIR` of the flags that lines 1610-1611 leave in the kept entry. -/
theorem merge_flags_top_dir (kept dropped : Nat) :
    has_flag (kept ||| (dropped &&& (FLAG_TOP_DIR ||| FLAG_XFER_DIR))) FLAG_TOP_DIR =
      (has_flag kept FLAG_TOP_DIR || has_flag dropped FLAG_TOP_DIR) := by
  have e : (FLAG_TOP_DIR ||| FLAG_XFER_DIR).testBit 0 = true := by decide
  rw [FLAG_TOP_DIR_eq, has_flag_two_pow, has_flag_two_pow, has_flag_two_pow, Nat.testBit_or,
    Nat.testBit_and, ← FLAG_TOP_DIR_eq, e, Bool.and_true]

/-! ## Duplicates: which entry stays, and what it keeps -/

/-- C14: in the main loop of `clean_flist`, let the active entry `file` at index `i`
collide with the active entry `fp` kept at the earlier index `j` (lines 1578-1589 gave
`j >= 0`). Then the iteration returns, and if exactly one of the two is a directory the
directory stays active and the other entry is cleared, and if both or neither are
directories the earlier entry `j` stays active and the current entry `i` is cleared. -/
theorem clean_step_keeps_directory (pv : Int) (st : clean_state) (i j : Int)
    (file fp : file_struct) (fl : file_list)
    (hfile : files_get st.flist.files i = outcome.ok file) (ha : F_IS_ACTIVE file = true)
    (hdup : clean_find_dup pv st file = outcome.ok (j, fl)) (hj0 : 0 ≤ j) (hji : j < i)
    (hfile2 : files_get fl.files i = outcome.ok file)
    (hfp : files_get fl.files j = outcome.ok fp) (hfpa : F_IS_ACTIVE fp = true) :
    ∃ st', clean_step pv st i = outcome.ok st' ∧
      (S_ISDIR file.mode = true → S_ISDIR fp.mode = false →
        active_at st'.flist.files i ∧ cleared_at st'.flist.files j) ∧
      (S_ISDIR file.mode = false → S_ISDIR fp.mode = true →
        active_at st'.flist.files j ∧ cleared_at st'.flist.files i) ∧
      (S_ISDIR file.mode = S_ISDIR fp.mode →
        active_at st'.flist.files j ∧ cleared_at st'.flist.files i) := by
  have hi := (files_get_range hfile2).2
  obtain ⟨st', hrun, hfiles, -, -⟩ := clean_drop_run fl st.prev_i i j file fp hj0 hji hi hfile2 hfp
  have hne : i ≠ j := by omega
  have hkeep_j : ¬ (S_ISDIR file.mode = true ∧ S_ISDIR fp.mode = false) →
      active_at st'.flist.files j ∧ cleared_at st'.flist.files i := by
    intro hk
    rw [hfiles, if_neg hk, active_merge_clear _ _ _ _ _ hne.symm,
      cleared_merge_clear _ _ _ _ _ hne.symm ⟨file, hfile2⟩]
    exact ⟨⟨⟨fp, hfp, hfpa⟩, hne.symm⟩, Or.inr rfl⟩
  refine ⟨st', ?_, ?_, ?_, ?_⟩
  · rw [clean_step_dup pv st i j file fl hfile ha hdup hj0]; exact hrun
  · intro h1 h2
    rw [hfiles, if_pos ⟨h1, h2⟩, active_merge_clear _ _ _ _ _ hne,
      cleared_merge_clear _ _ _ _ _ hne ⟨fp, hfp⟩]
    exact ⟨⟨⟨file, hfile2, ha⟩, hne⟩, Or.inr rfl⟩
  · intro h1 _
    apply hkeep_j
    rw [h1]
    simp
  · intro h1
    apply hkeep_j
    rw [h1]
    cases S_ISDIR fp.mode <;> simp

theorem clean_step_keeps_directory_witness :
    ∃ st', clean_step 29 { flist := ex_list_twin, prev_i := 0 } 1 = outcome.ok st' ∧
      (S_ISDIR ex_dir_a.mode = true → S_ISDIR ex_file_a.mode = false →
        active_at st'.flist.files 1 ∧ cleared_at st'.flist.files 0) ∧
      (S_ISDIR ex_dir_a.mode = false → S_ISDIR ex_file_a.mode = true →
        active_at st'.flist.files 0 ∧ cleared_at st'.flist.files 1) ∧
      (S_ISDIR ex_dir_a.mode = S_ISDIR ex_file_a.mode →
        active_at st'.flist.files 0 ∧ cleared_at st'.flist.files 1) :=
  clean_step_keeps_directory 29 { flist := ex_list_twin, prev_i := 0 } 1 0 ex_dir_a ex_file_a
    { ex_list_twin with high := 0 } (by decide) (by decide) (by decide) (by decide) (by decide)
    (by decide) (by decide) (by decide)

/-- C15: when the main loop of `clean_flist` drops a duplicate, the entry `i` or the
earlier entry `j`, the dropped entry is cleared and the kept entry is what it was with its
flags OR-ed with the bits `TOP_DIR` and `XFER_DIR` of the dropped one, no other field
changed; so the kept entry is marked `TOP_DIR` afterwards exactly when one of the two was
before. -/
theorem clean_step_merges_flags (pv : Int) (st : clean_state) (i j : Int)
    (file fp : file_struct) (fl : file_list)
    (hfile : files_get st.flist.files i = outcome.ok file) (ha : F_IS_ACTIVE file = true)
    (hdup : clean_find_dup pv st file = outcome.ok (j, fl)) (hj0 : 0 ≤ j) (hji : j < i)
    (hfile2 : files_get fl.files i = outcome.ok file)
    (hfp : files_get fl.files j = outcome.ok fp) :
    ∃ st' keep drop kept dropped, clean_step pv st i = outcome.ok st' ∧
      ((keep = i ∧ drop = j) ∨ (keep = j ∧ drop = i)) ∧
      files_get fl.files keep = outcome.ok kept ∧
      files_get fl.files drop = outcome.ok dropped ∧
      cleared_at st'.flist.files drop ∧
      files_get st'.flist.files keep = outcome.ok
        { kept with flags := kept.flags ||| (dropped.flags &&& (FLAG_TOP_DIR ||| FLAG_XFER_DIR)) } ∧
      has_flag (kept.flags ||| (dropped.flags &&& (FLAG_TOP_DIR ||| FLAG_XFER_DIR))) FLAG_TOP_DIR =
        (has_flag kept.flags FLAG_TOP_DIR || has_flag dropped.flags FLAG_TOP_DIR) := by
  have hi := (files_get_range hfile2).2
  obtain ⟨st', hrun, hfiles, -, -⟩ := clean_drop_run fl st.prev_i i j file fp hj0 hji hi hfile2 hfp
  have hne : i ≠ j := by omega
  have hstep : clean_step pv st i = outcome.ok st' := by
    rw [clean_step_dup pv st i j file fl hfile ha hdup hj0]; exact hrun
  by_cases hk : S_ISDIR file.mode = true ∧ S_ISDIR fp.mode = false
  · refine ⟨st', i, j, file, fp, hstep, Or.inl ⟨rfl, rfl⟩, hfile2, hfp, ?_, ?_,
      merge_flags_top_dir _ _⟩
    · rw [hfiles, if_pos hk, cleared_merge_clear _ _ _ _ _ hne ⟨fp, hfp⟩]
      exact Or.inr rfl
    · rw [hfiles, if_pos hk, files_get_merge_clear _ _ _ _ _ hne, if_neg hne, if_pos rfl,
        hfile2]
      rfl
  · refine ⟨st', j, i, fp, file, hstep, Or.inr ⟨rfl, rfl⟩, hfp, hfile2, ?_, ?_,
      merge_flags_top_dir _ _⟩
    · rw [hfiles, if_neg hk, cleared_merge_clear _ _ _ _ _ hne.symm ⟨file, hfile2⟩]
      exact Or.inr rfl
    · rw [hfiles, if_neg hk, files_get_merge_clear _ _ _ _ _ hne.symm, if_neg hne.symm,
        if_pos rfl, hfp]
      rfl

theorem clean_step_merges_flags_witness :
    ∃ st' keep drop kept dropped,
      clean_step 29 { flist := ex_list_top, prev_i := 0 } 1 = outcome.ok st' ∧
      ((keep = 1 ∧ drop = 0) ∨ (keep = 0 ∧ drop = 1)) ∧
      files_get ex_list_top.files keep = outcome.ok kept ∧
      files_get ex_list_top.files drop = outcome.ok dropped ∧
      cleared_at st'.flist.files drop ∧
      files_get st'.flist.files keep = outcome.ok
        { kept with flags := kept.flags ||| (dropped.flags &&& (FLAG_TOP_DIR ||| FLAG_XFER_DIR)) } ∧
      has_flag (kept.flags ||| (dropped.flags &&& (FLAG_TOP_DIR ||| FLAG_XFER_DIR))) FLAG_TOP_DIR =
        (has_flag kept.flags FLAG_TOP_DIR || has_flag dropped.flags FLAG_TOP_DIR) :=
  clean_step_merges_flags 29 { flist := ex_list_top, prev_i := 0 } 1 0
    { ex_dir_a with flags := FLAG_TOP_DIR } ex_dir_a ex_list_top
    (by decide) (by decide) (by decide) (by decide) (by decide) (by decide) (by decide)

/-! ### Keys of entries with the same name -/

theorem S_ISDIR_regular : S_ISDIR S_IFREG = false := by decide

/-- The key of an entry that is not a directory. -/
theorem fnc_key_file (pv : Int) (f : file_struct) (hdir : S_ISDIR f.mode = false) :
    fnc_key pv f = fnc_dir_key (fnc_t_path pv) (f.dirname.map dir_ptr.str) ++
      fnc_tag t_ITEM f.basename := by
  unfold fnc_key
  rw [fnc_base_key_file _ f hdir]

/-- The key that line 1585 looks for. -/
theorem fnc_key_regular (pv : Int) (f : file_struct) :
    fnc_key pv { f with mode := S_IFREG } =
      fnc_dir_key (fnc_t_path pv) (f.dirname.map dir_ptr.str) ++ fnc_tag t_ITEM f.basename :=
  fnc_key_file pv { f with mode := S_IFREG } S_ISDIR_regular

/-- The key depends on the mode through `S_ISDIR` only. -/
theorem fnc_key_same_name (pv : Int) {a b : file_struct} (h : same_name a b)
    (hm : S_ISDIR a.mode = S_ISDIR b.mode) : fnc_key pv a = fnc_key pv b := by
  unfold fnc_key fnc_base_key fnc_is_dot fnc_base_type
  simp only [h.1, h.2, hm]

/-- Before protocol 29 the key does not depend on the mode at all. -/
theorem fnc_key_same_name_old {pv : Int} (hpv : pv < 29) {a b : file_struct}
    (h : same_name a b) : fnc_key pv a = fnc_key pv b := by
  rw [fnc_key_old hpv, fnc_key_old hpv]
  congr 1
  unfold joined_name
  have h1 := h.1
  have h2 := h.2
  cases ha : a.dirname <;> cases hb : b.dirname <;> rw [ha, hb] at h1 <;> simp at h1 <;>
    simp [h1, h2]

theorem all_path_tag (c : List Nat) : all_path (fnc_tag t_PATH c) := by
  intro x hx
  unfold fnc_tag at hx
  obtain ⟨b, -, rfl⟩ := List.mem_map.1 hx
  rfl

theorem all_path_dir_key (d : Option (List Nat)) : all_path (fnc_dir_key t_PATH d) := by
  cases d with
  | none => intro x hx; cases hx
  | some d =>
    intro x hx
    unfold fnc_dir_key at hx
    rcases List.mem_append.1 hx with h | h
    · exact all_path_tag d x h
    · simp at h; rw [h]

/-- From protocol 29 on the key of a directory is made of path elements only. -/
theorem all_path_key_dir {pv : Int} (hpv : 29 ≤ pv) (f : file_struct)
    (hdir : S_ISDIR f.mode = true) : all_path (fnc_key pv f) := by
  unfold fnc_key
  rw [fnc_t_path_new hpv]
  intro x hx
  rcases List.mem_append.1 hx with h | h
  · exact all_path_dir_key _ x h
  · unfold fnc_base_key at h
    have hb : fnc_base_type t_PATH f = t_PATH := by simp [fnc_base_type, hdir]
    split at h
    · cases h
    · rw [hb] at h
      rcases List.mem_append.1 h with h | h
      · exact all_path_tag _ x h
      · simp at h; rw [h]

/-- From protocol 29 on a directory and a non-directory never have the same key. -/
theorem fnc_key_dir_ne_file {pv : Int} (hpv : 29 ≤ pv) (a b : file_struct)
    (ha : S_ISDIR a.mode = true) (hb : S_ISDIR b.mode = false) (hne : b.basename ≠ []) :
    fnc_key pv a ≠ fnc_key pv b := by
  intro h
  have hp := all_path_key_dir hpv a ha
  rw [h, fnc_key_file pv b hb] at hp
  obtain ⟨c, r, e⟩ := List.exists_cons_of_ne_nil hne
  have := hp (t_ITEM, c) (by rw [e]; simp [fnc_tag])
  cases this

/-- From protocol 29 on a directory whose basename is not "." comes after the
non-directory of the same name. -/
theorem fnc_key_regular_before_dir {pv : Int} (hpv : 29 ≤ pv) (f : file_struct)
    (hok : entry_ok f) (hdir : S_ISDIR f.mode = true) (hnd : f.basename ≠ [46]) :
    fnc_lex (fnc_key pv { f with mode := S_IFREG }) (fnc_key pv f) < 0 := by
  have k1 : fnc_key pv f = fnc_dir_key (fnc_t_path pv) (f.dirname.map dir_ptr.str) ++
      (fnc_tag t_PATH f.basename ++ [(t_PATH, 47)]) := by
    unfold fnc_key; rw [fnc_base_key_dir hpv f hok.2.1 hdir hnd]
  obtain ⟨a, r1, e1⟩ := List.exists_cons_of_ne_nil hok.1
  rw [fnc_key_regular, k1, fnc_lex_append, e1]
  simp [fnc_tag, fnc_lex, fnc_type_dif]

/-! ### Directories and non-directories of the same name -/

/-- An active index up to `i + 1` is an index up to `p`, or `i + 1`. -/
theorem clean_inv_active_le {pv : Int} {S files : List file_struct} {lo p i k : Int}
    (h : clean_inv pv S files lo p i) (ha : active_at files k) (hk : k ≤ i + 1) :
    k ≤ p ∨ k = i + 1 := by
  by_cases h1 : k ≤ p
  · exact Or.inl h1
  · right
    by_contra hne
    exact not_active_and_cleared ha (h.above k (by omega) (by omega))

/-- An active index is not below `lo`. -/
theorem clean_inv_active_ge {pv : Int} {S files : List file_struct} {lo p i k : Int}
    (h : clean_inv pv S files lo p i) (ha : active_at files k) : lo ≤ k := by
  by_contra hlt
  obtain ⟨g, hg, hga⟩ := ha
  exact not_active_and_cleared ⟨g, hg, hga⟩
    (h.below k (files_get_range hg).1 (by omega))

/-- Two active indices up to `p` whose entries have the same key are the same index. -/
theorem clean_inv_key_inj {pv : Int} {S files : List file_struct} {lo p i k1 k2 : Int}
    {s1 s2 : file_struct} (h : clean_inv pv S files lo p i) (h1 : k1 ≤ p) (h2 : k2 ≤ p)
    (a1 : active_at files k1) (a2 : active_at files k2)
    (hs1 : files_get S k1 = outcome.ok s1) (hs2 : files_get S k2 = outcome.ok s2)
    (hk : fnc_key pv s1 = fnc_key pv s2) : k1 = k2 := by
  rcases Int.lt_trichotomy k1 k2 with hlt | heq | hgt
  · have := h.sorted k1 k2 s1 s2 hlt h2 a1 a2 hs1 hs2
    rw [hk, fnc_lex_self] at this
    omega
  · exact heq
  · have := h.sorted k2 k1 s2 s1 hgt h1 a2 a1 hs2 hs1
    rw [hk, fnc_lex_self] at this
    omega

/-- The body of the main loop keeps the list free of a directory after its
non-directory twin. -/
theorem clean_step_twin {pv : Int} {S files : List file_struct} {lo p i : Int}
    (hn : names_ok pv S) (hsort : keys_sorted pv S) (hlen : (S.length : Int) < 2 ^ 31)
    (h : clean_inv pv S files lo p i) (hi : i + 1 < files.length) (high : Int)
    (ht : twin_free pv S files p) :
    ∃ st', clean_step pv { flist := { files := files, low := lo, high := high }, prev_i := p }
        (i + 1) = outcome.ok st' ∧
      clean_inv pv S st'.flist.files st'.flist.low st'.prev_i (i + 1) ∧
      twin_free pv S st'.flist.files st'.prev_i := by
  obtain ⟨st', hrun, hinv⟩ := clean_step_spec hn hsort hlen h hi high
  refine ⟨st', hrun, hinv, ?_⟩
  have hle := h.p_le
  have hlo := h.region.lo_le
  obtain ⟨hlo0, hphi⟩ := region_hi_range h.region
  obtain ⟨s, hs, hS, hsa⟩ := clean_inv_next hn h hi
  have hsm : s ∈ S := files_get_mem hS
  obtain ⟨gp, hgp, hgpa⟩ := h.region.hi_active
  obtain ⟨sp, hsp, hflp⟩ := h.kept p gp hgp hgpa
  have hspm : sp ∈ S := files_get_mem hsp
  have ks := fnc_key_ok pv s (hn.ok s hsm)
  have ksp := fnc_key_ok pv sp (hn.ok sp hspm)
  have hcmp := run_cmp_names pv S hn (flags_only_refl s) hflp hsm hspm
  -- what an old pair gives
  have hold : ∀ files1, (∀ k, active_at files1 k → active_at files k) →
      twin_free pv S files1 p := by
    intro files1 hsub hpv k1 k2 s1 s2 h12 h2p a1 a2 hs1 hs2 hdir
    exact ht hpv k1 k2 s1 s2 h12 h2p (hsub k1 a1) (hsub k2 a2) hs1 hs2 hdir
  -- what a new last entry asks for
  have hnew : ∀ files1, (∀ k, k ≤ i + 1 → active_at files1 k →
        k = i + 1 ∨ (k ≤ p ∧ active_at files k)) →
      (29 ≤ pv → S_ISDIR s.mode = true → ∀ k1 s1, k1 ≤ p → active_at files1 k1 →
        files_get S k1 = outcome.ok s1 →
        fnc_key pv { s with mode := S_IFREG } ≠ fnc_key pv s1) →
      twin_free pv S files1 (i + 1) := by
    intro files1 hsub hkey hpv k1 k2 s1 s2 h12 h2p a1 a2 hs1 hs2 hdir
    rcases hsub k2 h2p a2 with e2 | ⟨l2, o2⟩
    · subst e2
      rcases hsub k1 (by omega) a1 with e1 | ⟨l1, o1⟩
      · omega
      · rw [files_get_unique hs2 hS] at hdir ⊢
        exact hkey hpv hdir k1 s1 l1 a1 hs1
    · rcases hsub k1 (by omega) a1 with e1 | ⟨l1, o1⟩
      · omega
      · exact ht hpv k1 k2 s1 s2 h12 l2 o1 o2 hs1 hs2 hdir
  unfold clean_step at hrun
  simp only [hs, outcome_bind_ok, hsa, Bool.not_true, Bool.false_eq_true, if_false] at hrun
  unfold clean_find_dup at hrun
  simp only [hgp, outcome_bind_ok, hcmp] at hrun
  by_cases hd : fnc_lex (fnc_key pv s) (fnc_key pv sp) = 0
  · -- the names are equal
    have hkeq : fnc_key pv s = fnc_key pv sp := (fnc_lex_eq_zero _ _ ks ksp).1 hd
    have hp0 : p ≥ 0 := by omega
    simp only [hd, if_true, outcome_pure, outcome_bind_ok, hp0] at hrun
    obtain ⟨st2, hrun2, hfiles, hprev, -⟩ :=
      clean_drop_run { files := files, low := lo, high := high } p (i + 1) p s gp hp0
        (by omega) hi hs hgp
    rw [hrun] at hrun2
    injection hrun2 with e
    subst e
    by_cases hk : S_ISDIR s.mode = true ∧ S_ISDIR gp.mode = false
    · intro hpv
      exfalso
      apply fnc_key_dir_ne_file hpv s sp hk.1 _ (hn.ok sp hspm).1 hkeq
      rw [← flags_only_isdir hflp]; exact hk.2
    · rw [hprev, if_neg hk, hfiles, if_neg hk]
      apply hold
      intro k hk'
      exact ((active_merge_clear _ _ _ _ _ (by omega)).1 hk').1
  · simp only [hd, if_false] at hrun
    by_cases hfind : pv ≥ 29 ∧ S_ISDIR s.mode = true
    · simp only [hfind, and_self, if_true] at hrun
      have hfo := clean_find_order hn h s hsm
      have hlen' : ((({ files := files, low := lo, high := p } : file_list).files.length : Nat)
          : Int) < 2 ^ 31 := by
        simp only; rw [h.len]; exact hlen
      obtain ⟨r, files', hfrun, hsame, hreg, hres⟩ :=
        flist_find_spec pv { s with mode := S_IFREG } { files := files, low := lo, high := p }
          _ hlen' h.region hfo
      simp only [hfrun, outcome_bind_ok] at hrun
      have h' := clean_inv_same_files hn h hsame hreg
      have hi' : i + 1 < files'.length := by rw [hsame.1]; exact hi
      have hs' : files_get files' (i + 1) = outcome.ok s := by
        rw [h'.rest (i + 1) (by omega)]; exact hS
      by_cases hr0 : r ≥ 0
      · simp only [hr0, if_true] at hrun
        rcases hres with ⟨hr1, -⟩ | ⟨hr1, hr2, g, hg, hga, hg0, -⟩
        · omega
        · simp only at hr1 hr2 hg
          have hg' : files_get files' r = outcome.ok g := by
            obtain ⟨g', hg', se⟩ := hsame.2 r g hg
            rw [hg', se.1 hga]
          obtain ⟨sr, hsr, hflr⟩ := h.kept r g hg hga
          have kg : fnc_key pv g = fnc_key pv { s with mode := S_IFREG } := by
            apply (fnc_lex_eq_zero _ _ _ _).1 hg0
            · rw [flags_only_key pv hflr]
              exact fnc_key_ok pv sr (hn.ok sr (files_get_mem hsr))
            · exact fnc_key_ok pv _ (hn.ok s hsm)
          obtain ⟨st2, hrun2, hfiles, hprev, -⟩ :=
            clean_drop_run { files := files', low := lo, high := p } p (i + 1) r s g hr0
              (by omega) hi' hs' hg'
          rw [hrun] at hrun2
          injection hrun2 with e
          subst e
          by_cases hk : S_ISDIR s.mode = true ∧ S_ISDIR g.mode = false
          · rw [hprev, if_pos hk, hfiles, if_pos hk]
            apply hnew
            · intro k hk1 hka
              have hka' := (active_merge_clear _ _ _ _ _ (by omega)).1 hka
              have hkf := (same_files_active hsame k).1 hka'.1
              rcases clean_inv_active_le h hkf hk1 with hp | hp
              · exact Or.inr ⟨hp, hkf⟩
              · exact Or.inl hp
            · intro hpv _ k1 s1 l1 a1 hs1 hkk
              have hka' := (active_merge_clear _ _ _ _ _ (by omega)).1 a1
              have hkf := (same_files_active hsame k1).1 hka'.1
              have : k1 = r := clean_inv_key_inj h l1 hr2 hkf ⟨g, hg, hga⟩ hs1 hsr
                (by rw [← hkk, ← kg, flags_only_key pv hflr])
              exact hka'.2 this
          · rw [hprev, if_neg hk, hfiles, if_neg hk]
            apply hold
            intro k hk'
            exact (same_files_active hsame k).1
              ((active_merge_clear _ _ _ _ _ (by omega)).1 hk').1
      · simp only [hr0, if_false, outcome_pure] at hrun
        injection hrun with e
        subst e
        apply hnew
        · intro k hk1 hka
          have hkf := (same_files_active hsame k).1 hka
          rcases clean_inv_active_le h hkf hk1 with hp | hp
          · exact Or.inr ⟨hp, hkf⟩
          · exact Or.inl hp
        · intro hpv _ k1 s1 l1 a1 hs1 hkk
          have hkf := (same_files_active hsame k1).1 a1
          obtain ⟨g1, hg1, hg1a⟩ := hkf
          obtain ⟨s1', hs1', hfl1⟩ := h.kept k1 g1 hg1 hg1a
          rw [files_get_unique hs1' hs1] at hfl1
          rcases hres with ⟨-, hall⟩ | ⟨hr1, -⟩
          · simp only at hall
            apply hall k1 g1 (clean_inv_active_ge h ⟨g1, hg1, hg1a⟩) l1 hg1 hg1a
            refine ⟨?_, fun hlt => by omega⟩
            rw [flags_only_key pv hfl1, ← hkk, fnc_lex_self]
          · simp only at hr1
            omega
    · simp only [hfind, if_false, outcome_pure, outcome_bind_ok] at hrun
      have : ¬ ((-1 : Int) ≥ 0) := by omega
      simp only [this, if_false] at hrun
      injection hrun with e
      subst e
      apply hnew
      · intro k hk1 hka
        rcases clean_inv_active_le h hka hk1 with hp | hp
        · exact Or.inr ⟨hp, hka⟩
        · exact Or.inl hp
      · intro hpv hdir
        exact absurd ⟨hpv, hdir⟩ hfind

/-- The main loop of `clean_flist` ends at the end of the array, and keeps the invariant
and the list free of a directory after its non-directory twin. -/
theorem clean_loop_twin {pv : Int} {S : List file_struct}
    (hn : names_ok pv S) (hsort : keys_sorted pv S) (hlen : (S.length : Int) < 2 ^ 31) :
    ∀ (n : Nat) (st : clean_state) (i : Int),
      clean_inv pv S st.flist.files st.flist.low st.prev_i i →
      twin_free pv S st.flist.files st.prev_i →
      (st.flist.files.length : Int) ≤ i + 1 + n →
      ∃ st' i', clean_loop pv n st i = outcome.ok st' ∧
        clean_inv pv S st'.flist.files st'.flist.low st'.prev_i i' ∧
        twin_free pv S st'.flist.files st'.prev_i ∧
        (st'.flist.files.length : Int) ≤ i' + 1 := by
  intro n
  induction n with
  | zero =>
    intro st i h ht hb
    refine ⟨st, i, ?_, h, ht, by push_cast at hb; omega⟩
    unfold clean_loop
    rw [if_neg]
    · rfl
    · unfold file_list.count; push_cast at hb; omega
  | succ n ih =>
    intro st i h ht hb
    unfold clean_loop
    by_cases hc : i + 1 < st.flist.count
    · rw [if_pos hc]
      obtain ⟨⟨files, lo, high⟩, p⟩ := st
      simp only at h hb hc ht
      obtain ⟨st1, hst1, h1, ht1⟩ := clean_step_twin hn hsort hlen h hc high ht
      simp only [hst1, outcome_bind_ok]
      apply ih st1 (i + 1) h1 ht1
      rw [h1.len, ← h.len]
      push_cast at hb ⊢
      omega
    · rw [if_neg hc]
      refine ⟨st, i, rfl, h, ht, ?_⟩
      unfold file_list.count at hc
      omega

/-- On a sorted array of well-formed names `clean_flist` with `no_dups` and without
`strip_root` returns with every index dealt with, in a state of the invariant and free of
a directory after its non-directory twin. -/
theorem clean_flist_twin {pv : Int} (qsort : List file_struct → List file_struct)
    (flist : file_list) (no_dups : Int) (hnd : no_dups ≠ 0)
    (hn : names_ok pv (qsort flist.files)) (hsort : keys_sorted pv (qsort flist.files))
    (hlen : ((qsort flist.files).length : Int) < 2 ^ 31)
    (hl : (qsort flist.files).length = flist.files.length) (hne : flist.files ≠ []) :
    ∃ cl i, clean_flist qsort pv flist 0 no_dups = outcome.ok cl ∧
      clean_inv pv (qsort flist.files) cl.files cl.low cl.high i ∧
      twin_free pv (qsort flist.files) cl.files cl.high ∧
      (cl.files.length : Int) ≤ i + 1 := by
  have hne' : qsort flist.files ≠ [] := by
    intro h
    rw [h] at hl
    exact hne (List.length_eq_zero.1 hl.symm)
  have hc : flist.count ≠ 0 := by
    unfold file_list.count
    intro h
    exact hne (List.length_eq_zero.1 (by exact_mod_cast h))
  obtain ⟨s, rest, hS⟩ := List.exists_cons_of_ne_nil hne'
  have hfa : first_active (qsort flist.files) 0 = some 0 := by
    rw [hS]
    exact first_active_cons rest (entry_ok_active (hn.ok s (by rw [hS]; exact List.mem_cons_self _ _)))
  have hinit := clean_inv_init hn hne'
  have htw : twin_free pv (qsort flist.files) (qsort flist.files) 0 := by
    intro _ k1 k2 s1 s2 h12 h2 _ _ hs1 _ _
    have := (files_get_range hs1).1
    omega
  obtain ⟨st', i', hrun, hinv, ht, hend⟩ := clean_loop_twin hn hsort hlen
    (qsort flist.files).length
    { flist := { files := qsort flist.files, low := 0, high := flist.high }, prev_i := 0 } 0
    hinit htw (by simp only; omega)
  refine ⟨{ st'.flist with high := st'.prev_i }, i', ?_, hinv, ht, hend⟩
  unfold clean_flist
  simp only [hc, if_false, hnd, ne_eq, not_false_eq_true, if_true, hfa, Nat.cast_zero,
    outcome_bind_ok, hrun, not_true_eq_false, outcome_pure]

/-- Every active entry lies in `low .. high` once the loop has dealt with every index. -/
theorem clean_inv_active_window {pv : Int} {S files : List file_struct} {lo p i k : Int}
    (h : clean_inv pv S files lo p i) (hend : (files.length : Int) ≤ i + 1)
    (ha : active_at files k) : lo ≤ k ∧ k ≤ p := by
  refine ⟨clean_inv_active_ge h ha, ?_⟩
  obtain ⟨g, hg, hga⟩ := ha
  have := (files_get_range hg).2
  rcases clean_inv_active_le h ⟨g, hg, hga⟩ (by omega) with h1 | h1
  · exact h1
  · omega

/-- The name of an entry does not depend on its flags. -/
theorem flags_only_same_name {g s g' s' : file_struct} (h : flags_only g s)
    (h' : flags_only g' s') (hs : same_name g g') : same_name s s' := by
  unfold same_name at hs ⊢
  rw [h, h'] at hs
  exact hs

/-! ## Names left twice in a cleaned list -/

/-- C13 as stated fails in two ways. With `strip_root`, the list of `/a/x` and `a/x` is
in order and has no duplicate, and `clean_flist` with `strip_root` and `no_dups` (protocol
29) turns it into two active entries `a/x` in `low .. high` = `0 .. 1`. Without
`strip_root`, the directory "." sorts before a non-directory with the basename ".", and
the two stay active with the same name. -/
theorem clean_flist_leaves_same_name :
    (sorted_by_cmp 29 [ex_file_root_a_x, ex_file_a_x] ∧
      clean_flist id 29 { files := [ex_file_root_a_x, ex_file_a_x], low := 0, high := 0 } 1 1 =
        outcome.ok { files := [ex_file_a_x_stripped, ex_file_a_x], low := 0, high := 1 } ∧
      F_IS_ACTIVE ex_file_a_x_stripped = true ∧ F_IS_ACTIVE ex_file_a_x = true ∧
      same_name ex_file_a_x_stripped ex_file_a_x) ∧
    (sorted_by_cmp 29 [ex_dir_dot, ex_file_dot] ∧
      clean_flist id 29 { files := [ex_dir_dot, ex_file_dot], low := 0, high := 0 } 0 1 =
        outcome.ok { files := [ex_dir_dot, ex_file_dot], low := 0, high := 1 } ∧
      F_IS_ACTIVE ex_dir_dot = true ∧ F_IS_ACTIVE ex_file_dot = true ∧
      same_name ex_dir_dot ex_file_dot) := by
  refine ⟨⟨by decide, by decide, by decide, by decide, by decide⟩,
    ⟨by decide, by decide, by decide, by decide, by decide⟩⟩

/-- C13, amended: let a non-empty list of active entries on whose pairs `f_name_cmp`
returns, and in which from protocol 29 on no non-directory has the basename ".", be
cleaned by `clean_flist` with `no_dups` set and `strip_root` = 0, `qsort` having put the
array in the order of `file_compare`. Then `clean_flist` returns, and no two active
entries of the array (all of which lie in `low .. high`) have the same dirname and the
same basename, be they directories or not. -/
theorem clean_flist_no_duplicate_names (qsort : List file_struct → List file_struct)
    (pv : Int) (flist : file_list) (no_dups : Int)
    (hne : flist.files ≠ []) (hlen : (flist.files.length : Int) < 2 ^ 31)
    (hl : list_ok pv flist.files)
    (hperm : (qsort flist.files).Perm flist.files)
    (hsorted : sorted_by_cmp pv (qsort flist.files))
    (hnd : no_dups ≠ 0)
    (hdot : 29 ≤ pv → ∀ g ∈ flist.files, S_ISDIR g.mode = false → g.basename ≠ [46]) :
    ∃ cl, clean_flist qsort pv flist 0 no_dups = outcome.ok cl ∧
      ∀ k1 k2 g1 g2, k1 ≠ k2 →
        files_get cl.files k1 = outcome.ok g1 → files_get cl.files k2 = outcome.ok g2 →
        F_IS_ACTIVE g1 = true → F_IS_ACTIVE g2 = true →
        (cl.low ≤ k1 ∧ k1 ≤ cl.high ∧ cl.low ≤ k2 ∧ k2 ≤ cl.high) ∧ ¬ same_name g1 g2 := by
  have hn := list_ok_names hperm hl
  have hks := sorted_keys hn hsorted
  have hlen' : ((qsort flist.files).length : Int) < 2 ^ 31 := by
    rw [hperm.length_eq]; exact hlen
  obtain ⟨cl, i, hrun, hinv, htw, hend⟩ :=
    clean_flist_twin qsort flist no_dups hnd hn hks hlen' hperm.length_eq hne
  refine ⟨cl, hrun, ?_⟩
  -- an ordered pair
  have key : ∀ k1 k2 g1 g2, k1 < k2 →
      files_get cl.files k1 = outcome.ok g1 → files_get cl.files k2 = outcome.ok g2 →
      F_IS_ACTIVE g1 = true → F_IS_ACTIVE g2 = true → ¬ same_name g1 g2 := by
    intro k1 k2 g1 g2 h12 hg1 hg2 a1 a2 hsame
    obtain ⟨-, hk1⟩ := clean_inv_active_window hinv hend ⟨g1, hg1, a1⟩
    obtain ⟨-, hk2⟩ := clean_inv_active_window hinv hend ⟨g2, hg2, a2⟩
    obtain ⟨s1, hs1, hf1⟩ := hinv.kept k1 g1 hg1 a1
    obtain ⟨s2, hs2, hf2⟩ := hinv.kept k2 g2 hg2 a2
    have hss : same_name s1 s2 := flags_only_same_name hf1 hf2 hsame
    have hlt := hinv.sorted k1 k2 s1 s2 h12 hk2 ⟨g1, hg1, a1⟩ ⟨g2, hg2, a2⟩ hs1 hs2
    have hne12 : fnc_key pv s1 ≠ fnc_key pv s2 := by
      intro e; rw [e, fnc_lex_self] at hlt; omega
    by_cases hpv : 29 ≤ pv
    · by_cases hm : S_ISDIR s1.mode = S_ISDIR s2.mode
      · exact hne12 (fnc_key_same_name pv hss hm)
      · cases hd2 : S_ISDIR s2.mode
        · -- the directory comes first
          have hd1 : S_ISDIR s1.mode = true := by
            cases hd1 : S_ISDIR s1.mode
            · rw [hd1, hd2] at hm; exact absurd rfl hm
            · rfl
          have ok1 := hn.ok s1 (files_get_mem hs1)
          have hreg : fnc_key pv { s1 with mode := S_IFREG } = fnc_key pv s2 :=
            @fnc_key_same_name pv { s1 with mode := S_IFREG } s2 hss
              (by show S_ISDIR S_IFREG = S_ISDIR s2.mode; rw [hd2]; rfl)
          by_cases hdd : s1.basename = [46]
          · apply hdot hpv s2 (hperm.mem_iff.1 (files_get_mem hs2)) hd2
            rw [← hss.2]; exact hdd
          · have hb := fnc_key_regular_before_dir hpv s1 ok1 hd1 hdd
            rw [hreg] at hb
            have := fnc_lex_antisymm (fnc_key pv s1) (fnc_key pv s2)
            omega
        · -- the directory comes last
          apply htw hpv k1 k2 s1 s2 h12 hk2 ⟨g1, hg1, a1⟩ ⟨g2, hg2, a2⟩ hs1 hs2 hd2
          have hd1 : S_ISDIR s1.mode = false := by
            cases hd1 : S_ISDIR s1.mode
            · rfl
            · rw [hd1, hd2] at hm; exact absurd rfl hm
          exact @fnc_key_same_name pv { s2 with mode := S_IFREG } s1
            ⟨hss.1.symm, hss.2.symm⟩
            (by show S_ISDIR S_IFREG = S_ISDIR s1.mode; rw [hd1]; rfl)
    · exact hne12 (fnc_key_same_name_old (by omega) hss)
  intro k1 k2 g1 g2 hne12 hg1 hg2 a1 a2
  obtain ⟨l1, u1⟩ := clean_inv_active_window hinv hend ⟨g1, hg1, a1⟩
  obtain ⟨l2, u2⟩ := clean_inv_active_window hinv hend ⟨g2, hg2, a2⟩
  refine ⟨⟨l1, u1, l2, u2⟩, ?_⟩
  rcases lt_or_gt_of_ne hne12 with h | h
  · exact key k1 k2 g1 g2 h hg1 hg2 a1 a2
  · intro hs
    exact key k2 k1 g2 g1 h hg2 hg1 a2 a1 ⟨hs.1.symm, hs.2.symm⟩

/-- A witness for C13: under protocol 29 the regular file `a` and the directory `a` are
cleaned. -/
theorem clean_flist_no_duplicate_names_witness :
    ∃ cl, clean_flist id 29 ex_list_twin 0 1 = outcome.ok cl ∧
      ∀ k1 k2 g1 g2, k1 ≠ k2 →
        files_get cl.files k1 = outcome.ok g1 → files_get cl.files k2 = outcome.ok g2 →
        F_IS_ACTIVE g1 = true → F_IS_ACTIVE g2 = true →
        (cl.low ≤ k1 ∧ k1 ≤ cl.high ∧ cl.low ≤ k2 ∧ k2 ≤ cl.high) ∧ ¬ same_name g1 g2 :=
  clean_flist_no_duplicate_names id 29 ex_list_twin 1 (by decide) (by decide) (by decide)
    (List.Perm.refl _) (by decide) (by decide) (by decide)

/-! ### The loop that strips the root -/

/-- The pointer that lines 1637-1640 leave does not point to a slash, nor to the end of
the string. -/
theorem strip_slashes_some (str : List Nat) :
    ∀ (addr : Nat) (d : dir_ptr), strip_slashes addr str = some d →
      d.str ≠ [] ∧ d.str.head? ≠ some 47 ∧
      ∃ n, str = List.replicate n 47 ++ d.str ∧ d.addr = addr + n := by
  induction str with
  | nil => intro addr d h; cases h
  | cons c rest ih =>
    intro addr d h
    unfold strip_slashes at h
    by_cases hc : c = 47
    · rw [if_pos hc] at h
      obtain ⟨h1, h2, n, h3, h4⟩ := ih (addr + 1) d h
      refine ⟨h1, h2, n + 1, ?_, by omega⟩
      rw [hc, h3]
      rfl
    · rw [if_neg hc] at h
      injection h with h
      subst h
      refine ⟨by simp, by simpa using hc, 0, rfl, rfl⟩

/-- A dirname made of slashes only, or empty, becomes `NULL`. -/
theorem strip_slashes_none (str : List Nat) :
    ∀ (addr : Nat), strip_slashes addr str = none ↔ ∀ c ∈ str, c = 47 := by
  induction str with
  | nil => intro addr; simp [strip_slashes]
  | cons c rest ih =>
    intro addr
    unfold strip_slashes
    by_cases hc : c = 47
    · rw [if_pos hc, ih]
      simp [hc]
    · rw [if_neg hc]
      simp [hc]

/-- The loop of lines 1632-1641 returns, having stripped the entries it ran over. -/
theorem strip_root_loop_spec :
    ∀ (n : Nat) (files : List file_struct) (i : Int), 0 ≤ i → i + n ≤ files.length →
      ∃ files', strip_root_loop n files i = outcome.ok files' ∧
        files'.length = files.length ∧
        ∀ k, files_get files' k =
          if i ≤ k ∧ k < i + n then outcome.map strip_entry (files_get files k)
          else files_get files k := by
  intro n
  induction n with
  | zero =>
    intro files i _ _
    refine ⟨files, rfl, rfl, ?_⟩
    intro k
    rw [if_neg]
    push_cast
    omega
  | succ n ih =>
    intro files i h0 h1
    push_cast at h1
    obtain ⟨g, hg⟩ := files_get_in_range files i h0 (by omega)
    have hfun : (fun e : file_struct =>
        match e.dirname with
        | none => e
        | some d => { e with dirname := strip_slashes d.addr d.str }) = strip_entry := rfl
    unfold strip_root_loop
    simp only [hg, outcome_bind_ok, hfun]
    obtain ⟨files', hrun, hlen, hget⟩ := ih (files_update files i strip_entry) (i + 1)
      (by omega) (by rw [files_update_length]; omega)
    refine ⟨files', hrun, by rw [hlen, files_update_length], ?_⟩
    intro k
    rw [hget k, files_get_update]
    push_cast
    by_cases hk : k = i
    · subst hk
      have e1 : ¬ (k + 1 ≤ k ∧ k < k + 1 + n) := by omega
      have e2 : k ≤ k ∧ k < k + (n + 1) := by omega
      rw [if_neg e1, if_pos rfl, if_pos e2]
    · by_cases hin : i + 1 ≤ k ∧ k < i + 1 + n
      · have e2 : i ≤ k ∧ k < i + (n + 1) := by omega
        rw [if_pos hin, if_neg hk, if_pos e2]
      · have e2 : ¬ (i ≤ k ∧ k < i + (n + 1)) := by omega
        rw [if_neg hin, if_neg hk, if_neg e2]

/-- With `strip_root`, `clean_flist` is `clean_flist` without it followed by the loop of
lines 1632-1641 over `low .. high`. -/
theorem clean_flist_strip_root (qsort : List file_struct → List file_struct) (pv : Int)
    (flist : file_list) (strip_root no_dups : Int) (hsr : strip_root ≠ 0)
    (hne : flist.files ≠ []) :
    clean_flist qsort pv flist strip_root no_dups =
      (clean_flist qsort pv flist 0 no_dups).bind fun cl =>
        (strip_root_loop (cl.high + 1 - cl.low).toNat cl.files cl.low).bind fun files =>
          outcome.ok { cl with files := files } := by
  have hc : flist.count ≠ 0 := by
    unfold file_list.count
    intro h
    exact hne (List.length_eq_zero.1 (by exact_mod_cast h))
  unfold clean_flist
  simp only [hc, if_false, hsr, ne_eq, not_false_eq_true, if_true, not_true_eq_false,
    outcome_pure]
  cases clean_loop pv (qsort flist.files).length _ _ with
  | ok st => rfl
  | bad w => rfl

/-! ## The cleaned list once the root is stripped -/

/-- C17 as stated fails on a list that mixes names with and without a leading slash:
`/a/y`, `/b/x`, `a/y` is in order without duplicates, and `clean_flist` with `strip_root`
and `no_dups` (protocol 29) leaves `a/y`, `b/x`, `a/y` active in `low .. high` = `0 .. 2`,
where `b/x` compares after the entry that follows it and the first entry compares equal
to the last. -/
theorem clean_flist_strip_root_unsorted :
    sorted_by_cmp 29 ex_list_rooted.files ∧
    clean_flist id 29 ex_list_rooted 1 1 =
      outcome.ok { files := [ex_file_a_y_stripped, ex_file_b_x_stripped, ex_file_a_y],
                   low := 0, high := 2 } ∧
    f_name_cmp 29 (some ex_file_b_x_stripped) (some ex_file_a_y) = cmp_result.ret 1 ∧
    f_name_cmp 29 (some ex_file_a_y_stripped) (some ex_file_a_y) = cmp_result.ret 0 := by
  refine ⟨by decide, by decide, by decide, by decide⟩

/-- C17, amended: let a non-empty list of active entries on whose pairs `f_name_cmp`
returns be cleaned by `clean_flist` with `strip_root` and `no_dups` set, `qsort` having
put the array in the order of `file_compare`. Then `clean_flist` returns the list `cl`
that the call without `strip_root` returns (`cl0`) with the dirname of every entry of
`low .. high` stripped of its leading slashes: no dirname of `low .. high` starts with a
slash or is empty, a dirname of slashes only has become `NULL`, and the active entries
are in the strict order of `f_name_cmp` on the names they had before the slashes were
stripped. -/
theorem clean_flist_strip_root_result (qsort : List file_struct → List file_struct)
    (pv : Int) (flist : file_list) (strip_root no_dups : Int)
    (hne : flist.files ≠ []) (hlen : (flist.files.length : Int) < 2 ^ 31)
    (hl : list_ok pv flist.files)
    (hperm : (qsort flist.files).Perm flist.files)
    (hsorted : sorted_by_cmp pv (qsort flist.files))
    (hnd : no_dups ≠ 0) (hsr : strip_root ≠ 0) :
    ∃ cl0 cl, clean_flist qsort pv flist 0 no_dups = outcome.ok cl0 ∧
      clean_flist qsort pv flist strip_root no_dups = outcome.ok cl ∧
      cl.low = cl0.low ∧ cl.high = cl0.high ∧
      (∀ k, cl0.low ≤ k → k ≤ cl0.high →
        files_get cl.files k = outcome.map strip_entry (files_get cl0.files k)) ∧
      (∀ k, ¬ (cl0.low ≤ k ∧ k ≤ cl0.high) → files_get cl.files k = files_get cl0.files k) ∧
      (∀ k g d, cl.low ≤ k → k ≤ cl.high → files_get cl.files k = outcome.ok g →
        g.dirname = some d → d.str ≠ [] ∧ d.str.head? ≠ some 47) ∧
      (∀ k g0 d0, cl0.low ≤ k → k ≤ cl0.high → files_get cl0.files k = outcome.ok g0 →
        g0.dirname = some d0 → (∀ c ∈ d0.str, c = 47) →
        ∃ g, files_get cl.files k = outcome.ok g ∧ g.dirname = none) ∧
      (∀ k1 k2 g1 g2, k1 < k2 → files_get cl0.files k1 = outcome.ok g1 →
        files_get cl0.files k2 = outcome.ok g2 → F_IS_ACTIVE g1 = true →
        F_IS_ACTIVE g2 = true →
        ∃ d, f_name_cmp pv (some g1) (some g2) = cmp_result.ret d ∧ d < 0) := by
  have hn := list_ok_names hperm hl
  have hks := sorted_keys hn hsorted
  have hlen' : ((qsort flist.files).length : Int) < 2 ^ 31 := by
    rw [hperm.length_eq]; exact hlen
  obtain ⟨cl0, i, hrun, hinv, -, hend⟩ :=
    clean_flist_twin qsort flist no_dups hnd hn hks hlen' hperm.length_eq hne
  obtain ⟨hlo0, hhi⟩ := region_hi_range hinv.region
  have hlohi := hinv.region.lo_le
  obtain ⟨files', hstrip, hlen2, hget⟩ := strip_root_loop_spec
    (cl0.high + 1 - cl0.low).toNat cl0.files cl0.low hlo0 (by omega)
  have hwin : ∀ k : Int, (cl0.low ≤ k ∧ k < cl0.low + ((cl0.high + 1 - cl0.low).toNat : Nat)) ↔
      (cl0.low ≤ k ∧ k ≤ cl0.high) := by
    intro k; omega
  have hin : ∀ k, cl0.low ≤ k → k ≤ cl0.high →
      files_get files' k = outcome.map strip_entry (files_get cl0.files k) := by
    intro k h1 h2
    rw [hget k, if_pos ((hwin k).2 ⟨h1, h2⟩)]
  refine ⟨cl0, { cl0 with files := files' }, hrun, ?_, rfl, rfl, hin, ?_, ?_, ?_, ?_⟩
  · rw [clean_flist_strip_root qsort pv flist strip_root no_dups hsr hne, hrun]
    simp only [outcome.bind, hstrip]
  · intro k hk
    show files_get files' k = _
    rw [hget k, if_neg (fun h => hk ((hwin k).1 h))]
  · intro k g d h1 h2 hg hd
    change files_get files' k = outcome.ok g at hg
    rw [hin k h1 h2] at hg
    cases hg0 : files_get cl0.files k with
    | bad w => rw [hg0] at hg; cases hg
    | ok g0 =>
      rw [hg0, outcome_map_ok] at hg
      injection hg with hg
      subst hg
      unfold strip_entry at hd
      cases hd0 : g0.dirname with
      | none => rw [hd0] at hd; simp only at hd; rw [hd0] at hd; cases hd
      | some d0 =>
        rw [hd0] at hd
        simp only at hd
        obtain ⟨a, b, -⟩ := strip_slashes_some d0.str d0.addr d hd
        exact ⟨a, b⟩
  · intro k g0 d0 h1 h2 hg0 hd0 hall
    refine ⟨strip_entry g0, ?_, ?_⟩
    · show files_get files' k = _
      rw [hin k h1 h2, hg0, outcome_map_ok]
    · unfold strip_entry
      rw [hd0]
      simp only
      exact (strip_slashes_none d0.str d0.addr).2 hall
  · intro k1 k2 g1 g2 h12 hg1 hg2 a1 a2
    obtain ⟨-, hk2⟩ := clean_inv_active_window hinv hend ⟨g2, hg2, a2⟩
    obtain ⟨s1, hs1, hf1⟩ := hinv.kept k1 g1 hg1 a1
    obtain ⟨s2, hs2, hf2⟩ := hinv.kept k2 g2 hg2 a2
    have hlt := hinv.sorted k1 k2 s1 s2 h12 hk2 ⟨g1, hg1, a1⟩ ⟨g2, hg2, a2⟩ hs1 hs2
    have hc := run_cmp_names pv _ hn hf1 hf2 (files_get_mem hs1) (files_get_mem hs2)
    exact ⟨_, (run_cmp_ok_iff _ _ _ _).1 hc, hlt⟩

/-- A witness for C17: the list `/a/y`, `/b/x`, `a/y` under protocol 29. -/
theorem clean_flist_strip_root_result_witness :
    ∃ cl0 cl, clean_flist id 29 ex_list_rooted 0 1 = outcome.ok cl0 ∧
      clean_flist id 29 ex_list_rooted 1 1 = outcome.ok cl ∧
      cl.low = cl0.low ∧ cl.high = cl0.high ∧
      (∀ k, cl0.low ≤ k → k ≤ cl0.high →
        files_get cl.files k = outcome.map strip_entry (files_get cl0.files k)) ∧
      (∀ k, ¬ (cl0.low ≤ k ∧ k ≤ cl0.high) → files_get cl.files k = files_get cl0.files k) ∧
      (∀ k g d, cl.low ≤ k → k ≤ cl.high → files_get cl.files k = outcome.ok g →
        g.dirname = some d → d.str ≠ [] ∧ d.str.head? ≠ some 47) ∧
      (∀ k g0 d0, cl0.low ≤ k → k ≤ cl0.high → files_get cl0.files k = outcome.ok g0 →
        g0.dirname = some d0 → (∀ c ∈ d0.str, c = 47) →
        ∃ g, files_get cl.files k = outcome.ok g ∧ g.dirname = none) ∧
      (∀ k1 k2 g1 g2, k1 < k2 → files_get cl0.files k1 = outcome.ok g1 →
        files_get cl0.files k2 = outcome.ok g2 → F_IS_ACTIVE g1 = true →
        F_IS_ACTIVE g2 = true →
        ∃ d, f_name_cmp 29 (some g1) (some g2) = cmp_result.ret d ∧ d < 0) :=
  clean_flist_strip_root_result id 29 ex_list_rooted 1 1 (by decide) (by decide) (by decide)
    (List.Perm.refl _) (by decide) (by decide) (by decide)

/-! ### Arrays as lists -/

theorem files_get_succ (x : file_struct) (t : List file_struct) (k : Int) (hk : 0 ≤ k) :
    files_get (x :: t) (k + 1) = files_get t k := by
  unfold files_get
  have h1 : (0 : Int) ≤ k + 1 := by omega
  have e : (k + 1).toNat = k.toNat + 1 := by omega
  simp only [hk, h1, if_true, e, List.get?_cons_succ]

/-- A relation that holds on every ordered pair of the list holds on every two entries
read at increasing indices. -/
theorem pairwise_files_get {R : file_struct → file_struct → Prop} :
    ∀ (l : List file_struct), l.Pairwise R → ∀ k1 k2 g1 g2, k1 < k2 →
      files_get l k1 = outcome.ok g1 → files_get l k2 = outcome.ok g2 → R g1 g2 := by
  intro l
  induction l with
  | nil =>
    intro _ k1 k2 g1 g2 _ h1
    have := files_get_range h1
    simp only [List.length_nil, Nat.cast_zero] at this
    omega
  | cons x t ih =>
    intro hp k1 k2 g1 g2 h12 h1 h2
    have hk1 := (files_get_range h1).1
    rw [List.pairwise_cons] at hp
    have e2 : k2 = (k2 - 1) + 1 := by omega
    rw [e2, files_get_succ x t (k2 - 1) (by omega)] at h2
    by_cases h0 : k1 = 0
    · subst h0
      rw [files_get_zero] at h1
      injection h1 with h1
      subst h1
      exact hp.1 g2 (files_get_mem h2)
    · have e1 : k1 = (k1 - 1) + 1 := by omega
      rw [e1, files_get_succ x t (k1 - 1) (by omega)] at h1
      exact ih hp.2 (k1 - 1) (k2 - 1) g1 g2 (by omega) h1 h2

theorem files_get_of_mem {l : List file_struct} {g : file_struct} (h : g ∈ l) :
    ∃ k, 0 ≤ k ∧ files_get l k = outcome.ok g := by
  induction l with
  | nil => cases h
  | cons x t ih =>
    rcases List.mem_cons.1 h with e | e
    · subst e; exact ⟨0, le_refl _, files_get_zero _ _⟩
    · obtain ⟨k, hk, hg⟩ := ih e
      exact ⟨k + 1, by omega, by rw [files_get_succ x t k hk]; exact hg⟩

/-- A relation that holds on every two entries read at increasing indices holds on every
ordered pair of the list. -/
theorem pairwise_of_files_get {R : file_struct → file_struct → Prop} :
    ∀ (l : List file_struct), (∀ k1 k2 g1 g2, k1 < k2 →
      files_get l k1 = outcome.ok g1 → files_get l k2 = outcome.ok g2 → R g1 g2) →
      l.Pairwise R := by
  intro l
  induction l with
  | nil => intro _; exact List.Pairwise.nil
  | cons x t ih =>
    intro h
    rw [List.pairwise_cons]
    constructor
    · intro y hy
      obtain ⟨k, hk, hg⟩ := files_get_of_mem hy
      exact h 0 (k + 1) x y (by omega) (files_get_zero _ _)
        (by rw [files_get_succ x t k hk]; exact hg)
    · apply ih
      intro k1 k2 g1 g2 h12 h1 h2
      have hk1 := (files_get_range h1).1
      exact h (k1 + 1) (k2 + 1) g1 g2 (by omega)
        (by rw [files_get_succ x t k1 hk1]; exact h1)
        (by rw [files_get_succ x t k2 (by omega)]; exact h2)

/-- A relation between the active entries carries over to the list of active entries. -/
theorem pairwise_filter_active {R : file_struct → file_struct → Prop} :
    ∀ (l : List file_struct),
      l.Pairwise (fun a b => F_IS_ACTIVE a = true → F_IS_ACTIVE b = true → R a b) →
      (l.filter F_IS_ACTIVE).Pairwise R := by
  intro l
  induction l with
  | nil => intro _; exact List.Pairwise.nil
  | cons x t ih =>
    intro h
    rw [List.pairwise_cons] at h
    rw [List.filter_cons]
    by_cases hx : F_IS_ACTIVE x = true
    · rw [if_pos hx, List.pairwise_cons]
      refine ⟨?_, ih h.2⟩
      intro y hy
      obtain ⟨hy1, hy2⟩ := List.mem_filter.1 hy
      exact h.1 y hy1 hx hy2
    · rw [if_neg hx]
      exact ih h.2

/-- Two lists with the same elements, one in a weak order and one in the strict order,
are the same list. -/
theorem perm_sorted_unique {α : Type} (le lt : α → α → Prop) :
    ∀ (l2 l1 : List α), l1.Perm l2 → l1.Pairwise le → l2.Pairwise lt →
      (∀ a ∈ l2, ∀ b ∈ l2, lt a b → ¬ le b a) → l1 = l2 := by
  intro l2
  induction l2 with
  | nil => intro l1 hp _ _ _; exact hp.eq_nil
  | cons b t2 ih =>
    intro l1 hp h1 h2 hno
    cases l1 with
    | nil => exact absurd hp.symm.eq_nil (by simp)
    | cons a t1 =>
      rw [List.pairwise_cons] at h1 h2
      by_cases hab : a = b
      · subst hab
        rw [ih t1 (List.Perm.cons_inv hp) h1.2 h2.2
          (fun x hx y hy => hno x (List.mem_cons_of_mem _ hx) y (List.mem_cons_of_mem _ hy))]
      · exfalso
        have ha : a ∈ t2 := by
          have : a ∈ b :: t2 := hp.mem_iff.1 (List.mem_cons_self _ _)
          rcases List.mem_cons.1 this with e | e
          · exact absurd e hab
          · exact e
        have hb : b ∈ t1 := by
          have : b ∈ a :: t1 := hp.mem_iff.2 (List.mem_cons_self _ _)
          rcases List.mem_cons.1 this with e | e
          · exact absurd e.symm hab
          · exact e
        exact hno b (List.mem_cons_self _ _) a (List.mem_cons_of_mem _ ha) (h2.1 a ha)
          (h1.1 b hb)

/-- In a list ordered by a relation that never puts an active entry before an inactive
one, the inactive entries come first. -/
theorem inactive_first {R : file_struct → file_struct → Prop} :
    ∀ (l : List file_struct), l.Pairwise R →
      (∀ a b, F_IS_ACTIVE a = true → F_IS_ACTIVE b = false → ¬ R a b) →
      l = l.filter (fun g => !F_IS_ACTIVE g) ++ l.filter F_IS_ACTIVE := by
  intro l
  induction l with
  | nil => intro _ _; rfl
  | cons x t ih =>
    intro hp hno
    rw [List.pairwise_cons] at hp
    have iht := ih hp.2 hno
    rw [List.filter_cons, List.filter_cons]
    cases hx : F_IS_ACTIVE x
    · simp only [Bool.not_false, if_true, Bool.false_eq_true, if_false, List.cons_append]
      rw [← iht]
    · have hall : ∀ y ∈ t, F_IS_ACTIVE y = true := by
        intro y hy
        cases hya : F_IS_ACTIVE y
        · exact absurd (hp.1 y hy) (hno x y hx hya)
        · rfl
      have e1 : t.filter (fun g => !F_IS_ACTIVE g) = [] := by
        rw [List.filter_eq_nil_iff]
        intro y hy
        rw [hall y hy]
        simp
      have e2 : t.filter F_IS_ACTIVE = t := List.filter_eq_self.2 hall
      simp only [Bool.not_true, Bool.false_eq_true, if_false, if_true, e1, e2, List.nil_append]

/-- The arrays that differ in the distances of cleared entries, entry by entry. -/
theorem same_files_forall₂ :
    ∀ (a b : List file_struct), same_files a b → List.Forall₂ same_entry a b := by
  intro a
  induction a with
  | nil =>
    intro b h
    have := h.1
    rw [List.length_nil, List.length_eq_zero] at this
    rw [this]
    exact List.Forall₂.nil
  | cons x t ih =>
    intro b h
    cases b with
    | nil => have := h.1; simp at this
    | cons y u =>
      refine List.Forall₂.cons ?_ (ih u ⟨?_, ?_⟩)
      · obtain ⟨g', hg', se⟩ := h.2 0 x (files_get_zero _ _)
        rw [files_get_zero] at hg'
        injection hg' with e
        rw [e]
        exact se
      · have := h.1
        simp only [List.length_cons] at this
        omega
      · intro i g hg
        have hi := (files_get_range hg).1
        obtain ⟨g', hg', se⟩ := h.2 (i + 1) g (by rw [files_get_succ x t i hi]; exact hg)
        rw [files_get_succ y u i hi] at hg'
        exact ⟨g', hg', se⟩

/-- The active entries of two such arrays are the same, from any index on. -/
theorem forall₂_same_entry_filter :
    ∀ (a b : List file_struct), List.Forall₂ same_entry a b →
      b.filter F_IS_ACTIVE = a.filter F_IS_ACTIVE := by
  intro a b h
  induction h with
  | nil => rfl
  | @cons x y t u hxy _ ih =>
    rw [List.filter_cons, List.filter_cons, same_entry_active hxy, ih]
    by_cases hx : F_IS_ACTIVE x = true
    · rw [if_pos hx, if_pos hx, hxy.1 hx]
    · rw [if_neg hx, if_neg hx]

theorem forall₂_same_entry_drop (n : Nat) :
    ∀ (a b : List file_struct), List.Forall₂ same_entry a b →
      List.Forall₂ same_entry (a.drop n) (b.drop n) := by
  induction n with
  | zero => intro a b h; exact h
  | succ n ih =>
    intro a b h
    cases h with
    | nil => exact List.Forall₂.nil
    | cons _ ht => exact ih _ _ ht

/-! ### The active entries of a cleaned list -/

/-- A window outside of which every entry is cleared holds all the active entries. -/
theorem filter_window (l : List file_struct) (lo1 hi1 : Nat)
    (hlo : ∀ k g, k < lo1 → l.get? k = some g → F_IS_ACTIVE g = false)
    (hhi : ∀ k g, hi1 ≤ k → l.get? k = some g → F_IS_ACTIVE g = false) :
    ((l.take hi1).drop lo1).filter F_IS_ACTIVE = l.filter F_IS_ACTIVE := by
  have e1 : (l.drop hi1).filter F_IS_ACTIVE = [] := by
    rw [List.filter_eq_nil_iff]
    intro g hg
    obtain ⟨n, hn⟩ := List.mem_iff_get?.1 hg
    rw [List.get?_eq_getElem?, List.getElem?_drop, ← List.get?_eq_getElem?] at hn
    rw [hhi (hi1 + n) g (by omega) hn]
    simp
  have e2 : ((l.take hi1).take lo1).filter F_IS_ACTIVE = [] := by
    rw [List.filter_eq_nil_iff]
    intro g hg
    obtain ⟨n, hn⟩ := List.mem_iff_get?.1 hg
    rw [List.take_take] at hn
    by_cases hlt : n < min lo1 hi1
    · rw [List.get?_eq_getElem?, List.getElem?_take_of_lt hlt, ← List.get?_eq_getElem?] at hn
      rw [hlo n g (by omega) hn]
      simp
    · rw [List.get?_eq_getElem?, List.getElem?_take_eq_none (by omega)] at hn
      cases hn
  calc ((l.take hi1).drop lo1).filter F_IS_ACTIVE
      = ((l.take hi1).take lo1).filter F_IS_ACTIVE ++
          ((l.take hi1).drop lo1).filter F_IS_ACTIVE := by rw [e2, List.nil_append]
    _ = (l.take hi1).filter F_IS_ACTIVE := by
        rw [← List.filter_append, List.take_append_drop]
    _ = (l.take hi1).filter F_IS_ACTIVE ++ (l.drop hi1).filter F_IS_ACTIVE := by
        rw [e1, List.append_nil]
    _ = l.filter F_IS_ACTIVE := by rw [← List.filter_append, List.take_append_drop]

theorem files_get_nat (l : List file_struct) (k : Nat) (g : file_struct) :
    files_get l (k : Int) = outcome.ok g ↔ l.get? k = some g := by
  rw [files_get_ok_iff]
  simp

/-- Once the main loop has dealt with every index, the active entries of `low .. high`
are the active entries of the array. -/
theorem clean_inv_active_entries {pv : Int} {S files : List file_struct} {lo p i : Int}
    (h : clean_inv pv S files lo p i) (hend : (files.length : Int) ≤ i + 1) :
    active_entries { files := files, low := lo, high := p } =
      files.filter F_IS_ACTIVE := by
  unfold active_entries
  apply filter_window
  · intro k g hk hg
    simp only at hk
    have hg' := (files_get_nat files k g).2 hg
    cases ha : F_IS_ACTIVE g
    · rfl
    · have := (clean_inv_active_window h hend ⟨g, hg', ha⟩).1
      omega
  · intro k g hk hg
    simp only at hk
    have hg' := (files_get_nat files k g).2 hg
    cases ha : F_IS_ACTIVE g
    · rfl
    · have := (clean_inv_active_window h hend ⟨g, hg', ha⟩).2
      omega

/-- The active entries that `clean_flist` leaves are well-formed names in strict order,
no directory after its non-directory twin. -/
theorem clean_inv_active_ok {pv : Int} {S files : List file_struct} {lo p i : Int}
    (hn : names_ok pv S) (h : clean_inv pv S files lo p i)
    (hend : (files.length : Int) ≤ i + 1) (ht : twin_free pv S files p) :
    active_ok pv (files.filter F_IS_ACTIVE) := by
  have hmem : ∀ a ∈ files.filter F_IS_ACTIVE, ∃ s ∈ S, flags_only a s := by
    intro a ha
    obtain ⟨ha1, ha2⟩ := List.mem_filter.1 ha
    obtain ⟨k, -, hk⟩ := files_get_of_mem ha1
    obtain ⟨s, hs, hf⟩ := h.kept k a hk ha2
    exact ⟨s, files_get_mem hs, hf⟩
  refine ⟨⟨?_, ?_, ?_⟩, ?_, ?_⟩
  · intro a ha
    obtain ⟨s, hs, hf⟩ := hmem a ha
    exact flags_only_entry_ok hf (hn.ok s hs)
  · intro a ha b hb
    obtain ⟨s, hs, hf⟩ := hmem a ha
    obtain ⟨s', hs', hf'⟩ := hmem b hb
    exact flags_only_ptr_ok hf hf' (hn.ptr s hs s' hs')
  · intro a ha b hb
    obtain ⟨s, hs, hf⟩ := hmem a ha
    obtain ⟨s', hs', hf'⟩ := hmem b hb
    exact flags_only_overread pv hf hf' (hn.defined s hs s' hs')
  · apply pairwise_filter_active
    apply pairwise_of_files_get
    intro k1 k2 g1 g2 h12 hg1 hg2 a1 a2
    obtain ⟨-, hk2⟩ := clean_inv_active_window h hend ⟨g2, hg2, a2⟩
    obtain ⟨s1, hs1, hf1⟩ := h.kept k1 g1 hg1 a1
    obtain ⟨s2, hs2, hf2⟩ := h.kept k2 g2 hg2 a2
    rw [flags_only_key pv hf1, flags_only_key pv hf2]
    exact h.sorted k1 k2 s1 s2 h12 hk2 ⟨g1, hg1, a1⟩ ⟨g2, hg2, a2⟩ hs1 hs2
  · apply pairwise_filter_active
    apply pairwise_of_files_get
    intro k1 k2 g1 g2 h12 hg1 hg2 a1 a2 hpv hdir
    obtain ⟨-, hk2⟩ := clean_inv_active_window h hend ⟨g2, hg2, a2⟩
    obtain ⟨s1, hs1, hf1⟩ := h.kept k1 g1 hg1 a1
    obtain ⟨s2, hs2, hf2⟩ := h.kept k2 g2 hg2 a2
    rw [flags_only_key pv hf1]
    have hd2 : S_ISDIR s2.mode = true := by rw [← flags_only_isdir hf2]; exact hdir
    have := ht hpv k1 k2 s1 s2 h12 hk2 ⟨g1, hg1, a1⟩ ⟨g2, hg2, a2⟩ hs1 hs2 hd2
    have e : fnc_key pv { g2 with mode := S_IFREG } = fnc_key pv { s2 with mode := S_IFREG } := by
      rw [fnc_key_regular, fnc_key_regular, hf2]
    rw [e]
    exact this

/-- Against an active entry, an entry that is `NULL` or cleared is put first. -/
theorem f_name_cmp_active_inactive (pv : Int) (a : file_struct) (c : Option file_struct)
    (ha : F_IS_ACTIVE a = true) (hc : is_inactive c = true) :
    f_name_cmp pv (some a) c = cmp_result.ret 1 := by
  have ha2 : is_inactive (some a) = false := by simp [is_inactive, ha]
  unfold f_name_cmp
  simp only [ha2, hc, Bool.false_eq_true, if_false, if_true]

/-- The array that `qsort` makes of a cleaned list: the cleared entries, then the active
entries in the order they had. -/
theorem sorted_cleaned_shape {pv : Int} {F S2 : List file_struct}
    (hA : active_ok pv (F.filter F_IS_ACTIVE)) (hperm : S2.Perm F)
    (hsorted : sorted_by_cmp pv S2) :
    S2 = S2.filter (fun g => !F_IS_ACTIVE g) ++ F.filter F_IS_ACTIVE := by
  have h1 := inactive_first S2 hsorted (by
    intro a b ha hb
    rw [f_name_cmp_active_inactive pv a (some b) ha (by simp [is_inactive, hb])]
    decide)
  have hp : (S2.filter F_IS_ACTIVE).Perm (F.filter F_IS_ACTIVE) := hperm.filter _
  have hs : (S2.filter F_IS_ACTIVE).Pairwise
      fun a b => (f_name_cmp pv (some a) (some b)).le_zero = true :=
    List.Pairwise.filter _ hsorted
  have := perm_sorted_unique _ _ _ _ hp hs hA.strict (by
    intro a ha b hb hlt hle
    rw [f_name_cmp_eq pv b a (hA.names.ok b hb) (hA.names.ok a ha) (hA.names.ptr b hb a ha),
      if_neg (hA.names.defined b hb a ha), fnc_lex_antisymm] at hle
    simp only [cmp_result.le_zero, decide_eq_true_eq] at hle
    omega)
  rw [this] at h1
  exact h1

/-! ### A second run of `clean_flist` -/

theorem files_get_append (I A : List file_struct) (k : Int) :
    files_get (I ++ A) k =
      if k < I.length then files_get I k else files_get A (k - I.length) := by
  unfold files_get
  by_cases hk : 0 ≤ k
  · by_cases hlt : k < I.length
    · have h1 : k.toNat < I.length := by omega
      simp only [hk, if_true, hlt, List.get?_eq_getElem?, List.getElem?_append_left h1]
    · have h1 : I.length ≤ k.toNat := by omega
      have h2 : (0 : Int) ≤ k - I.length := by omega
      have e : (k - (I.length : Int)).toNat = k.toNat - I.length := by omega
      simp only [hk, if_true, hlt, if_false, h2, List.get?_eq_getElem?,
        List.getElem?_append_right h1, e]
  · have hlt : k < I.length := by omega
    simp only [hk, if_false, hlt, if_true]

/-- In the sorted array the entries from index `|I|` on are the active ones. -/
theorem sorted_index_active {I A : List file_struct}
    (hI : ∀ g ∈ I, F_IS_ACTIVE g = false) (hA : ∀ g ∈ A, F_IS_ACTIVE g = true)
    {k : Int} {g : file_struct} (hg : files_get (I ++ A) k = outcome.ok g) :
    (F_IS_ACTIVE g = true ↔ (I.length : Int) ≤ k) ∧ ((I.length : Int) ≤ k → g ∈ A) := by
  rw [files_get_append] at hg
  by_cases hlt : k < I.length
  · rw [if_pos hlt] at hg
    have := hI g (files_get_mem hg)
    rw [this]
    constructor
    · constructor
      · intro h; cases h
      · intro h; omega
    · intro h; omega
  · rw [if_neg hlt] at hg
    have := hA g (files_get_mem hg)
    rw [this]
    exact ⟨⟨fun _ => by omega, fun _ => rfl⟩, fun _ => files_get_mem hg⟩

/-- A relation on the ordered pairs of the active entries, read in the sorted array. -/
theorem sorted_index_pair {R : file_struct → file_struct → Prop} {I A : List file_struct}
    (hR : A.Pairwise R) {k1 k2 : Int} {g1 g2 : file_struct} (h1 : (I.length : Int) ≤ k1)
    (h12 : k1 < k2) (hg1 : files_get (I ++ A) k1 = outcome.ok g1)
    (hg2 : files_get (I ++ A) k2 = outcome.ok g2) : R g1 g2 := by
  rw [files_get_append, if_neg (by omega)] at hg1 hg2
  exact pairwise_files_get A hR _ _ g1 g2 (by omega) hg1 hg2

theorem active_ok_active {pv : Int} {A : List file_struct} (hA : active_ok pv A) :
    ∀ g ∈ A, F_IS_ACTIVE g = true :=
  fun g hg => entry_ok_active (hA.names.ok g hg)

/-- On the array that `qsort` makes of a cleaned list, the body of the main loop finds no
duplicate: the entry becomes the last active one. -/
theorem clean_step_sorted {pv : Int} {I A files : List file_struct}
    (hI : ∀ g ∈ I, F_IS_ACTIVE g = false) (hA : active_ok pv A)
    (hlen : ((I ++ A).length : Int) < 2 ^ 31) (hs : same_files (I ++ A) files)
    (i : Int) (hmi : (I.length : Int) ≤ i) (hi : i + 1 < files.length) (high : Int) :
    ∃ files' high',
      clean_step pv { flist := { files := files, low := I.length, high := high },
                      prev_i := i } (i + 1) =
        outcome.ok { flist := { files := files', low := I.length, high := high' },
                     prev_i := i + 1 } ∧
      same_files (I ++ A) files' := by
  have hAa := active_ok_active hA
  have hl := hs.1
  -- the entries of the sorted array from `|I|` on
  have hat : ∀ k, (I.length : Int) ≤ k → k < files.length →
      ∃ g, files_get (I ++ A) k = outcome.ok g ∧ files_get files k = outcome.ok g ∧
        F_IS_ACTIVE g = true ∧ g ∈ A := by
    intro k h1 h2
    obtain ⟨g, hg⟩ := files_get_in_range (I ++ A) k (by omega) (by rw [← hl]; exact h2)
    obtain ⟨hga, hgm⟩ := sorted_index_active hI hAa hg
    obtain ⟨g', hg', se⟩ := hs.2 k g hg
    rw [se.1 (hga.2 h1)] at hg'
    exact ⟨g, hg, hg', hga.2 h1, hgm h1⟩
  have hback : ∀ k g, (I.length : Int) ≤ k → files_get files k = outcome.ok g →
      files_get (I ++ A) k = outcome.ok g ∧ F_IS_ACTIVE g = true ∧ g ∈ A := by
    intro k g h1 hg
    obtain ⟨g0, hg0, hg0', a0, m0⟩ := hat k h1 (files_get_range hg).2
    rw [files_get_unique hg hg0']
    exact ⟨hg0, a0, m0⟩
  obtain ⟨s, hS, hs', hsa, hsm⟩ := hat (i + 1) (by omega) hi
  obtain ⟨sp, hSp, hsp', hspa, hspm⟩ := hat i hmi (by omega)
  have ks := fnc_key_ok pv s (hA.names.ok s hsm)
  have hcmp := run_cmp_query pv (flags_only_refl s) (hA.names.ok s hsm) (hA.names.ok sp hspm)
    (hA.names.ptr s hsm sp hspm) (hA.names.defined s hsm sp hspm)
  have hlt : fnc_lex (fnc_key pv sp) (fnc_key pv s) < 0 :=
    sorted_index_pair hA.strict hmi (by omega) hSp hS
  have hd : ¬ fnc_lex (fnc_key pv s) (fnc_key pv sp) = 0 := by
    have := fnc_lex_antisymm (fnc_key pv sp) (fnc_key pv s)
    omega
  unfold clean_step
  simp only [hs', outcome_bind_ok, hsa, Bool.not_true, Bool.false_eq_true, if_false]
  unfold clean_find_dup
  simp only [hsp', outcome_bind_ok, hcmp, hd, if_false]
  by_cases hfind : pv ≥ 29 ∧ S_ISDIR s.mode = true
  · simp only [hfind, and_self, if_true]
    have hreg : region_ok files I.length i := by
      refine ⟨hmi, ?_, ⟨sp, hsp', hspa⟩, ?_⟩
      · obtain ⟨g, -, hg, ha, -⟩ := hat I.length (le_refl _) (by omega)
        exact ⟨g, hg, ha⟩
      · intro k e hk he hna
        rw [(hback k e hk he).2.1] at hna
        cases hna
    have ok' : entry_ok { s with mode := S_IFREG } := hA.names.ok s hsm
    have hfo : find_order pv { s with mode := S_IFREG } files I.length i
        (fun g => fnc_lex (fnc_key pv g) (fnc_key pv { s with mode := S_IFREG })) := by
      constructor
      · intro k g h1 _ hg _
        obtain ⟨-, -, hgm⟩ := hback k g h1 hg
        apply run_cmp_query pv (flags_only_refl g) (hA.names.ok g hgm) ok'
        · exact hA.names.ptr g hgm s hsm
        · intro ho
          exact regular_not_dot _ s ho.2.2.2
      · intro a b ga gb h1 h2 _ hga hgb _ _ hle
        obtain ⟨hSa, -, hma⟩ := hback a ga h1 hga
        obtain ⟨hSb, -, hmb⟩ := hback b gb (by omega) hgb
        have := sorted_index_pair hA.strict h1 h2 hSa hSb
        exact fnc_lex_lt_of_lt_of_le _ _ _ (fnc_key_ok pv ga (hA.names.ok ga hma))
          (fnc_key_ok pv gb (hA.names.ok gb hmb)) (fnc_key_ok pv _ ok') this hle
    have hlen' : ((({ files := files, low := I.length, high := i } : file_list).files.length
        : Nat) : Int) < 2 ^ 31 := by
      simp only; rw [hl]; exact hlen
    obtain ⟨r, files', hfrun, hsame, -, hres⟩ :=
      flist_find_spec pv { s with mode := S_IFREG }
        { files := files, low := I.length, high := i } _ hlen' hreg hfo
    simp only [hfrun, outcome_bind_ok]
    have hr0 : ¬ r ≥ 0 := by
      intro hr0
      rcases hres with ⟨hr1, -⟩ | ⟨hr1, hr2, g, hg, hga, hg0, -⟩
      · omega
      · simp only at hr1 hr2 hg
        obtain ⟨hSg, -, hgm⟩ := hback r g hr1 hg
        have kg : fnc_key pv g = fnc_key pv { s with mode := S_IFREG } :=
          (fnc_lex_eq_zero _ _ (fnc_key_ok pv g (hA.names.ok g hgm)) (fnc_key_ok pv _ ok')).1 hg0
        exact sorted_index_pair hA.twin hr1 (by omega) hSg hS hfind.1 hfind.2 kg.symm
    simp only [hr0, if_false, outcome_pure]
    exact ⟨files', i, rfl, same_files_trans hs hsame⟩
  · simp only [hfind, if_false, outcome_pure, outcome_bind_ok]
    have : ¬ ((-1 : Int) ≥ 0) := by omega
    simp only [this, if_false]
    exact ⟨files, high, rfl, hs⟩

/-- On the array that `qsort` makes of a cleaned list, the main loop runs to the end and
changes nothing but distances of cleared entries. -/
theorem clean_loop_sorted {pv : Int} {I A : List file_struct}
    (hI : ∀ g ∈ I, F_IS_ACTIVE g = false) (hA : active_ok pv A)
    (hlen : ((I ++ A).length : Int) < 2 ^ 31) :
    ∀ (n : Nat) (files : List file_struct) (i high : Int), same_files (I ++ A) files →
      (I.length : Int) ≤ i → i < files.length → (files.length : Int) ≤ i + 1 + n →
      ∃ files' high',
        clean_loop pv n { flist := { files := files, low := I.length, high := high },
                          prev_i := i } i =
          outcome.ok { flist := { files := files', low := I.length, high := high' },
                       prev_i := (files.length : Int) - 1 } ∧
        same_files (I ++ A) files' := by
  intro n
  induction n with
  | zero =>
    intro files i high hs hmi hi hb
    have e : (files.length : Int) - 1 = i := by push_cast at hb; omega
    refine ⟨files, high, ?_, hs⟩
    unfold clean_loop
    rw [if_neg, e]
    · rfl
    · unfold file_list.count; simp only; omega
  | succ n ih =>
    intro files i high hs hmi hi hb
    unfold clean_loop
    by_cases hc : i + 1 < ({ files := files, low := I.length, high := high } : file_list).count
    · rw [if_pos hc]
      unfold file_list.count at hc
      simp only at hc
      obtain ⟨files1, high1, hstep, hs1⟩ := clean_step_sorted hI hA hlen hs i hmi hc high
      simp only [hstep, outcome_bind_ok]
      have hl1 : files1.length = files.length := by rw [hs1.1, hs.1]
      obtain ⟨files2, high2, hrun, hs2⟩ := ih files1 (i + 1) high1 hs1 (by omega)
        (by rw [hl1]; exact hc) (by rw [hl1]; push_cast at hb ⊢; omega)
      rw [hl1] at hrun
      exact ⟨files2, high2, hrun, hs2⟩
    · rw [if_neg hc]
      unfold file_list.count at hc
      simp only at hc
      have e : (files.length : Int) - 1 = i := by omega
      rw [e]
      exact ⟨files, high, rfl, hs⟩

theorem first_active_append (I A : List file_struct) (a : file_struct)
    (hI : ∀ g ∈ I, F_IS_ACTIVE g = false) (ha : F_IS_ACTIVE a = true) :
    ∀ n, first_active (I ++ a :: A) n = some (n + I.length) := by
  induction I with
  | nil =>
    intro n
    simp only [List.nil_append, List.length_nil, Nat.add_zero]
    unfold first_active
    rw [if_pos ha]
  | cons x t ih =>
    intro n
    have hx := hI x (List.mem_cons_self _ _)
    simp only [List.cons_append, List.length_cons]
    unfold first_active
    rw [hx]
    simp only [Bool.false_eq_true, if_false]
    rw [ih (fun g hg => hI g (List.mem_cons_of_mem _ hg)) (n + 1)]
    congr 1
    omega

/-- The second run of `clean_flist`, on the array `I ++ A` that `qsort` returns. -/
theorem clean_flist_sorted (qsort : List file_struct → List file_struct) (pv : Int)
    (cl : file_list) (no_dups : Int) (hnd : no_dups ≠ 0) (I A : List file_struct)
    (hq : qsort cl.files = I ++ A) (hI : ∀ g ∈ I, F_IS_ACTIVE g = false)
    (hA : active_ok pv A) (hne : A ≠ []) (hcl : cl.files ≠ [])
    (hlen : ((I ++ A).length : Int) < 2 ^ 31) :
    ∃ cl2, clean_flist qsort pv cl 0 no_dups = outcome.ok cl2 ∧ active_entries cl2 = A := by
  have hc : cl.count ≠ 0 := by
    unfold file_list.count
    intro h
    exact hcl (List.length_eq_zero.1 (by exact_mod_cast h))
  obtain ⟨a, A', hA'⟩ := List.exists_cons_of_ne_nil hne
  have hfa : first_active (I ++ A) 0 = some I.length := by
    rw [hA']
    have := first_active_append I A' a hI (active_ok_active hA a (by rw [hA']; simp)) 0
    rw [this]
    congr 1
    omega
  have hIA : (I.length : Int) < ((I ++ A).length : Nat) := by
    rw [hA']; simp
  obtain ⟨files', high', hrun, hs⟩ := clean_loop_sorted hI hA hlen (I ++ A).length (I ++ A)
    I.length cl.high (same_files_refl _) (le_refl _) hIA (by omega)
  refine ⟨{ files := files', low := I.length, high := ((I ++ A).length : Int) - 1 }, ?_, ?_⟩
  · unfold clean_flist
    simp only [hc, if_false, hnd, ne_eq, not_false_eq_true, if_true, hq, hfa,
      outcome_bind_ok, hrun, not_true_eq_false, outcome_pure]
  · unfold active_entries
    simp only
    have e1 : ((((I ++ A).length : Nat) : Int) - 1 + 1).toNat = files'.length := by
      rw [hs.1]; omega
    have e2 : ((I.length : Nat) : Int).toNat = I.length := by omega
    rw [e1, e2, List.take_length]
    have h2 := forall₂_same_entry_drop I.length _ _ (same_files_forall₂ _ _ hs)
    rw [forall₂_same_entry_filter _ _ h2, List.drop_left]
    exact List.filter_eq_self.2 (active_ok_active hA)

/-! ## A cleaned list cleaned again -/

/-- C16 as stated fails with `strip_root`: `clean_flist` with `strip_root` and `no_dups`
(protocol 29, an insertion sort for `qsort`, `prune_empty_dirs` off) turns the list
`/a/y`, `/b/x`, `a/y` into the active entries `a/y`, `b/x`, `a/y`, and a second run with
the same arguments sorts them again and drops one `a/y`; so for the lines 1550-1642 and
for the function in full. It fails with `prune_empty_dirs` as well: the list of the
directory `a` twice and the directory `b` is cleaned into a list that keeps `a`, and a
second run clears it. -/
theorem clean_flist_twice_strip_root :
    clean_flist (ex_qsort 29) 29 ex_list_rooted 1 1 =
      outcome.ok { files := [ex_file_a_y_stripped, ex_file_b_x_stripped, ex_file_a_y],
                   low := 0, high := 2 } ∧
    active_entries { files := [ex_file_a_y_stripped, ex_file_b_x_stripped, ex_file_a_y],
                     low := 0, high := 2 } =
      [ex_file_a_y_stripped, ex_file_b_x_stripped, ex_file_a_y] ∧
    (clean_flist (ex_qsort 29) 29
        { files := [ex_file_a_y_stripped, ex_file_b_x_stripped, ex_file_a_y],
          low := 0, high := 2 } 1 1).map active_entries =
      outcome.ok [ex_file_a_y_stripped, ex_file_b_x_stripped] ∧
    clean_flist_full ex_qsort_cmp (fun _ => false) 4096 false 29 ex_list_rooted 1 1 =
      outcome.ok { files := [ex_file_a_y_stripped, ex_file_b_x_stripped, ex_file_a_y],
                   low := 0, high := 2 } ∧
    (clean_flist_full ex_qsort_cmp (fun _ => false) 4096 false 29
        { files := [ex_file_a_y_stripped, ex_file_b_x_stripped, ex_file_a_y],
          low := 0, high := 2 } 1 1).map active_entries =
      outcome.ok [ex_file_a_y_stripped, ex_file_b_x_stripped] ∧
    (clean_flist_full ex_qsort_cmp (fun _ => false) 4096 true 29
        { files := [ex_dir_a_deep, ex_dir_a_deep, ex_dir_b_deep], low := 0, high := 0 }
        0 1).map active_entries = outcome.ok [ex_dir_a_deep] ∧
    ((clean_flist_full ex_qsort_cmp (fun _ => false) 4096 true 29
        { files := [ex_dir_a_deep, ex_dir_a_deep, ex_dir_b_deep], low := 0, high := 0 }
        0 1).bind fun cl =>
      (clean_flist_full ex_qsort_cmp (fun _ => false) 4096 true 29 cl 0 1).map
        active_entries) = outcome.ok [] := by
  refine ⟨by decide, by decide, by decide, by decide, by decide, by decide, by decide⟩

/-- The lines 1550-1642 run twice: let a non-empty list of active entries on whose pairs `f_name_cmp`
returns be cleaned by `clean_flist` with `no_dups` set and `strip_root` = 0, and then
cleaned again with the same arguments, `qsort` having put the array in the order of
`file_compare` both times. Then both calls return, and the sequence of the active
entries of `low .. high` after the second call is, entry by entry and field by field, the
sequence after the first call. -/
theorem clean_flist_idempotent (qsort : List file_struct → List file_struct)
    (pv : Int) (flist : file_list) (no_dups : Int)
    (hne : flist.files ≠ []) (hlen : (flist.files.length : Int) < 2 ^ 31)
    (hl : list_ok pv flist.files)
    (hperm : (qsort flist.files).Perm flist.files)
    (hsorted : sorted_by_cmp pv (qsort flist.files))
    (hnd : no_dups ≠ 0)
    (hq2 : ∀ cl, clean_flist qsort pv flist 0 no_dups = outcome.ok cl →
      (qsort cl.files).Perm cl.files ∧ sorted_by_cmp pv (qsort cl.files)) :
    ∃ cl cl2, clean_flist qsort pv flist 0 no_dups = outcome.ok cl ∧
      clean_flist qsort pv cl 0 no_dups = outcome.ok cl2 ∧
      active_entries cl2 = active_entries cl := by
  have hn := list_ok_names hperm hl
  have hks := sorted_keys hn hsorted
  have hlen' : ((qsort flist.files).length : Int) < 2 ^ 31 := by
    rw [hperm.length_eq]; exact hlen
  obtain ⟨cl, i, hrun, hinv, htw, hend⟩ :=
    clean_flist_twin qsort flist no_dups hnd hn hks hlen' hperm.length_eq hne
  obtain ⟨hperm2, hsorted2⟩ := hq2 cl hrun
  have hA := clean_inv_active_ok hn hinv hend htw
  have hshape := sorted_cleaned_shape hA hperm2 hsorted2
  have hI : ∀ g ∈ (qsort cl.files).filter (fun g => !F_IS_ACTIVE g), F_IS_ACTIVE g = false := by
    intro g hg
    have := (List.mem_filter.1 hg).2
    simpa using this
  generalize (qsort cl.files).filter (fun g => !F_IS_ACTIVE g) = I at hshape hI
  have hAne : cl.files.filter F_IS_ACTIVE ≠ [] := by
    obtain ⟨g, hg, hga⟩ := hinv.region.lo_active
    intro h
    have : g ∈ cl.files.filter F_IS_ACTIVE := List.mem_filter.2 ⟨files_get_mem hg, hga⟩
    rw [h] at this
    cases this
  have hcl : cl.files ≠ [] := by
    intro h; rw [h] at hAne; exact hAne rfl
  have hlen2 : ((I ++ cl.files.filter F_IS_ACTIVE).length : Int) < 2 ^ 31 := by
    rw [← hshape, hperm2.length_eq, hinv.len]; exact hlen'
  obtain ⟨cl2, hrun2, hact⟩ := clean_flist_sorted qsort pv cl no_dups hnd I _ hshape hI hA
    hAne hcl hlen2
  refine ⟨cl, cl2, hrun, hrun2, ?_⟩
  rw [hact]
  exact (clean_inv_active_entries hinv hend).symm

/-! ### The stream of the exclude list -/

/-- The receiver leaves through `overflow` on an include rule whose pattern is one byte
shorter than `MAXPATHLEN`: with the prefix "+ " the sender announces `MAXPATHLEN + 1`
bytes, the size of the receiver's line. -/
theorem recv_exclude_list_overflow (M n : Nat) (pre : Option (List Nat))
    (list : Option (List exclude_struct)) (ex : exclude_struct) (rest : List Nat)
    (hM : (M : Int) + 1 < 2 ^ 31) (hl : ex.pattern.length + 1 = M) (hp : ex.pattern ≠ [])
    (hi : ex.include_ ≠ 0) (hd : ex.directory = 0) :
    recv_exclude_list M pre (n + 1) list (send_exclude M ex ++ rest) =
      outcome.bad fault.overflow_exit := by
  have h0 : ex.pattern.length ≠ 0 := fun h => hp (List.length_eq_zero.1 h)
  have h1 : ¬ (ex.pattern.length = 0 ∨ ex.pattern.length ≥ M) := by omega
  have hlt : ex.pattern.length + 2 < 2 ^ 32 := by
    have : (2 : Int) ^ 31 < 2 ^ 32 := by norm_num
    have h32 : ((2 ^ 32 : Nat) : Int) = 2 ^ 32 := by norm_num
    omega
  have hu : uint32_of_int (int_of_uint32 (uint32_of_int ((ex.pattern.length : Int) + 2)))
      = ex.pattern.length + 2 := by
    have e : ((ex.pattern.length : Int) + 2) = ((ex.pattern.length + 2 : Nat) : Int) := by
      push_cast; rfl
    rw [e, uint32_of_int_of_uint32, uint32_of_int_nat, Nat.mod_mod, Nat.mod_eq_of_lt hlt]
  unfold send_exclude
  simp only [h1, if_false, hd, ne_eq, not_true_eq_false, hi, not_false_eq_true, if_true,
    List.append_assoc]
  unfold recv_exclude_list
  rw [read_int_write_int]
  simp only [outcome_bind_ok]
  rw [hu]
  have h2 : ¬ ex.pattern.length + 2 = 0 := by omega
  have h3 : ex.pattern.length + 2 ≥ M + 1 := by omega
  simp only [h2, if_false, h3, if_true]

/-! ## Rules that do not survive the stream, and the token "!" -/

/-- C19: the exclude stream does not round-trip two kinds of rule whose pattern is
non-empty and shorter than `MAXPATHLEN` (4096 here, no path prefix). The exclude rule
with the pattern "!" (compiled from "- !") is written as the one byte "!", which makes
the receiver empty its list: of the rules "a", "!", "b" it rebuilds "b" alone. And for the
include rule with a pattern of 4095 bytes the sender announces 4097 bytes, which the
receiver refuses through `overflow`. -/
theorem exclude_stream_round_trip_fails :
    add_exclude none (some [ex_rule_a]) (some [45, 32, 33]) 0 =
      outcome.ok (some [ex_rule_a, ex_rule_bang]) ∧
    (∃ bytes, send_exclude_list 4096 none false false
        (some [ex_rule_a, ex_rule_bang, ex_rule_b]) =
        outcome.ok (bytes, some [ex_rule_a, ex_rule_bang, ex_rule_b]) ∧
      recv_exclude_list 4096 none 4 none bytes = outcome.ok (some [ex_rule_b], [])) ∧
    (∃ bytes, send_exclude_list 4096 none false false (some [ex_rule_long]) =
        outcome.ok (bytes, some [ex_rule_long]) ∧
      recv_exclude_list 4096 none 2 none bytes = outcome.bad fault.overflow_exit) := by
  refine ⟨by decide, ⟨_, rfl, by decide⟩, ⟨_, rfl, ?_⟩⟩
  have e : (List.map (send_exclude 4096) [ex_rule_long]).flatten ++ write_int 0 =
      send_exclude 4096 ex_rule_long ++ write_int 0 := by
    simp
  rw [e]
  apply recv_exclude_list_overflow 4096 1 none none ex_rule_long (write_int 0) (by norm_num)
  · show (List.replicate 4095 97).length + 1 = 4096
    rw [List.length_replicate]
  · show List.replicate 4095 97 ≠ []
    intro h
    have := congrArg List.length h
    rw [List.length_replicate] at this
    cases this
  · show (1 : Int) ≠ 0
    decide
  · rfl

/-- C20: in word-split mode, a token "!" followed by another token makes `add_exclude`
read the array that `free_exclude_list` has just freed, whenever the list was not `NULL`
before the call: the local `list` still holds the old pointer at line 298. The rest of
the claim holds: on a `NULL` list the rules are those of the tokens after the last "!",
a list is emptied when nothing follows the "!", and without word splitting the pattern
"!" empties the list. -/
theorem add_exclude_bang_use_after_free (pre : Option (List Nat))
    (l : List exclude_struct) :
    add_exclude pre (some l) (some [33, 32, 121]) XFLG_WORD_SPLIT =
      outcome.bad fault.use_after_free ∧
    add_exclude none none (some [97, 32, 33, 32, 121]) XFLG_WORD_SPLIT =
      outcome.ok (some [ex_rule_y]) ∧
    add_exclude pre (some l) (some [97, 32, 33]) XFLG_WORD_SPLIT = outcome.ok none ∧
    add_exclude pre (some l) (some [33]) 0 = outcome.ok none := by
  refine ⟨rfl, by decide, rfl, rfl⟩

/-! ## Empty directories that are not pruned -/

/-- C18: with `prune_empty_dirs` and `no_dups` set, protocol 29 and no filter rule, the
list of the directory `a` twice and the directory `b`, all at depth 1 and with nothing
beneath them, is cleaned into a list in which `a` is still active: the loop of lines
1649-1688 takes the cleared duplicate of `a` for a non-directory and keeps the chain of
directories before it. Without the duplicate both directories are pruned. -/
theorem clean_flist_prune_keeps_empty_dir :
    clean_flist_prune id (fun _ => false) 4096 true 29
        { files := [ex_dir_a_deep, ex_dir_a_deep, ex_dir_b_deep], low := 0, high := 0 } 0 1 =
      outcome.ok { files := [ex_dir_a_deep, clear_file ex_dir_a_deep, clear_file ex_dir_b_deep],
                   low := 0, high := 0 } ∧
    (F_IS_ACTIVE ex_dir_a_deep = true ∧ S_ISDIR ex_dir_a_deep.mode = true ∧
      ex_dir_a_deep.depth = 1) ∧
    (∀ g ∈ [ex_dir_a_deep, clear_file ex_dir_a_deep, clear_file ex_dir_b_deep],
      F_IS_ACTIVE g = true → S_ISDIR g.mode = true) ∧
    clean_flist_prune id (fun _ => false) 4096 true 29
        { files := [ex_dir_a_deep, ex_dir_b_deep], low := 0, high := 0 } 0 1 =
      outcome.ok { files := [clear_file ex_dir_a_deep, clear_file ex_dir_b_deep],
                   low := 2, high := 1 } := by
  refine ⟨by decide, by decide, by decide, by decide⟩

/-! ### Prefixes of a pattern text (`add_exclude`) -/

/-- At the end of the text `get_exclude_tok` finds no token. -/
theorem get_exclude_tok_nil (xflags : Nat) : get_exclude_tok [] xflags = ([], 0) := rfl

/-- The loop of `add_exclude` entered with the whole of a text that is not empty: one rule
is compiled, from the text without its prefix when line 308 finds one. -/
theorem add_exclude_toks_whole ( exclude_path_prefix : Option (List Nat)) (xflags n : Nat)
    (text : List Nat) (list : List exclude_struct) (hne : text ≠ []) :
    add_exclude_toks exclude_path_prefix xflags (n + 2) text text.length list =
      outcome.ok (list ++
        [if has_flag xflags XFLG_NO_PREFIXES = false ∧
              (text.headD 0 = 45 ∨ text.headD 0 = 43) ∧ text.getD 1 0 = 32 then
            make_exclude exclude_path_prefix (text.drop 2) (text.length - 2)
              (if text.headD 0 = 43 then 1 else 0)
          else make_exclude exclude_path_prefix text text.length
              ((xflags &&& XFLG_DEF_INCLUDE : Nat) : Int)]) := by
  have hlen : text.length ≠ 0 := by
    intro h; exact hne (List.length_eq_zero.mp h)
  by_cases hp : has_flag xflags XFLG_NO_PREFIXES = false ∧
      (text.headD 0 = 45 ∨ text.headD 0 = 43) ∧ text.getD 1 0 = 32
  · have hpre : (!has_flag xflags XFLG_NO_PREFIXES
        && (decide (text.headD 0 = 45) || decide (text.headD 0 = 43))
        && decide (text.getD 1 0 = 32)) = true := by
      obtain ⟨h1, h2, h3⟩ := hp
      simp only [h1, h3, Bool.not_false, Bool.true_and, decide_True, Bool.and_true,
        Bool.or_eq_true, decide_eq_true_eq]
      exact h2
    have hdrop : (text.drop 2).drop (text.length - 2) = [] := by
      rw [List.drop_drop]; apply List.drop_of_length_le; omega
    rw [if_pos hp]
    conv_lhs => unfold add_exclude_toks
    simp only [hlen, if_false, hpre, if_true, hdrop, get_exclude_tok_nil]
    unfold add_exclude_toks
    simp only [if_true]
  · have hpre : (!has_flag xflags XFLG_NO_PREFIXES
        && (decide (text.headD 0 = 45) || decide (text.headD 0 = 43))
        && decide (text.getD 1 0 = 32)) = false := by
      rw [Bool.eq_false_iff]
      intro h
      apply hp
      simp only [Bool.and_eq_true, Bool.not_eq_true', Bool.or_eq_true,
        decide_eq_true_eq] at h
      exact ⟨h.1.1, h.1.2, h.2⟩
    have hdrop : text.drop text.length = [] := List.drop_length text
    rw [if_neg hp]
    conv_lhs => unfold add_exclude_toks
    simp only [hlen, if_false, hpre, Bool.false_eq_true, hdrop, get_exclude_tok_nil]
    unfold add_exclude_toks
    simp only [if_true]

/-- The rule that `make_exclude` compiles from a whole text: the include flag is the one
passed in, and without a path prefix the stored pattern is the text, less a trailing `/`
when the text is longer than one byte. -/
theorem make_exclude_whole ( exclude_path_prefix : Option (List Nat)) (t : List Nat)
    (incl : Int) :
    (make_exclude exclude_path_prefix t t.length incl).include_ = incl ∧
    (make_exclude none t t.length incl).pattern =
      (if 1 < t.length ∧ t.getLast? = some 47 then t.dropLast else t) ∧
    (make_exclude none t t.length incl).directory =
      (if 1 < t.length ∧ t.getLast? = some 47 then 1 else 0) := by
  have hlast : t.getD (t.length - 1) 0 = 47 ↔ t.getLast? = some 47 ∨ (t = [] ∧ False) := by
    rcases List.eq_nil_or_concat t with h | ⟨l, a, h⟩
    · subst h; simp
    · subst h; simp [List.getD_eq_getElem?_getD]
  have hcond : (decide (t.length > 1) && decide (t.getD (t.length - 1) 0 = 47)) =
      decide (1 < t.length ∧ t.getLast? = some 47) := by
    rw [Bool.eq_iff_iff]
    simp only [Bool.and_eq_true, decide_eq_true_eq, hlast, and_false, or_false, gt_iff_lt]
  refine ⟨rfl, ?_, ?_⟩
  · simp only [make_exclude, strlcpy, Nat.add_sub_cancel, List.take_length, List.nil_append,
      List.length_nil, Nat.add_zero, hcond]
    by_cases h : 1 < t.length ∧ t.getLast? = some 47
    · simp only [h, and_self, decide_True, if_true, List.dropLast_eq_take]
    · simp only [h, decide_False, Bool.false_eq_true, if_false]
  · simp only [make_exclude, strlcpy, Nat.add_sub_cancel, List.take_length, List.nil_append,
      List.length_nil, Nat.add_zero, hcond]
    by_cases h : 1 < t.length ∧ t.getLast? = some 47
    · simp only [h, and_self, decide_True, if_true]
    · simp only [h, decide_False, Bool.false_eq_true, if_false]

/-- The call `add_exclude` on a text that is one pattern (the text as a whole, or in
word-split mode a text that is one token) and not the token "!": one rule is appended. -/
theorem add_exclude_one ( exclude_path_prefix : Option (List Nat))
    (listp : Option (List exclude_struct)) (xflags : Nat) (text : List Nat)
    (hne : text ≠ []) (hbang : text ≠ [33])
    (hone : has_flag xflags XFLG_WORD_SPLIT = false ∨
      get_exclude_tok text xflags = (text, text.length)) :
    add_exclude exclude_path_prefix listp (some text) xflags =
      outcome.ok (some (listp.getD [] ++
        [if has_flag xflags XFLG_NO_PREFIXES = false ∧
              (text.headD 0 = 45 ∨ text.headD 0 = 43) ∧ text.getD 1 0 = 32 then
            make_exclude exclude_path_prefix (text.drop 2) (text.length - 2)
              (if text.headD 0 = 43 then 1 else 0)
          else make_exclude exclude_path_prefix text text.length
              ((xflags &&& XFLG_DEF_INCLUDE : Nat) : Int)])) := by
  have hlen : text.length ≠ 0 := by
    intro h; exact hne (List.length_eq_zero.mp h)
  have hnb : ¬ (text.length = 1 ∧ text.headD 0 = 33) := by
    rintro ⟨h1, h2⟩
    match text, h1, h2 with
    | [c], _, h2 => exact hbang (by simpa using h2)
  obtain ⟨m, hm⟩ : ∃ m, text.length = m + 1 := ⟨text.length - 1, by omega⟩
  have hrun := add_exclude_toks_whole exclude_path_prefix xflags m text (listp.getD []) hne
  by_cases hs : has_flag xflags XFLG_WORD_SPLIT = true
  · have htok : get_exclude_tok text xflags = (text, text.length) := by
      rcases hone with h | h
      · rw [hs] at h; cases h
      · exact h
    have hcount : count_exclude_toks xflags (text.length + 1) text 0 text false =
        outcome.ok (1, text, false) := by
      rw [hm]
      unfold count_exclude_toks
      simp only [htok, hlen, if_false, hnb, List.drop_length]
      unfold count_exclude_toks
      simp only [get_exclude_tok_nil, if_true, Int.zero_add]
    unfold add_exclude
    simp only [hs, if_true, hcount, outcome_bind_ok, htok]
    rw [hm] at hrun ⊢
    simp only [one_ne_zero, if_false, Bool.false_eq_true, false_and, hrun, outcome_bind_ok,
      outcome_pure]
  · unfold add_exclude
    simp only [hs, Bool.false_eq_true, if_false, hnb]
    rw [hm] at hrun ⊢
    simp only [hrun, outcome_bind_ok, outcome_pure]

/-- C21, as it stands, fails: a text that is exactly "!" is not stored, it empties the
list; and the text "a/" is not stored whole, its rule holds the pattern "a" and is
directory-only. -/
theorem add_exclude_text_not_stored_whole :
    add_exclude none (some [ex_rule_a]) (some [33]) 0 = outcome.ok none ∧
    add_exclude none none (some [97, 47]) 0 =
      outcome.ok (some [{ pattern := [97], match_flags := 0, include_ := 0, directory := 1,
                          slash_cnt := 0 }]) := by
  decide

/-- C21, amended: let `text` be one pattern for `add_exclude` (the whole text, or in
word-split mode a text that is one token), not empty and not the token "!". Without
`XFLG_NO_PREFIXES`, a text "+ rest" appends the include rule that `make_exclude` compiles
from `rest`, and a text "- rest" the exclude rule compiled from `rest`. Any other text, and
with `XFLG_NO_PREFIXES` every text, appends the rule compiled from the whole text, which is
an include rule exactly when `XFLG_DEF_INCLUDE` is set. The rule compiled from a text has
the include flag passed in, and without a path prefix its stored pattern is the text, less
a trailing `/` when the text is longer than one byte. -/
theorem add_exclude_prefix_rule ( exclude_path_prefix : Option (List Nat))
    (listp : Option (List exclude_struct)) (xflags : Nat) (text : List Nat)
    (hne : text ≠ []) (hbang : text ≠ [33])
    (hone : has_flag xflags XFLG_WORD_SPLIT = false ∨
      get_exclude_tok text xflags = (text, text.length)) :
    (has_flag xflags XFLG_NO_PREFIXES = false → ∀ rest, text = 43 :: 32 :: rest →
      add_exclude exclude_path_prefix listp (some text) xflags =
        outcome.ok (some (listp.getD [] ++
          [make_exclude exclude_path_prefix rest rest.length 1]))) ∧
    (has_flag xflags XFLG_NO_PREFIXES = false → ∀ rest, text = 45 :: 32 :: rest →
      add_exclude exclude_path_prefix listp (some text) xflags =
        outcome.ok (some (listp.getD [] ++
          [make_exclude exclude_path_prefix rest rest.length 0]))) ∧
    ((has_flag xflags XFLG_NO_PREFIXES = true ∨
        ∀ rest, text ≠ 43 :: 32 :: rest ∧ text ≠ 45 :: 32 :: rest) →
      add_exclude exclude_path_prefix listp (some text) xflags =
        outcome.ok (some (listp.getD [] ++
          [make_exclude exclude_path_prefix text text.length
            ((xflags &&& XFLG_DEF_INCLUDE : Nat) : Int)]))) ∧
    ((((xflags &&& XFLG_DEF_INCLUDE : Nat) : Int) ≠ 0) ↔
      has_flag xflags XFLG_DEF_INCLUDE = true) ∧
    (∀ (t : List Nat) (incl : Int),
      (make_exclude exclude_path_prefix t t.length incl).include_ = incl ∧
      (make_exclude none t t.length incl).pattern =
        (if 1 < t.length ∧ t.getLast? = some 47 then t.dropLast else t)) := by
  have hrun := add_exclude_one exclude_path_prefix listp xflags text hne hbang hone
  refine ⟨?_, ?_, ?_, ?_, ?_⟩
  · intro hp rest ht
    subst ht
    rw [hrun, if_pos ⟨hp, Or.inr rfl, rfl⟩]
    rfl
  · intro hp rest ht
    subst ht
    rw [hrun, if_pos ⟨hp, Or.inl rfl, rfl⟩]
    rfl
  · intro h
    rw [hrun, if_neg]
    rintro ⟨hp, hc, hsp⟩
    rcases h with h | h
    · rw [hp] at h; cases h
    · match text, hc, hsp with
      | [], _, hsp => simp at hsp
      | [c], _, hsp => simp at hsp
      | c :: d :: rest, hc, hsp =>
        have hd : d = 32 := by simpa using hsp
        have hc2 : c = 45 ∨ c = 43 := by simpa using hc
        rcases hc2 with hc2 | hc2
        · exact (h rest).2 (by rw [hc2, hd])
        · exact (h rest).1 (by rw [hc2, hd])
  · simp only [has_flag, bne_iff_ne, ne_eq, Int.natCast_eq_zero]
  · intro t incl
    exact ⟨(make_exclude_whole exclude_path_prefix t incl).1,
      (make_exclude_whole exclude_path_prefix t incl).2.1⟩

/-- A witness for C21: the texts "+ a" and "- a" append the rules that include and that
exclude `a`, the text "a" is an exclude rule without `XFLG_DEF_INCLUDE`, and with
`XFLG_NO_PREFIXES` the text "+ a" keeps its three bytes. -/
theorem add_exclude_prefix_rule_witness :
    add_exclude none none (some [43, 32, 97]) 0 =
      outcome.ok (some ([] ++ [make_exclude none [97] 1 1])) ∧
    add_exclude none none (some [45, 32, 97]) 0 =
      outcome.ok (some ([] ++ [make_exclude none [97] 1 0])) ∧
    add_exclude none none (some [43, 32, 97]) XFLG_NO_PREFIXES =
      outcome.ok (some ([] ++ [make_exclude none [43, 32, 97] 3 0])) :=
  ⟨(add_exclude_prefix_rule none none 0 [43, 32, 97] (by decide) (by decide)
      (Or.inl (by decide))).1 (by decide) [97] rfl,
   (add_exclude_prefix_rule none none 0 [45, 32, 97] (by decide) (by decide)
      (Or.inl (by decide))).2.1 (by decide) [97] rfl,
   (add_exclude_prefix_rule none none XFLG_NO_PREFIXES [43, 32, 97] (by decide) (by decide)
      (Or.inl (by decide))).2.2.1 (Or.inl (by decide))⟩

/-! ### Directory-only rules -/

/-- A rule that is directory-only matches no name that is not a directory (lines
131-135 of `check_one_exclude`). -/
theorem check_one_exclude_directory (env : exclude_env) (name : List Nat)
    (ex : exclude_struct) (hdir : ex.directory ≠ 0) :
    check_one_exclude env name ex 0 = 0 := by
  unfold check_one_exclude
  simp only [hdir, ne_eq, not_false_eq_true, and_self, if_true, ite_self]

/-- The last byte of a string that is not empty, as `make_exclude` reads it. -/
theorem getD_length_pred_append (pre t : List Nat) (ht : t ≠ []) :
    (pre ++ t).getD ((pre ++ t).length - 1) 0 = 47 ↔ t.getLast? = some 47 := by
  have h1 : (pre ++ t).getD ((pre ++ t).length - 1) 0 = ((pre ++ t).getLast?).getD 0 := by
    rw [List.getLast?_eq_getElem?, List.getD_eq_getElem?_getD]
  rw [h1, List.getLast?_append_of_ne_nil pre ht]
  cases t.getLast? with
  | none => simp
  | some a => simp

/-- C23, as it stands, fails for the text "/": `make_exclude` strips a trailing `/` only
from a pattern longer than one byte, so the rule keeps the pattern "/", is not
directory-only, and matches the name "/" with `name_is_dir` false. -/
theorem make_exclude_lone_slash :
    make_exclude none [47] 1 0 =
      { pattern := [47], match_flags := 0, include_ := 0, directory := 0, slash_cnt := 1 } ∧
    check_one_exclude ex_env [47] (make_exclude none [47] 1 0) 0 = 1 := by
  decide

/-- C23, amended: for every pattern text of more than one byte that ends with `/`, the
rule compiled by `make_exclude` stores the text (behind the path prefix, when one applies)
without its trailing `/`, is directory-only, and `check_one_exclude` returns no match for
any name when `name_is_dir` is false. -/
theorem make_exclude_trailing_slash ( exclude_path_prefix : Option (List Nat))
    (t : List Nat) (incl : Int) (hlen : 1 < t.length) (hlast : t.getLast? = some 47) :
    (make_exclude exclude_path_prefix t t.length incl).pattern =
      (match exclude_path_prefix with
        | some pre => if t.headD 0 = 47 then pre else []
        | none => []) ++ t.dropLast ∧
    (make_exclude exclude_path_prefix t t.length incl).directory = 1 ∧
    ∀ (env : exclude_env) (name : List Nat),
      check_one_exclude env name (make_exclude exclude_path_prefix t t.length incl) 0 = 0 := by
  have hne : t ≠ [] := by
    intro h; subst h; simp at hlen
  have key : ∀ pre : List Nat,
      (decide (t.length + pre.length > 1) &&
        decide ((pre ++ t).getD (t.length + pre.length - 1) 0 = 47)) = true := by
    intro pre
    have h1 := (getD_length_pred_append pre t hne).mpr hlast
    rw [List.length_append, Nat.add_comm] at h1
    simp only [h1, decide_True, Bool.and_true, decide_eq_true_eq]
    omega
  have htake : ∀ pre : List Nat,
      (pre ++ t).take (t.length + pre.length - 1) = pre ++ t.dropLast := by
    intro pre
    rw [List.dropLast_eq_take, List.take_append_eq_append_take]
    have h1 : pre.length ≤ t.length + pre.length - 1 := by omega
    rw [List.take_of_length_le h1]
    congr 2
    omega
  have hpat : (make_exclude exclude_path_prefix t t.length incl).pattern =
      (match exclude_path_prefix with
        | some pre => if t.headD 0 = 47 then pre else []
        | none => []) ++ t.dropLast ∧
      (make_exclude exclude_path_prefix t t.length incl).directory = 1 := by
    constructor <;>
      simp only [make_exclude, strlcpy, Nat.add_sub_cancel, List.take_length, key, if_true,
        htake]
  refine ⟨hpat.1, hpat.2, ?_⟩
  intro env name
  apply check_one_exclude_directory
  rw [hpat.2]
  decide

/-- A witness for C23: the text "a/" compiles to the directory-only rule `a`, which does
not match the name `a` of a file. -/
theorem make_exclude_trailing_slash_witness :
    (make_exclude none [97, 47] 2 0).pattern = [] ++ [97] ∧
    (make_exclude none [97, 47] 2 0).directory = 1 ∧
    check_one_exclude ex_env [97] (make_exclude none [97, 47] 2 0) 0 = 0 :=
  ⟨(make_exclude_trailing_slash none [97, 47] 0 (by decide) (by decide)).1,
   (make_exclude_trailing_slash none [97, 47] 0 (by decide) (by decide)).2.1,
   (make_exclude_trailing_slash none [97, 47] 0 (by decide) (by decide)).2.2 ex_env [97]⟩

/-! ### Literal rules -/

/-- No flag is set in a zero `match_flags`. -/
theorem has_flag_zero (bit : Nat) : has_flag 0 bit = false := by
  simp [has_flag]

/-- A string has a part after its last `/` exactly when it has a `/`. -/
theorem after_last_slash_eq_none (n : List Nat) : after_last_slash n = none ↔ 47 ∉ n := by
  induction n with
  | nil => simp [after_last_slash]
  | cons c rest ih =>
    unfold after_last_slash
    cases h : after_last_slash rest with
    | some r =>
      have h47 : 47 ∈ rest := by
        by_contra hc
        rw [ih.mpr hc] at h
        cases h
      simp [h47]
    | none =>
      have h47 : 47 ∉ rest := ih.mp h
      by_cases hc : c = 47
      · simp [hc]
      · simp [hc, h47, Ne.symm hc]

/-- What `strrchr(n, '/') + 1` is: nothing of it holds a `/`, and `n` is a string, a
`/` and it. -/
theorem after_last_slash_eq_some (n r : List Nat) :
    after_last_slash n = some r ↔ ∃ pre, n = pre ++ 47 :: r ∧ 47 ∉ r := by
  induction n generalizing r with
  | nil => simp [after_last_slash]
  | cons c rest ih =>
    unfold after_last_slash
    cases h : after_last_slash rest with
    | some r1 =>
      obtain ⟨pre1, hpre1, hr1⟩ := (ih r1).mp h
      constructor
      · intro he
        simp only [Option.some.injEq] at he
        subst he
        exact ⟨c :: pre1, by rw [hpre1]; rfl, hr1⟩
      · rintro ⟨pre, hpre, hr⟩
        simp only [Option.some.injEq]
        cases pre with
        | nil =>
          simp only [List.nil_append, List.cons.injEq] at hpre
          rw [← hpre.2, hpre1] at hr
          simp at hr
        | cons p pre =>
          simp only [List.cons_append, List.cons.injEq] at hpre
          have h2 : after_last_slash rest = some r := (ih r).mpr ⟨pre, hpre.2, hr⟩
          rw [h] at h2
          exact Option.some.inj h2
    | none =>
      have h47 : 47 ∉ rest := (after_last_slash_eq_none rest).mp h
      by_cases hc : c = 47
      · simp only [hc, if_true, Option.some.injEq]
        constructor
        · intro he; subst he; exact ⟨[], rfl, h47⟩
        · rintro ⟨pre, hpre, hr⟩
          cases pre with
          | nil =>
            simp only [List.nil_append, List.cons.injEq, true_and] at hpre
            exact hpre
          | cons p pre =>
            simp only [List.cons_append, List.cons.injEq] at hpre
            rw [hpre.2] at h47
            simp at h47
      · simp only [hc, if_false]
        constructor
        · intro he; cases he
        · rintro ⟨pre, hpre, hr⟩
          cases pre with
          | nil =>
            simp only [List.nil_append, List.cons.injEq] at hpre
            exact absurd hpre.1 hc
          | cons p pre =>
            simp only [List.cons_append, List.cons.injEq] at hpre
            rw [hpre.2] at h47
            simp at h47

/-- The test of lines 180-183 on a name and a pattern: the name is the pattern, or ends
with a `/` and the pattern. -/
theorem suffix_on_slash (name P : List Nat) :
    (P.length ≤ name.length ∧ name.drop (name.length - P.length) = P ∧
      (name.length = P.length ∨ name.getD (name.length - (P.length + 1)) 0 = 47)) ↔
    (name = P ∨ ∃ pre, name = pre ++ 47 :: P) := by
  constructor
  · rintro ⟨hle, hdrop, hor⟩
    by_cases heq : name.length = P.length
    · left
      rw [heq, Nat.sub_self, List.drop_zero] at hdrop
      exact hdrop
    · right
      have hlt : P.length < name.length := by omega
      have hchar : name.getD (name.length - (P.length + 1)) 0 = 47 := by
        rcases hor with h | h
        · exact absurd h heq
        · exact h
      have hk : name.length - (P.length + 1) < name.length := by omega
      refine ⟨name.take (name.length - (P.length + 1)), ?_⟩
      have h1 : name.drop (name.length - (P.length + 1)) =
          name[name.length - (P.length + 1)] :: name.drop (name.length - (P.length + 1) + 1) :=
        List.drop_eq_getElem_cons hk
      have h2 : name.length - (P.length + 1) + 1 = name.length - P.length := by omega
      have h3 : name[name.length - (P.length + 1)] = 47 := by
        rw [List.getD_eq_getElem?_getD, List.getElem?_eq_getElem hk] at hchar
        exact hchar
      rw [h2, hdrop, h3] at h1
      rw [← h1, List.take_append_drop]
  · rintro (h | ⟨pre, h⟩)
    · subst h
      simp
    · subst h
      have hl : (pre ++ 47 :: P).length = pre.length + (P.length + 1) := by
        simp only [List.length_append, List.length_cons]
      refine ⟨by omega, ?_, Or.inr ?_⟩
      · have : (pre ++ 47 :: P).length - P.length = pre.length + 1 := by omega
        rw [this]
        simp [List.drop_append_eq_append_drop]
      · have : (pre ++ 47 :: P).length - (P.length + 1) = pre.length := by omega
        rw [this, List.getD_append_right _ _ _ _ (Nat.le_refl _), Nat.sub_self]
        rfl

/-- A conditional 1 or 0 is not 0 exactly under its condition. -/
theorem ite_one_zero_ne_zero (p : Prop) [Decidable p] :
    (if p then (1 : Nat) else 0) ≠ 0 ↔ p := by
  by_cases h : p <;> simp [h]

/-- A rule without wildcard flags (`match_flags` 0) whose `slash_cnt` counts the `/` of
its pattern, on a name that is not empty: when `check_one_exclude` finds a match. -/
theorem check_one_exclude_literal (env : exclude_env) (n : List Nat) (ex : exclude_struct)
    (d : Int) (hflags : ex.match_flags = 0) (hcnt : ex.slash_cnt = ex.pattern.count 47)
    (hn : n ≠ []) (hc : cstr_ok n)
    (hP : ex.pattern ≠ [] ∨ n.getLast? ≠ some 47) :
    check_one_exclude env n ex d ≠ 0 ↔
      (ex.directory = 0 ∨ d ≠ 0) ∧
        (if ex.pattern.headD 0 = 47 then
          (if n.headD 0 = 47 then n.tail else n) = ex.pattern.tail
        else n = ex.pattern ∨ ∃ pre, n = pre ++ 47 :: ex.pattern) := by
  have hguard : (ex.directory ≠ 0 ∧ d = 0) ↔ ¬ (ex.directory = 0 ∨ d ≠ 0) := by
    constructor
    · rintro ⟨h1, h2⟩ (h | h)
      · exact h1 h
      · exact h h2
    · intro h
      exact ⟨fun h1 => h (Or.inl h1), by_contra fun h2 => h (Or.inr h2)⟩
  have hhead : ∀ s : List Nat, cstr_ok s → (s.headD 0 = 0 ↔ s = []) := by
    intro s hs
    cases s with
    | nil => simp
    | cons a t =>
      have : a ≠ 0 := hs a (List.mem_cons_self _ _)
      simp [this]
  by_cases hs : ex.slash_cnt = 0
  · -- the pattern has no slash: the name is cut to its last element
    have hP47 : 47 ∉ ex.pattern := by
      rw [hs] at hcnt
      exact List.count_eq_zero.mp hcnt.symm
    have hanch : ¬ ex.pattern.headD 0 = 47 := by
      intro h
      cases hp : ex.pattern with
      | nil => rw [hp] at h; simp at h
      | cons a t =>
        rw [hp] at h hP47
        simp only [List.headD_cons] at h
        exact hP47 (by rw [h]; exact List.mem_cons_self _ _)
    unfold check_one_exclude
    simp only [hflags, has_flag_zero, hs, Bool.not_false, and_self, if_true, hanch,
      decide_False, Bool.false_eq_true, false_and, if_false, hguard]
    cases hb : after_last_slash n with
    | none =>
      have h0 : ¬ n.headD 0 = 0 := fun h => hn ((hhead n hc).mp h)
      have hsuf := suffix_on_slash n ex.pattern
      simp only [h0, if_false]
      by_cases hg : ex.directory = 0 ∨ d ≠ 0
      · simp only [hg, not_true_eq_false, if_false, true_and, ite_one_zero_ne_zero]
        exact hsuf
      · simp only [hg, not_false_eq_true, if_true, false_and, ne_eq, not_true_eq_false]
    | some b =>
      obtain ⟨pre, hpre, hb47⟩ := (after_last_slash_eq_some n b).mp hb
      have hbc : cstr_ok b := by
        intro c hcb
        apply hc c
        rw [hpre]
        simp [hcb]
      simp only [hhead b hbc]
      have hsuf := suffix_on_slash b ex.pattern
      have hiff : (b ≠ [] ∧ (b = ex.pattern ∨ ∃ q, b = q ++ 47 :: ex.pattern)) ↔
          (n = ex.pattern ∨ ∃ q, n = q ++ 47 :: ex.pattern) := by
        constructor
        · rintro ⟨-, h | ⟨q, h⟩⟩
          · right; exact ⟨pre, by rw [hpre, h]⟩
          · exfalso; apply hb47; rw [h]; simp
        · rintro (h | ⟨q, h⟩)
          · exfalso; apply hP47; rw [← h, hpre]; simp
          · have hb2 : after_last_slash n = some ex.pattern :=
              (after_last_slash_eq_some n ex.pattern).mpr ⟨q, h, hP47⟩
            rw [hb] at hb2
            have hbe : b = ex.pattern := Option.some.inj hb2
            refine ⟨?_, Or.inl hbe⟩
            intro hbn
            rcases hP with hP | hP
            · exact hP (hbe ▸ hbn)
            · apply hP
              rw [hpre, hbn]
              simp
      by_cases hbn : b = []
      · have hm : ¬ (n = ex.pattern ∨ ∃ q, n = q ++ 47 :: ex.pattern) :=
          fun h => (hiff.mpr h).1 hbn
        simp only [hbn, if_true, hm, and_false, ne_eq, not_true_eq_false]
      · simp only [hbn, if_false]
        by_cases hg : ex.directory = 0 ∨ d ≠ 0
        · simp only [hg, not_true_eq_false, if_false, true_and, ite_one_zero_ne_zero]
          rw [hsuf, ← hiff]
          exact ⟨fun h => ⟨hbn, h⟩, fun h => h.2⟩
        · simp only [hg, not_false_eq_true, if_true, false_and, ne_eq, not_true_eq_false]
  · -- the pattern has a slash: the whole name is compared
    have h0 : ¬ n.headD 0 = 0 := fun h => hn ((hhead n hc).mp h)
    unfold check_one_exclude
    simp only [hflags, has_flag_zero, hs, Bool.not_false, false_and, Bool.false_eq_true,
      if_false, h0, hguard]
    by_cases hg : ex.directory = 0 ∨ d ≠ 0
    · simp only [hg, not_true_eq_false, if_false, true_and]
      by_cases ha : ex.pattern.headD 0 = 47
      · simp only [ha, decide_True, if_true, true_and, ite_one_zero_ne_zero]
      · have hsuf := suffix_on_slash n ex.pattern
        simp only [ha, decide_False, Bool.false_eq_true, if_false, false_and,
          ite_one_zero_ne_zero]
        exact hsuf
    · simp only [hg, not_false_eq_true, if_true, false_and, ne_eq, not_true_eq_false]

/-- The rule that `make_exclude` compiles, without a path prefix, from a text with none of
`*`, `[`, `?`: no flag is set, `slash_cnt` counts the `/` of the stored pattern, and the
stored pattern is empty only for the empty text. -/
theorem make_exclude_literal (t : List Nat) (incl : Int) (hlit : has_wild_char t = false) :
    (make_exclude none t t.length incl).match_flags = 0 ∧
    (make_exclude none t t.length incl).slash_cnt =
      (make_exclude none t t.length incl).pattern.count 47 ∧
    (t ≠ [] → (make_exclude none t t.length incl).pattern ≠ []) := by
  refine ⟨?_, rfl, ?_⟩
  · simp only [make_exclude, strlcpy, Nat.add_sub_cancel, List.take_length, List.nil_append,
      hlit, Bool.false_eq_true, if_false, Option.isSome_none]
  · intro ht
    rw [(make_exclude_whole none t incl).2.1]
    by_cases h : 1 < t.length ∧ t.getLast? = some 47
    · rw [if_pos h]
      intro hd
      have := congrArg List.length hd
      simp only [List.length_dropLast, List.length_nil] at this
      omega
    · rw [if_neg h]
      exact ht

/-- C22, as it stands, fails for the rule with the empty pattern, which the text "+ "
compiles to: the name "a/" ends with a `/` followed by that pattern, and
`check_one_exclude` finds no match, the part of the name after its last `/` being empty. -/
theorem check_one_exclude_empty_pattern :
    add_exclude none none (some [43, 32]) 0 = outcome.ok (some [make_exclude none [] 0 1]) ∧
    has_wild_char (make_exclude none [] 0 1).pattern = false ∧
    (make_exclude none [] 0 1).directory = 0 ∧
    [97, 47] = [97] ++ 47 :: (make_exclude none [] 0 1).pattern ∧
    check_one_exclude ex_env [97, 47] (make_exclude none [] 0 1) 1 = 0 := by
  decide

/-- C22, amended: take the rule that `make_exclude` compiles without a path prefix from a
text with none of `*`, `?`, `[`, and a name `n` that is not empty; the text is not empty,
or `n` does not end with `/`. Then `check_one_exclude` matches if and only if the rule is
not directory-only or `name_is_dir` is set, and: for a stored pattern that begins with `/`,
`n` with one leading `/` removed equals the pattern with its leading `/` removed; for any
other stored pattern `P`, `n` equals `P` or `n` ends with `/` followed by `P`. -/
theorem check_one_exclude_literal_rule (env : exclude_env) (t : List Nat) (incl : Int)
    (n : List Nat) (name_is_dir : Int) (hlit : has_wild_char t = false)
    (hn : n ≠ []) (hc : cstr_ok n) (hP : t ≠ [] ∨ n.getLast? ≠ some 47) :
    check_one_exclude env n (make_exclude none t t.length incl) name_is_dir ≠ 0 ↔
      ((make_exclude none t t.length incl).directory = 0 ∨ name_is_dir ≠ 0) ∧
        (if (make_exclude none t t.length incl).pattern.headD 0 = 47 then
          (if n.headD 0 = 47 then n.tail else n) =
            (make_exclude none t t.length incl).pattern.tail
        else n = (make_exclude none t t.length incl).pattern ∨
          ∃ pre, n = pre ++ 47 :: (make_exclude none t t.length incl).pattern) := by
  obtain ⟨h1, h2, h3⟩ := make_exclude_literal t incl hlit
  apply check_one_exclude_literal env n _ name_is_dir h1 h2 hn hc
  rcases hP with h | h
  · exact Or.inl (h3 h)
  · exact Or.inr h

/-- A witness for C22: the rule "/build/" matches `build` as a directory; it matches
neither the file `build` nor the directory `src/build`. -/
theorem check_one_exclude_literal_rule_witness :
    check_one_exclude ex_env [98, 117, 105, 108, 100]
      (make_exclude none [47, 98, 117, 105, 108, 100, 47] 7 0) 1 ≠ 0 ∧
    check_one_exclude ex_env [98, 117, 105, 108, 100]
      (make_exclude none [47, 98, 117, 105, 108, 100, 47] 7 0) 0 = 0 ∧
    check_one_exclude ex_env [115, 114, 99, 47, 98, 117, 105, 108, 100]
      (make_exclude none [47, 98, 117, 105, 108, 100, 47] 7 0) 1 = 0 :=
  ⟨(check_one_exclude_literal_rule ex_env [47, 98, 117, 105, 108, 100, 47] 0
      [98, 117, 105, 108, 100] 1 (by decide) (by decide) (by decide)
      (Or.inl (by decide))).mpr
      ⟨Or.inr (by decide), by rw [if_pos (by decide)]; decide⟩,
   by decide, by decide⟩

/-! ### Wildcard rules on examples -/

/-- C24: take a `wildmatch` for which, as in shell globbing, `*.c` matches `x.c` and `y.c`
and not `x.o`, and `*` matches `x.o`. With the rule list that `add_exclude` builds from
"+ *.c" and then "- *", `check_exclude` returns 0 (keep) for the names `x.c` and `sub/y.c`
that are not directories, and a value that is not 0 (drop) for `x.o`. -/
theorem check_exclude_c_sources (env : exclude_env)
    (h1 : env.wildmatch [42, 46, 99] [120, 46, 99] = true)
    (h2 : env.wildmatch [42, 46, 99] [121, 46, 99] = true)
    (h3 : env.wildmatch [42, 46, 99] [120, 46, 111] = false)
    (h4 : env.wildmatch [42] [120, 46, 111] = true) :
    ∃ l1 l2 : List exclude_struct,
      add_exclude none none (some [43, 32, 42, 46, 99]) 0 = outcome.ok (some l1) ∧
      add_exclude none (some l1) (some [45, 32, 42]) 0 = outcome.ok (some l2) ∧
      check_exclude env l2 [120, 46, 99] 0 = 0 ∧
      check_exclude env l2 [115, 117, 98, 47, 121, 46, 99] 0 = 0 ∧
      check_exclude env l2 [120, 46, 111] 0 ≠ 0 := by
  have e1 : make_exclude none [42, 46, 99] 3 1 =
      { pattern := [42, 46, 99], match_flags := 1, include_ := 1, directory := 0,
        slash_cnt := 0 } := by decide
  have e2 : make_exclude none [42] 1 0 =
      { pattern := [42], match_flags := 1, include_ := 0, directory := 0,
        slash_cnt := 0 } := by decide
  refine ⟨[make_exclude none [42, 46, 99] 3 1],
    [make_exclude none [42, 46, 99] 3 1, make_exclude none [42] 1 0],
    by decide, by decide, ?_, ?_, ?_⟩
  · rw [e1, e2]
    have hr : check_one_exclude env [120, 46, 99]
        { pattern := [42, 46, 99], match_flags := 1, include_ := 1, directory := 0,
          slash_cnt := 0 } 0 = 1 := by
      simp [check_one_exclude, has_flag, MATCHFLG_WILD, MATCHFLG_WILD2,
        MATCHFLG_WILD2_PREFIX, MATCHFLG_ABS_PATH, after_last_slash, h1]
    simp [check_exclude, hr]
  · rw [e1, e2]
    have hr : check_one_exclude env [115, 117, 98, 47, 121, 46, 99]
        { pattern := [42, 46, 99], match_flags := 1, include_ := 1, directory := 0,
          slash_cnt := 0 } 0 = 1 := by
      simp [check_one_exclude, has_flag, MATCHFLG_WILD, MATCHFLG_WILD2,
        MATCHFLG_WILD2_PREFIX, MATCHFLG_ABS_PATH, after_last_slash, h2]
    simp [check_exclude, hr]
  · rw [e1, e2]
    have hr : check_one_exclude env [120, 46, 111]
        { pattern := [42, 46, 99], match_flags := 1, include_ := 1, directory := 0,
          slash_cnt := 0 } 0 = 0 := by
      simp [check_one_exclude, has_flag, MATCHFLG_WILD, MATCHFLG_WILD2,
        MATCHFLG_WILD2_PREFIX, MATCHFLG_ABS_PATH, after_last_slash, h3]
    have hr2 : check_one_exclude env [120, 46, 111]
        { pattern := [42], match_flags := 1, include_ := 0, directory := 0,
          slash_cnt := 0 } 0 = 1 := by
      simp [check_one_exclude, has_flag, MATCHFLG_WILD, MATCHFLG_WILD2,
        MATCHFLG_WILD2_PREFIX, MATCHFLG_ABS_PATH, after_last_slash, h4]
    simp [check_exclude, hr, hr2]

/-- A witness for C24: the globbing of the specification meets the four conditions. -/
theorem check_exclude_c_sources_witness :
    ∃ l1 l2 : List exclude_struct,
      add_exclude none none (some [43, 32, 42, 46, 99]) 0 = outcome.ok (some l1) ∧
      add_exclude none (some l1) (some [45, 32, 42]) 0 = outcome.ok (some l2) ∧
      check_exclude ex_glob_env l2 [120, 46, 99] 0 = 0 ∧
      check_exclude ex_glob_env l2 [115, 117, 98, 47, 121, 46, 99] 0 = 0 ∧
      check_exclude ex_glob_env l2 [120, 46, 111] 0 ≠ 0 :=
  check_exclude_c_sources ex_glob_env (by decide) (by decide) (by decide) (by decide)

/-- C25: take a `wildmatch` for which, as in shell globbing where `**` crosses `/`,
`**.log` matches `a.log`, `a/b.log` and `a/b/c.log`, and `**/tmp` matches `x/tmp` and
`x/y/tmp` and not `tmp`. Then the rule compiled from "**.log" matches each of the names
`a.log`, `a/b.log`, `a/b/c.log`, and the rule compiled from "/**/tmp" matches `x/tmp` and
`x/y/tmp` and does not match `tmp`, whether the name is a directory or not. -/
theorem check_one_exclude_double_star (env : exclude_env) (name_is_dir : Int)
    (h1 : env.wildmatch [42, 42, 46, 108, 111, 103] [97, 46, 108, 111, 103] = true)
    (h2 : env.wildmatch [42, 42, 46, 108, 111, 103] [97, 47, 98, 46, 108, 111, 103] = true)
    (h3 : env.wildmatch [42, 42, 46, 108, 111, 103]
      [97, 47, 98, 47, 99, 46, 108, 111, 103] = true)
    (h4 : env.wildmatch [42, 42, 47, 116, 109, 112] [120, 47, 116, 109, 112] = true)
    (h5 : env.wildmatch [42, 42, 47, 116, 109, 112] [120, 47, 121, 47, 116, 109, 112] = true)
    (h6 : env.wildmatch [42, 42, 47, 116, 109, 112] [116, 109, 112] = false) :
    check_one_exclude env [97, 46, 108, 111, 103]
      (make_exclude none [42, 42, 46, 108, 111, 103] 6 0) name_is_dir = 1 ∧
    check_one_exclude env [97, 47, 98, 46, 108, 111, 103]
      (make_exclude none [42, 42, 46, 108, 111, 103] 6 0) name_is_dir = 1 ∧
    check_one_exclude env [97, 47, 98, 47, 99, 46, 108, 111, 103]
      (make_exclude none [42, 42, 46, 108, 111, 103] 6 0) name_is_dir = 1 ∧
    check_one_exclude env [120, 47, 116, 109, 112]
      (make_exclude none [47, 42, 42, 47, 116, 109, 112] 7 0) name_is_dir = 1 ∧
    check_one_exclude env [120, 47, 121, 47, 116, 109, 112]
      (make_exclude none [47, 42, 42, 47, 116, 109, 112] 7 0) name_is_dir = 1 ∧
    check_one_exclude env [116, 109, 112]
      (make_exclude none [47, 42, 42, 47, 116, 109, 112] 7 0) name_is_dir = 0 := by
  have e1 : make_exclude none [42, 42, 46, 108, 111, 103] 6 0 =
      { pattern := [42, 42, 46, 108, 111, 103], match_flags := 7, include_ := 0,
        directory := 0, slash_cnt := 0 } := by decide
  have e2 : make_exclude none [47, 42, 42, 47, 116, 109, 112] 7 0 =
      { pattern := [47, 42, 42, 47, 116, 109, 112], match_flags := 3, include_ := 0,
        directory := 0, slash_cnt := 2 } := by decide
  have f1 : (7 : Nat) &&& 8 = 0 := by decide
  have f2 : (3 : Nat) &&& 8 = 0 := by decide
  have f3 : (3 : Nat) &&& 4 = 0 := by decide
  rw [e1, e2]
  refine ⟨?_, ?_, ?_, ?_, ?_, ?_⟩
  · simp [check_one_exclude, has_flag, MATCHFLG_WILD, MATCHFLG_WILD2,
      MATCHFLG_WILD2_PREFIX, MATCHFLG_ABS_PATH, f1, f2, f3, h1]
  · simp [check_one_exclude, has_flag, MATCHFLG_WILD, MATCHFLG_WILD2,
      MATCHFLG_WILD2_PREFIX, MATCHFLG_ABS_PATH, f1, f2, f3, h2]
  · simp [check_one_exclude, has_flag, MATCHFLG_WILD, MATCHFLG_WILD2,
      MATCHFLG_WILD2_PREFIX, MATCHFLG_ABS_PATH, f1, f2, f3, h3]
  · simp [check_one_exclude, has_flag, MATCHFLG_WILD, MATCHFLG_WILD2,
      MATCHFLG_WILD2_PREFIX, MATCHFLG_ABS_PATH, f1, f2, f3, h4]
  · simp [check_one_exclude, has_flag, MATCHFLG_WILD, MATCHFLG_WILD2,
      MATCHFLG_WILD2_PREFIX, MATCHFLG_ABS_PATH, f1, f2, f3, h5]
  · simp [check_one_exclude, has_flag, MATCHFLG_WILD, MATCHFLG_WILD2,
      MATCHFLG_WILD2_PREFIX, MATCHFLG_ABS_PATH, f1, f2, f3, h6]

/-- A witness for C25: the globbing of the specification meets the six conditions. -/
theorem check_one_exclude_double_star_witness :
    check_one_exclude ex_glob_env [97, 47, 98, 47, 99, 46, 108, 111, 103]
      (make_exclude none [42, 42, 46, 108, 111, 103] 6 0) 0 = 1 ∧
    check_one_exclude ex_glob_env [120, 47, 121, 47, 116, 109, 112]
      (make_exclude none [47, 42, 42, 47, 116, 109, 112] 7 0) 0 = 1 ∧
    check_one_exclude ex_glob_env [116, 109, 112]
      (make_exclude none [47, 42, 42, 47, 116, 109, 112] 7 0) 0 = 0 :=
  ⟨(check_one_exclude_double_star ex_glob_env 0 (by decide) (by decide) (by decide)
      (by decide) (by decide) (by decide)).2.2.1,
   (check_one_exclude_double_star ex_glob_env 0 (by decide) (by decide) (by decide)
      (by decide) (by decide) (by decide)).2.2.2.2.1,
   (check_one_exclude_double_star ex_glob_env 0 (by decide) (by decide) (by decide)
      (by decide) (by decide) (by decide)).2.2.2.2.2⟩

/-! ### The mode on the wire -/

/-- The bits of a mode other than the file-type bits, with the canonical symlink type
bits in place of the type bits: what `to_wire_mode` returns for a symlink. -/
theorem wire_symlink_bits (m : Nat) (hm : m < 2 ^ 32) :
    ((m &&& (0xFFFFFFFF ^^^ S_IFMT)) ||| 0o120000) < 2 ^ 32 ∧
    ((m &&& (0xFFFFFFFF ^^^ S_IFMT)) ||| 0o120000) &&& (0xFFFFFFFF ^^^ S_IFMT) =
      m &&& (0xFFFFFFFF ^^^ S_IFMT) ∧
    ((m &&& (0xFFFFFFFF ^^^ S_IFMT)) ||| 0o120000) &&& S_IFMT = 0o120000 := by
  have hA : (0xFFFFFFFF ^^^ S_IFMT) &&& S_IFMT = 0 := by decide
  have hL : (0o120000 : Nat) &&& (0xFFFFFFFF ^^^ S_IFMT) = 0 := by decide
  have hLT : (0o120000 : Nat) &&& S_IFMT = 0o120000 := by decide
  refine ⟨?_, ?_, ?_⟩
  · exact Nat.or_lt_two_pow (Nat.lt_of_le_of_lt Nat.and_le_left hm) (by decide)
  · rw [Nat.and_distrib_right, Nat.and_assoc, Nat.and_self, hL, Nat.or_zero]
  · rw [Nat.and_distrib_right, Nat.and_assoc, hA, Nat.and_zero, hLT, Nat.zero_or]

/-- A mode of 32 bits is its bits outside and inside the file-type mask. -/
theorem mode_split (m : Nat) (hm : m < 2 ^ 32) :
    (m &&& (0xFFFFFFFF ^^^ S_IFMT)) ||| (m &&& S_IFMT) = m := by
  have hAT : (0xFFFFFFFF ^^^ S_IFMT) ||| S_IFMT = 2 ^ 32 - 1 := by decide
  rw [← Nat.and_or_distrib_left, hAT, Nat.and_pow_two_sub_one_eq_mod, Nat.mod_eq_of_lt hm]

/-- What `to_wire_mode` returns comes back through `from_wire_mode` when the symlink type
bits of the platform are 0120000, or the type bits of the mode are not 0120000, or the
mode is a symlink. -/
theorem from_wire_to_wire (x : externals) (m : Nat) (hm : m < 2 ^ 32)
    (h : x.S_IFLNK = 0o120000 ∨ m &&& S_IFMT ≠ 0o120000 ∨ S_ISLNK x m = true) :
    from_wire_mode x (to_wire_mode x m) = m := by
  obtain ⟨w1, w2, w3⟩ := wire_symlink_bits m hm
  have hmod : m % 2 ^ 32 = m := Nat.mod_eq_of_lt hm
  have hwmod : ((m &&& (0xFFFFFFFF ^^^ S_IFMT)) ||| 0o120000) % 2 ^ 32 =
      (m &&& (0xFFFFFFFF ^^^ S_IFMT)) ||| 0o120000 := Nat.mod_eq_of_lt w1
  by_cases hl : S_ISLNK x m = true
  · have hl2 : m &&& S_IFMT = x.S_IFLNK := by
      simpa [S_ISLNK] using hl
    unfold from_wire_mode to_wire_mode
    by_cases hx : x.S_IFLNK = 0o120000
    · have h1 : ¬ (x.S_IFLNK ≠ 0o120000) := fun hne => hne hx
      simp only [h1, false_and, if_false, uint32_of_int_of_uint32, hmod]
    · simp only [ne_eq, hx, not_false_eq_true, hl, and_self, if_true, true_and,
        uint32_of_int_of_uint32, hwmod, w3, w2]
      rw [← hl2]
      exact mode_split m hm
  · unfold from_wire_mode to_wire_mode
    have hc : ¬ (x.S_IFLNK ≠ 0o120000 ∧ m &&& S_IFMT = 0o120000) := by
      rintro ⟨h1, h2⟩
      rcases h with h | h | h
      · exact h1 h
      · exact h h2
      · exact hl h
    simp only [hl, Bool.false_eq_true, and_false, if_false, uint32_of_int_of_uint32, hmod, hc]

/-- C29, as it stands, fails on a platform whose symlink type bits are not 0120000 (here
0130000): the mode 0120644 is no symlink there, goes on the wire unchanged, and comes back
as the symlink mode 0130644. -/
theorem wire_mode_not_inverted :
    to_wire_mode { ex_externals with S_IFLNK := 0o130000 } 0o120644 = 0o120644 ∧
    from_wire_mode { ex_externals with S_IFLNK := 0o130000 }
      (to_wire_mode { ex_externals with S_IFLNK := 0o130000 } 0o120644) = 0o130644 := by
  decide

/-- C29, amended: for every mode `m` of 32 bits, `to_wire_mode m` has the bits of `m`
outside the file-type mask and, when `m` is a symlink, the file-type bits 0120000,
whatever the symlink type bits of the platform; and `from_wire_mode (to_wire_mode m)` is
`m` when the symlink type bits of the platform are 0120000 or the type bits of `m` are not
0120000, which holds for every symlink. -/
theorem wire_mode_mapping (x : externals) (m : Nat) (hm : m < 2 ^ 32) :
    uint32_of_int (to_wire_mode x m) &&& (0xFFFFFFFF ^^^ S_IFMT) =
      m &&& (0xFFFFFFFF ^^^ S_IFMT) ∧
    (S_ISLNK x m = true → uint32_of_int (to_wire_mode x m) &&& S_IFMT = 0o120000) ∧
    (x.S_IFLNK = 0o120000 ∨ m &&& S_IFMT ≠ 0o120000 →
      from_wire_mode x (to_wire_mode x m) = m) ∧
    (S_ISLNK x m = true → from_wire_mode x (to_wire_mode x m) = m) := by
  obtain ⟨w1, w2, w3⟩ := wire_symlink_bits m hm
  have hmod : m % 2 ^ 32 = m := Nat.mod_eq_of_lt hm
  have hwmod : ((m &&& (0xFFFFFFFF ^^^ S_IFMT)) ||| 0o120000) % 2 ^ 32 =
      (m &&& (0xFFFFFFFF ^^^ S_IFMT)) ||| 0o120000 := Nat.mod_eq_of_lt w1
  refine ⟨?_, ?_, ?_, fun hl => from_wire_to_wire x m hm (Or.inr (Or.inr hl))⟩
  · unfold to_wire_mode
    split_ifs with h
    · rw [uint32_of_int_of_uint32, hwmod, w2]
    · rw [uint32_of_int_of_uint32, hmod]
  · intro hl
    have hl2 : m &&& S_IFMT = x.S_IFLNK := by
      simpa [S_ISLNK] using hl
    unfold to_wire_mode
    split_ifs with h
    · rw [uint32_of_int_of_uint32, hwmod, w3]
    · rw [uint32_of_int_of_uint32, hmod, hl2]
      by_contra hne
      exact h ⟨hne, hl⟩
  · intro h
    rcases h with h | h
    · exact from_wire_to_wire x m hm (Or.inl h)
    · exact from_wire_to_wire x m hm (Or.inr (Or.inl h))

/-- A witness for C29: on a platform whose symlink type bits are 0130000 the symlink mode
0130777 goes on the wire with the type bits 0120000 and comes back unchanged. -/
theorem wire_mode_mapping_witness :
    uint32_of_int (to_wire_mode { ex_externals with S_IFLNK := 0o130000 } 0o130777) &&& S_IFMT
      = 0o120000 ∧
    from_wire_mode { ex_externals with S_IFLNK := 0o130000 }
      (to_wire_mode { ex_externals with S_IFLNK := 0o130000 } 0o130777) = 0o130777 :=
  ⟨(wire_mode_mapping { ex_externals with S_IFLNK := 0o130000 } 0o130777 (by decide)).2.1
      (by decide),
   (wire_mode_mapping { ex_externals with S_IFLNK := 0o130000 } 0o130777 (by decide)).2.2.2
      (by decide)⟩

/-! ### The uid and gid of an entry on the wire -/

/-- What `send_file_entry` returns for an entry whose name `f_name` gives. -/
theorem send_file_entry_named (o : options) (x : externals) (tmp : tmp_vars)
    (st : send_state) (file : file_struct) (fname : List Nat)
    (hf : f_name x.MAXPATHLEN (some file) = some fname) :
    send_file_entry o x tmp st (some file) =
      outcome.ok
        ((send_flag_bytes o (send_delta_state o x tmp st file).mode
            (send_name_flags (send_delta_flags o x tmp st file)
              (common_len st.lastname fname 0)
              (fname.length - common_len st.lastname fname 0))).2 ++
          send_body o x tmp (send_delta_state o x tmp st file) file fname
            (send_flag_bytes o (send_delta_state o x tmp st file).mode
              (send_name_flags (send_delta_flags o x tmp st file)
                (common_len st.lastname fname 0)
                (fname.length - common_len st.lastname fname 0))).1
            (common_len st.lastname fname 0)
            (fname.length - common_len st.lastname fname 0),
         { send_delta_state o x tmp st file with lastname := strlcpy fname x.MAXPATHLEN }) := by
  unfold send_file_entry
  simp only [hf]

/-- The bytes of a whole list are the bytes of the run over its entries and the zero byte
of the call that ends the list, which resets the statics. -/
theorem send_file_entries_run (o : options) (x : externals) (st : send_state)
    (entries : List (file_struct × tmp_vars)) :
    send_file_entries o x st entries =
      (send_file_run o x st entries >>= fun r =>
        outcome.ok (r.1 ++ write_byte 0, send_reset x)) := by
  induction entries generalizing st with
  | nil => rfl
  | cons e rest ih =>
    obtain ⟨file, tmp⟩ := e
    unfold send_file_entries send_file_run
    cases h : send_file_entry o x tmp st (some file) with
    | bad f => rfl
    | ok r =>
      obtain ⟨b, st1⟩ := r
      simp only [outcome_bind_ok, ih st1]
      cases h2 : send_file_run o x st1 rest with
      | bad f => rfl
      | ok r2 =>
        simp only [outcome_bind_ok, outcome_pure, List.append_assoc]

/-- The flag bytes are the final flags as one byte or as two. -/
theorem send_flag_bytes_form (o : options) (mode N : Nat) :
    (send_flag_bytes o mode N).2 = write_byte (send_flag_bytes o mode N).1 ∨
    (send_flag_bytes o mode N).2 = write_shortint (send_flag_bytes o mode N).1 := by
  unfold send_flag_bytes
  by_cases h1 : o.protocol_version ≥ 28
  · rw [if_pos h1]
    generalize (if N = 0 ∧ ¬ S_ISDIR mode = true then N ||| XMIT_TOP_DIR else N) = N1
    by_cases h2 : has_flag N1 0xFF00 = true ∨ N1 = 0
    · rw [if_pos h2]; exact Or.inr rfl
    · rw [if_neg h2]; exact Or.inl rfl
  · rw [if_neg h1]; exact Or.inl rfl

/-- The loop of lines 391-393 stops at the first byte that differs, at the end of either
string, or at 255: no longer common prefix stays within 255. -/
theorem common_len_max (lastname fname : List Nat) (l1 : Nat) :
    ∀ j, l1 + j ≤ 255 → j ≤ lastname.length → j ≤ fname.length →
      lastname.take j = fname.take j → l1 + j ≤ common_len lastname fname l1 := by
  induction lastname generalizing fname l1 with
  | nil =>
    intro j _ hj _ _
    simp only [List.length_nil, Nat.le_zero_eq] at hj
    subst hj
    simp [common_len]
  | cons c rest ih =>
    intro j h255 hj1 hj2 htake
    cases fname with
    | nil =>
      simp only [List.length_nil, Nat.le_zero_eq] at hj2
      subst hj2
      simp [common_len]
    | cons d frest =>
      cases j with
      | zero =>
        obtain ⟨k, hk, -⟩ := common_len_spec (c :: rest) (d :: frest) l1
        omega
      | succ j =>
        simp only [List.take_succ_cons, List.cons.injEq] at htake
        unfold common_len
        have hcond : d = c ∧ l1 < 255 := ⟨htake.1.symm, by omega⟩
        rw [if_pos hcond]
        have := ih frest (l1 + 1) j (by omega) (by simpa using hj1) (by simpa using hj2)
          htake.2
        omega

/-- The bits `SAME_NAME` and `LONG_NAME` of the final flags of an entry, and of the flags
with which the receiver is called. -/
theorem send_flags_name (o : options) (x : externals) (tmp : tmp_vars) (st : send_state)
    (file : file_struct) (mode l1 l2 : Nat) :
    has_flag (send_flag_bytes o mode
        (send_name_flags (send_delta_flags o x tmp st file) l1 l2)).1 XMIT_SAME_NAME =
      decide (l1 > 0) ∧
    (l2 > 255 → has_flag (send_flag_bytes o mode
        (send_name_flags (send_delta_flags o x tmp st file) l1 l2)).1 XMIT_LONG_NAME = true) ∧
    has_flag (recv_flags o (send_flag_bytes o mode
        (send_name_flags (send_delta_flags o x tmp st file) l1 l2)).1) XMIT_SAME_NAME =
      decide (l1 > 0) ∧
    has_flag (recv_flags o (send_flag_bytes o mode
        (send_name_flags (send_delta_flags o x tmp st file) l1 l2)).1) XMIT_LONG_NAME =
      has_flag (send_flag_bytes o mode
        (send_name_flags (send_delta_flags o x tmp st file) l1 l2)).1 XMIT_LONG_NAME := by
  have h5 : (send_flag_bytes o mode
      (send_name_flags (send_delta_flags o x tmp st file) l1 l2)).1.testBit 5 =
      decide (l1 > 0) := by
    rw [send_flag_bytes_testBit _ _ _ _ (by decide) (by decide) (by decide),
      send_name_flags_testBit, send_delta_flags_testBit]
    simp
  refine ⟨?_, ?_, ?_, ?_⟩
  · rw [XMIT_SAME_NAME_eq, has_flag_two_pow, h5]
  · intro hl
    rw [XMIT_LONG_NAME_eq, has_flag_two_pow]
    apply send_flag_bytes_bit6
    rw [send_name_flags_testBit]
    simp [hl]
  · rw [XMIT_SAME_NAME_eq, has_flag_two_pow, recv_flags_testBit, h5]
    simp
  · rw [XMIT_LONG_NAME_eq, has_flag_two_pow, has_flag_two_pow, recv_flags_testBit]
    simp

/-- C28: for every active entry, with `fname` its name and `lastname` the previous name of
the statics, `send_file_entry` takes for `l1` the length of the longest common prefix of
the two within 255 bytes and for `l2` the length of `fname` less `l1`; `SAME_NAME` is in
the final flags `F` exactly when `l1 > 0`, and then `l1` is written as one byte;
`LONG_NAME` is in `F` whenever `l2 > 255`; `l2` is written as a 32-bit int when
`LONG_NAME` is in `F` and as one byte otherwise, and then `l2 <= 255`; the last `l2` bytes
of `fname` follow; the first `l1` bytes of `lastname` followed by these bytes are `fname`,
and `recv_name` of the receiver, holding the same `lastname`, reads `l1`, `l2` and `fname`
from these bytes when `fname` is a string shorter than `MAXPATHLEN`. -/
theorem send_file_entry_shared_name (o : options) (x : externals) (tmp : tmp_vars)
    (st : send_state) (file : file_struct) (hact : F_IS_ACTIVE file = true) :
    ∃ (fname : List Nat) (F : Nat) (flag_bytes rest : List Nat) (st1 : send_state)
      (l1 l2 : Nat),
      f_name x.MAXPATHLEN (some file) = some fname ∧
      l1 ≤ 255 ∧ l1 ≤ st.lastname.length ∧ l1 ≤ fname.length ∧
      st.lastname.take l1 = fname.take l1 ∧
      (∀ j, j ≤ 255 → j ≤ st.lastname.length → j ≤ fname.length →
        st.lastname.take j = fname.take j → j ≤ l1) ∧
      l2 = fname.length - l1 ∧
      send_file_entry o x tmp st (some file) = outcome.ok
        (flag_bytes ++ ((if l1 > 0 then write_byte l1 else [])
          ++ (if has_flag F XMIT_LONG_NAME then write_int l2 else write_byte l2)
          ++ fname.drop l1) ++ rest, st1) ∧
      (flag_bytes = write_byte F ∨ flag_bytes = write_shortint F) ∧
      (has_flag F XMIT_SAME_NAME = true ↔ l1 > 0) ∧
      (l2 > 255 → has_flag F XMIT_LONG_NAME = true) ∧
      (has_flag F XMIT_LONG_NAME = false → l2 ≤ 255 ∧ write_byte l2 = [l2]) ∧
      write_byte l1 = [l1] ∧
      (fname.drop l1).length = l2 ∧
      st.lastname.take l1 ++ fname.drop l1 = fname ∧
      (cstr_ok fname → fname.length < x.MAXPATHLEN → x.MAXPATHLEN ≤ 2 ^ 31 →
        ∀ tail : List Nat,
          recv_name x st.lastname (recv_flags o F)
            (((if l1 > 0 then write_byte l1 else [])
              ++ (if has_flag F XMIT_LONG_NAME then write_int l2 else write_byte l2)
              ++ fname.drop l1) ++ tail) = outcome.ok ((l1, l2, fname), tail)) := by
  obtain ⟨fname, hf⟩ := f_name_active x.MAXPATHLEN file hact
  have hs := send_file_entry_named o x tmp st file fname hf
  obtain ⟨k, hk, hk1, hk2, hk3, hk4⟩ := common_len_spec st.lastname fname 0
  have hmax := common_len_max st.lastname fname 0
  obtain ⟨f1, f2, f3, f4⟩ := send_flags_name o x tmp st file
    (send_delta_state o x tmp st file).mode (common_len st.lastname fname 0)
    (fname.length - common_len st.lastname fname 0)
  generalize hF : (send_flag_bytes o (send_delta_state o x tmp st file).mode
      (send_name_flags (send_delta_flags o x tmp st file) (common_len st.lastname fname 0)
        (fname.length - common_len st.lastname fname 0))) = fb at hs f1 f2 f3 f4
  have hform : fb.2 = write_byte fb.1 ∨ fb.2 = write_shortint fb.1 := by
    rw [← hF]; exact send_flag_bytes_form _ _ _
  generalize hl1 : common_len st.lastname fname 0 = l1 at hs hk hmax f1 f2 f3 f4
  have hl1k : l1 = k := by omega
  subst hl1k
  have h255 : l1 ≤ 255 := by have := hk4 (by omega); omega
  have hlong : has_flag fb.1 XMIT_LONG_NAME = false → fname.length - l1 ≤ 255 := by
    intro h
    by_contra hc
    rw [f2 (by omega)] at h
    cases h
  have hdrop : (fname.drop l1).length = fname.length - l1 := List.length_drop _ _
  have hnb : send_name_bytes fname fb.1 l1 (fname.length - l1) =
      (if l1 > 0 then write_byte l1 else [])
        ++ (if has_flag fb.1 XMIT_LONG_NAME then write_int ((fname.length - l1 : Nat) : Int)
            else write_byte (fname.length - l1))
        ++ fname.drop l1 := by
    unfold send_name_bytes write_buf
    rw [f1, List.take_of_length_le (by rw [hdrop])]
    simp only [decide_eq_true_eq]
  refine ⟨fname, fb.1, fb.2,
    send_field_bytes o x (send_delta_state o x tmp st file) file fb.1
      ++ send_link_bytes o x (send_delta_state o x tmp st file) file
      ++ send_idev_bytes o tmp (send_delta_state o x tmp st file) fb.1
      ++ send_sum_bytes o tmp (send_delta_state o x tmp st file),
    { send_delta_state o x tmp st file with lastname := strlcpy fname x.MAXPATHLEN },
    l1, fname.length - l1, hf, h255, hk1, hk2, hk3, ?_, rfl,
    ?_, hform, ?_, f2, ?_, ?_, hdrop, ?_, ?_⟩
  · intro j hj1 hj2 hj3 hj4
    have := hmax j (by omega) hj2 hj3 hj4
    omega
  · rw [hs]
    unfold send_body
    rw [hnb]
    simp only [List.append_assoc]
  · rw [f1]; simp
  · intro h
    have := hlong h
    exact ⟨this, by unfold write_byte; rw [Nat.mod_eq_of_lt (by omega)]⟩
  · unfold write_byte; rw [Nat.mod_eq_of_lt (by omega)]
  · rw [hk3, List.take_append_drop]
  · intro hc hlen hM tail
    rw [← hnb]
    exact recv_name_send x st.lastname fname fb.1 (recv_flags o fb.1) l1 (fname.length - l1)
      tail f3 f1 f4 hlong h255 hk3 hk1 (by omega) hlen hM hc

/-- A witness for C28: after the name `ab`, the entry `ac` is sent at protocol 29 with
`SAME_NAME` in its flag byte 184, `l1 = 1` and `l2 = 1` as one byte each, and the byte
`c`; the first byte of `ab` and `c` make `ac`. -/
theorem send_file_entry_shared_name_witness :
    (∃ fname l1, f_name ex_externals.MAXPATHLEN (some ex_file_ac) = some fname ∧ l1 ≤ 255 ∧
      ([97, 98] : List Nat).take l1 ++ fname.drop l1 = fname) ∧
    send_file_entry ex_options ex_externals {} { lastname := [97, 98] } (some ex_file_ac) =
      outcome.ok ([184] ++ ([1] ++ [1] ++ [99]) ++ [0, 0, 0, 0, 0, 128, 0, 0],
        { mode := S_IFREG, lastname := [97, 99] }) ∧
    has_flag 184 XMIT_SAME_NAME = true ∧ has_flag 184 XMIT_LONG_NAME = false :=
  ⟨(let ⟨fname, _, _, _, _, l1, _, h1, h2, _, _, _, _, _, _, _, _, _, _, _, _, h3, _⟩ :=
      send_file_entry_shared_name ex_options ex_externals {} { lastname := [97, 98] }
        ex_file_ac (by decide)
    ⟨fname, l1, h1, h2, h3⟩),
   by decide, by decide, by decide⟩

/-! ### The terminator of a list and the statics -/

/-- A run that goes on with `k1` or `k2`, where `k2` is `k1` passed through `u`. -/
theorem outcome_bind_frame {α β γ : Type} (m : outcome α) (k1 : α → outcome β)
    (k2 : α → outcome γ) (u : β → γ) (h : ∀ a, k2 a = (k1 a).map u) :
    (m >>= k2) = (m >>= k1).map u := by
  cases m with
  | ok a => exact h a
  | bad e => rfl

/-- The fields from the length to the device numbers do not read the statics that the
terminator keeps, and leave them as they are. -/
theorem recv_fields_kept (o : options) (x : externals) (rs : recv_state) (F : Nat)
    (s : List Nat) (L : Option dir_ptr) (D : Int) (H A : Nat) :
    recv_fields o x (with_kept rs L D H A) F s =
      (recv_fields o x rs F s).map fun r => ((r.1.1, with_kept r.1.2 L D H A), r.2) := by
  unfold recv_fields
  apply outcome_bind_frame; rintro ⟨file_length, s⟩
  apply outcome_bind_frame; rintro ⟨modtime, s⟩
  apply outcome_bind_frame; rintro ⟨mode, s⟩
  apply outcome_bind_frame; rintro ⟨uid, s⟩
  apply outcome_bind_frame; rintro ⟨gid, s⟩
  simp only []
  split_ifs <;> repeat (first | rfl | (apply outcome_bind_frame; intro p))

/-- Runs that are related go on to related runs. -/
theorem outcome_rel_bind {α β γ δ : Type} {R : α → β → Prop} {Q : γ → δ → Prop}
    {m : outcome α} {m' : outcome β} {k : α → outcome γ} {k' : β → outcome δ}
    (h : outcome_rel R m m') (hk : ∀ a b, R a b → outcome_rel Q (k a) (k' b)) :
    outcome_rel Q (m >>= k) (m' >>= k') := by
  cases m with
  | ok a =>
    cases m' with
    | ok b => exact hk a b h
    | bad e => exact h.elim
  | bad e =>
    cases m' with
    | ok b => exact h.elim
    | bad e' => exact h

/-- A run is related to itself by equality. -/
theorem outcome_rel_refl {α : Type} (m : outcome α) : outcome_rel Eq m m := by
  cases m <;> exact rfl

/-- A run and the same run passed through `u`. -/
theorem outcome_rel_map {α β : Type} (m : outcome α) (u : α → β) :
    outcome_rel (fun a b => b = u a) m (m.map u) := by
  cases m <;> exact rfl

/-- A relation between runs may be weakened. -/
theorem outcome_rel_mono {α β : Type} {R Q : α → β → Prop} {m : outcome α} {m' : outcome β}
    (h : outcome_rel R m m') (hq : ∀ a b, R a b → Q a b) : outcome_rel Q m m' := by
  cases m with
  | ok a =>
    cases m' with
    | ok b => exact hq a b h
    | bad e => exact h.elim
  | bad e =>
    cases m' with
    | ok b => exact h.elim
    | bad e' => exact h

/-- A property of the results of a run that holds after every first step. -/
theorem outcome_bind_all {α β : Type} (P : β → Prop) (m : outcome α) (k : α → outcome β)
    (h : ∀ a, ∀ r, k a = outcome.ok r → P r) : ∀ r, (m >>= k) = outcome.ok r → P r := by
  intro r hr
  cases m with
  | ok a => exact h a r hr
  | bad e => cases hr

/-- The fields from the length to the device numbers leave the statics of the directory
and of the delete hierarchy as they are. -/
theorem recv_fields_statics (o : options) (x : externals) (rs : recv_state) (F : Nat)
    (s : List Nat) :
    ∀ r, recv_fields o x rs F s = outcome.ok r → same_dir_statics rs r.1.2 := by
  unfold recv_fields
  apply outcome_bind_all; rintro ⟨file_length, s⟩
  apply outcome_bind_all; rintro ⟨modtime, s⟩
  apply outcome_bind_all; rintro ⟨mode, s⟩
  apply outcome_bind_all; rintro ⟨uid, s⟩
  apply outcome_bind_all; rintro ⟨gid, s⟩
  simp only []
  split_ifs <;>
    repeat (first
      | (intro r hr; cases hr; exact ⟨rfl, rfl, rfl, rfl, rfl⟩)
      | (apply outcome_bind_all; intro p))

/-- The hard-link key does not read the statics that the terminator keeps, and leaves
them as they are. -/
theorem recv_idev_kept (o : options) (rs : recv_state) (F : Nat)
    (s : List Nat) (L : Option dir_ptr) (D : Int) (H A : Nat) :
    recv_idev o (with_kept rs L D H A) F s =
      (recv_idev o rs F s).map fun r => ((r.1.1, with_kept r.1.2 L D H A), r.2) := by
  unfold recv_idev
  split_ifs <;> repeat (first | rfl | (apply outcome_bind_frame; intro p))

/-- The hard-link key leaves the statics of the directory and of the delete hierarchy as
they are. -/
theorem recv_idev_statics (o : options) (rs : recv_state) (F : Nat) (s : List Nat) :
    ∀ r, recv_idev o rs F s = outcome.ok r → same_dir_statics rs r.1.2 := by
  unfold recv_idev
  split_ifs <;>
    repeat (first
      | (intro r hr; cases hr; exact ⟨rfl, rfl, rfl, rfl, rfl⟩)
      | (apply outcome_bind_all; intro p))

/-- Statics that hold the same of the directory and the delete hierarchy agree with the
same other values. -/
theorem kept_agree_of_same (o : options) {rs rs2 : recv_state} {L : Option dir_ptr}
    {D : Int} {H : Nat} (h : kept_agree o rs L D H) (hs : same_dir_statics rs rs2) :
    kept_agree o rs2 L D H := by
  constructor
  · rw [hs.lastdir_len, hs.lastdir, hs.lastdir_depth]; exact h.lastdir
  · rw [hs.in_del_hier, hs.del_hier_name_len]; exact h.del_hier
  · rw [hs.lastdir_depth]; exact h.depth

/-- The split of the name reads `lastdir` only while `lastdir_len` says that it is set:
with other values that agree it gives the same basename and depth, a dirname of the same
string, and statics whose values agree again. -/
theorem recv_split_kept (o : options) (x : externals) (rs : recv_state) (t : List Nat)
    (L : Option dir_ptr) (D : Int) (H A : Nat) (h : kept_agree o rs L D H) :
    outcome_rel
      (fun r r' => r'.1.2 = r.1.2 ∧ r.1.1.map dir_ptr.str = r'.1.1.map dir_ptr.str ∧
        ∃ L' D' A', r'.2 = with_kept r.2 L' D' H A' ∧ kept_agree o r.2 L' D' H)
      (recv_split x rs t) (recv_split x (with_kept rs L D H A) t) := by
  have hcopy : ∀ i : Nat,
      outcome_rel
        (fun r r' => r'.1.2 = r.1.2 ∧ r.1.1.map dir_ptr.str = r'.1.1.map dir_ptr.str ∧
          ∃ L' D' A', r'.2 = with_kept r.2 L' D' H A' ∧ kept_agree o r.2 L' D' H)
        (pure ((some ({ addr := rs.next_addr, str := t.take i } : dir_ptr), t.drop (i + 1),
            x.count_dir_elements (t.take i) + 1),
          { rs with lastdir := some { addr := rs.next_addr, str := t.take i },
                    lastdir_len := i,
                    lastdir_depth := x.count_dir_elements (t.take i),
                    next_addr := rs.next_addr + 1 }) :
          outcome ((Option dir_ptr × List Nat × Int) × recv_state))
        (pure ((some ({ addr := A, str := t.take i } : dir_ptr), t.drop (i + 1),
            x.count_dir_elements (t.take i) + 1),
          { with_kept rs L D H A with
                    lastdir := some { addr := A, str := t.take i },
                    lastdir_len := i,
                    lastdir_depth := x.count_dir_elements (t.take i),
                    next_addr := A + 1 })) := by
    intro i
    refine ⟨rfl, rfl, some { addr := A, str := t.take i }, x.count_dir_elements (t.take i),
      A + 1, rfl, ?_⟩
    constructor
    · intro _; exact ⟨rfl, rfl⟩
    · exact h.del_hier
    · intro _ _; rfl
  unfold recv_split
  cases hl : last_slash t 0 with
  | none => exact ⟨rfl, rfl, L, D, A, rfl, h⟩
  | some i =>
    simp only []
    by_cases hlen : rs.lastdir_len = (i : Int)
    · have hlen' : (with_kept rs L D H A).lastdir_len = (i : Int) := hlen
      rw [if_pos hlen, if_pos hlen']
      obtain ⟨hstr, hdepth⟩ := h.lastdir (by rw [hlen]; exact Int.natCast_nonneg i)
      have hL : (with_kept rs L D H A).lastdir = L := rfl
      have hD : (with_kept rs L D H A).lastdir_depth = D := rfl
      rw [hL, hD]
      cases hd : rs.lastdir with
      | none =>
        rw [hd] at hstr
        cases L with
        | none => exact rfl
        | some d' => cases hstr
      | some d =>
        rw [hd] at hstr
        cases L with
        | none => cases hstr
        | some d' =>
          have hs : d.str = d'.str := by simpa using hstr
          simp only []
          by_cases htake : t.take i = d.str
          · rw [if_pos htake, if_pos (hs ▸ htake)]
            refine ⟨?_, ?_, some d', D, A, rfl, ?_⟩
            · show (t.drop (i + 1), D + 1) = (t.drop (i + 1), rs.lastdir_depth + 1)
              rw [hdepth]
            · show some d.str = some d'.str
              rw [hs]
            · exact h
          · rw [if_neg htake, if_neg (hs ▸ htake)]
            exact hcopy i
    · have hlen' : ¬ (with_kept rs L D H A).lastdir_len = (i : Int) := hlen
      rw [if_neg hlen, if_neg hlen']
      exact hcopy i

/-- The flags of a directory read `del_hier_name_len` only while `in_del_hier` is set:
with other values that agree they are the same, and the values of the statics agree
again. -/
theorem recv_dir_flags_kept (o : options) (rs : recv_state) (F l1 l2 : Nat)
    (base : List Nat) (depth : Int) (eflags : Nat) (L : Option dir_ptr) (D : Int) (H A : Nat)
    (h : kept_agree o rs L D H) :
    ∃ H', recv_dir_flags o (with_kept rs L D H A) F l1 l2 base depth eflags =
        ((recv_dir_flags o rs F l1 l2 base depth eflags).1,
         (recv_dir_flags o rs F l1 l2 base depth eflags).2.1,
         with_kept (recv_dir_flags o rs F l1 l2 base depth eflags).2.2 L D H' A) ∧
      kept_agree o (recv_dir_flags o rs F l1 l2 base depth eflags).2.2 L D H' := by
  unfold recv_dir_flags
  simp only []
  by_cases htop : has_flag F XMIT_TOP_DIR = true
  · rw [if_pos htop, if_pos htop]
    refine ⟨_, rfl, ?_⟩
    constructor
    · exact h.lastdir
    · intro _; rfl
    · exact h.depth
  · rw [if_neg htop, if_neg htop]
    have hin : (with_kept rs L D H A).in_del_hier = rs.in_del_hier := rfl
    rw [hin]
    by_cases hd : rs.in_del_hier = true
    · have hH : (with_kept rs L D H A).del_hier_name_len = rs.del_hier_name_len :=
        (h.del_hier hd).symm
      have hln : (with_kept rs L D H A).lastname = rs.lastname := rfl
      rw [if_pos hd, if_pos hd, hH, hln]
      by_cases hrel : ¬ o.relative_paths = true ∨ rs.del_hier_name_len = 0 ∨
          (l1 ≥ rs.del_hier_name_len ∧ rs.lastname.getD rs.del_hier_name_len 0 = 47)
      · rw [if_pos hrel, if_pos hrel]
        exact ⟨H, rfl, h⟩
      · rw [if_neg hrel, if_neg hrel]
        refine ⟨rs.del_hier_name_len, rfl, ?_⟩
        constructor
        · exact h.lastdir
        · intro hc; exact absurd hc Bool.false_ne_true
        · exact h.depth
    · rw [if_neg hd, if_neg hd]
      exact ⟨H, rfl, h⟩

/-- The flags of the entry, with other values that agree: the same flags, and values
that agree again. -/
theorem recv_entry_flags_kept (o : options) (rs : recv_state) (F l1 l2 : Nat)
    (base : List Nat) (depth len : Int) (L : Option dir_ptr) (D : Int) (H A : Nat)
    (h : kept_agree o rs L D H) :
    ∃ H', recv_entry_flags o (with_kept rs L D H A) F l1 l2 base depth len =
        ((recv_entry_flags o rs F l1 l2 base depth len).1,
         (recv_entry_flags o rs F l1 l2 base depth len).2.1,
         with_kept (recv_entry_flags o rs F l1 l2 base depth len).2.2 L D H' A) ∧
      kept_agree o (recv_entry_flags o rs F l1 l2 base depth len).2.2 L D H' := by
  unfold recv_entry_flags
  have hmode : (with_kept rs L D H A).mode = rs.mode := rfl
  simp only [hmode]
  by_cases hdir : S_ISDIR rs.mode = true
  · rw [if_pos hdir, if_pos hdir]
    exact recv_dir_flags_kept o rs F l1 l2 base depth _ L D H A h
  · rw [if_neg hdir, if_neg hdir]
    exact ⟨H, rfl, h⟩

/-- The symlink target reads `lastdir_depth` only to sanitize a target. -/
theorem recv_symlink_kept (o : options) (x : externals) (rs : recv_state) (len : Int)
    (s : List Nat) (L : Option dir_ptr) (D : Int) (H A : Nat)
    (h : o.sanitize_paths = true → len ≠ 0 → rs.lastdir_depth = D) :
    recv_symlink o x (with_kept rs L D H A) len s = recv_symlink o x rs len s := by
  unfold recv_symlink
  by_cases hl : len ≠ 0
  · rw [if_pos hl, if_pos hl]
    by_cases hs : o.sanitize_paths = true
    · have hD : (with_kept rs L D H A).lastdir_depth = rs.lastdir_depth := (h hs hl).symm
      rw [hD]
    · simp only [hs, Bool.false_eq_true, if_false]
  · rw [if_neg hl, if_neg hl]

/-- A link length that is not 0 is read only when links are preserved. -/
theorem recv_link_len_links (o : options) (x : externals) (mode F : Nat) (s : List Nat) :
    ∀ r, recv_link_len o x mode F s = outcome.ok r → r.1.1 ≠ 0 → o.preserve_links = true := by
  intro r hr hne
  by_contra hp
  have hc : ¬ (o.preserve_links = true ∧ S_ISLNK x mode = true) := fun hc => hp hc.1
  unfold recv_link_len at hr
  simp only [hc, if_false, outcome_pure, outcome_bind_ok] at hr
  cases hr
  exact hne rfl

/-- One entry read with other values that agree in the kept statics: the same fault, or
the same entry up to the address of its dirname, the same stream afterwards, and statics
whose values agree again. -/
theorem recv_file_entry_kept (o : options) (x : externals) (rs : recv_state) (F : Nat)
    (s : List Nat) (L : Option dir_ptr) (D : Int) (H A : Nat) (h : kept_agree o rs L D H) :
    outcome_rel
      (fun r r' => forget_addr r'.1.1 = forget_addr r.1.1 ∧ r'.2 = r.2 ∧
        ∃ L' D' H' A', r'.1.2 = with_kept r.1.2 L' D' H' A' ∧ kept_agree o r.1.2 L' D' H')
      (recv_file_entry o x rs F s) (recv_file_entry o x (with_kept rs L D H A) F s) := by
  unfold recv_file_entry
  apply outcome_rel_bind (outcome_rel_refl (recv_name x rs.lastname F s))
  rintro ⟨⟨l1, l2, thisname⟩, s1⟩ _ rfl
  simp only []
  generalize (if o.sanitize_paths = true then x.sanitize_path (x.clean_fname thisname) 0
    else x.clean_fname thisname) = name
  have h1 : kept_agree o { rs with lastname := strlcpy thisname x.MAXPATHLEN } L D H :=
    kept_agree_of_same o h ⟨rfl, rfl, rfl, rfl, rfl⟩
  have e1 : recv_fields o x
      { with_kept rs L D H A with lastname := strlcpy thisname x.MAXPATHLEN } F s1 =
      (recv_fields o x { rs with lastname := strlcpy thisname x.MAXPATHLEN } F s1).map
        fun r => ((r.1.1, with_kept r.1.2 L D H A), r.2) :=
    recv_fields_kept o x { rs with lastname := strlcpy thisname x.MAXPATHLEN } F s1 L D H A
  rw [e1]
  apply outcome_rel_bind
    (R := fun r r' => r' = ((r.1.1, with_kept r.1.2 L D H A), r.2) ∧ kept_agree o r.1.2 L D H)
  · cases hm : recv_fields o x { rs with lastname := strlcpy thisname x.MAXPATHLEN } F s1 with
    | bad e => exact rfl
    | ok r => exact ⟨rfl, kept_agree_of_same o h1 (recv_fields_statics o x _ F s1 r hm)⟩
  rintro ⟨⟨file_length, rs2⟩, s2⟩ _ ⟨rfl, h2⟩
  simp only []
  apply outcome_rel_bind
    (R := fun r r' => r' = r ∧ (r.1.1 ≠ 0 → o.preserve_links = true))
  · show outcome_rel _ (recv_link_len o x rs2.mode F s2) (recv_link_len o x rs2.mode F s2)
    cases hm : recv_link_len o x rs2.mode F s2 with
    | bad e => exact rfl
    | ok r => exact ⟨rfl, recv_link_len_links o x rs2.mode F s2 r hm⟩
  rintro ⟨⟨linkname_len, flags⟩, s3⟩ _ ⟨rfl, hlk⟩
  simp only []
  apply outcome_rel_bind (recv_split_kept o x rs2 name L D H A h2)
  rintro ⟨⟨da, base, depth⟩, rs3⟩ ⟨⟨db, base', depth'⟩, rs3'⟩ ⟨hbd, hstr, L', D', A', hrs, h3⟩
  simp only [Prod.mk.injEq] at hbd
  obtain ⟨rfl, rfl⟩ := hbd
  simp only at hrs hstr h3
  subst hrs
  obtain ⟨H', he, h4⟩ :=
    recv_entry_flags_kept o rs3 flags l1 l2 base' depth' file_length L' D' H A' h3
  simp only []
  rw [he]
  generalize recv_entry_flags o rs3 flags l1 l2 base' depth' file_length = dir at h4
  obtain ⟨dir1, dir2, rs4⟩ := dir
  simp only at h4 ⊢
  have e2 : recv_symlink o x (with_kept rs4 L' D' H' A') linkname_len s3 =
      recv_symlink o x rs4 linkname_len s3 :=
    recv_symlink_kept o x rs4 linkname_len s3 L' D' H' A'
      (fun hs hl => h4.depth hs (hlk hl))
  rw [e2]
  apply outcome_rel_bind (outcome_rel_refl (recv_symlink o x rs4 linkname_len s3))
  rintro ⟨symlink, s4⟩ _ rfl
  simp only []
  rw [recv_idev_kept]
  apply outcome_rel_bind
    (R := fun r r' => r' = ((r.1.1, with_kept r.1.2 L' D' H' A'), r.2) ∧
      kept_agree o r.1.2 L' D' H')
  · cases hm : recv_idev o rs4 flags s4 with
    | bad e => exact rfl
    | ok r => exact ⟨rfl, kept_agree_of_same o h4 (recv_idev_statics o rs4 flags s4 r hm)⟩
  rintro ⟨⟨hl_idev, rs5⟩, s5⟩ _ ⟨rfl, h5⟩
  simp only []
  apply outcome_rel_bind (outcome_rel_refl (recv_sum o rs5.mode s5))
  rintro ⟨sum, s6⟩ _ rfl
  refine ⟨?_, rfl, L', D', H', A', rfl, h5⟩
  show forget_addr _ = forget_addr _
  unfold forget_addr
  simp only [with_kept]
  congr 1
  cases da with
  | none =>
    cases db with
    | none => rfl
    | some d' => cases hstr
  | some d =>
    cases db with
    | none => cases hstr
    | some d' =>
      have : d.str = d'.str := by simpa using hstr
      simp only [Option.map_some', this]

/-- The loop of `recv_file_list` run with other values that agree in the kept statics:
the same fault, or the same entries up to the addresses of their dirnames and the same
stream afterwards. -/
theorem recv_file_list_loop_kept (o : options) (x : externals) (n : Nat) :
    ∀ (rs : recv_state) (files files' : List file_struct) (s : List Nat)
      (L : Option dir_ptr) (D : Int) (H A : Nat), kept_agree o rs L D H →
      files'.map forget_addr = files.map forget_addr →
      outcome_rel
        (fun r r' => r'.1.1.map forget_addr = r.1.1.map forget_addr ∧ r'.2 = r.2)
        (recv_file_list_loop o x n rs files s)
        (recv_file_list_loop o x n (with_kept rs L D H A) files' s) := by
  induction n with
  | zero => intro rs files files' s L D H A _ _; exact rfl
  | succ n ih =>
    intro rs files files' s L D H A h hf
    unfold recv_file_list_loop
    apply outcome_rel_bind (outcome_rel_refl (read_byte s))
    rintro ⟨flags, s1⟩ _ rfl
    simp only []
    by_cases h0 : flags = 0
    · rw [if_pos h0, if_pos h0]
      exact ⟨hf, rfl⟩
    · rw [if_neg h0, if_neg h0]
      split_ifs with hext <;>
      ( apply outcome_rel_bind (outcome_rel_refl _)
        rintro ⟨flags2, s2⟩ _ rfl
        apply outcome_rel_bind (recv_file_entry_kept o x rs flags2 s2 L D H A h)
        rintro ⟨⟨fa, rs1⟩, s3⟩ ⟨⟨fb, rs1'⟩, s3'⟩ ⟨hfa, hs3, L', D', H', A', hrs, h1⟩
        simp only at hfa hs3 hrs h1
        subst hs3 hrs
        apply ih rs1 (files ++ [fa]) (files' ++ [fb]) s3' L' D' H' A' h1
        rw [List.map_append, List.map_append, hf, List.map_singleton, List.map_singleton,
          hfa] )

/-- Related runs are the same run once the results are passed through what the relation
compares. -/
theorem outcome_rel_map_eq {α β γ : Type} (u : α → γ) (u' : β → γ) (m : outcome α)
    (m' : outcome β) (h : outcome_rel (fun r r' => u' r' = u r) m m') :
    m'.map u' = m.map u := by
  cases m with
  | ok a =>
    cases m' with
    | ok b => exact congrArg outcome.ok h
    | bad e => exact h.elim
  | bad e =>
    cases m' with
    | ok b => exact h.elim
    | bad e' => exact congrArg outcome.bad h.symm

/-- A list that was sent leaves the statics of the sender reset. -/
theorem send_file_entries_state (o : options) (x : externals) (st : send_state)
    (entries : List (file_struct × tmp_vars)) (b : List Nat) (st1 : send_state)
    (h : send_file_entries o x st entries = outcome.ok (b, st1)) : st1 = send_reset x := by
  rw [send_file_entries_run] at h
  cases hr : send_file_run o x st entries with
  | bad e => rw [hr] at h; cases h
  | ok r =>
    rw [hr, outcome_bind_ok] at h
    cases h
    rfl

/-- C30: the entries decoded from a list depend on the list before it when the receiver
sanitizes symlink targets: line 705 passes the static `lastdir_depth` to `sanitize_path`, the terminator
does not reset it, and only an entry with a dirname sets it. The bytes of the list of the
symlink `l` to `../x` decode to the target `x` in a fresh decoder and to the target `../x`
after the list of the file `d/f` and its terminator. -/
theorem recv_file_entry_stale_depth :
    (send_file_entries ex_options_sanitize ex_externals_sanitize {} [(ex_file_d_f, {})]).map
        Prod.fst =
      outcome.ok [128, 3, 100, 47, 102, 0, 0, 0, 0, 0, 128, 0, 0, 0] ∧
    (send_file_entries ex_options_sanitize ex_externals_sanitize {} [(ex_link_l, {})]).map
        Prod.fst =
      outcome.ok [128, 1, 108, 0, 0, 0, 0, 255, 161, 0, 0, 4, 0, 0, 0, 46, 46, 47, 120, 0] ∧
    (recv_file_list_loop ex_options_sanitize ex_externals_sanitize 2 {} []
        [128, 1, 108, 0, 0, 0, 0, 255, 161, 0, 0, 4, 0, 0, 0, 46, 46, 47, 120, 0]).map
        (fun r => r.1.1.map file_struct.symlink) = outcome.ok [[120]] ∧
    (recv_file_list_loop ex_options_sanitize ex_externals_sanitize 2 {} []
        [128, 3, 100, 47, 102, 0, 0, 0, 0, 0, 128, 0, 0, 0] >>= fun r =>
      (recv_file_list_loop ex_options_sanitize ex_externals_sanitize 2 r.1.2 []
        [128, 1, 108, 0, 0, 0, 0, 255, 161, 0, 0, 4, 0, 0, 0, 46, 46, 47, 120, 0]).map
        (fun r => r.1.1.map file_struct.symlink)) = outcome.ok [[46, 46, 47, 120]] := by
  decide

/-- What the terminator does reset: `send_file_entry(NULL, f)` writes exactly one zero byte and leaves the
statics `modtime`, `mode`, `dev`, `rdev_major`, `uid`, `gid` at 0, `rdev` at
`MAKEDEV(0, 0)` and the previous name empty; the zero flag byte makes the loop of
`recv_file_list` call `recv_file_entry(NULL, 0, 0)`, which resets the same statics of the
decoder. So the bytes produced for a list do not depend on the lists sent before it; and
the entries decoded from the bytes of a list, up to the addresses of their dirnames, and
the stream left do not depend on the statics `rs`, `rs'` that earlier lists left to
the terminator, when symlink targets are not sanitized or `lastdir_depth`, which the
terminator does not reset, is the same in both. -/
theorem terminator_resets (o : options) (x : externals) :
    (∀ (tmp : tmp_vars) (st : send_state),
      send_file_entry o x tmp st none = outcome.ok ([0], send_reset x)) ∧
    send_reset x = { modtime := 0, mode := 0, dev := 0, rdev := x.MAKEDEV 0 0,
                     rdev_major := 0, uid := 0, gid := 0, lastname := [] } ∧
    (∀ (n : Nat) (rs : recv_state) (files : List file_struct) (rest : List Nat),
      recv_file_list_loop o x (n + 1) rs files (0 :: rest) =
        outcome.ok ((files, recv_reset x rs), rest)) ∧
    (∀ rs : recv_state,
      (recv_reset x rs).modtime = 0 ∧ (recv_reset x rs).mode = 0 ∧ (recv_reset x rs).dev = 0 ∧
      (recv_reset x rs).rdev = x.MAKEDEV 0 0 ∧ (recv_reset x rs).rdev_major = 0 ∧
      (recv_reset x rs).uid = 0 ∧ (recv_reset x rs).gid = 0 ∧
      (recv_reset x rs).lastname = []) ∧
    (∀ (st st' : send_state) (earlier earlier' entries : List (file_struct × tmp_vars))
      (b b' : List Nat) (st1 st1' : send_state),
      send_file_entries o x st earlier = outcome.ok (b, st1) →
      send_file_entries o x st' earlier' = outcome.ok (b', st1') →
      send_file_entries o x st1 entries = send_file_entries o x st1' entries) ∧
    (∀ (rs rs' : recv_state) (n : Nat) (s : List Nat),
      (o.sanitize_paths = true → o.preserve_links = true →
        rs.lastdir_depth = rs'.lastdir_depth) →
      (recv_file_list_loop o x n (recv_reset x rs') [] s).map
          (fun r => (r.1.1.map forget_addr, r.2)) =
        (recv_file_list_loop o x n (recv_reset x rs) [] s).map
          (fun r => (r.1.1.map forget_addr, r.2))) := by
  refine ⟨fun _ _ => rfl, rfl, ?_, fun _ => ⟨rfl, rfl, rfl, rfl, rfl, rfl, rfl, rfl⟩, ?_, ?_⟩
  · intro n rs files rest
    exact recv_file_list_loop_end o x n rs files rest
  · intro st st' earlier earlier' entries b b' st1 st1' h1 h2
    rw [send_file_entries_state o x st earlier b st1 h1,
      send_file_entries_state o x st' earlier' b' st1' h2]
  · intro rs rs' n s hd
    have hk : kept_agree o (recv_reset x rs) rs'.lastdir rs'.lastdir_depth
        rs'.del_hier_name_len := by
      constructor
      · intro h; exact absurd h (show ¬ (0 : Int) ≤ -1 by decide)
      · intro h; exact absurd h Bool.false_ne_true
      · exact hd
    have hrel := recv_file_list_loop_kept o x n (recv_reset x rs) [] [] s rs'.lastdir
      rs'.lastdir_depth rs'.del_hier_name_len rs'.next_addr hk rfl
    have hst : with_kept (recv_reset x rs) rs'.lastdir rs'.lastdir_depth
        rs'.del_hier_name_len rs'.next_addr = recv_reset x rs' := rfl
    rw [hst] at hrel
    apply outcome_rel_map_eq
    apply outcome_rel_mono hrel
    rintro r r' ⟨h1, h2⟩
    rw [h1, h2]

/-- An instance: with the options of the examples, which sanitize nothing, a
decoder that earlier lists left at depth 1 and a fresh one read the same entries from the
bytes of the entries `a`, `b`, `c`. -/
theorem terminator_resets_witness :
    (recv_file_list_loop ex_options ex_externals 4
        (recv_reset ex_externals { lastdir_depth := 1, next_addr := 5 }) []
        [144, 1, 97, 0, 0, 0, 0, 0, 128, 0, 0, 232, 3, 0, 0, 154, 1, 98, 0, 0, 0, 0,
          146, 1, 99, 0, 0, 0, 0, 233, 3, 0, 0, 0]).map
        (fun r => (r.1.1.map forget_addr, r.2)) =
      (recv_file_list_loop ex_options ex_externals 4 (recv_reset ex_externals {}) []
        [144, 1, 97, 0, 0, 0, 0, 0, 128, 0, 0, 232, 3, 0, 0, 154, 1, 98, 0, 0, 0, 0,
          146, 1, 99, 0, 0, 0, 0, 233, 3, 0, 0, 0]).map
        (fun r => (r.1.1.map forget_addr, r.2)) :=
  (terminator_resets ex_options ex_externals).2.2.2.2.2 {}
    { lastdir_depth := 1, next_addr := 5 } 4 _ (fun h => absurd h (by decide))

/-! ### A field elided or sent explicitly -/

/-- A property of the results of a run that holds after every first step that the run can
take. -/
theorem outcome_bind_all_of {α β : Type} (P : β → Prop) (m : outcome α) (k : α → outcome β)
    (h : ∀ a, m = outcome.ok a → ∀ r, k a = outcome.ok r → P r) :
    ∀ r, (m >>= k) = outcome.ok r → P r := by
  intro r hr
  cases m with
  | ok a => exact h a rfl r hr
  | bad e => cases hr

theorem exact_reader_pure {α : Type} (v : α) :
    exact_reader (fun s => (outcome.ok (v, s) : outcome (α × List Nat))) := by
  intro s w s1 h
  cases h
  exact ⟨[], rfl, fun t => rfl⟩

theorem exact_reader_bad {α : Type} (e : fault) :
    exact_reader (fun _ => (outcome.bad e : outcome (α × List Nat))) := by
  intro s w s1 h
  cases h

theorem exact_reader_bind {α β : Type} (r : List Nat → outcome (α × List Nat))
    (k : α × List Nat → outcome (β × List Nat)) (hr : exact_reader r)
    (hk : ∀ a, exact_reader (fun s => k (a, s))) :
    exact_reader (fun s => r s >>= k) := by
  intro s v s1 h
  cases hrs : r s with
  | bad e => simp only [hrs, outcome_bind_bad] at h; cases h
  | ok p =>
    obtain ⟨a, s'⟩ := p
    simp only [hrs, outcome_bind_ok] at h
    obtain ⟨q, hq, hqr⟩ := hr s a s' hrs
    obtain ⟨q', hq', hqk⟩ := hk a s' v s1 h
    refine ⟨q ++ q', by rw [hq, hq', List.append_assoc], ?_⟩
    intro t
    show (r ((q ++ q') ++ t) >>= k) = _
    rw [List.append_assoc, hqr (q' ++ t), outcome_bind_ok]
    exact hqk t

theorem exact_reader_map {α β : Type} (r : List Nat → outcome (α × List Nat))
    (u : α × List Nat → β × List Nat) (hu : ∀ p, (u p).2 = p.2)
    (hu1 : ∀ a s t, (u (a, s)).1 = (u (a, t)).1)
    (hr : exact_reader r) : exact_reader (fun s => (r s).map u) := by
  intro s v s1 h
  cases hrs : r s with
  | bad e => simp only [hrs, outcome_map_bad] at h; cases h
  | ok p =>
    obtain ⟨a, s'⟩ := p
    obtain ⟨q, hq, hqr⟩ := hr s a s' hrs
    simp only [hrs, outcome_map_ok, outcome.ok.injEq] at h
    have h2 : s1 = s' := by
      have := hu (a, s')
      rw [h] at this
      exact this
    subst h2
    refine ⟨q, hq, ?_⟩
    intro t
    show (r (q ++ t)).map u = _
    rw [hqr t, outcome_map_ok]
    congr 1
    apply Prod.ext
    · show (u (a, t)).1 = v
      rw [hu1 a t s1, h]
    · exact hu (a, t)

theorem exact_reader_ite {α : Type} (c : Prop) [Decidable c]
    (r1 r2 : List Nat → outcome (α × List Nat)) (h1 : exact_reader r1)
    (h2 : exact_reader r2) : exact_reader (fun s => if c then r1 s else r2 s) := by
  by_cases h : c
  · simp only [h, if_true]; exact h1
  · simp only [h, if_false]; exact h2

theorem exact_reader_read_byte : exact_reader read_byte := by
  intro s v s1 h
  cases s with
  | nil => cases h
  | cons b rest =>
    simp only [read_byte, outcome.ok.injEq, Prod.mk.injEq] at h
    obtain ⟨rfl, rfl⟩ := h
    exact ⟨[b], rfl, fun t => rfl⟩

theorem exact_reader_read_int : exact_reader read_int := by
  intro s v s1 h
  match s, h with
  | b0 :: b1 :: b2 :: b3 :: rest, h =>
    simp only [read_int, outcome.ok.injEq, Prod.mk.injEq] at h
    obtain ⟨rfl, rfl⟩ := h
    exact ⟨[b0, b1, b2, b3], rfl, fun t => rfl⟩

theorem exact_reader_read_buf (n : Nat) : exact_reader (read_buf n) := by
  intro s v s1 h
  unfold read_buf at h
  by_cases hn : n ≤ s.length
  · rw [if_pos hn] at h
    simp only [outcome.ok.injEq, Prod.mk.injEq] at h
    obtain ⟨rfl, rfl⟩ := h
    refine ⟨s.take n, (List.take_append_drop n s).symm, ?_⟩
    intro t
    have hl : (s.take n).length = n := by simp; omega
    unfold read_buf
    rw [if_pos (by simp; omega), List.take_append_eq_append_take,
      List.drop_append_eq_append_drop, hl, Nat.sub_self]
    simp [List.take_of_length_le (Nat.le_of_eq hl), List.drop_of_length_le (Nat.le_of_eq hl)]
  · rw [if_neg hn] at h
    cases h

theorem exact_reader_read_uint32 : exact_reader read_uint32 :=
  exact_reader_map read_int (fun p => (uint32_of_int p.1, p.2)) (fun _ => rfl)
    (fun _ _ _ => rfl) exact_reader_read_int

theorem exact_reader_read_if {α : Type} (c : Bool)
    (r : List Nat → outcome (α × List Nat)) (old : α) (hr : exact_reader r) :
    exact_reader (read_if c r old) := by
  cases c
  · exact exact_reader_pure old
  · exact hr

theorem exact_reader_read_longint : exact_reader read_longint := by
  unfold read_longint
  apply exact_reader_bind _ _ exact_reader_read_int
  intro num
  simp only []
  apply exact_reader_ite
  · exact exact_reader_pure num
  · apply exact_reader_bind _ _ exact_reader_read_int
    intro lo
    simp only []
    apply exact_reader_bind _ _ exact_reader_read_int
    intro hi
    simp only []
    exact exact_reader_pure _

theorem exact_reader_recv_name (x : externals) (lastname : List Nat) (F : Nat) :
    exact_reader (recv_name x lastname F) := by
  have htail : ∀ l1 l2 : Nat, exact_reader fun s =>
      if l2 ≥ uint32_of_int ((x.MAXPATHLEN : Int) - (l1 : Int)) then
        (outcome.bad fault.overflow_exit : outcome ((Nat × Nat × List Nat) × List Nat))
      else read_buf l2 s >>= fun p =>
        pure ((l1, l2,
          if (strlcpy lastname (l1 + 1)).length < l1 then strlcpy lastname (l1 + 1)
          else strlcpy lastname (l1 + 1) ++ cstr_of p.1), p.2) := by
    intro l1 l2
    apply exact_reader_ite
    · exact exact_reader_bad _
    · apply exact_reader_bind _ _ (exact_reader_read_buf l2)
      intro buf
      simp only []
      exact exact_reader_pure _
  unfold recv_name
  apply exact_reader_bind _ _ (exact_reader_read_if _ _ _ exact_reader_read_byte)
  intro l1
  simp only []
  apply exact_reader_ite
  · apply exact_reader_bind _ _ exact_reader_read_uint32
    intro l2
    exact htail l1 l2
  · apply exact_reader_bind _ _ exact_reader_read_byte
    intro l2
    exact htail l1 l2

/-- Every stream on which the name and the length of an entry are read is the bytes of
the name, the bytes of the length, and the rest. -/
theorem recv_entry_head_exact (x : externals) (lastname : List Nat) (F : Nat)
    (s s1 s2 : List Nat) (nm : Nat × Nat × List Nat) (len : Int)
    (hname : recv_name x lastname F s = outcome.ok (nm, s1))
    (hlen : read_longint s1 = outcome.ok (len, s2)) :
    ∃ q1 q2, s = q1 ++ (q2 ++ s2) ∧ reads_exactly (recv_name x lastname F) nm q1 ∧
      reads_exactly read_longint len q2 := by
  obtain ⟨q1, h1, hq1⟩ := exact_reader_recv_name x lastname F s nm s1 hname
  obtain ⟨q2, h2, hq2⟩ := exact_reader_read_longint s1 len s2 hlen
  exact ⟨q1, q2, by rw [h1, h2], hq1, hq2⟩

/-! ### The values that the statics of the decoder hold -/

/-- What `read_int` returns is an `int32`. -/
theorem int_of_uint32_range (n : Nat) : -2 ^ 31 ≤ int_of_uint32 n ∧ int_of_uint32 n < 2 ^ 31 := by
  unfold int_of_uint32
  have : n % 2 ^ 32 < 2 ^ 32 := Nat.mod_lt _ (by norm_num)
  split_ifs <;> constructor <;> omega

/-- What `from_wire_mode` returns has 32 bits and, on a platform whose symlink type bits
are a type value other than 0120000, not the type bits 0120000. -/
theorem from_wire_mode_type (x : externals) (v : Int) (hx : x.S_IFLNK &&& S_IFMT = x.S_IFLNK) :
    from_wire_mode x v < 2 ^ 32 ∧
    (x.S_IFLNK = 0o120000 ∨ from_wire_mode x v &&& S_IFMT ≠ 0o120000) := by
  have hu := uint32_of_int_lt v
  have hA : (0xFFFFFFFF ^^^ S_IFMT) &&& S_IFMT = 0 := by decide
  have hL : x.S_IFLNK < 2 ^ 32 := by
    have h1 : x.S_IFLNK ≤ S_IFMT := by rw [← hx]; exact Nat.and_le_right
    have h2 : S_IFMT < 2 ^ 32 := by decide
    omega
  unfold from_wire_mode
  by_cases hc : x.S_IFLNK ≠ 0o120000 ∧ uint32_of_int v &&& S_IFMT = 0o120000
  · rw [if_pos hc]
    refine ⟨Nat.or_lt_two_pow (Nat.lt_of_le_of_lt Nat.and_le_left hu) hL, Or.inr ?_⟩
    rw [Nat.and_distrib_right, Nat.and_assoc, hA, Nat.and_zero, Nat.zero_or, hx]
    exact hc.1
  · rw [if_neg hc]
    refine ⟨hu, ?_⟩
    by_cases h1 : x.S_IFLNK = 0o120000
    · exact Or.inl h1
    · exact Or.inr fun h2 => hc ⟨h1, h2⟩

/-- The statics of a decoder that has read nothing, or that has met a terminator, hold
values it can have read. -/
theorem wire_state_reset (x : externals) (rs : recv_state) :
    wire_state x {} ∧ wire_state x (recv_reset x rs) := by
  constructor
  · exact ⟨by decide, by decide, by decide, Or.inr (by decide), by decide, by decide⟩
  · refine ⟨?_, ?_, ?_, Or.inr ?_, ?_, ?_⟩ <;> simp only [recv_reset] <;> decide

/-- The fields from the length to the device numbers leave in the statics values that the
decoder can have read, when modes are not tweaked and the symlink type bits of the
platform are a type value. -/
theorem recv_fields_wire_state (o : options) (x : externals) (rs : recv_state) (F : Nat)
    (s : List Nat) (hch : o.chmod_modes = false) (hx : x.S_IFLNK &&& S_IFMT = x.S_IFLNK)
    (hst : wire_state x rs) :
    ∀ r, recv_fields o x rs F s = outcome.ok r → wire_state x r.1.2 := by
  have hmt : ∀ (c : Bool) (s : List Nat) (v : Int) (s1 : List Nat),
      read_if c read_int rs.modtime s = outcome.ok (v, s1) → -2 ^ 31 ≤ v ∧ v < 2 ^ 31 := by
    intro c s v s1 h
    cases c
    · cases h; exact ⟨hst.modtime_lo, hst.modtime_hi⟩
    · match s, h with
      | b0 :: b1 :: b2 :: b3 :: rest, h =>
        simp only [read_if_true, read_int, outcome.ok.injEq, Prod.mk.injEq] at h
        rw [← h.1]
        exact int_of_uint32_range _
  have hmd : ∀ (c : Bool) (s : List Nat) (v : Nat) (s1 : List Nat),
      read_if c (fun s => (read_int s).map fun p => (from_wire_mode x p.1, p.2)) rs.mode s =
        outcome.ok (v, s1) →
      v < 2 ^ 32 ∧ (x.S_IFLNK = 0o120000 ∨ v &&& S_IFMT ≠ 0o120000) := by
    intro c s v s1 h
    cases c
    · cases h; exact ⟨hst.mode_lt, hst.mode_type⟩
    · match s, h with
      | b0 :: b1 :: b2 :: b3 :: rest, h =>
        simp only [read_if_true, read_int, outcome_map_ok, outcome.ok.injEq,
          Prod.mk.injEq] at h
        rw [← h.1]
        exact from_wire_mode_type x _ hx
  have hid : ∀ (c : Bool) (old : Nat) (s : List Nat) (v : Nat) (s1 : List Nat), old < 2 ^ 32 →
      read_if c read_uint32 old s = outcome.ok (v, s1) → v < 2 ^ 32 := by
    intro c old s v s1 hold h
    cases c
    · cases h; exact hold
    · match s, h with
      | b0 :: b1 :: b2 :: b3 :: rest, h =>
        simp only [read_if_true, read_uint32, read_int, outcome_map_ok, outcome.ok.injEq,
          Prod.mk.injEq] at h
        rw [← h.1]
        exact uint32_of_int_lt _
  unfold recv_fields
  apply outcome_bind_all; rintro ⟨file_length, s1⟩
  apply outcome_bind_all_of; rintro ⟨modtime, s2⟩ h2
  apply outcome_bind_all_of; rintro ⟨mode, s3⟩ h3
  apply outcome_bind_all_of; rintro ⟨uid, s4⟩ h4
  apply outcome_bind_all_of; rintro ⟨gid, s5⟩ h5
  have w : wire_state x { rs with modtime := modtime, mode := mode, uid := uid, gid := gid } :=
    ⟨(hmt _ _ _ _ h2).1, (hmt _ _ _ _ h2).2, (hmd _ _ _ _ h3).1, (hmd _ _ _ _ h3).2,
      hid _ _ _ _ _ hst.uid_lt h4, hid _ _ _ _ _ hst.gid_lt h5⟩
  have hno : ¬ (o.chmod_modes = true ∧ ¬ S_ISLNK x mode = true) := by
    rw [hch]; rintro ⟨h, -⟩; cases h
  simp only [hno, if_false]
  split_ifs <;>
    repeat (first
      | (intro r hr; cases hr; exact ⟨w.1, w.2, w.3, w.4, w.5, w.6⟩)
      | (apply outcome_bind_all; intro p))

/-! ### Delta-decoding invariance -/

/-- An `int` keeps its value. -/
theorem int32_of_int_id (i : Int) (h0 : 0 ≤ i) (h1 : i < 2 ^ 31) : int32_of_int i = i := by
  unfold int32_of_int
  exact int_of_uint32_of_int32 i (by omega) h1

/-- The size that `flist_expand` asks for when the list is full, for sizes that fit an
`int`. -/
theorem flist_expand_grown (FLIST_START FLIST_LINEAR : Int) (realloc_array : Int → Bool)
    (count malloced : Int) (hs : 0 < FLIST_START) (hl : 0 < FLIST_LINEAR)
    (hfit : malloced + FLIST_LINEAR < 2 ^ 31) (h : ¬ count < malloced) :
    ∃ m, count ≤ m ∧ malloced < m ∧
      flist_expand FLIST_START FLIST_LINEAR realloc_array count malloced =
        (if realloc_array m = true then outcome.ok m else outcome.bad fault.out_of_memory) := by
  unfold flist_expand
  rw [if_neg h]
  simp only []
  by_cases h1 : malloced < FLIST_START
  · rw [if_pos h1]
    by_cases h2 : FLIST_START < count
    · exact ⟨count, le_refl _, by omega, by rw [if_pos h2]; rfl⟩
    · exact ⟨FLIST_START, by omega, h1, by rw [if_neg h2]; rfl⟩
  · rw [if_neg h1]
    by_cases h3 : malloced ≥ FLIST_LINEAR
    · rw [if_pos h3, int32_of_int_id (malloced + FLIST_LINEAR) (by omega) hfit]
      by_cases h2 : malloced + FLIST_LINEAR < count
      · exact ⟨count, le_refl _, by omega, by rw [if_pos h2]; rfl⟩
      · exact ⟨malloced + FLIST_LINEAR, by omega, by omega, by rw [if_neg h2]; rfl⟩
    · rw [if_neg h3, int32_of_int_id (malloced * 2) (by omega) (by omega)]
      by_cases h2 : malloced * 2 < count
      · exact ⟨count, le_refl _, by omega, by rw [if_pos h2]; rfl⟩
      · exact ⟨malloced * 2, by omega, by omega, by rw [if_neg h2]; rfl⟩

/-- Where the sum fits: let `FLIST_START` and `FLIST_LINEAR` be positive and the grown
size fit an `int`. For every list with `count <= malloced` on entry, `flist_expand` returns when the
allocation succeeds and leaves through `out_of_memory` when it fails; after it returned,
`count < malloced`, and `malloced` has not decreased; when `count < malloced` held on
entry the function returns and changes nothing. Whatever `count` and `malloced` were on
entry, `malloced >= count` after the function returned. -/
theorem flist_expand_makes_room (FLIST_START FLIST_LINEAR : Int) (realloc_array : Int → Bool)
    (count malloced : Int) (hs : 0 < FLIST_START) (hl : 0 < FLIST_LINEAR)
    (hfit : malloced + FLIST_LINEAR < 2 ^ 31) :
    (count < malloced →
      flist_expand FLIST_START FLIST_LINEAR realloc_array count malloced =
        outcome.ok malloced) ∧
    (count ≤ malloced →
      ∃ m, count < m ∧ malloced ≤ m ∧
        flist_expand FLIST_START FLIST_LINEAR realloc_array count malloced =
          (if count < malloced ∨ realloc_array m = true then outcome.ok m
           else outcome.bad fault.out_of_memory)) ∧
    (∀ m, flist_expand FLIST_START FLIST_LINEAR realloc_array count malloced = outcome.ok m →
      count ≤ m ∧ malloced ≤ m ∧ (count ≤ malloced → count < m)) := by
  have hpos : count < malloced →
      flist_expand FLIST_START FLIST_LINEAR realloc_array count malloced =
        outcome.ok malloced := by
    intro h
    unfold flist_expand
    rw [if_pos h]
    rfl
  refine ⟨hpos, ?_, ?_⟩
  · intro hle
    by_cases h : count < malloced
    · exact ⟨malloced, h, le_refl _, by rw [hpos h, if_pos (Or.inl h)]⟩
    · obtain ⟨m, h1, h2, h3⟩ := flist_expand_grown FLIST_START FLIST_LINEAR realloc_array
        count malloced hs hl hfit h
      refine ⟨m, by omega, by omega, ?_⟩
      rw [h3]
      by_cases hr : realloc_array m = true
      · rw [if_pos hr, if_pos (Or.inr hr)]
      · rw [if_neg hr, if_neg]
        rintro (h' | h')
        · exact h h'
        · exact hr h'
  · intro m hm
    by_cases h : count < malloced
    · rw [hpos h] at hm
      cases hm
      exact ⟨by omega, le_refl _, fun _ => h⟩
    · obtain ⟨m', h1, h2, h3⟩ := flist_expand_grown FLIST_START FLIST_LINEAR realloc_array
        count malloced hs hl hfit h
      rw [h3] at hm
      by_cases hr : realloc_array m' = true
      · rw [if_pos hr] at hm
        cases hm
        exact ⟨h1, by omega, fun _ => by omega⟩
      · rw [if_neg hr] at hm
        cases hm

/-- An instance: a full list of 32768 entries, with `FLIST_START` = 32768 and
`FLIST_LINEAR` = 16777216, gets room for 65536. -/
theorem flist_expand_makes_room_witness :
    flist_expand 32768 16777216 (fun _ => true) 32768 32768 = outcome.ok 65536 ∧
    (32768 : Int) < 65536 :=
  have h := flist_expand_makes_room 32768 16777216 (fun _ => true) 32768 32768 (by decide)
    (by decide) (by decide)
  ⟨by decide, (h.2.2 65536 (by decide)).2.2 (by decide)⟩

/-- C40: with `FLIST_START` = 32768 and `FLIST_LINEAR` = 16777216, a full list of
2140000000 entries gets no room: the sum `malloced + FLIST_LINEAR` of line 283 does not
fit an `int` and wraps to -2138190080, line 291 then sets `malloced` to `count`, the
allocation of that many pointers succeeds, and `flist_expand` returns with
`count < malloced` false, so that the slot `files[count]` does not exist. -/
theorem flist_expand_wraps :
    (2140000000 : Int) ≤ 2140000000 ∧ (2140000000 : Int) < 2 ^ 31 ∧
    int32_of_int (2140000000 + 16777216) = -2138190080 ∧
    flist_expand 32768 16777216 (fun _ => true) 2140000000 2140000000 =
      outcome.ok 2140000000 ∧
    ¬ ((2140000000 : Int) < 2140000000) := by
  decide

/-! ### The transfer root is never excluded -/

/-- The last two bytes of a string that ends with "/.". -/
theorem getD_ends_slash_dot (pre : List Nat) :
    (pre ++ [47, 46]).getD ((pre ++ [47, 46]).length - 1) 0 = 46 ∧
    (pre ++ [47, 46]).getD ((pre ++ [47, 46]).length - 2) 0 = 47 := by
  have hl : (pre ++ [47, 46]).length = pre.length + 2 := by simp
  rw [hl]
  constructor
  · rw [List.getD_eq_getElem?_getD, List.getElem?_append_right (by omega)]
    have : pre.length + 2 - 1 - pre.length = 1 := by omega
    rw [this]; rfl
  · rw [List.getD_eq_getElem?_getD, List.getElem?_append_right (by omega)]
    have : pre.length + 2 - 2 - pre.length = 0 := by omega
    rw [this]; rfl

/-- A string whose last two bytes are `/` and `.` ends with "/.". -/
theorem ends_slash_dot_of_getD (n : List Nat) (h2 : 2 ≤ n.length)
    (b : n.getD (n.length - 1) 0 = 46) (c : n.getD (n.length - 2) 0 = 47) :
    ∃ pre, n = pre ++ [47, 46] := by
  refine ⟨n.take (n.length - 2), ?_⟩
  have hd : n.drop (n.length - 2) = [47, 46] := by
    have hl : (n.drop (n.length - 2)).length = 2 := by rw [List.length_drop]; omega
    match hdr : n.drop (n.length - 2), hl with
    | [x, y], _ =>
      have hx : (n.drop (n.length - 2)).getD 0 0 = n.getD (n.length - 2) 0 := by
        rw [List.getD_eq_getElem?_getD, List.getD_eq_getElem?_getD, List.getElem?_drop]
        rfl
      have hy : (n.drop (n.length - 2)).getD 1 0 = n.getD (n.length - 1) 0 := by
        rw [List.getD_eq_getElem?_getD, List.getD_eq_getElem?_getD, List.getElem?_drop]
        have : n.length - 2 + 1 = n.length - 1 := by omega
        rw [this]
      rw [hdr] at hx hy
      rw [c] at hx
      rw [b] at hy
      simp at hx hy
      rw [hx, hy]
  conv_lhs => rw [← List.take_append_drop (n.length - 2) n]
  rw [hd]

/-- C39: for both filter lists, whatever `check_filter` answers, every filter level and
either value of `is_dir`, `is_excluded` returns 0 without a call of `check_filter` for
the name "." and for every name that starts with `/` and ends with "/.". For every other
name (and for the `NULL` name) the list `server_filter_list` is consulted first, when it
has a head, and makes the result 1 when `check_filter` answers a negative value; the list
`filter_list` is consulted after it, only when the server list did not exclude the name,
the level is `ALL_FILTERS` and the list has a head; it is never consulted at another
level. -/
theorem is_excluded_spares_root (check_filter : consulted → Option (List Nat) → Int → Int)
    (server_head user_head : Bool) (is_dir filter_level : Int) :
    is_excluded check_filter server_head user_head (some [46]) is_dir filter_level = (0, []) ∧
    (∀ pre : List Nat, (pre ++ [47, 46]).head? = some 47 →
      is_excluded check_filter server_head user_head (some (pre ++ [47, 46])) is_dir
        filter_level = (0, [])) ∧
    (∀ fname : Option (List Nat),
      (∀ n, fname = some n → n ≠ [46] ∧ cstr_ok n ∧
        ¬ (n.head? = some 47 ∧ ∃ pre, n = pre ++ [47, 46])) →
      (is_excluded check_filter server_head user_head fname is_dir filter_level).2 =
        (if server_head = true then [consulted.server_filter_list] else []) ++
        (if ¬ (server_head = true ∧
              check_filter consulted.server_filter_list fname is_dir < 0) ∧
            filter_level = ALL_FILTERS ∧ user_head = true
          then [consulted.filter_list] else []) ∧
      ((is_excluded check_filter server_head user_head fname is_dir filter_level).1 =
        if (server_head = true ∧
            check_filter consulted.server_filter_list fname is_dir < 0) ∨
          (filter_level = ALL_FILTERS ∧ user_head = true ∧
            check_filter consulted.filter_list fname is_dir < 0) then 1 else 0)) ∧
    (filter_level ≠ ALL_FILTERS → ∀ fname : Option (List Nat),
      consulted.filter_list ∉
        (is_excluded check_filter server_head user_head fname is_dir filter_level).2) := by
  refine ⟨?_, ?_, ?_, ?_⟩
  · have h : is_excluded_root (some [46]) = true := by decide
    unfold is_excluded
    rw [h]
    rfl
  · intro pre hh
    obtain ⟨h1, h2⟩ := getD_ends_slash_dot pre
    have h0 : (pre ++ [47, 46]).getD 0 0 = 47 := by
      cases hp : pre ++ [47, 46] with
      | nil => rw [hp] at hh; cases hh
      | cons c r => rw [hp] at hh; simp at hh; simp [hh]
    have h : is_excluded_root (some (pre ++ [47, 46])) = true := by
      unfold is_excluded_root
      simp only [h0, h1, h2, and_self, or_true, decide_True]
    unfold is_excluded
    rw [h]
    rfl
  · intro fname hf
    have hroot : is_excluded_root fname = false := by
      cases fname with
      | none => rfl
      | some n =>
        obtain ⟨hne, hc, hns⟩ := hf n rfl
        unfold is_excluded_root
        simp only [decide_eq_false_iff_not]
        rintro (⟨a, b⟩ | ⟨a, b, c⟩)
        · apply hne
          match n, a, b, hc with
          | [], a, _, _ => simp at a
          | [x], a, _, _ => simp at a; rw [a]
          | x :: y :: r, _, b, hc =>
            exfalso
            simp at b
            exact hc y (by simp) b
        · apply hns
          refine ⟨?_, ?_⟩
          · match n, a with
            | [], a => simp at a
            | x :: r, a => simp at a; simp [a]
          · have h2 : 2 ≤ n.length := by
              match n, a, b with
              | [], a, _ => simp at a
              | [x], a, b => simp at a b; omega
              | x :: y :: r, _, _ => simp
            exact ends_slash_dot_of_getD n h2 b c
    unfold is_excluded
    simp only [hroot, Bool.false_eq_true, if_false]
    by_cases hs : server_head = true ∧
        check_filter consulted.server_filter_list fname is_dir < 0
    · simp only [hs, and_self, if_true, not_true_eq_false, false_and, if_false,
        List.append_nil, true_or]
    · simp only [hs, if_false, not_false_eq_true, true_and, false_or]
      by_cases hl : filter_level = ALL_FILTERS
      · simp only [hl, ne_eq, not_true_eq_false, if_false, true_and]
        by_cases hu : user_head = true
        · by_cases hc2 : check_filter consulted.filter_list fname is_dir < 0
          · simp only [hu, hc2, and_self, if_true]
          · simp only [hu, hc2, and_false, if_false, if_true, and_self]
        · simp only [hu, Bool.false_eq_true, false_and, if_false, and_self]
      · simp only [hl, ne_eq, not_false_eq_true, if_true, false_and, if_false,
          List.append_nil, and_self]
  · intro hl fname
    unfold is_excluded
    simp only [ne_eq, hl, not_false_eq_true, if_true]
    split_ifs <;> simp

/-- A witness for C39: with a server list that excludes every name, the name "/a/." is
not excluded, and nothing is consulted for it. -/
theorem is_excluded_spares_root_witness :
    is_excluded ex_check_filter true true (some ([47, 97] ++ [47, 46])) 1 ALL_FILTERS =
      (0, []) :=
  (is_excluded_spares_root ex_check_filter true true 1 ALL_FILTERS).2.1 [47, 97] rfl

/-! ### The name comparator: both sides exhausted at once -/

/-- C37: for protocol 29, two directory entries `a/.` whose dirnames are two copies of
the string "a" are both active with the basename "."; in `f_name_cmp` both sides take
the "." branch of `case s_SLASH` (lines 1827-1830 and 1857-1860) in the same iteration
and are exhausted together, no check returns 0, and line 1880 advances both pointers
past the NUL of the empty string, in either order of the two entries. -/
theorem f_name_cmp_both_exhausted_advances :
    F_IS_ACTIVE ex_dir_a_dot = true ∧ F_IS_ACTIVE ex_dir_a_dot2 = true ∧
    ex_dir_a_dot.basename = [46] ∧ ex_dir_a_dot2.basename = [46] ∧
    f_name_cmp 29 (some ex_dir_a_dot) (some ex_dir_a_dot2) = cmp_result.overread ∧
    f_name_cmp 29 (some ex_dir_a_dot2) (some ex_dir_a_dot) = cmp_result.overread := by
  decide

/-! ### The bounds `low` and `high` of the cleaned list -/

/-- Stripping the root leaves an entry active or cleared as it was. -/
theorem strip_entry_active (e : file_struct) : F_IS_ACTIVE (strip_entry e) = F_IS_ACTIVE e := by
  unfold strip_entry
  cases e.dirname <;> rfl

/-- The bounds after the lines 1550-1642: let a non-empty list of active entries on whose pairs `f_name_cmp` returns be
cleaned by `clean_flist` with `no_dups` set, with or without `strip_root`, `qsort` having
put the array in the order of `file_compare`. Then `clean_flist` returns, `files[low]` and
`files[high]` are active, and every active entry of the array has its index in
`low .. high`: `files[low]` is the first and `files[high]` the last active entry. For an
empty list `clean_flist` sets `high` to -1 and changes nothing else, so that `low .. high`
is empty when `low` is not negative. -/
theorem clean_flist_low_high (qsort : List file_struct → List file_struct)
    (pv : Int) (flist : file_list) (strip_root no_dups : Int)
    (hne : flist.files ≠ []) (hlen : (flist.files.length : Int) < 2 ^ 31)
    (hl : list_ok pv flist.files)
    (hperm : (qsort flist.files).Perm flist.files)
    (hsorted : sorted_by_cmp pv (qsort flist.files))
    (hnd : no_dups ≠ 0) :
    (∃ cl, clean_flist qsort pv flist strip_root no_dups = outcome.ok cl ∧
      active_at cl.files cl.low ∧ active_at cl.files cl.high ∧
      ∀ k, active_at cl.files k → cl.low ≤ k ∧ k ≤ cl.high) ∧
    (∀ low high : Int,
      clean_flist qsort pv { files := [], low := low, high := high } strip_root no_dups =
        outcome.ok { files := [], low := low, high := -1 } ∧
      (0 ≤ low → ¬ ∃ k : Int, low ≤ k ∧ k ≤ -1)) := by
  constructor
  · have hn := list_ok_names hperm hl
    have hks := sorted_keys hn hsorted
    have hlen' : ((qsort flist.files).length : Int) < 2 ^ 31 := by
      rw [hperm.length_eq]; exact hlen
    obtain ⟨cl, i, hrun, hinv, -, hend⟩ :=
      clean_flist_twin qsort flist no_dups hnd hn hks hlen' hperm.length_eq hne
    by_cases hsr : strip_root = 0
    · subst hsr
      exact ⟨cl, hrun, hinv.region.lo_active, hinv.region.hi_active,
        fun k hk => clean_inv_active_window hinv hend hk⟩
    · obtain ⟨hlo0, hhi⟩ := region_hi_range hinv.region
      have hle := hinv.region.lo_le
      obtain ⟨files', hstrip, hlen2, hget⟩ :=
        strip_root_loop_spec (cl.high + 1 - cl.low).toNat cl.files cl.low hlo0
          (by rw [Int.toNat_of_nonneg (by omega)]; omega)
      have hact : ∀ k, active_at files' k ↔ active_at cl.files k := by
        intro k
        unfold active_at
        rw [hget k]
        by_cases hk : cl.low ≤ k ∧ k < cl.low + ((cl.high + 1 - cl.low).toNat : Int)
        · rw [if_pos hk]
          cases hg : files_get cl.files k with
          | ok g =>
            simp only [outcome.map, outcome.ok.injEq]
            constructor
            · rintro ⟨g', rfl, h⟩
              exact ⟨g, rfl, by rw [← strip_entry_active]; exact h⟩
            · rintro ⟨g', hg', h⟩
              subst hg'
              exact ⟨strip_entry g, rfl, by rw [strip_entry_active]; exact h⟩
          | bad w =>
            simp only [outcome.map]
        · rw [if_neg hk]
      refine ⟨{ cl with files := files' }, ?_, ?_, ?_, ?_⟩
      · rw [clean_flist_strip_root qsort pv flist strip_root no_dups hsr hne, hrun]
        simp only [outcome.bind, hstrip]
      · exact (hact _).2 hinv.region.lo_active
      · exact (hact _).2 hinv.region.hi_active
      · intro k hk
        exact clean_inv_active_window hinv hend ((hact k).1 hk)
  · intro low high
    refine ⟨rfl, ?_⟩
    rintro h ⟨k, h1, h2⟩
    omega

/-! ### The sender's call: `clean_flist(flist, 0, 0)` -/

/-- Without `no_dups` the main loop of `clean_flist` is not entered. -/
theorem clean_loop_at_count (pv : Int) (n : Nat) (st : clean_state) :
    clean_loop pv n st st.flist.count = outcome.ok st := by
  cases n with
  | zero =>
    unfold clean_loop
    rw [if_neg (by omega)]
    rfl
  | succ n =>
    unfold clean_loop
    rw [if_neg (by omega)]
    rfl

/-- On the array that `qsort` returned: with `no_dups` = 0 and `strip_root` = 0, the arguments of the sender's call,
`clean_flist` returns the array as `qsort` left it, with `low` = 0 and `high` =
`count - 1`, whether `prune_empty_dirs` is set or not; `qsort` being a sort with
`file_compare`, the array is a permutation of the entries given, none of them cleared or
changed, in an order in which `f_name_cmp` returns a value `<= 0` on every entry and a
later one. On an empty list `qsort` is not called, `high` becomes -1, which is
`count - 1`, and `low` stays as it was (0 in a list as `flist_new` made it). -/
theorem clean_flist_sender_sorts (qsort : List file_struct → List file_struct)
    (is_excluded : Option (List Nat) → Bool) (MAXPATHLEN : Nat) (prune_empty_dirs : Bool)
    (pv : Int) (flist : file_list)
    (hperm : (qsort flist.files).Perm flist.files)
    (hsorted : sorted_by_cmp pv (qsort flist.files)) :
    ∃ cl, clean_flist_prune qsort is_excluded MAXPATHLEN prune_empty_dirs pv flist 0 0 =
        outcome.ok cl ∧
      cl.files.Perm flist.files ∧ sorted_by_cmp pv cl.files ∧
      cl.files = (if flist.files = [] then [] else qsort flist.files) ∧
      cl.count = flist.count ∧ cl.high = flist.count - 1 ∧
      cl.low = (if flist.files = [] then flist.low else 0) := by
  by_cases hne : flist.files = []
  · refine ⟨{ flist with high := -1 }, ?_, ?_, ?_, ?_, rfl, ?_, ?_⟩
    · unfold clean_flist_prune clean_flist file_list.count
      simp [hne]
    · exact List.Perm.refl _
    · simp only [hne]
      exact List.Pairwise.nil
    · simp only [hne, if_true]
    · unfold file_list.count
      simp [hne]
    · simp only [hne, if_true]
  · have hc : flist.count ≠ 0 := by
      unfold file_list.count
      intro h
      exact hne (List.length_eq_zero.1 (by exact_mod_cast h))
    have hloop := clean_loop_at_count pv (qsort flist.files).length
      { flist := { files := qsort flist.files, low := 0, high := flist.high }, prev_i := 0 }
    have hcnt : ({ files := qsort flist.files, low := 0, high := flist.high } :
        file_list).count = flist.count := by
      unfold file_list.count
      rw [hperm.length_eq]
    have hcnt2 : ({ files := qsort flist.files, low := flist.low, high := flist.high } :
        file_list).count =
        ({ flist := { files := qsort flist.files, low := 0, high := flist.high },
           prev_i := 0 } : clean_state).flist.count := rfl
    refine ⟨{ files := qsort flist.files, low := 0, high := flist.count - 1 }, ?_, hperm,
      hsorted, ?_, ?_, rfl, ?_⟩
    · unfold clean_flist_prune clean_flist
      simp only [hc, if_false, ne_eq, not_true_eq_false, outcome_pure, and_false, false_and]
      rw [hcnt2, hloop]
      simp only [outcome_bind_ok, hcnt]
    · rw [if_neg hne]
    · unfold file_list.count
      simp only []
      rw [hperm.length_eq]
    · rw [if_neg hne]

/-! ## `recv_file_entry`: the lengths it refuses -/

/-! ### Receiver-side overflow -/

theorem no_overflow_exit_ok {α : Type} (a : α) : no_overflow_exit (outcome.ok a) := by
  intro h; cases h

theorem no_overflow_exit_pure {α : Type} (a : α) :
    no_overflow_exit (pure a : outcome α) := by
  intro h; cases h

theorem no_overflow_exit_bind {α β : Type} (m : outcome α) (k : α → outcome β)
    (hm : no_overflow_exit m) (hk : ∀ a, no_overflow_exit (k a)) :
    no_overflow_exit (m >>= k) := by
  cases m with
  | ok a => exact hk a
  | bad e =>
    intro h
    rw [outcome_bind_bad] at h
    injection h with h
    subst h
    exact hm rfl

theorem no_overflow_exit_map {α β : Type} (m : outcome α) (u : α → β)
    (hm : no_overflow_exit m) : no_overflow_exit (m.map u) := by
  cases m with
  | ok a => intro h; cases h
  | bad e =>
    intro h
    rw [outcome_map_bad] at h
    injection h with h
    subst h
    exact hm rfl

theorem no_overflow_exit_read_byte (s : List Nat) : no_overflow_exit (read_byte s) := by
  cases s <;> (intro h; cases h)

theorem no_overflow_exit_read_int (s : List Nat) : no_overflow_exit (read_int s) := by
  unfold read_int
  split <;> (intro h; cases h)

theorem no_overflow_exit_read_uint32 (s : List Nat) : no_overflow_exit (read_uint32 s) :=
  no_overflow_exit_map _ _ (no_overflow_exit_read_int s)

theorem no_overflow_exit_read_buf (n : Nat) (s : List Nat) :
    no_overflow_exit (read_buf n s) := by
  unfold read_buf
  split_ifs <;> (intro h; cases h)

theorem no_overflow_exit_read_longint (s : List Nat) :
    no_overflow_exit (read_longint s) := by
  unfold read_longint
  apply no_overflow_exit_bind _ _ (no_overflow_exit_read_int s)
  rintro ⟨num, s1⟩
  simp only []
  split_ifs
  · exact no_overflow_exit_pure _
  · apply no_overflow_exit_bind _ _ (no_overflow_exit_read_int _)
    rintro ⟨lo, s2⟩
    apply no_overflow_exit_bind _ _ (no_overflow_exit_read_int _)
    rintro ⟨hi, s3⟩
    exact no_overflow_exit_pure _

theorem no_overflow_exit_read_if {α : Type} (c : Bool)
    (read : List Nat → outcome (α × List Nat)) (old : α) (s : List Nat)
    (h : no_overflow_exit (read s)) : no_overflow_exit (read_if c read old s) := by
  unfold read_if
  split_ifs
  · exact h
  · exact no_overflow_exit_ok _

theorem no_overflow_exit_recv_fields (o : options) (x : externals) (rs : recv_state)
    (flags : Nat) (s : List Nat) : no_overflow_exit (recv_fields o x rs flags s) := by
  unfold recv_fields
  repeat' (first
    | with_reducible exact no_overflow_exit_pure _
    | with_reducible exact no_overflow_exit_ok _
    | with_reducible exact no_overflow_exit_read_byte _
    | with_reducible exact no_overflow_exit_read_int _
    | with_reducible exact no_overflow_exit_read_uint32 _
    | with_reducible exact no_overflow_exit_read_longint _
    | with_reducible exact no_overflow_exit_read_buf _ _
    | with_reducible apply no_overflow_exit_read_if
    | with_reducible apply no_overflow_exit_map
    | with_reducible apply no_overflow_exit_bind
    | rintro ⟨a, b⟩
    | split_ifs)

theorem no_overflow_exit_recv_split (x : externals) (rs : recv_state) (thisname : List Nat) :
    no_overflow_exit (recv_split x rs thisname) := by
  unfold recv_split
  split
  · simp only []
    split_ifs
    · split
      · split_ifs <;> exact no_overflow_exit_pure _
      · intro h; cases h
    · exact no_overflow_exit_pure _
  · exact no_overflow_exit_pure _

theorem no_overflow_exit_recv_symlink (o : options) (x : externals) (rs : recv_state)
    (linkname_len : Int) (s : List Nat) :
    no_overflow_exit (recv_symlink o x rs linkname_len s) := by
  unfold recv_symlink
  repeat' (first
    | with_reducible exact no_overflow_exit_pure _
    | with_reducible exact no_overflow_exit_ok _
    | with_reducible exact no_overflow_exit_read_byte _
    | with_reducible exact no_overflow_exit_read_int _
    | with_reducible exact no_overflow_exit_read_uint32 _
    | with_reducible exact no_overflow_exit_read_longint _
    | with_reducible exact no_overflow_exit_read_buf _ _
    | with_reducible apply no_overflow_exit_read_if
    | with_reducible apply no_overflow_exit_map
    | with_reducible apply no_overflow_exit_bind
    | rintro ⟨a, b⟩
    | split_ifs)

theorem no_overflow_exit_recv_idev (o : options) (rs : recv_state) (flags : Nat)
    (s : List Nat) : no_overflow_exit (recv_idev o rs flags s) := by
  unfold recv_idev
  repeat' (first
    | with_reducible exact no_overflow_exit_pure _
    | with_reducible exact no_overflow_exit_ok _
    | with_reducible exact no_overflow_exit_read_byte _
    | with_reducible exact no_overflow_exit_read_int _
    | with_reducible exact no_overflow_exit_read_uint32 _
    | with_reducible exact no_overflow_exit_read_longint _
    | with_reducible exact no_overflow_exit_read_buf _ _
    | with_reducible apply no_overflow_exit_read_if
    | with_reducible apply no_overflow_exit_map
    | with_reducible apply no_overflow_exit_bind
    | rintro ⟨a, b⟩
    | split_ifs)

theorem no_overflow_exit_recv_sum (o : options) (mode : Nat) (s : List Nat) :
    no_overflow_exit (recv_sum o mode s) := by
  unfold recv_sum
  repeat' (first
    | with_reducible exact no_overflow_exit_pure _
    | with_reducible exact no_overflow_exit_ok _
    | with_reducible exact no_overflow_exit_read_byte _
    | with_reducible exact no_overflow_exit_read_int _
    | with_reducible exact no_overflow_exit_read_uint32 _
    | with_reducible exact no_overflow_exit_read_longint _
    | with_reducible exact no_overflow_exit_read_buf _ _
    | with_reducible apply no_overflow_exit_read_if
    | with_reducible apply no_overflow_exit_map
    | with_reducible apply no_overflow_exit_bind
    | rintro ⟨a, b⟩
    | split_ifs)

theorem outcome_bind_eq_bad {α β : Type} (m : outcome α) (k : α → outcome β) (e : fault) :
    (m >>= k) = outcome.bad e ↔ m = outcome.bad e ∨ ∃ a, m = outcome.ok a ∧ k a = outcome.bad e := by
  cases m with
  | ok a =>
    rw [outcome_bind_ok]
    constructor
    · intro h; exact Or.inr ⟨a, rfl, h⟩
    · rintro (h | ⟨a', h1, h2⟩)
      · cases h
      · cases h1; exact h2
  | bad w =>
    rw [outcome_bind_bad]
    constructor
    · intro h
      injection h with h
      subst h
      exact Or.inl rfl
    · rintro (h | ⟨a', h1, h2⟩)
      · injection h with h
        subst h
        rfl
      · cases h1

theorem outcome_bind_eq_ok {α β : Type} (m : outcome α) (k : α → outcome β) (r : β) :
    (m >>= k) = outcome.ok r ↔ ∃ a, m = outcome.ok a ∧ k a = outcome.ok r := by
  cases m with
  | ok a =>
    rw [outcome_bind_ok]
    constructor
    · intro h; exact ⟨a, rfl, h⟩
    · rintro ⟨a', h1, h2⟩
      cases h1; exact h2
  | bad w =>
    rw [outcome_bind_bad]
    constructor
    · intro h; cases h
    · rintro ⟨a', h1, h2⟩
      cases h1

/-- The name is read from the lengths of lines 527-533, the test of line 535 and the
bytes of the name. -/
theorem recv_name_lengths (x : externals) (lastname : List Nat) (flags : Nat) (s : List Nat) :
    recv_name x lastname flags s =
      (recv_lengths flags s >>= fun p =>
        if p.1.2 ≥ uint32_of_int ((x.MAXPATHLEN : Int) - (p.1.1 : Int)) then
          outcome.bad fault.overflow_exit
        else
          (read_buf p.1.2 p.2).map fun q =>
            ((p.1.1, p.1.2,
              if (strlcpy lastname (p.1.1 + 1)).length < p.1.1 then strlcpy lastname (p.1.1 + 1)
              else strlcpy lastname (p.1.1 + 1) ++ cstr_of q.1), q.2)) := by
  unfold recv_name recv_lengths
  cases h1 : read_if (has_flag flags XMIT_SAME_NAME) read_byte 0 s with
  | bad e => rfl
  | ok p1 =>
    obtain ⟨l1, s1⟩ := p1
    simp only [outcome_bind_ok]
    have key : ∀ (m : outcome (Nat × List Nat)),
        (m >>= fun y =>
          if y.1 ≥ uint32_of_int ((x.MAXPATHLEN : Int) - (l1 : Int)) then
            outcome.bad fault.overflow_exit
          else do
            let q ← read_buf y.1 y.2
            pure ((l1, y.1,
              if (strlcpy lastname (l1 + 1)).length < l1 then strlcpy lastname (l1 + 1)
              else strlcpy lastname (l1 + 1) ++ cstr_of q.1), q.2)) =
        ((m >>= fun y => pure ((l1, y.1), y.2)) >>= fun p =>
          if p.1.2 ≥ uint32_of_int ((x.MAXPATHLEN : Int) - (p.1.1 : Int)) then
            outcome.bad fault.overflow_exit
          else
            (read_buf p.1.2 p.2).map fun q =>
              ((p.1.1, p.1.2,
                if (strlcpy lastname (p.1.1 + 1)).length < p.1.1 then
                  strlcpy lastname (p.1.1 + 1)
                else strlcpy lastname (p.1.1 + 1) ++ cstr_of q.1), q.2)) := by
      intro m
      cases m with
      | bad e => rfl
      | ok y =>
        simp only [outcome_bind_ok, outcome_pure]
        by_cases hc : y.1 ≥ uint32_of_int ((x.MAXPATHLEN : Int) - (l1 : Int))
        · rw [if_pos hc, if_pos hc]
        · rw [if_neg hc, if_neg hc]
          cases read_buf y.1 y.2 with
          | bad e => rfl
          | ok p3 => rfl
    by_cases hL : has_flag flags XMIT_LONG_NAME = true
    · simp only [hL, if_true]
      exact key _
    · simp only [hL, if_false]
      exact key _

/-- The first length is a byte of the stream. -/
theorem recv_lengths_byte (flags : Nat) (s : List Nat) (hb : ∀ b ∈ s, b < 256)
    (l1 l2 : Nat) (s1 : List Nat) (h : recv_lengths flags s = outcome.ok ((l1, l2), s1)) :
    l1 < 256 ∧ l2 < 2 ^ 32 := by
  unfold recv_lengths at h
  rw [outcome_bind_eq_ok] at h
  obtain ⟨⟨a, sa⟩, h1, h⟩ := h
  simp only [] at h
  have ha : a < 256 ∧ ∀ c ∈ sa, c < 256 := by
    unfold read_if at h1
    split_ifs at h1
    · match s, hb, h1 with
      | c :: r, hb, h1 =>
        simp only [read_byte, outcome.ok.injEq, Prod.mk.injEq] at h1
        obtain ⟨rfl, rfl⟩ := h1
        exact ⟨hb _ (List.mem_cons_self _ _), fun d hd => hb d (List.mem_cons_of_mem _ hd)⟩
    · simp only [outcome.ok.injEq, Prod.mk.injEq] at h1
      obtain ⟨rfl, rfl⟩ := h1
      exact ⟨by decide, hb⟩
  split_ifs at h
  · rw [outcome_bind_eq_ok] at h
    obtain ⟨⟨b, sb⟩, h2, h⟩ := h
    simp only [outcome_pure, outcome.ok.injEq, Prod.mk.injEq] at h
    obtain ⟨⟨rfl, rfl⟩, rfl⟩ := h
    refine ⟨ha.1, ?_⟩
    unfold read_uint32 at h2
    cases h3 : read_int sa with
    | bad e => rw [h3] at h2; cases h2
    | ok p =>
      rw [h3, outcome_map_ok] at h2
      simp only [outcome.ok.injEq, Prod.mk.injEq] at h2
      rw [← h2.1]
      exact uint32_of_int_lt _
  · rw [outcome_bind_eq_ok] at h
    obtain ⟨⟨b, sb⟩, h2, h⟩ := h
    simp only [outcome_pure, outcome.ok.injEq, Prod.mk.injEq] at h
    obtain ⟨⟨rfl, rfl⟩, rfl⟩ := h
    refine ⟨ha.1, ?_⟩
    match sa, ha.2, h2 with
    | c :: r, hb2, h2 =>
      simp only [read_byte, outcome.ok.injEq, Prod.mk.injEq] at h2
      obtain ⟨rfl, rfl⟩ := h2
      have := hb2 _ (List.mem_cons_self _ _)
      omega

theorem no_overflow_exit_recv_lengths (flags : Nat) (s : List Nat) :
    no_overflow_exit (recv_lengths flags s) := by
  unfold recv_lengths
  repeat' (first
    | with_reducible exact no_overflow_exit_pure _
    | with_reducible exact no_overflow_exit_ok _
    | with_reducible exact no_overflow_exit_read_byte _
    | with_reducible exact no_overflow_exit_read_uint32 _
    | with_reducible apply no_overflow_exit_read_if
    | with_reducible apply no_overflow_exit_bind
    | rintro ⟨a, b⟩
    | split_ifs)

/-- The test of line 535 on lengths as received. -/
theorem recv_name_overflow (x : externals) (lastname : List Nat) (flags : Nat) (s : List Nat)
    (hb : ∀ b ∈ s, b < 256) (hM1 : 255 < x.MAXPATHLEN) (hM2 : (x.MAXPATHLEN : Int) < 2 ^ 31) :
    (recv_name x lastname flags s = outcome.bad fault.overflow_exit ↔
      ∃ l1 l2 s1, recv_lengths flags s = outcome.ok ((l1, l2), s1) ∧ l1 + l2 ≥ x.MAXPATHLEN) ∧
    (∀ l1 l2 thisname s1,
      recv_name x lastname flags s = outcome.ok ((l1, l2, thisname), s1) →
        l1 + l2 < x.MAXPATHLEN ∧ thisname.length ≤ l1 + l2) := by
  have hcond : ∀ l1 l2 : Nat, l1 < 256 →
      (l2 ≥ uint32_of_int ((x.MAXPATHLEN : Int) - (l1 : Int)) ↔ l1 + l2 ≥ x.MAXPATHLEN) := by
    intro l1 l2 h1
    have e : uint32_of_int ((x.MAXPATHLEN : Int) - (l1 : Int)) = x.MAXPATHLEN - l1 := by
      have e1 : ((x.MAXPATHLEN : Int) - (l1 : Int)) = ((x.MAXPATHLEN - l1 : Nat) : Int) := by
        omega
      rw [e1, uint32_of_int_nat]
      omega
    rw [e]
    omega
  rw [recv_name_lengths]
  constructor
  · rw [outcome_bind_eq_bad]
    constructor
    · rintro (h | ⟨⟨⟨l1, l2⟩, s1⟩, h1, h2⟩)
      · exact absurd h (no_overflow_exit_recv_lengths flags s)
      · refine ⟨l1, l2, s1, h1, ?_⟩
        simp only [] at h2
        by_cases hc : l2 ≥ uint32_of_int ((x.MAXPATHLEN : Int) - (l1 : Int))
        · exact (hcond l1 l2 (recv_lengths_byte flags s hb l1 l2 s1 h1).1).1 hc
        · rw [if_neg hc] at h2
          exact absurd h2 (no_overflow_exit_map _ _ (no_overflow_exit_read_buf _ _))
    · rintro ⟨l1, l2, s1, h1, h2⟩
      refine Or.inr ⟨((l1, l2), s1), h1, ?_⟩
      simp only []
      rw [if_pos ((hcond l1 l2 (recv_lengths_byte flags s hb l1 l2 s1 h1).1).2 h2)]
  · intro l1 l2 thisname s1 h
    rw [outcome_bind_eq_ok] at h
    obtain ⟨⟨⟨a, b⟩, sa⟩, h1, h2⟩ := h
    simp only [] at h2
    by_cases hc : b ≥ uint32_of_int ((x.MAXPATHLEN : Int) - (a : Int))
    · rw [if_pos hc] at h2
      cases h2
    · rw [if_neg hc] at h2
      have hlt : ¬ (a + b ≥ x.MAXPATHLEN) := fun h' =>
        hc ((hcond a b (recv_lengths_byte flags s hb a b sa h1).1).2 h')
      by_cases hlen : b ≤ sa.length
      · have e : read_buf b sa = outcome.ok (sa.take b, sa.drop b) := by
          unfold read_buf
          rw [if_pos hlen]
        rw [e, outcome_map_ok] at h2
        simp only [outcome.ok.injEq, Prod.mk.injEq] at h2
        obtain ⟨⟨rfl, rfl, rfl⟩, rfl⟩ := h2
        refine ⟨by omega, ?_⟩
        have hhead : (strlcpy lastname (a + 1)).length ≤ a := by
          unfold strlcpy
          rw [List.length_take]
          omega
        have hbuf : (cstr_of (List.take b sa)).length ≤ b := by
          unfold cstr_of
          exact le_trans (List.takeWhile_prefix _).length_le (by rw [List.length_take]; omega)
        by_cases hh : (strlcpy lastname (a + 1)).length < a
        · rw [if_pos hh]
          omega
        · rw [if_neg hh, List.length_append]
          omega
      · have e : read_buf b sa = outcome.bad fault.end_of_stream := by
          unfold read_buf
          rw [if_neg hlen]
        rw [e] at h2
        cases h2

/-- The test of line 605 on the link length as received. -/
theorem recv_link_len_overflow (o : options) (x : externals) (mode flags : Nat)
    (s : List Nat) :
    (recv_link_len o x mode flags s = outcome.bad fault.overflow_exit ↔
      o.preserve_links = true ∧ S_ISLNK x mode = true ∧
        ∃ len s3, read_int s = outcome.ok (len, s3) ∧ (len < 0 ∨ len ≥ (x.MAXPATHLEN : Int))) ∧
    (∀ ll fl s1, recv_link_len o x mode flags s = outcome.ok ((ll, fl), s1) →
      0 ≤ ll ∧ ll ≤ (x.MAXPATHLEN : Int)) := by
  unfold recv_link_len
  by_cases hl : o.preserve_links = true ∧ S_ISLNK x mode = true
  · simp only [hl, and_self, if_true, true_and]
    cases hr : read_int s with
    | bad e =>
      have hne : no_overflow_exit (read_int s) := no_overflow_exit_read_int s
      rw [hr] at hne
      constructor
      · constructor
        · intro h
          injection h with h
          subst h
          exact absurd rfl hne
        · rintro ⟨len, s3, h, -⟩
          cases h
      · intro ll fl s1 h
        cases h
    | ok p =>
      obtain ⟨len, s3⟩ := p
      simp only [outcome_bind_ok]
      by_cases hc : len + 1 ≤ 0 ∨ len + 1 > (x.MAXPATHLEN : Int)
      · rw [if_pos hc]
        constructor
        · constructor
          · intro _
            refine ⟨len, s3, rfl, ?_⟩
            omega
          · intro _
            rfl
        · intro ll fl s1 h
          cases h
      · rw [if_neg hc]
        constructor
        · constructor
          · intro h
            cases h
          · rintro ⟨len', s3', h, h'⟩
            simp only [outcome.ok.injEq, Prod.mk.injEq] at h
            obtain ⟨rfl, rfl⟩ := h
            omega
        · intro ll fl s1 h
          simp only [outcome_pure, outcome_bind_ok, outcome.ok.injEq, Prod.mk.injEq] at h
          obtain ⟨⟨rfl, -⟩, -⟩ := h
          omega
  · simp only [hl, if_false, outcome_pure, outcome_bind_ok]
    constructor
    · constructor
      · intro h
        cases h
      · rintro ⟨h1, h2, -⟩
        exact absurd ⟨h1, h2⟩ hl
    · intro ll fl s1 h
      simp only [outcome.ok.injEq, Prod.mk.injEq] at h
      obtain ⟨⟨rfl, -⟩, -⟩ := h
      exact ⟨le_refl _, by omega⟩

/-- The target of a symlink fits the length announced. -/
theorem recv_symlink_length (o : options) (x : externals) (rs : recv_state)
    (linkname_len : Int) (s : List Nat) (t s1 : List Nat)
    (h : recv_symlink o x rs linkname_len s = outcome.ok (t, s1))
    (h0 : 0 ≤ linkname_len) (hs : o.sanitize_paths = false) :
    (t.length : Int) + 1 ≤ max linkname_len 1 := by
  unfold recv_symlink at h
  by_cases hl : linkname_len ≠ 0
  · rw [if_pos hl, outcome_bind_eq_ok] at h
    obtain ⟨⟨buf, sb⟩, h1, h2⟩ := h
    simp only [hs, Bool.false_eq_true, if_false, outcome_pure, outcome.ok.injEq,
      Prod.mk.injEq] at h2
    obtain ⟨rfl, rfl⟩ := h2
    unfold read_buf at h1
    split_ifs at h1 with hlen
    simp only [outcome.ok.injEq, Prod.mk.injEq] at h1
    obtain ⟨rfl, rfl⟩ := h1
    have hbuf : (cstr_of (List.take (linkname_len - 1).toNat s)).length ≤
        (linkname_len - 1).toNat := by
      unfold cstr_of
      exact le_trans (List.takeWhile_prefix _).length_le (by rw [List.length_take]; omega)
    omega
  · rw [if_neg hl] at h
    simp only [outcome_pure, outcome.ok.injEq, Prod.mk.injEq] at h
    obtain ⟨rfl, rfl⟩ := h
    simp only [List.length_nil]
    omega

/-- C31: on a stream of bytes, with `MAXPATHLEN` above 255 and within an `int`,
`recv_file_entry` leaves through `overflow_exit` exactly when the lengths `l1` and `l2`
as received (`l2` as the `unsigned int` it is stored in, so that a negative 32-bit value
is a large one) have `l1 + l2 >= MAXPATHLEN`, or when the name and the fields up to the
device numbers were read, the entry is a symlink with `preserve_links`, and the link
length received is negative or `>= MAXPATHLEN`. When the name is read, `l1 + l2 <
MAXPATHLEN` and the name rebuilt fits with its NUL in `MAXPATHLEN` bytes; when the entry
is returned, its link target, before `sanitize_path` rewrites it, fits with its NUL in
`MAXPATHLEN` bytes. -/
theorem recv_file_entry_overflow_exit (o : options) (x : externals) (rs : recv_state)
    (flags : Nat) (s : List Nat) (hb : ∀ b ∈ s, b < 256) (hM1 : 255 < x.MAXPATHLEN)
    (hM2 : (x.MAXPATHLEN : Int) < 2 ^ 31) :
    (recv_file_entry o x rs flags s = outcome.bad fault.overflow_exit ↔
      (∃ l1 l2 s1, recv_lengths flags s = outcome.ok ((l1, l2), s1) ∧
        l1 + l2 ≥ x.MAXPATHLEN) ∨
      (∃ nm s1 fl rs1 s2 len s3,
        recv_name x rs.lastname flags s = outcome.ok (nm, s1) ∧
        recv_fields o x { rs with lastname := strlcpy nm.2.2 x.MAXPATHLEN } flags s1 =
          outcome.ok ((fl, rs1), s2) ∧
        o.preserve_links = true ∧ S_ISLNK x rs1.mode = true ∧
        read_int s2 = outcome.ok (len, s3) ∧ (len < 0 ∨ len ≥ (x.MAXPATHLEN : Int)))) ∧
    (∀ l1 l2 thisname s1,
      recv_name x rs.lastname flags s = outcome.ok ((l1, l2, thisname), s1) →
        l1 + l2 < x.MAXPATHLEN ∧ thisname.length + 1 ≤ x.MAXPATHLEN) ∧
    (∀ file rs1 s1, recv_file_entry o x rs flags s = outcome.ok ((file, rs1), s1) →
      (∃ l1 l2 thisname s2,
        recv_name x rs.lastname flags s = outcome.ok ((l1, l2, thisname), s2) ∧
        thisname.length + 1 ≤ x.MAXPATHLEN) ∧
      (o.sanitize_paths = false → file.symlink.length + 1 ≤ x.MAXPATHLEN)) := by
  obtain ⟨hname, hfit⟩ := recv_name_overflow x rs.lastname flags s hb hM1 hM2
  have hfit2 : ∀ l1 l2 thisname s1,
      recv_name x rs.lastname flags s = outcome.ok ((l1, l2, thisname), s1) →
        l1 + l2 < x.MAXPATHLEN ∧ thisname.length + 1 ≤ x.MAXPATHLEN := by
    intro l1 l2 thisname s1 h
    have := hfit l1 l2 thisname s1 h
    omega
  refine ⟨?_, hfit2, ?_⟩
  · unfold recv_file_entry
    rw [outcome_bind_eq_bad]
    constructor
    · rintro (h | ⟨⟨⟨l1, l2, thisname⟩, s1⟩, h1, h⟩)
      · exact Or.inl (hname.1 h)
      · simp only [] at h
        rw [outcome_bind_eq_bad] at h
        rcases h with h | ⟨⟨⟨fl, rs1⟩, s2⟩, h2, h⟩
        · exact absurd h (no_overflow_exit_recv_fields _ _ _ _ _)
        · simp only [] at h
          rw [outcome_bind_eq_bad] at h
          rcases h with h | ⟨⟨⟨ll, fl2⟩, s3⟩, h3, h⟩
          · obtain ⟨hp, hlnk, len, s4, hr, hlen⟩ :=
              (recv_link_len_overflow o x rs1.mode flags s2).1.1 h
            exact Or.inr ⟨(l1, l2, thisname), s1, fl, rs1, s2, len, s4, h1, h2, hp, hlnk, hr,
              hlen⟩
          · exfalso
            revert h
            simp only []
            show no_overflow_exit _
            repeat' (first
              | with_reducible exact no_overflow_exit_pure _
              | with_reducible exact no_overflow_exit_recv_split _ _ _
              | with_reducible exact no_overflow_exit_recv_symlink _ _ _ _ _
              | with_reducible exact no_overflow_exit_recv_idev _ _ _ _
              | with_reducible exact no_overflow_exit_recv_sum _ _ _
              | with_reducible apply no_overflow_exit_bind
              | intro p)
    · rintro (⟨l1, l2, s1, h1, h2⟩ | ⟨nm, s1, fl, rs1, s2, len, s3, h1, h2, hp, hlnk, hr, hlen⟩)
      · exact Or.inl (hname.2 ⟨l1, l2, s1, h1, h2⟩)
      · obtain ⟨l1, l2, thisname⟩ := nm
        refine Or.inr ⟨((l1, l2, thisname), s1), h1, ?_⟩
        simp only []
        simp only [] at h2
        rw [h2, outcome_bind_ok]
        simp only []
        rw [(recv_link_len_overflow o x rs1.mode flags s2).1.2 ⟨hp, hlnk, len, s3, hr, hlen⟩]
        rfl
  · intro file rs1 s1 h
    unfold recv_file_entry at h
    rw [outcome_bind_eq_ok] at h
    obtain ⟨⟨⟨l1, l2, thisname⟩, sa⟩, h1, h⟩ := h
    refine ⟨⟨l1, l2, thisname, sa, h1, (hfit2 l1 l2 thisname sa h1).2⟩, ?_⟩
    intro hsan
    simp only [] at h
    rw [outcome_bind_eq_ok] at h
    obtain ⟨⟨⟨fl, rs2⟩, sb⟩, h2, h⟩ := h
    simp only [] at h
    rw [outcome_bind_eq_ok] at h
    obtain ⟨⟨⟨ll, fl2⟩, sc⟩, h3, h⟩ := h
    simp only [] at h
    rw [outcome_bind_eq_ok] at h
    obtain ⟨⟨⟨dirname, basename, depth⟩, rs3⟩, h4, h⟩ := h
    simp only [] at h
    rw [outcome_bind_eq_ok] at h
    obtain ⟨⟨symlink, sd⟩, h5, h⟩ := h
    simp only [] at h
    rw [outcome_bind_eq_ok] at h
    obtain ⟨⟨⟨hl_idev, rs4⟩, se⟩, h6, h⟩ := h
    simp only [] at h
    rw [outcome_bind_eq_ok] at h
    obtain ⟨⟨sum, sf⟩, h7, h⟩ := h
    simp only [outcome_pure, outcome.ok.injEq, Prod.mk.injEq] at h
    obtain ⟨⟨rfl, -⟩, -⟩ := h
    simp only []
    obtain ⟨hl0, hl1⟩ := (recv_link_len_overflow o x rs2.mode flags sb).2 ll fl2 sc h3
    have := recv_symlink_length o x _ ll sc symlink sd h5 hl0 hsan
    have hmax : max ll 1 ≤ (x.MAXPATHLEN : Int) := max_le hl1 (by omega)
    omega

/-- A witness for C31: with `MAXPATHLEN` = 4096, an entry with `LONG_NAME` that
announces a name of 4096 bytes makes the receiver leave through `overflow_exit`. -/
theorem recv_file_entry_overflow_exit_witness :
    recv_lengths 64 [0, 16, 0, 0] = outcome.ok ((0, 4096), []) ∧
    recv_file_entry ex_options ex_externals {} 64 [0, 16, 0, 0] =
      outcome.bad fault.overflow_exit :=
  ⟨by decide,
    (recv_file_entry_overflow_exit ex_options ex_externals {} 64 [0, 16, 0, 0] (by decide)
      (by decide) (by decide)).1.2 (Or.inl ⟨0, 4096, [], by decide, by decide⟩)⟩

/-! ## `flist_find` under watch: the indices that a search touches -/

/-! ### Safety and termination of `flist_find` -/

theorem region_ok_window {files : List file_struct} {lo hi : Int}
    (h : region_ok files lo hi) : window_ok files lo hi :=
  ⟨h.lo_le, h.lo_active, h.hi_active, fun k e h1 _ h3 h4 => h.cursors k e h1 h3 h4⟩

theorem files_get_in_eq (lo hi : Int) (files : List file_struct) (i : Int)
    (h1 : lo ≤ i) (h2 : i ≤ hi) : files_get_in lo hi files i = files_get files i := by
  unfold files_get_in
  rw [if_pos ⟨h1, h2⟩]

theorem files_update_in_eq (lo hi : Int) (files : List file_struct) (i : Int)
    (g : file_struct → file_struct) (h1 : lo ≤ i) (h2 : i ≤ hi) :
    files_update_in lo hi files i g = outcome.ok (files_update files i g) := by
  unfold files_update_in
  rw [if_pos ⟨h1, h2⟩]

theorem window_hi_range {files : List file_struct} {lo hi : Int} (hr : window_ok files lo hi) :
    0 ≤ lo ∧ hi < files.length := by
  obtain ⟨g, hg, -⟩ := hr.lo_active
  obtain ⟨g', hg', -⟩ := hr.hi_active
  exact ⟨(files_get_range hg).1, (files_get_range hg').2⟩

/-- The scan upwards stays below `hi` and ends on the next active entry. -/
theorem scan_up_in_spec (files : List file_struct) (lo hi : Int) (hr : window_ok files lo hi) :
    ∀ (fuel : Nat) (s : Int), lo < s → s < hi → cleared_at files s → (hi - s).toNat ≤ fuel →
      ∃ m, scan_up_in lo hi files fuel s = outcome.ok m ∧ scan_up files fuel s = outcome.ok m ∧
        s < m ∧ m ≤ hi ∧ active_at files m ∧ ∀ x, s < x → x < m → cleared_at files x := by
  intro fuel
  induction fuel with
  | zero => intro s _ h2 _ h; omega
  | succ fuel ih =>
    intro s h1 h2 hc hf
    obtain ⟨e, he, hce⟩ := hc
    obtain ⟨d1, dskip, -, -⟩ := hr.cursors s e (by omega) (by omega) he hce
    have hnext : s + e.depth ≤ hi := by
      by_contra hgt
      exact not_active_and_cleared hr.hi_active (dskip hi h2 (by omega))
    obtain ⟨hlo0, hhi⟩ := window_hi_range hr
    obtain ⟨g, hg⟩ := files_get_in_range files (s + e.depth) (by omega) (by omega)
    have he' := files_get_in_eq lo hi files s (by omega) (by omega)
    have hg' := files_get_in_eq lo hi files (s + e.depth) (by omega) hnext
    unfold scan_up_in scan_up
    simp only [he', hg', he, hg, outcome_bind_ok]
    cases ha : F_IS_ACTIVE g
    · have hlt : s + e.depth < hi := by
        rcases lt_or_eq_of_le hnext with h | h
        · exact h
        · exfalso
          rw [h] at hg
          exact not_active_and_cleared hr.hi_active ⟨g, hg, ha⟩
      obtain ⟨m, hm, hm', hsm, hmh, hma, hbetween⟩ :=
        ih (s + e.depth) (by omega) hlt ⟨g, hg, ha⟩ (by omega)
      refine ⟨m, ?_, ?_, by omega, hmh, hma, ?_⟩
      · simpa using hm
      · simpa using hm'
      · intro x hx1 hx2
        rcases Int.lt_trichotomy x (s + e.depth) with h | h | h
        · exact dskip x hx1 h
        · rw [h]; exact ⟨g, hg, ha⟩
        · exact hbetween x h hx2
    · refine ⟨s + e.depth, by simp, by simp, by omega, hnext, ⟨g, hg, ha⟩, ?_⟩
      intro x hx1 hx2
      exact dskip x hx1 hx2

/-- The scan downwards stays above `lo` and ends on the next active entry. -/
theorem scan_down_in_spec (files : List file_struct) (lo hi : Int)
    (hr : window_ok files lo hi) :
    ∀ (fuel : Nat) (s : Int), lo < s → s < hi → cleared_at files s → (s - lo).toNat ≤ fuel →
      ∃ m, scan_down_in lo hi files fuel s = outcome.ok m ∧
        scan_down files fuel s = outcome.ok m ∧ m < s ∧ lo ≤ m ∧ active_at files m ∧
        ∀ x, m < x → x < s → cleared_at files x := by
  intro fuel
  induction fuel with
  | zero => intro s h1 _ _ h; omega
  | succ fuel ih =>
    intro s h1 h2 hc hf
    obtain ⟨e, he, hce⟩ := hc
    obtain ⟨-, -, l1, lskip⟩ := hr.cursors s e (by omega) (by omega) he hce
    have hnext : lo ≤ s - int_of_uint32 e.len32 := by
      by_contra hgt
      exact not_active_and_cleared hr.lo_active (lskip lo (by omega) h1)
    obtain ⟨hlo0, hhi⟩ := window_hi_range hr
    obtain ⟨g, hg⟩ := files_get_in_range files (s - int_of_uint32 e.len32) (by omega) (by omega)
    have he' := files_get_in_eq lo hi files s (by omega) (by omega)
    have hg' := files_get_in_eq lo hi files (s - int_of_uint32 e.len32) hnext (by omega)
    unfold scan_down_in scan_down
    simp only [he', hg', he, hg, outcome_bind_ok]
    cases ha : F_IS_ACTIVE g
    · have hlt : lo < s - int_of_uint32 e.len32 := by
        rcases lt_or_eq_of_le hnext with h | h
        · exact h
        · exfalso
          rw [← h] at hg
          exact not_active_and_cleared hr.lo_active ⟨g, hg, ha⟩
      obtain ⟨m, hm, hm', hsm, hmh, hma, hbetween⟩ :=
        ih (s - int_of_uint32 e.len32) hlt (by omega) ⟨g, hg, ha⟩ (by omega)
      refine ⟨m, ?_, ?_, by omega, hmh, hma, ?_⟩
      · simpa using hm
      · simpa using hm'
      · intro x hx1 hx2
        rcases Int.lt_trichotomy x (s - int_of_uint32 e.len32) with h | h | h
        · exact hbetween x hx1 h
        · rw [h]; exact ⟨g, hg, ha⟩
        · exact lskip x h hx2
    · refine ⟨s - int_of_uint32 e.len32, by simp, by simp, by omega, hnext, ⟨g, hg, ha⟩, ?_⟩
      intro x hx1 hx2
      exact lskip x hx1 hx2

/-- The window stays in order when the distances of one cleared entry inside it are
replaced by distances that skip cleared entries only. -/
theorem window_ok_update (files : List file_struct) (lo hi k : Int)
    (u : file_struct → file_struct) (hr : window_ok files lo hi) (hc : cleared_at files k)
    (hu : ∀ e, ∃ d l, u e = { e with depth := d, len32 := l })
    (hk : ∀ e, files_get files k = outcome.ok e → cursor_ok files k (u e)) :
    window_ok (files_update files k u) lo hi := by
  have hs := same_files_update files k u hc hu
  refine ⟨hr.lo_le, (same_files_active hs lo).2 hr.lo_active,
    (same_files_active hs hi).2 hr.hi_active, ?_⟩
  intro x e' hlx hxh hx hcl
  rw [files_get_update] at hx
  by_cases e : x = k
  · subst e
    simp only [if_true] at hx
    obtain ⟨g0, hg0, -⟩ := hc
    rw [hg0, outcome_map_ok] at hx
    injection hx with hx
    subst hx
    exact cursor_ok_same_files hs (hk g0 hg0)
  · simp only [e, if_false] at hx
    exact cursor_ok_same_files hs (hr.cursors x e' hlx hxh hx hcl)

/-- The lines 1462-1468 stay in the window and find the next active entry above a cleared
`mid`. -/
theorem find_mid_up_in_spec (files : List file_struct) (lo hi mid : Int)
    (hr : window_ok files lo hi) (h1 : lo < mid) (h2 : mid < hi) (hc : cleared_at files mid) :
    ∃ m files', find_mid_up_in lo hi files mid = outcome.ok (m, files') ∧
      find_mid_up files mid = outcome.ok (m, files') ∧ mid < m ∧ m ≤ hi ∧
      active_at files m ∧ (∀ x, mid < x → x < m → cleared_at files x) ∧
      same_files files files' ∧ window_ok files' lo hi := by
  obtain ⟨e, he, hce⟩ := hc
  obtain ⟨d1, dskip, l1, lskip⟩ := hr.cursors mid e (by omega) (by omega) he hce
  have hnext : mid + e.depth ≤ hi := by
    by_contra hgt
    exact not_active_and_cleared hr.hi_active (dskip hi h2 (by omega))
  obtain ⟨hlo0, hhi⟩ := window_hi_range hr
  obtain ⟨g, hg⟩ := files_get_in_range files (mid + e.depth) (by omega) (by omega)
  have he' := files_get_in_eq lo hi files mid (by omega) (by omega)
  have hg' := files_get_in_eq lo hi files (mid + e.depth) (by omega) hnext
  unfold find_mid_up_in find_mid_up
  simp only [he', hg', he, hg, outcome_bind_ok]
  cases ha : F_IS_ACTIVE g
  · have hlt : mid + e.depth < hi := by
      rcases lt_or_eq_of_le hnext with h | h
      · exact h
      · exfalso
        rw [h] at hg
        exact not_active_and_cleared hr.hi_active ⟨g, hg, ha⟩
    obtain ⟨m, hm, hm', hsm, hmh, hma, hbetween⟩ :=
      scan_up_in_spec files lo hi hr files.length (mid + e.depth) (by omega) hlt ⟨g, hg, ha⟩
        (by omega)
    have hall : ∀ x, mid < x → x < m → cleared_at files x := by
      intro x hx1 hx2
      rcases Int.lt_trichotomy x (mid + e.depth) with h | h | h
      · exact dskip x hx1 h
      · rw [h]; exact ⟨g, hg, ha⟩
      · exact hbetween x h hx2
    have hu : ∀ e : file_struct, ∃ d l,
        ({ e with depth := m - mid } : file_struct) = { e with depth := d, len32 := l } :=
      fun e => ⟨m - mid, e.len32, rfl⟩
    have hw := files_update_in_eq lo hi files mid (fun e => { e with depth := m - mid })
      (by omega) (by omega)
    refine ⟨m, files_update files mid fun e => { e with depth := m - mid }, ?_, ?_, by omega,
      hmh, hma, hall, same_files_update files mid _ ⟨e, he, hce⟩ hu, ?_⟩
    · simp [hm, hw]
    · simp [hm']
    · apply window_ok_update files lo hi mid _ hr ⟨e, he, hce⟩ hu
      intro e0 he0
      rw [he] at he0
      injection he0 with he0
      subst he0
      refine ⟨by simp only; omega, ?_, l1, lskip⟩
      intro x hx1 hx2
      exact hall x hx1 (by simp only at hx2; omega)
  · refine ⟨mid + e.depth, files, by simp, by simp, by omega, hnext, ⟨g, hg, ha⟩, dskip,
      same_files_refl files, hr⟩

/-- The lines 1472-1478 stay in the window and find the next active entry below a cleared
`mid`. -/
theorem find_high_in_spec (files : List file_struct) (lo hi mid : Int)
    (hlen : (files.length : Int) < 2 ^ 31)
    (hr : window_ok files lo hi) (h1 : lo < mid) (h2 : mid < hi) (hc : cleared_at files mid) :
    ∃ m files', find_high_in lo hi files mid = outcome.ok (m, files') ∧
      find_high files mid = outcome.ok (m, files') ∧ m < mid ∧ lo ≤ m ∧
      active_at files m ∧ (∀ x, m < x → x < mid → cleared_at files x) ∧
      same_files files files' ∧ window_ok files' lo hi := by
  obtain ⟨e, he, hce⟩ := hc
  obtain ⟨d1, dskip, l1, lskip⟩ := hr.cursors mid e (by omega) (by omega) he hce
  have hnext : lo ≤ mid - int_of_uint32 e.len32 := by
    by_contra hgt
    exact not_active_and_cleared hr.lo_active (lskip lo (by omega) h1)
  obtain ⟨hlo0, hhi⟩ := window_hi_range hr
  obtain ⟨g, hg⟩ := files_get_in_range files (mid - int_of_uint32 e.len32) (by omega) (by omega)
  have he' := files_get_in_eq lo hi files mid (by omega) (by omega)
  have hg' := files_get_in_eq lo hi files (mid - int_of_uint32 e.len32) hnext (by omega)
  unfold find_high_in find_high
  simp only [he', hg', he, hg, outcome_bind_ok]
  cases ha : F_IS_ACTIVE g
  · have hlt : lo < mid - int_of_uint32 e.len32 := by
      rcases lt_or_eq_of_le hnext with h | h
      · exact h
      · exfalso
        rw [← h] at hg
        exact not_active_and_cleared hr.lo_active ⟨g, hg, ha⟩
    obtain ⟨m, hm, hm', hsm, hmh, hma, hbetween⟩ :=
      scan_down_in_spec files lo hi hr files.length (mid - int_of_uint32 e.len32) hlt (by omega)
        ⟨g, hg, ha⟩ (by omega)
    have hall : ∀ x, m < x → x < mid → cleared_at files x := by
      intro x hx1 hx2
      rcases Int.lt_trichotomy x (mid - int_of_uint32 e.len32) with h | h | h
      · exact hbetween x hx1 h
      · rw [h]; exact ⟨g, hg, ha⟩
      · exact lskip x h hx2
    have hu : ∀ e : file_struct, ∃ d l,
        ({ e with len32 := uint32_of_int (mid - m) } : file_struct) =
          { e with depth := d, len32 := l } :=
      fun e => ⟨e.depth, uint32_of_int (mid - m), rfl⟩
    have hw := files_update_in_eq lo hi files mid
      (fun e => { e with len32 := uint32_of_int (mid - m) }) (by omega) (by omega)
    refine ⟨m, files_update files mid fun e => { e with len32 := uint32_of_int (mid - m) }, ?_,
      ?_, by omega, hmh, hma, hall, same_files_update files mid _ ⟨e, he, hce⟩ hu, ?_⟩
    · simp [hm, hw]
    · simp [hm']
    · apply window_ok_update files lo hi mid _ hr ⟨e, he, hce⟩ hu
      intro e0 he0
      rw [he] at he0
      injection he0 with he0
      subst he0
      have hrt : int_of_uint32 (uint32_of_int (mid - m)) = mid - m :=
        int_of_uint32_of_int _ (by omega) (by omega)
      refine ⟨d1, dskip, by simp only; rw [hrt]; omega, ?_⟩
      intro x hx1 hx2
      simp only [hrt] at hx1
      exact hall x (by omega) hx2
  · refine ⟨mid - int_of_uint32 e.len32, files, by simp, by simp, by omega, hnext,
      ⟨g, hg, ha⟩, lskip, same_files_refl files, hr⟩

/-- The comparison at an active entry `p` of the window: the run goes on as without the
watch, and it ends with a fault only when the call of `f_name_cmp` does. -/
theorem find_compare_in_spec (pv : Int) (f : file_struct) (files0 files : List file_struct)
    (lo hi : Int) (hs : same_files files0 files) (low high mid p : Int)
    (h1 : lo ≤ p) (h2 : p ≤ hi) (hp : active_at files p) :
    find_compare_in lo hi pv files f low high mid p = find_compare pv files f low high mid p ∧
    ((∃ v, find_compare pv files f low high mid p = outcome.ok v ∧
        (v = Sum.inl (-1) ∨ v = Sum.inl p ∨ v = Sum.inr (p + 1, high) ∨
          v = Sum.inr (low, mid - 1))) ∨
      (∃ e, find_compare pv files f low high mid p = outcome.bad e ∧
        cmp_fault pv f files0 lo hi e)) := by
  obtain ⟨g, hg, ha⟩ := hp
  have hg0 : files_get files0 p = outcome.ok g := same_files_active_get hs hg ha
  have hg' := files_get_in_eq lo hi files p h1 h2
  constructor
  · unfold find_compare_in find_compare
    rw [hg']
  · unfold find_compare
    simp only [hg, outcome_bind_ok]
    cases hc : run_cmp pv (some g) (some f) with
    | bad e =>
      exact Or.inr ⟨e, rfl, p, g, h1, h2, hg0, ha, hc⟩
    | ok d =>
      left
      simp only [outcome_bind_ok]
      by_cases hz : d = 0
      · simp only [hz, if_true]
        by_cases hm : pv < 29 ∧ S_ISDIR g.mode ≠ S_ISDIR f.mode
        · exact ⟨Sum.inl (-1), by simp [hm], Or.inl rfl⟩
        · exact ⟨Sum.inl p, by simp [hm], Or.inr (Or.inl rfl)⟩
      · by_cases hneg : d < 0
        · exact ⟨Sum.inr (p + 1, high), by simp [hz, hneg], Or.inr (Or.inr (Or.inl rfl))⟩
        · exact ⟨Sum.inr (low, mid - 1), by simp [hz, hneg], Or.inr (Or.inr (Or.inr rfl))⟩

/-- The loop of `flist_find` on a window in order, for any key: every index it reads or
writes lies in the window, and it ends, either with a value and the array as it was up to
the distances of cleared entries, or with the fault of a call of `f_name_cmp`. -/
theorem flist_find_loop_in_spec (pv : Int) (f : file_struct) (files0 : List file_struct)
    (lo hi : Int) (hlen : (files0.length : Int) < 2 ^ 31) :
    ∀ (fuel : Nat) (files : List file_struct) (low high : Int),
      same_files files0 files → window_ok files lo hi → lo ≤ low → high ≤ hi →
      (high - low + 1).toNat < fuel →
      flist_find_loop_in lo hi pv f fuel files low high =
        flist_find_loop pv f fuel files low high ∧
      ((∃ r files', flist_find_loop pv f fuel files low high = outcome.ok (r, files') ∧
          same_files files0 files' ∧ window_ok files' lo hi ∧
          (r = -1 ∨ (lo ≤ r ∧ r ≤ hi ∧ active_at files0 r))) ∨
        (∃ e, flist_find_loop pv f fuel files low high = outcome.bad e ∧
          cmp_fault pv f files0 lo hi e)) := by
  intro fuel
  induction fuel with
  | zero => intro files low high _ _ _ _ h; omega
  | succ fuel ih =>
    intro files low high hs hr hlo hhi' hfuel
    obtain ⟨hlo0, hhi⟩ := window_hi_range hr
    rw [flist_find_loop_in, flist_find_loop]
    by_cases hlh : low ≤ high
    · simp only [hlh, if_true]
      have hmid_eq : Int.tdiv (low + high) 2 = (low + high) / 2 :=
        Int.tdiv_eq_ediv (by omega) (by omega)
      rw [hmid_eq]
      generalize hmid : (low + high) / 2 = mid
      have hm1 : low ≤ mid := by omega
      have hm2 : mid ≤ high := by omega
      obtain ⟨fmid, hfmid⟩ := files_get_in_range files mid (by omega) (by omega)
      have hfmid' := files_get_in_eq lo hi files mid (by omega) (by omega)
      simp only [hfmid', hfmid, outcome_bind_ok]
      -- what a comparison at an active entry `p` of the window leads to
      have step : ∀ (files1 : List file_struct) (p : Int), same_files files0 files1 →
          window_ok files1 lo hi → mid ≤ p → p ≤ high → active_at files1 p →
          ((do
              match ← find_compare_in lo hi pv files1 f low high mid p with
              | Sum.inl r => pure (r, files1)
              | Sum.inr (low, high) => flist_find_loop_in lo hi pv f fuel files1 low high) =
            (do
              match ← find_compare pv files1 f low high mid p with
              | Sum.inl r => pure (r, files1)
              | Sum.inr (low, high) => flist_find_loop pv f fuel files1 low high)) ∧
          ((∃ r files', (do
                match ← find_compare pv files1 f low high mid p with
                | Sum.inl r => pure (r, files1)
                | Sum.inr (low, high) => flist_find_loop pv f fuel files1 low high) =
              outcome.ok (r, files') ∧
              same_files files0 files' ∧ window_ok files' lo hi ∧
              (r = -1 ∨ (lo ≤ r ∧ r ≤ hi ∧ active_at files0 r))) ∨
            (∃ e, (do
                match ← find_compare pv files1 f low high mid p with
                | Sum.inl r => pure (r, files1)
                | Sum.inr (low, high) => flist_find_loop pv f fuel files1 low high) =
              outcome.bad e ∧ cmp_fault pv f files0 lo hi e)) := by
        intro files1 p hs1 hr1 hp1 hp2 hpa
        obtain ⟨heq, hres⟩ := find_compare_in_spec pv f files0 files1 lo hi hs1 low high mid p
          (by omega) (by omega) hpa
        rw [heq]
        rcases hres with ⟨v, hv, hcases⟩ | ⟨e, he, hcf⟩
        · rw [hv]
          simp only [outcome_bind_ok]
          rcases hcases with rfl | rfl | rfl | rfl
          · exact ⟨rfl, Or.inl ⟨-1, files1, rfl, hs1, hr1, Or.inl rfl⟩⟩
          · exact ⟨rfl, Or.inl ⟨p, files1, rfl, hs1, hr1,
              Or.inr ⟨by omega, by omega, (same_files_active hs1 p).1 hpa⟩⟩⟩
          · exact ih files1 (p + 1) high hs1 hr1 (by omega) hhi' (by omega)
          · exact ih files1 low (mid - 1) hs1 hr1 hlo (by omega) (by omega)
        · rw [he]
          exact ⟨rfl, Or.inr ⟨e, rfl, hcf⟩⟩
      cases ha : F_IS_ACTIVE fmid
      · simp only [Bool.false_eq_true, if_false]
        have hc : cleared_at files mid := ⟨fmid, hfmid, ha⟩
        have hlm : lo < mid := by
          rcases lt_or_eq_of_le (show lo ≤ mid by omega) with h | h
          · exact h
          · exfalso; rw [← h] at hc; exact not_active_and_cleared hr.lo_active hc
        have hmh : mid < hi := by
          rcases lt_or_eq_of_le (show mid ≤ hi by omega) with h | h
          · exact h
          · exfalso; rw [h] at hc; exact not_active_and_cleared hr.hi_active hc
        obtain ⟨m, files1, hfm', hfm, hm3, hm4, hma, hbetween, hs1, hr1⟩ :=
          find_mid_up_in_spec files lo hi mid hr hlm hmh hc
        simp only [hfm', hfm, outcome_bind_ok]
        have hs01 := same_files_trans hs hs1
        by_cases hgt : m > high
        · simp only [hgt, if_true]
          have hlen1 : (files1.length : Int) < 2 ^ 31 := by rw [hs01.1]; exact hlen
          obtain ⟨h, files2, hfh', hfh, hh1, hh2, hha, hbelow, hs2, hr2⟩ :=
            find_high_in_spec files1 lo hi mid hlen1 hr1 hlm hmh
              ((same_files_cleared hs1 mid).2 hc)
          simp only [hfh', hfh, outcome_bind_ok]
          exact ih files2 low h (same_files_trans hs01 hs2) hr2 hlo (by omega) (by omega)
        · simp only [hgt, if_false]
          exact step files1 m hs01 hr1 (by omega) (by omega) ((same_files_active hs1 m).2 hma)
      · simp only [if_true]
        exact step files mid hs hr (le_refl _) hm2 ⟨fmid, hfmid, ha⟩
    · rw [if_neg hlh, if_neg hlh]
      exact ⟨rfl, Or.inl ⟨-1, files, rfl, hs, hr, Or.inl rfl⟩⟩

/-- Stripping the root leaves the distances of an entry as they are. -/
theorem strip_entry_cursor (e : file_struct) :
    F_IS_ACTIVE (strip_entry e) = F_IS_ACTIVE e ∧ (strip_entry e).depth = e.depth ∧
    (strip_entry e).len32 = e.len32 := by
  unfold strip_entry
  cases e.dirname <;> exact ⟨rfl, rfl, rfl⟩

/-- A window in order stays in order when entries are replaced by entries with the same
distances that are active or cleared as before. -/
theorem window_ok_map (files files' : List file_struct) (lo hi : Int)
    (u : Int → file_struct → file_struct)
    (hu : ∀ k e, F_IS_ACTIVE (u k e) = F_IS_ACTIVE e ∧ (u k e).depth = e.depth ∧
      (u k e).len32 = e.len32)
    (hget : ∀ k, files_get files' k = outcome.map (u k) (files_get files k))
    (hw : window_ok files lo hi) : window_ok files' lo hi := by
  have hact : ∀ k, active_at files k → active_at files' k := by
    rintro k ⟨g, hg, ha⟩
    exact ⟨u k g, by rw [hget, hg]; rfl, by rw [(hu k g).1]; exact ha⟩
  have hcl : ∀ k, cleared_at files k → cleared_at files' k := by
    rintro k ⟨g, hg, ha⟩
    exact ⟨u k g, by rw [hget, hg]; rfl, by rw [(hu k g).1]; exact ha⟩
  refine ⟨hw.lo_le, hact _ hw.lo_active, hact _ hw.hi_active, ?_⟩
  intro k e' h1 h2 hk hc
  rw [hget] at hk
  cases hg : files_get files k with
  | bad w => rw [hg] at hk; cases hk
  | ok g =>
    rw [hg, outcome_map_ok] at hk
    injection hk with hk
    subst hk
    obtain ⟨d, ds, l, ls⟩ := hw.cursors k g h1 h2 hg (by rw [← (hu k g).1]; exact hc)
    refine ⟨by rw [(hu k g).2.1]; exact d, ?_, by rw [(hu k g).2.2]; exact l, ?_⟩
    · intro m hm1 hm2
      rw [(hu k g).2.1] at hm2
      exact hcl m (ds m hm1 hm2)
    · intro m hm1 hm2
      rw [(hu k g).2.2] at hm1
      exact hcl m (ls m hm1 hm2)

/-- The list that `clean_flist` with `no_dups` leaves, given a non-empty list of active
entries on whose pairs `f_name_cmp` returns: its window `low .. high` is in order. -/
theorem clean_flist_window (qsort : List file_struct → List file_struct)
    (pv : Int) (flist : file_list) (strip_root no_dups : Int)
    (hne : flist.files ≠ []) (hlen : (flist.files.length : Int) < 2 ^ 31)
    (hl : list_ok pv flist.files)
    (hperm : (qsort flist.files).Perm flist.files)
    (hsorted : sorted_by_cmp pv (qsort flist.files))
    (hnd : no_dups ≠ 0) :
    ∃ cl, clean_flist qsort pv flist strip_root no_dups = outcome.ok cl ∧
      window_ok cl.files cl.low cl.high ∧ cl.files.length = flist.files.length := by
  have hn := list_ok_names hperm hl
  have hks := sorted_keys hn hsorted
  have hlen' : ((qsort flist.files).length : Int) < 2 ^ 31 := by
    rw [hperm.length_eq]; exact hlen
  obtain ⟨cl, i, hrun, hinv, -, hend⟩ :=
    clean_flist_twin qsort flist no_dups hnd hn hks hlen' hperm.length_eq hne
  have hcl : cl.files.length = flist.files.length := by
    rw [hinv.len, hperm.length_eq]
  by_cases hsr : strip_root = 0
  · subst hsr
    exact ⟨cl, hrun, region_ok_window hinv.region, hcl⟩
  · obtain ⟨hlo0, hhi⟩ := region_hi_range hinv.region
    have hle := hinv.region.lo_le
    obtain ⟨files', hstrip, hlen2, hget⟩ :=
      strip_root_loop_spec (cl.high + 1 - cl.low).toNat cl.files cl.low hlo0
        (by rw [Int.toNat_of_nonneg (by omega)]; omega)
    refine ⟨{ cl with files := files' }, ?_, ?_, by simp only; rw [hlen2, hcl]⟩
    · rw [clean_flist_strip_root qsort pv flist strip_root no_dups hsr hne, hrun]
      simp only [outcome.bind, hstrip]
    · apply window_ok_map cl.files files' cl.low cl.high
        (fun k e => if cl.low ≤ k ∧ k < cl.low + ((cl.high + 1 - cl.low).toNat : Int) then
          strip_entry e else e) ?_ ?_ (region_ok_window hinv.region)
      · intro k e
        simp only []
        split_ifs
        · exact strip_entry_cursor e
        · exact ⟨rfl, rfl, rfl⟩
      · intro k
        rw [hget k]
        simp only []
        split_ifs
        · rfl
        · cases files_get cl.files k <;> rfl

/-- C36: let `files[low]` and `files[high]` be active and every cleared entry of
`low .. high` hold distances that are at least 1 and skip cleared entries only. Then for
every key `f` the run of `flist_find` in which every index read or written has to lie in
`low .. high` is the run of `flist_find`: no index outside them is touched. The run
ends: either it returns -1 or the index of an active entry of `low .. high`, and leaves
`low`, `high`, the length of the array and every active entry as they were, cleared
entries changed in their two distances at most, the window still in order; or it ends
with the fault of a call `f_name_cmp(files[k], f)` on an active entry of the window. When
`f_name_cmp` returns on every active entry of the window and `f`, the run returns. -/
theorem flist_find_safe (pv : Int) (flist : file_list) (f : file_struct)
    (hlen : (flist.files.length : Int) < 2 ^ 31)
    (hw : window_ok flist.files flist.low flist.high) :
    flist_find_in pv flist f = flist_find pv flist f ∧
    ((∃ r files', flist_find pv flist f = outcome.ok (r, { flist with files := files' }) ∧
        same_files flist.files files' ∧ window_ok files' flist.low flist.high ∧
        (r = -1 ∨ (flist.low ≤ r ∧ r ≤ flist.high ∧ active_at flist.files r))) ∨
      (∃ e, flist_find pv flist f = outcome.bad e ∧
        cmp_fault pv f flist.files flist.low flist.high e)) ∧
    ((∀ k g, flist.low ≤ k → k ≤ flist.high → files_get flist.files k = outcome.ok g →
        F_IS_ACTIVE g = true → (f_name_cmp pv (some g) (some f)).returned = true) →
      ∃ r files', flist_find pv flist f = outcome.ok (r, { flist with files := files' }) ∧
        same_files flist.files files' ∧ window_ok files' flist.low flist.high ∧
        (r = -1 ∨ (flist.low ≤ r ∧ r ≤ flist.high ∧ active_at flist.files r))) := by
  obtain ⟨heq, hres⟩ := flist_find_loop_in_spec pv f flist.files flist.low flist.high hlen
    (flist.files.length + 1) flist.files flist.low flist.high (same_files_refl _) hw
    (le_refl _) (le_refl _) (by
      have := window_hi_range hw
      omega)
  have hmain : (∃ r files',
        flist_find pv flist f = outcome.ok (r, { flist with files := files' }) ∧
        same_files flist.files files' ∧ window_ok files' flist.low flist.high ∧
        (r = -1 ∨ (flist.low ≤ r ∧ r ≤ flist.high ∧ active_at flist.files r))) ∨
      (∃ e, flist_find pv flist f = outcome.bad e ∧
        cmp_fault pv f flist.files flist.low flist.high e) := by
    rcases hres with ⟨r, files', hrun, hs, hw', hr⟩ | ⟨e, hrun, hcf⟩
    · refine Or.inl ⟨r, files', ?_, hs, hw', hr⟩
      unfold flist_find
      rw [hrun]
      rfl
    · refine Or.inr ⟨e, ?_, hcf⟩
      unfold flist_find
      rw [hrun]
      rfl
  refine ⟨?_, hmain, ?_⟩
  · unfold flist_find_in flist_find
    rw [heq]
  · intro hcmp
    rcases hmain with h | ⟨e, -, k, g, h1, h2, hg, ha, hbad⟩
    · exact h
    · exfalso
      have hret := hcmp k g h1 h2 hg ha
      unfold run_cmp at hbad
      cases hc : f_name_cmp pv (some g) (some f) with
      | ret d => rw [hc] at hbad; cases hbad
      | overread => rw [hc] at hret; cases hret
      | nofuel => rw [hc] at hret; cases hret

/-- The window of the cleaned example list is in order. -/
theorem ex_list_cleaned_window :
    window_ok ex_list_cleaned.files ex_list_cleaned.low ex_list_cleaned.high := by
  obtain ⟨cl, hrun, hw, -⟩ := clean_flist_window id 29 ex_list_dup 0 1 (by decide) (by decide)
    (by decide) (List.Perm.refl _) (by decide) (by decide)
  have e : clean_flist id 29 ex_list_dup 0 1 = outcome.ok ex_list_cleaned := by decide
  rw [e] at hrun
  injection hrun with hrun
  subst hrun
  exact hw

/-- A witness for C36: the search for the directory `a/c` in the cleaned example list,
whose entry 2 is cleared, stays in `0 .. 3` and returns. -/
theorem flist_find_safe_witness :
    flist_find_in 29 ex_list_cleaned ex_dir_a_c = flist_find 29 ex_list_cleaned ex_dir_a_c ∧
    ∃ r files', flist_find 29 ex_list_cleaned ex_dir_a_c =
        outcome.ok (r, { ex_list_cleaned with files := files' }) ∧
      same_files ex_list_cleaned.files files' ∧
      window_ok files' ex_list_cleaned.low ex_list_cleaned.high ∧
      (r = -1 ∨ (ex_list_cleaned.low ≤ r ∧ r ≤ ex_list_cleaned.high ∧
        active_at ex_list_cleaned.files r)) :=
  ⟨(flist_find_safe 29 ex_list_cleaned ex_dir_a_c (by decide) ex_list_cleaned_window).1,
    (flist_find_safe 29 ex_list_cleaned ex_dir_a_c (by decide) ex_list_cleaned_window).2.2
      (fun _ g _ _ hg _ =>
        (by decide : ∀ g ∈ ex_list_cleaned.files,
          (f_name_cmp 29 (some g) (some ex_dir_a_c)).returned = true) g (files_get_mem hg))⟩

/-! ## The distances of cleared entries -/

/-! ### Cached distances are lower bounds -/

/-- A call of `clear_file` on an entry between the bounds leaves the window in order. -/
theorem window_ok_clear_file (files : List file_struct) (lo hi i : Int)
    (hw : window_ok files lo hi) (h1 : lo < i) (h2 : i < hi) :
    window_ok (files_update files i clear_file) lo hi := by
  have hget := files_get_update files i
  have hact : ∀ k, k ≠ i → active_at files k → active_at (files_update files i clear_file) k := by
    rintro k hk ⟨g, hg, ha⟩
    exact ⟨g, by rw [hget, if_neg hk]; exact hg, ha⟩
  have hcl : ∀ k, cleared_at files k → cleared_at (files_update files i clear_file) k := by
    rintro k ⟨g, hg, ha⟩
    by_cases hk : k = i
    · subst hk
      exact ⟨clear_file g, by rw [hget, if_pos rfl, hg]; rfl, rfl⟩
    · exact ⟨g, by rw [hget, if_neg hk]; exact hg, ha⟩
  refine ⟨hw.lo_le, hact lo (by omega) hw.lo_active, hact hi (by omega) hw.hi_active, ?_⟩
  intro k e hk1 hk2 hk hc
  rw [hget] at hk
  by_cases hki : k = i
  · subst hki
    rw [if_pos rfl] at hk
    cases hg : files_get files k with
    | bad w => rw [hg] at hk; cases hk
    | ok g =>
      rw [hg, outcome_map_ok] at hk
      injection hk with hk
      subst hk
      exact cursor_ok_clear_file _ _ _
  · rw [if_neg hki] at hk
    obtain ⟨d, ds, l, ls⟩ := hw.cursors k e hk1 hk2 hk hc
    exact ⟨d, fun m a b => hcl m (ds m a b), l, fun m a b => hcl m (ls m a b)⟩

/-- Every state that a list with its window in order reaches has its window in order,
with the bounds and the length of the array as they were. -/
theorem flist_reachable_window (pv : Int) (cl : file_list)
    (hlen : (cl.files.length : Int) < 2 ^ 31) (hw : window_ok cl.files cl.low cl.high)
    (fl : file_list) (h : flist_reachable pv cl fl) :
    window_ok fl.files fl.low fl.high ∧ fl.low = cl.low ∧ fl.high = cl.high ∧
      fl.files.length = cl.files.length := by
  induction h with
  | start => exact ⟨hw, rfl, rfl, rfl⟩
  | clear fl i _ h1 h2 ih =>
    obtain ⟨hw', hlo, hhi, hl⟩ := ih
    exact ⟨window_ok_clear_file fl.files fl.low fl.high i hw' h1 h2, hlo, hhi,
      by simp only; rw [files_update_length, hl]⟩
  | find fl f r fl' _ hrun ih =>
    obtain ⟨hw', hlo, hhi, hl⟩ := ih
    obtain ⟨-, hres, -⟩ := flist_find_safe pv fl f (by rw [hl]; exact hlen) hw'
    rcases hres with ⟨r', files', hrun', hs, hw'', -⟩ | ⟨e, hbad, -⟩
    · rw [hrun] at hrun'
      simp only [outcome.ok.injEq, Prod.mk.injEq] at hrun'
      obtain ⟨-, rfl⟩ := hrun'
      exact ⟨hw'', hlo, hhi, by simp only; rw [hs.1, hl]⟩
    · rw [hrun] at hbad
      cases hbad

/-- C34, as it stands, fails: `clean_flist` leaves the list `a`, `a/b.txt`, `a/c`,
`a/c/d.txt` as it is, and after `clear_file` on its entries 1 and 2 the cleared entry 1
holds the forward distance 1, while entry 2 is cleared and the nearest active entry above
it is entry 3, at the distance 2: the stored distance is below the distance, neither equal
to it nor an upper bound. -/
theorem cleared_distance_below_nearest :
    clean_flist id 29 { ex_list_four with high := 0 } 0 1 = outcome.ok ex_list_four ∧
    flist_reachable 29 ex_list_four ex_list_two_cleared ∧
    (∃ e, files_get ex_list_two_cleared.files 1 = outcome.ok e ∧ F_IS_ACTIVE e = false ∧
      e.depth = 1) ∧
    cleared_at ex_list_two_cleared.files 2 ∧ active_at ex_list_two_cleared.files 3 := by
  refine ⟨by decide, ?_, ⟨_, rfl, rfl, rfl⟩, ⟨_, rfl, rfl⟩, ⟨_, rfl, rfl⟩⟩
  exact flist_reachable.clear _ 2
    (flist_reachable.clear _ 1 flist_reachable.start (by decide) (by decide))
    (by decide) (by decide)

/-- C34, amended: let a non-empty list of active entries on whose pairs `f_name_cmp`
returns be cleaned by `clean_flist` with `no_dups` set. In every state reached from the
cleaned list through calls of `clear_file` on entries between `files[low]` and
`files[high]` and through calls of `flist_find` that return, `low` and `high` are as they
were and hold active entries, and every cleared entry `k` of `low .. high` has an active
entry on either side and stores a forward distance `dir.depth` and a backward distance
`len32` that are at least 1 and at most the distance to any active entry, so to the
nearest one, in that direction: lower bounds that skip no active entry. -/
theorem cleared_distances_lower_bounds (qsort : List file_struct → List file_struct)
    (pv : Int) (flist : file_list) (strip_root no_dups : Int)
    (hne : flist.files ≠ []) (hlen : (flist.files.length : Int) < 2 ^ 31)
    (hl : list_ok pv flist.files)
    (hperm : (qsort flist.files).Perm flist.files)
    (hsorted : sorted_by_cmp pv (qsort flist.files))
    (hnd : no_dups ≠ 0) :
    ∃ cl, clean_flist qsort pv flist strip_root no_dups = outcome.ok cl ∧
      ∀ fl, flist_reachable pv cl fl →
        fl.low = cl.low ∧ fl.high = cl.high ∧
        active_at fl.files fl.low ∧ active_at fl.files fl.high ∧
        ∀ k e, fl.low ≤ k → k ≤ fl.high → files_get fl.files k = outcome.ok e →
          F_IS_ACTIVE e = false →
          fl.low < k ∧ k < fl.high ∧ 1 ≤ e.depth ∧ 1 ≤ int_of_uint32 e.len32 ∧
          (∀ m, k < m → active_at fl.files m → k + e.depth ≤ m) ∧
          (∀ m, m < k → active_at fl.files m → m ≤ k - int_of_uint32 e.len32) := by
  obtain ⟨cl, hrun, hw, hcl⟩ := clean_flist_window qsort pv flist strip_root no_dups hne hlen
    hl hperm hsorted hnd
  refine ⟨cl, hrun, ?_⟩
  intro fl hreach
  obtain ⟨hw', hlo, hhi, -⟩ := flist_reachable_window pv cl (by rw [hcl]; exact hlen) hw fl
    hreach
  refine ⟨hlo, hhi, hw'.lo_active, hw'.hi_active, ?_⟩
  intro k e hk1 hk2 hk hc
  obtain ⟨d, ds, l, ls⟩ := hw'.cursors k e hk1 hk2 hk hc
  have hne1 : k ≠ fl.low := by
    intro h
    rw [h] at hk
    exact not_active_and_cleared hw'.lo_active ⟨e, hk, hc⟩
  have hne2 : k ≠ fl.high := by
    intro h
    rw [h] at hk
    exact not_active_and_cleared hw'.hi_active ⟨e, hk, hc⟩
  refine ⟨by omega, by omega, d, l, ?_, ?_⟩
  · intro m hm ha
    by_contra hlt
    exact not_active_and_cleared ha (ds m hm (by omega))
  · intro m hm ha
    by_contra hlt
    exact not_active_and_cleared ha (ls m (by omega) hm)

/-- A witness for C34: the list `a`, `a/b.txt`, `a/b.txt`, `a/c` is cleaned under
protocol 29, and every state reached from the cleaned list has its bounds active. -/
theorem cleared_distances_lower_bounds_witness :
    ∃ cl, clean_flist (ex_qsort 29) 29 ex_list_dup 0 1 = outcome.ok cl ∧
      ∀ fl, flist_reachable 29 cl fl →
        fl.low = cl.low ∧ fl.high = cl.high ∧
        active_at fl.files fl.low ∧ active_at fl.files fl.high ∧
        ∀ k e, fl.low ≤ k → k ≤ fl.high → files_get fl.files k = outcome.ok e →
          F_IS_ACTIVE e = false →
          fl.low < k ∧ k < fl.high ∧ 1 ≤ e.depth ∧ 1 ≤ int_of_uint32 e.len32 ∧
          (∀ m, k < m → active_at fl.files m → k + e.depth ≤ m) ∧
          (∀ m, m < k → active_at fl.files m → m ≤ k - int_of_uint32 e.len32) :=
  cleared_distances_lower_bounds (ex_qsort 29) 29 ex_list_dup 0 1 (by decide) (by decide)
    (by decide) (List.perm_insertionSort _ _) (by decide) (by decide)

/-! ### The ".." that `send_file_list` refuses -/

theorem starts_with_dotdot (s : List Nat) :
    starts_with s [46, 46] = true ↔ s.getD 0 0 = 46 ∧ s.getD 1 0 = 46 := by
  match s with
  | [] => simp [starts_with]
  | [a] => simp [starts_with]
  | a :: b :: r => simp [starts_with]

/-- The first ".." of a string, as `strstr` finds it. -/
theorem strstr_dotdot (s : List Nat) :
    (∀ i, strstr s [46, 46] = some i →
      (s.getD i 0 = 46 ∧ s.getD (i + 1) 0 = 46) ∧
      ∀ j, j < i → ¬ (s.getD j 0 = 46 ∧ s.getD (j + 1) 0 = 46)) ∧
    (strstr s [46, 46] = none → ∀ j, ¬ (s.getD j 0 = 46 ∧ s.getD (j + 1) 0 = 46)) := by
  induction s with
  | nil =>
    constructor
    · intro i h
      simp [strstr] at h
    · intro _ j h
      simp at h
  | cons c rest ih =>
    by_cases hs : starts_with (c :: rest) [46, 46] = true
    · have e : strstr (c :: rest) [46, 46] = some 0 := by
        unfold strstr
        rw [if_pos hs]
      constructor
      · intro i h
        rw [e] at h
        injection h with h
        subst h
        exact ⟨(starts_with_dotdot _).1 hs, fun j hj => by omega⟩
      · intro h
        rw [e] at h
        cases h
    · have e : strstr (c :: rest) [46, 46] = (strstr rest [46, 46]).map fun i => i + 1 := by
        conv_lhs => unfold strstr
        rw [if_neg hs]
      have h0 : ¬ ((c :: rest).getD 0 0 = 46 ∧ (c :: rest).getD 1 0 = 46) :=
        fun h => hs ((starts_with_dotdot _).2 h)
      constructor
      · intro i h
        rw [e] at h
        cases hr : strstr rest [46, 46] with
        | none => rw [hr] at h; cases h
        | some k =>
          rw [hr] at h
          simp only [Option.map_some', Option.some.injEq] at h
          subst h
          obtain ⟨h1, h2⟩ := ih.1 k hr
          refine ⟨by simpa using h1, ?_⟩
          intro j hj
          cases j with
          | zero => exact h0
          | succ j =>
            have := h2 j (by omega)
            simpa using this
      · intro h
        rw [e] at h
        cases hr : strstr rest [46, 46] with
        | some k => rw [hr] at h; cases h
        | none =>
          intro j
          cases j with
          | zero => exact h0
          | succ j =>
            have := ih.2 hr j
            simpa using this

theorem getD_drop_add (s : List Nat) (p j : Nat) : (s.drop p).getD j 0 = s.getD (p + j) 0 := by
  rw [List.getD_eq_getElem?_getD, List.getD_eq_getElem?_getD, List.getElem?_drop]

theorem cstr_getD_ne_zero (s : List Nat) (hc : cstr_ok s) (i : Nat) (h : i < s.length) :
    s.getD i 0 ≠ 0 := by
  rw [List.getD_eq_getElem?_getD, List.getElem?_eq_getElem h]
  exact hc _ (List.getElem_mem h)

theorem getD_ne_zero_lt (s : List Nat) (i : Nat) (h : s.getD i 0 ≠ 0) : i < s.length := by
  by_contra hlt
  apply h
  rw [List.getD_eq_getElem?_getD, List.getElem?_eq_none (by omega)]
  rfl

/-- The loop of lines 1234-1242 leaves through `RERR_SYNTAX` exactly when a path
component ".." begins at the index `p` or later, and else runs to its end. -/
theorem reject_dotdot_spec (fn : List Nat) (hc : cstr_ok fn) :
    ∀ (fuel p : Nat), fn.length + 1 ≤ fuel + p → p ≤ fn.length →
      (reject_dotdot fn fuel p = outcome.bad fault.syntax_exit ∧
        ∃ c, p ≤ c ∧ c < fn.length ∧ dotdot_at fn c) ∨
      (reject_dotdot fn fuel p = outcome.ok () ∧
        ¬ ∃ c, p ≤ c ∧ c < fn.length ∧ dotdot_at fn c) := by
  intro fuel
  induction fuel with
  | zero => intro p h1 h2; omega
  | succ fuel ih =>
    intro p h1 h2
    obtain ⟨hsome, hnone⟩ := strstr_dotdot (fn.drop p)
    unfold reject_dotdot
    cases hs : strstr (fn.drop p) [46, 46] with
    | none =>
      right
      refine ⟨rfl, ?_⟩
      rintro ⟨c, hc1, hc2, h46, h46', -⟩
      apply hnone hs (c - p)
      rw [getD_drop_add, getD_drop_add]
      have e1 : p + (c - p) = c := by omega
      have e2 : p + (c - p + 1) = c + 1 := by omega
      rw [e1, e2]
      exact ⟨h46, h46'⟩
    | some i =>
      obtain ⟨⟨hq0, hq1⟩, hmin⟩ := hsome i hs
      rw [getD_drop_add] at hq0
      rw [getD_drop_add] at hq1
      have hq1' : fn.getD (p + i + 1) 0 = 46 := by
        have e : p + (i + 1) = p + i + 1 := by omega
        rw [← e]; exact hq1
      have hlt : p + i + 1 < fn.length :=
        getD_ne_zero_lt fn _ (by rw [hq1']; decide)
      have hbefore : ∀ c, p ≤ c → c < p + i → ¬ dotdot_at fn c := by
        rintro c hc1 hc2 ⟨h46, h46', -⟩
        apply hmin (c - p) (by omega)
        rw [getD_drop_add, getD_drop_add]
        have e1 : p + (c - p) = c := by omega
        have e2 : p + (c - p + 1) = c + 1 := by omega
        rw [e1, e2]
        exact ⟨h46, h46'⟩
      have hend : fn.getD (p + i + 2) 0 = 0 ↔ p + i + 2 = fn.length := by
        constructor
        · intro h0
          by_contra hne
          exact cstr_getD_ne_zero fn hc (p + i + 2) (by omega) h0
        · intro he
          rw [List.getD_eq_getElem?_getD, List.getElem?_eq_none (by omega)]
          rfl
      simp only []
      by_cases hcond : (fn.getD (p + i + 2) 0 = 47 ∨ fn.getD (p + i + 2) 0 = 0) ∧
          (p + i = 0 ∨ fn.getD (p + i - 1) 0 = 47)
      · rw [if_pos hcond]
        left
        refine ⟨rfl, p + i, by omega, by omega, hq0, hq1', ?_, hcond.2⟩
        rcases hcond.1 with h | h
        · exact Or.inl h
        · exact Or.inr (hend.1 h)
      · rw [if_neg hcond]
        have hnot : ¬ dotdot_at fn (p + i) := by
          rintro ⟨-, -, h3, h4⟩
          apply hcond
          refine ⟨?_, h4⟩
          rcases h3 with h | h
          · exact Or.inl h
          · exact Or.inr (hend.2 h)
        have hnot1 : ¬ dotdot_at fn (p + i + 1) := by
          rintro ⟨-, -, -, h4⟩
          rcases h4 with h | h
          · omega
          · have e : p + i + 1 - 1 = p + i := by omega
            rw [e, hq0] at h
            cases h
        have hiff : (∃ c, p + i + 2 ≤ c ∧ c < fn.length ∧ dotdot_at fn c) ↔
            (∃ c, p ≤ c ∧ c < fn.length ∧ dotdot_at fn c) := by
          constructor
          · rintro ⟨c, h1', h2', h3'⟩
            exact ⟨c, by omega, h2', h3'⟩
          · rintro ⟨c, h1', h2', h3'⟩
            refine ⟨c, ?_, h2', h3'⟩
            by_contra hlt'
            by_cases hc1 : c < p + i
            · exact hbefore c h1' hc1 h3'
            · by_cases hc2 : c = p + i
              · subst hc2; exact hnot h3'
              · have hc3 : c = p + i + 1 := by omega
                subst hc3; exact hnot1 h3'
        rcases ih (p + i + 2) (by omega) (by omega) with ⟨hr, hex⟩ | ⟨hr, hex⟩
        · exact Or.inl ⟨hr, hiff.1 hex⟩
        · exact Or.inr ⟨hr, fun h => hex (hiff.2 h)⟩

/-- The scan of a whole string for a component "..". -/
theorem reject_dotdot_iff (fn : List Nat) (hc : cstr_ok fn) :
    (reject_dotdot fn (fn.length + 1) 0 = outcome.bad fault.syntax_exit ↔ has_dotdot fn) ∧
    (¬ has_dotdot fn → reject_dotdot fn (fn.length + 1) 0 = outcome.ok ()) := by
  have hex : (∃ c, 0 ≤ c ∧ c < fn.length ∧ dotdot_at fn c) ↔ has_dotdot fn := by
    unfold has_dotdot
    constructor
    · rintro ⟨c, -, h2, h3⟩; exact ⟨c, h2, h3⟩
    · rintro ⟨c, h2, h3⟩; exact ⟨c, Nat.zero_le _, h2, h3⟩
  rcases reject_dotdot_spec fn hc (fn.length + 1) 0 (by omega) (by omega) with
    ⟨hr, h⟩ | ⟨hr, h⟩
  · exact ⟨⟨fun _ => hex.1 h, fun _ => hr⟩, fun hn => absurd (hex.1 h) hn⟩
  · refine ⟨⟨fun hb => ?_, fun hd => absurd (hex.2 hd) h⟩, fun _ => hr⟩
    rw [hr] at hb
    cases hb

theorem strip_trailing_rev_slash (r : List Nat) :
    strip_trailing_rev (47 :: r) = strip_trailing_rev r := by
  rw [strip_trailing_rev]

theorem strip_trailing_rev_dot (r : List Nat) :
    strip_trailing_rev (46 :: 47 :: r) = strip_trailing_rev r := by
  rw [strip_trailing_rev]

theorem strip_trailing_rev_stop (a : Nat) (r : List Nat) (h1 : a ≠ 47)
    (h2 : ¬ (a = 46 ∧ r.headD 0 = 47 ∧ r ≠ [])) : strip_trailing_rev (a :: r) = a :: r := by
  unfold strip_trailing_rev
  split
  · rename_i heq
    injection heq with h _
    exact absurd h h1
  · rename_i heq
    injection heq with h h'
    subst h'
    exact absurd ⟨h, rfl, by simp⟩ h2
  · rfl

theorem take_reverse_step (fn : List Nat) (len : Nat) (h0 : 0 < len) (hl : len ≤ fn.length) :
    (fn.take len).reverse = fn.getD (len - 1) 0 :: (fn.take (len - 1)).reverse := by
  obtain ⟨n, rfl⟩ : ∃ n, len = n + 1 := ⟨len - 1, by omega⟩
  have hn : n < fn.length := by omega
  have e : n + 1 - 1 = n := by omega
  rw [e, List.take_succ, List.reverse_append, List.getD_eq_getElem?_getD,
    List.getElem?_eq_getElem hn]
  rfl

theorem strip_trailing_rev_nil : strip_trailing_rev [] = [] := by
  rw [strip_trailing_rev] <;> (intro r h; cases h)

/-- The loop of lines 1212-1229 removes what `strip_trailing` removes, unless it stops
at a lone leading `/` of a path without "/./", which the stripped path does not keep. -/
theorem trim_tail_spec (no_dir : Bool) (fn : List Nat) :
    ∀ (fuel len : Nat) (dot : Bool), len ≤ fuel → len ≤ fn.length →
      ((trim_tail no_dir fn fuel len dot).1 = 1 ∧ fn.getD 0 0 = 47 ∧
          strip_trailing_rev (fn.take len).reverse = []) ∨
      (¬ ((trim_tail no_dir fn fuel len dot).1 = 1 ∧ fn.getD 0 0 = 47) ∧
        (fn.take (trim_tail no_dir fn fuel len dot).1).reverse =
          strip_trailing_rev (fn.take len).reverse) := by
  intro fuel
  induction fuel with
  | zero =>
    intro len dot h1 h2
    have h0 : len = 0 := by omega
    subst h0
    right
    simp [trim_tail, strip_trailing_rev_nil]
  | succ fuel ih =>
    intro len dot h1 h2
    unfold trim_tail
    by_cases h0 : len = 0
    · subst h0
      right
      simp [strip_trailing_rev_nil]
    · rw [if_neg h0]
      have hrev := take_reverse_step fn len (by omega) h2
      by_cases h47 : fn.getD (len - 1) 0 = 47
      · rw [if_pos h47, hrev, h47, strip_trailing_rev_slash]
        by_cases hb : len - 1 = 0 ∧ no_dir = true
        · rw [if_pos hb]
          left
          have e : len - 1 = 0 := hb.1
          rw [e] at h47
          refine ⟨by show len - 1 + 1 = 1; rw [e], h47, ?_⟩
          rw [e]
          simp [strip_trailing_rev_nil]
        · rw [if_neg hb]
          exact ih (len - 1) true (by omega) (by omega)
      · rw [if_neg h47]
        by_cases h46 : len ≥ 2 ∧ fn.getD (len - 1) 0 = 46 ∧ fn.getD (len - 2) 0 = 47
        · rw [if_pos h46]
          have hrev2 := take_reverse_step fn (len - 1) (by omega) (by omega)
          have e2 : len - 1 - 1 = len - 2 := by omega
          rw [e2] at hrev2
          rw [hrev, hrev2, h46.2.1, h46.2.2, strip_trailing_rev_dot]
          by_cases hb : len - 2 = 0 ∧ no_dir = true
          · rw [if_pos hb]
            left
            have e : len - 2 = 0 := hb.1
            have h := h46.2.2
            rw [e] at h
            refine ⟨by show len - 2 + 1 = 1; rw [e], h, ?_⟩
            rw [e]
            simp [strip_trailing_rev_nil]
          · rw [if_neg hb]
            exact ih (len - 2) true (by omega) (by omega)
        · rw [if_neg h46]
          right
          constructor
          · rintro ⟨h1', h2'⟩
            simp only [] at h1'
            subst h1'
            exact h47 h2'
          · simp only []
            rw [hrev]
            symm
            apply strip_trailing_rev_stop _ _ h47
            rintro ⟨ha, hh, hne⟩
            apply h46
            have hlen : 2 ≤ len := by
              by_contra hlt
              have e : len - 1 = 0 := by omega
              apply hne
              rw [e]
              rfl
            refine ⟨hlen, ha, ?_⟩
            have hrev2 := take_reverse_step fn (len - 1) (by omega) (by omega)
            have e2 : len - 1 - 1 = len - 2 := by omega
            rw [e2] at hrev2
            rw [hrev2] at hh
            exact hh

theorem cstr_ok_take (s : List Nat) (n : Nat) (h : cstr_ok s) : cstr_ok (s.take n) :=
  fun c hc => h c (List.mem_of_mem_take hc)

theorem cstr_ok_drop (s : List Nat) (n : Nat) (h : cstr_ok s) : cstr_ok (s.drop n) :=
  fun c hc => h c (List.mem_of_mem_drop hc)

/-- The string that lines 1212-1232 leave in `fn` has a component ".." exactly when the
stripped string has one. -/
theorem trimmed_dotdot (no_dir : Bool) (fn0 : List Nat) (hc : cstr_ok fn0) (dot : Bool) :
    cstr_ok (if (trim_tail no_dir fn0 fn0.length fn0.length dot).1 = 1 ∧ fn0.getD 0 0 = 47
        then [47, 46] else fn0.take (trim_tail no_dir fn0 fn0.length fn0.length dot).1) ∧
    (has_dotdot (if (trim_tail no_dir fn0 fn0.length fn0.length dot).1 = 1 ∧
          fn0.getD 0 0 = 47
        then [47, 46] else fn0.take (trim_tail no_dir fn0 fn0.length fn0.length dot).1) ↔
      has_dotdot (strip_trailing fn0)) := by
  have htake : fn0.take fn0.length = fn0 := List.take_length fn0
  rcases trim_tail_spec no_dir fn0 fn0.length fn0.length dot (le_refl _) (le_refl _) with
    ⟨h1, h2, h3⟩ | ⟨h1, h2⟩
  · rw [if_pos ⟨h1, h2⟩]
    rw [htake] at h3
    have e : strip_trailing fn0 = [] := by
      unfold strip_trailing
      rw [h3]
      rfl
    rw [e]
    exact ⟨by decide, by decide⟩
  · rw [if_neg h1]
    rw [htake] at h2
    have e : strip_trailing fn0 = fn0.take (trim_tail no_dir fn0 fn0.length fn0.length dot).1 := by
      unfold strip_trailing
      rw [← h2, List.reverse_reverse]
    rw [e]
    exact ⟨cstr_ok_take _ _ hc, Iff.rfl⟩

/-- The scan for "..", followed by the rest of the loop body. -/
theorem reject_then {α : Type} (fn : List Nat) (hc : cstr_ok fn) (r : α) (target : Prop)
    (hiff : has_dotdot fn ↔ target) :
    (((reject_dotdot fn (fn.length + 1) 0 >>= fun _ => pure r) : outcome α) =
        outcome.bad fault.syntax_exit ↔ target) ∧
    (¬ target → ∃ r', ((reject_dotdot fn (fn.length + 1) 0 >>= fun _ => pure r) : outcome α) =
        outcome.ok r') := by
  obtain ⟨hr1, hr2⟩ := reject_dotdot_iff fn hc
  by_cases hd : has_dotdot fn
  · rw [hr1.2 hd]
    exact ⟨⟨fun _ => hiff.1 hd, fun _ => rfl⟩, fun hn => absurd (hiff.1 hd) hn⟩
  · rw [hr2 hd]
    refine ⟨⟨fun h => ?_, fun h => absurd (hiff.2 h) hd⟩, fun _ => ⟨r, rfl⟩⟩
    cases h

/-- The lines 1199-1243 of `send_file_list` leave through `RERR_SYNTAX` exactly when the
active part of the path has a component "..", and else go on. -/
theorem split_relative_dotdot (fbuf : List Nat) (hc : cstr_ok fbuf) :
    (split_relative fbuf fbuf.length = outcome.bad fault.syntax_exit ↔
      has_dotdot (active_part fbuf)) ∧
    (¬ has_dotdot (active_part fbuf) → ∃ r, split_relative fbuf fbuf.length = outcome.ok r) := by
  unfold split_relative active_part
  cases hs : strstr fbuf [47, 46, 47] with
  | none =>
    simp only [Option.isNone_none]
    obtain ⟨hcs, hiff⟩ := trimmed_dotdot true fbuf hc false
    by_cases hcnd : (trim_tail true fbuf fbuf.length fbuf.length false).1 = 1 ∧
        fbuf.getD 0 0 = 47
    · simp only [if_pos hcnd] at hcs hiff ⊢
      exact reject_then _ hcs _ _ hiff
    · simp only [if_neg hcnd] at hcs hiff ⊢
      exact reject_then _ hcs _ _ hiff
  | some i =>
    simp only [Option.isNone_some]
    have hlen : fbuf.length - (i + 3) = (fbuf.drop (i + 3)).length := by
      rw [List.length_drop]
    rw [hlen]
    obtain ⟨hcs, hiff⟩ := trimmed_dotdot false (fbuf.drop (i + 3)) (cstr_ok_drop _ _ hc) false
    by_cases hcnd : (trim_tail false (fbuf.drop (i + 3)) (fbuf.drop (i + 3)).length
        (fbuf.drop (i + 3)).length false).1 = 1 ∧ (fbuf.drop (i + 3)).getD 0 0 = 47
    · simp only [if_pos hcnd] at hcs hiff ⊢
      exact reject_then _ hcs _ _ hiff
    · simp only [if_neg hcnd] at hcs hiff ⊢
      exact reject_then _ hcs _ _ hiff

/-- The lines 1245-1324 of `send_file_list` have no exit with `RERR_SYNTAX`. -/
theorem send_split_no_syntax_exit (o : send_list_options) (x : externals) (w : send_list_world)
    (st : send_list_state) (dir : Option (List Nat)) (fn : List Nat) (len : Nat)
    (is_dot_dir : Bool) :
    send_split o x w st dir fn len is_dot_dir ≠ outcome.bad fault.syntax_exit := by
  unfold send_split
  simp only []
  split_ifs <;> intro h <;> cases h

/-- With `relative_paths`, lines 1145-1170 leave the path as it is. -/
theorem root_dot_dir_relative (o : send_list_options) (x : externals) (fbuf : List Nat)
    (hrel : o.relative_paths = true) :
    root_dot_dir o x fbuf = outcome.ok (fbuf, fbuf.length, false) := by
  unfold root_dot_dir
  simp only [hrel, if_true]
  rfl

/-- A root that reaches lines 1199-1243 is refused there or not at all. -/
theorem send_root_relative (o : send_list_options) (x : externals) (w : send_list_world)
    (st : send_list_state) (arg : List Nat) (hrel : o.relative_paths = true) :
    send_root o x w st arg =
      match w.link_stat (root_path o x arg) with
      | none => outcome.ok { st with io_error := true }
      | some is_dir =>
        if is_dir = true ∧ ¬ o.xfer_dirs = true then outcome.ok st
        else
          (split_relative (root_path o x arg) (root_path o x arg).length).bind fun r =>
            send_split o x w st r.1 r.2.1 r.2.2.1 r.2.2.2 := by
  unfold send_root
  rw [root_dot_dir_relative o x _ hrel]
  simp only [outcome_bind_ok, hrel]
  cases w.link_stat (root_path o x arg) with
  | none => rfl
  | some is_dir =>
    simp only []
    split_ifs with h1 h2
    · rfl
    · rfl
    · exact absurd trivial h2

/-- C32, as it stands, fails for a root that does not exist: the active part of
`a/../b` has the component "..", but `link_stat` fails on the path, and the loop body
sets `io_error` and goes on to the next root (lines 1172-1177) before it reaches the test
for ".." of lines 1233-1242; it does not leave with `RERR_SYNTAX`. -/
theorem missing_root_with_dotdot_passed_over :
    has_dotdot (active_part (root_path ex_relative ex_externals [97, 47, 46, 46, 47, 98])) ∧
    send_root ex_relative ex_externals ex_world_missing {} [97, 47, 46, 46, 47, 98] =
      outcome.ok { io_error := true } ∧
    send_root ex_relative ex_externals ex_world {} [97, 47, 46, 46, 47, 98] =
      outcome.bad fault.syntax_exit := by
  decide

/-- C32, amended. In relative-path mode the lines 1199-1243 of `send_file_list` leave
with `RERR_SYNTAX` exactly when the active part of the path of the root has a path
component "..": the part after the first "/./", with the trailing "/" and "/." removed.
The loop body does so for every root that reaches these lines, one that `link_stat`
finds and that is not a directory passed over because `xfer_dirs` is off; a root that
does not reach them is passed over without this exit, whatever its path. A root whose
active part has no component ".." never makes the loop body leave with `RERR_SYNTAX`. -/
theorem send_file_list_rejects_dotdot (o : send_list_options) (x : externals)
    (w : send_list_world) (st : send_list_state) (arg : List Nat)
    (hrel : o.relative_paths = true) (hc : cstr_ok (root_path o x arg)) :
    (split_relative (root_path o x arg) (root_path o x arg).length =
        outcome.bad fault.syntax_exit ↔ has_dotdot (active_part (root_path o x arg))) ∧
    (∀ is_dir, w.link_stat (root_path o x arg) = some is_dir →
      ¬ (is_dir = true ∧ o.xfer_dirs = false) →
      (send_root o x w st arg = outcome.bad fault.syntax_exit ↔
        has_dotdot (active_part (root_path o x arg)))) ∧
    (¬ has_dotdot (active_part (root_path o x arg)) →
      send_root o x w st arg ≠ outcome.bad fault.syntax_exit) := by
  obtain ⟨hiff, hok⟩ := split_relative_dotdot (root_path o x arg) hc
  have hreach : ∀ is_dir, w.link_stat (root_path o x arg) = some is_dir →
      ¬ (is_dir = true ∧ o.xfer_dirs = false) →
      (send_root o x w st arg = outcome.bad fault.syntax_exit ↔
        has_dotdot (active_part (root_path o x arg))) := by
    intro is_dir hls hskip
    have hskip2 : ¬ (is_dir = true ∧ ¬ o.xfer_dirs = true) := by
      rintro ⟨h1, h2⟩
      exact hskip ⟨h1, by simpa using h2⟩
    rw [send_root_relative o x w st arg hrel, hls]
    simp only []
    rw [if_neg hskip2, ← hiff]
    constructor
    · intro h
      rcases (outcome_bind_eq_bad _ _ _).1 h with h | ⟨r, -, h⟩
      · exact h
      · exact absurd h (send_split_no_syntax_exit _ _ _ _ _ _ _ _)
    · intro h
      rw [h]
      rfl
  refine ⟨hiff, hreach, ?_⟩
  intro hno h
  cases hls : w.link_stat (root_path o x arg) with
  | none =>
    rw [send_root_relative o x w st arg hrel, hls] at h
    cases h
  | some is_dir =>
    by_cases hskip : is_dir = true ∧ o.xfer_dirs = false
    · rw [send_root_relative o x w st arg hrel, hls] at h
      have hskip2 : is_dir = true ∧ ¬ o.xfer_dirs = true := ⟨hskip.1, by simp [hskip.2]⟩
      simp only [] at h
      rw [if_pos hskip2] at h
      cases h
    · exact hno ((hreach is_dir hls hskip).1 h)

/-- C32, amended, at the roots `a/../b`, which is refused, and `a.../..b`, which is not. -/
theorem send_file_list_rejects_dotdot_witness :
    send_root ex_relative ex_externals ex_world {} [97, 47, 46, 46, 47, 98] =
        outcome.bad fault.syntax_exit ∧
    send_root ex_relative ex_externals ex_world {} [97, 46, 46, 46, 47, 46, 46, 98] ≠
        outcome.bad fault.syntax_exit :=
  ⟨((send_file_list_rejects_dotdot ex_relative ex_externals ex_world {}
      [97, 47, 46, 46, 47, 98] rfl (by decide)).2.1 false rfl (by decide)).2 (by decide),
   (send_file_list_rejects_dotdot ex_relative ex_externals ex_world {}
      [97, 46, 46, 46, 47, 46, 46, 98] rfl (by decide)).2.2 (by decide)⟩

/-! ### The implied directories of two roots under one directory -/

/-- The root `a/b` after an empty `lastpath`: one call for the implied directory `a`. -/
theorem implied_dirs_first (o : send_list_options) (x : externals)
    (flist_dir : Option (List Nat)) (hi : o.implied_dirs = true) (hM : 2 ≤ x.MAXPATHLEN) :
    implied_dirs_block o x flist_dir [] [97, 47, 98] =
      ([send_list_event.send_file_name flist_dir [97] false 0 true
          (o.copy_links || o.copy_unsafe_links)], [97]) := by
  have hl : last_slash [97, 47, 98] 0 = some 1 := by decide
  have hs : strlcpy [97] x.MAXPATHLEN = [97] := by
    unfold strlcpy
    obtain ⟨n, hn⟩ : ∃ n, x.MAXPATHLEN - 1 = n + 1 := ⟨x.MAXPATHLEN - 2, by omega⟩
    rw [hn]
    simp
  unfold implied_dirs_block
  rw [hl]
  simp only [hi, true_and]
  rw [if_pos (by decide)]
  have hcd : common_dirs [97, 47, 98] 1 1 0 0 [] = (0, 0, []) := by decide
  rw [hcd]
  simp only []
  rw [if_pos (by decide)]
  have e : List.take 1 [97, 47, 98] = [97] := rfl
  rw [e, hs]
  rfl

/-- The root `a/c` after the `lastpath` "a": no call. -/
theorem implied_dirs_second (o : send_list_options) (x : externals)
    (flist_dir : Option (List Nat)) :
    implied_dirs_block o x flist_dir [97] [97, 47, 99] = ([], [97]) := by
  have hl : last_slash [97, 47, 99] 0 = some 1 := by decide
  unfold implied_dirs_block
  rw [hl]
  have hcd : common_dirs [97, 47, 99] 1 1 0 0 [97] = (1, 0, []) := by decide
  simp only [hcd]
  by_cases h1 : o.implied_dirs = true ∧ 1 ≠ 0
  · rw [if_pos h1, if_neg (by decide)]
  · rw [if_neg h1]

/-- The lines 1245-1324 for a root without `dir` whose name is not empty. -/
theorem send_split_no_dir (o : send_list_options) (x : externals) (w : send_list_world)
    (st : send_list_state) (fn : List Nat) (len : Nat) (is_dot_dir : Bool)
    (hfn : fn.headD 0 ≠ 0) :
    send_split o x w st none fn len is_dot_dir =
      outcome.ok { st with
        lastpath := (implied_dirs_block o x st.flist_dir st.lastpath (fn.take len)).2,
        log := st.log ++ (implied_dirs_block o x st.flist_dir st.lastpath (fn.take len)).1 ++
          send_named o w st.flist_dir (fn.take len) len is_dot_dir } := by
  unfold send_split
  simp only [if_neg hfn]
  rfl

/-- One root `a/b` or `a/c` that reaches the relative branch: the state afterwards. -/
theorem send_root_plain_relative (o : send_list_options) (x : externals)
    (w : send_list_world) (st : send_list_state) (arg : List Nat) (c : Nat) (d : Bool)
    (hrel : o.relative_paths = true) (hp : root_path o x arg = [97, 47, c])
    (hsplit : split_relative [97, 47, c] 3 = outcome.ok (none, [97, 47, c], 3, false))
    (hl : w.link_stat [97, 47, c] = some d) (hs : ¬ (d = true ∧ o.xfer_dirs = false)) :
    send_root o x w st arg =
      outcome.ok { st with
        lastpath := (implied_dirs_block o x st.flist_dir st.lastpath [97, 47, c]).2,
        log := st.log ++ (implied_dirs_block o x st.flist_dir st.lastpath [97, 47, c]).1 ++
          send_named o w st.flist_dir [97, 47, c] 3 false } := by
  have hs2 : ¬ (d = true ∧ ¬ o.xfer_dirs = true) := by
    rintro ⟨h1, h2⟩
    exact hs ⟨h1, by simpa using h2⟩
  rw [send_root_relative o x w st arg hrel, hp, hl]
  simp only []
  rw [if_neg hs2]
  have hlen : [97, 47, c].length = 3 := rfl
  rw [hlen, hsplit]
  show send_split o x w st none [97, 47, c] 3 false = _
  rw [send_split_no_dir o x w st [97, 47, c] 3 false (by simp)]
  rfl

/-- C33, as it stands, fails for the roots "./a/./b" and "./a/./c" taken as they are
given: the first "/./" of each splits the directory `./a`, into which the sender changes, from the name `b` or `c`,
which is sent alone; no entry `a` is sent, and none is named `a/b` or `a/c`. -/
theorem split_roots_send_no_implied_dir :
    send_roots ex_relative ex_externals ex_world {}
        [[46, 47, 97, 47, 46, 47, 98], [46, 47, 97, 47, 46, 47, 99]] =
      outcome.ok
        { lastpath := [], lastdir := some [46, 47, 97], flist_dir := none, io_error := false,
          log :=
            [send_list_event.push_dir [46, 47, 97],
             send_list_event.send_file_name (some [46, 47, 97]) [98] true 0 false false,
             send_list_event.pop_dir [47, 104],
             send_list_event.push_dir [46, 47, 97],
             send_list_event.send_file_name (some [46, 47, 97]) [99] true 0 false false,
             send_list_event.pop_dir [47, 104]] } := by
  decide

/-- C33, amended. In relative mode with implied directories on, two roots whose paths
are `a/b` and `a/c` when the loop takes them up, given so or left so by `sanitize_path`,
make `send_file_list` call `send_file_name` for the implied directory `a` exactly once,
before the call for `a/b`, which the call for `a/c` follows; both roots are found by
`link_stat` and are not directories passed over, and `lastpath` is empty at the start. -/
theorem send_file_list_implied_dir_once (o : send_list_options) (x : externals)
    (w : send_list_world) (st : send_list_state) (a1 a2 : List Nat) (d1 d2 : Bool)
    (hrel : o.relative_paths = true) (himp : o.implied_dirs = true)
    (hM : 2 ≤ x.MAXPATHLEN)
    (h1 : root_path o x a1 = [97, 47, 98]) (h2 : root_path o x a2 = [97, 47, 99])
    (hl1 : w.link_stat [97, 47, 98] = some d1) (hl2 : w.link_stat [97, 47, 99] = some d2)
    (hs1 : ¬ (d1 = true ∧ o.xfer_dirs = false)) (hs2 : ¬ (d2 = true ∧ o.xfer_dirs = false))
    (hlast : st.lastpath = []) :
    send_roots o x w st [a1, a2] =
      outcome.ok { st with
        lastpath := [97],
        log := st.log ++
          [send_list_event.send_file_name st.flist_dir [97] false 0 true
            (o.copy_links || o.copy_unsafe_links)] ++
          send_named o w st.flist_dir [97, 47, 98] 3 false ++
          send_named o w st.flist_dir [97, 47, 99] 3 false } := by
  unfold send_roots
  rw [send_root_plain_relative o x w st a1 98 d1 hrel h1 (by decide) hl1 hs1, hlast,
    implied_dirs_first o x st.flist_dir himp hM]
  rw [outcome_bind_ok]
  unfold send_roots
  rw [send_root_plain_relative o x w _ a2 99 d2 hrel h2 (by decide) hl2 hs2]
  simp only [implied_dirs_second]
  rw [outcome_bind_ok]
  unfold send_roots
  simp only [List.append_nil, outcome_pure]

/-- C33, amended, at the roots `a/b` and `a/c`: the calls are for `a`, with `stp` null
and `xfer_dirs` forced on, then for `a/b` and for `a/c`. -/
theorem send_file_list_implied_dir_once_witness :
    send_roots ex_relative ex_externals ex_world {} [[97, 47, 98], [97, 47, 99]] =
      outcome.ok
        { lastpath := [97], lastdir := none, flist_dir := none, io_error := false,
          log :=
            [send_list_event.send_file_name none [97] false 0 true false,
             send_list_event.send_file_name none [97, 47, 98] true 0 false false,
             send_list_event.send_file_name none [97, 47, 99] true 0 false false] } :=
  send_file_list_implied_dir_once ex_relative ex_externals ex_world {} [97, 47, 98]
    [97, 47, 99] false false rfl rfl (by decide) (by decide) (by decide) rfl rfl (by decide)
    (by decide) rfl

/-! ### `clean_flist` in full, when `qsort` returns -/

/-- A run followed by the return of its result is the run. -/
theorem outcome_bind_pure_self {α : Type} (m : outcome α) : (m >>= fun a => pure a) = m := by
  cases m <;> rfl

/-- The lines 1550-1642 use of `qsort` only what it makes of the array of the list. -/
theorem clean_flist_congr (q1 q2 : List file_struct → List file_struct) (pv : Int)
    (flist : file_list) (strip_root no_dups : Int) (h : q1 flist.files = q2 flist.files) :
    clean_flist q1 pv flist strip_root no_dups = clean_flist q2 pv flist strip_root no_dups := by
  unfold clean_flist
  rw [h]

/-- With `prune_empty_dirs` off, `clean_flist` in full is the lines 1550-1642 on the array
that `qsort` returned. -/
theorem clean_flist_full_eq
    (qsort : (file_struct → file_struct → outcome Int) → List file_struct →
      outcome (List file_struct))
    (is_excluded : Option (List Nat) → Bool) (MAXPATHLEN : Nat) (pv : Int)
    (flist : file_list) (strip_root no_dups : Int) (q : List file_struct → List file_struct)
    (hq : flist.files ≠ [] → qsort (file_compare pv) flist.files = outcome.ok (q flist.files)) :
    clean_flist_full qsort is_excluded MAXPATHLEN false pv flist strip_root no_dups =
      clean_flist q pv flist strip_root no_dups := by
  unfold clean_flist_full
  by_cases hc : flist.count = 0
  · rw [if_pos hc]
    unfold clean_flist
    rw [if_pos hc]
  · rw [if_neg hc]
    have hne : flist.files ≠ [] := by
      intro h
      apply hc
      unfold file_list.count
      rw [h]
      rfl
    rw [hq hne, outcome_bind_ok]
    unfold clean_flist_prune
    have hno : ¬ (flist.count ≠ 0 ∧ false = true ∧ no_dups ≠ 0) := by
      rintro ⟨-, h, -⟩
      cases h
    simp only [if_neg hno]
    rw [outcome_bind_pure_self]
    exact clean_flist_congr _ _ pv flist strip_root no_dups rfl

/-- An empty list returns at line 1559, whatever the options. -/
theorem clean_flist_full_empty
    (qsort : (file_struct → file_struct → outcome Int) → List file_struct →
      outcome (List file_struct))
    (is_excluded : Option (List Nat) → Bool) (MAXPATHLEN : Nat) (prune_empty_dirs : Bool)
    (pv : Int) (low high : Int) (strip_root no_dups : Int) :
    clean_flist_full qsort is_excluded MAXPATHLEN prune_empty_dirs pv
        { files := [], low := low, high := high } strip_root no_dups =
      outcome.ok { files := [], low := low, high := -1 } := by
  unfold clean_flist_full
  have hc : ({ files := [], low := low, high := high } : file_list).count = 0 := rfl
  rw [if_pos hc]
  rfl

/-! ### The bounds of the cleaned list, pruning apart -/

/-- C35, as it stands, fails with `prune_empty_dirs`: under protocol 29 and without
filter rules, the list of the two active directories `a` and `b`, both at depth 1 and
with nothing beneath them, is cleaned with `no_dups` set into a list without an active
entry; lines 1698-1707 leave `low` = 2 and `high` = 1, and neither `files[low]`, which is
outside the array, nor `files[high]`, which is cleared, is an active entry. -/
theorem clean_flist_prunes_every_entry :
    F_IS_ACTIVE ex_dir_a_deep = true ∧ F_IS_ACTIVE ex_dir_b_deep = true ∧
    clean_flist_full ex_qsort_cmp (fun _ => false) 4096 true 29
        { files := [ex_dir_a_deep, ex_dir_b_deep], low := 0, high := 0 } 0 1 =
      outcome.ok { files := [clear_file ex_dir_a_deep, clear_file ex_dir_b_deep],
                   low := 2, high := 1 } ∧
    files_get [clear_file ex_dir_a_deep, clear_file ex_dir_b_deep] 2 =
      outcome.bad fault.out_of_bounds ∧
    F_IS_ACTIVE (clear_file ex_dir_b_deep) = false := by
  decide

/-- C35, amended: let a non-empty list of active entries on whose pairs `f_name_cmp`
returns be cleaned by `clean_flist` with `no_dups` set and `prune_empty_dirs` off, with or
without `strip_root`, the call of `qsort` with `file_compare` returning the array in the
order of `file_compare`. Then `clean_flist` returns, `files[low]` and `files[high]` are
active, and every active entry of the array has its index in `low .. high`: `files[low]`
is the first and `files[high]` the last active entry. For an empty list `clean_flist`
sets `high` to -1 and changes nothing else, whatever the options, so that `low .. high`
is empty when `low` is not negative. -/
theorem clean_flist_full_low_high
    (qsort : (file_struct → file_struct → outcome Int) → List file_struct →
      outcome (List file_struct))
    (is_excluded : Option (List Nat) → Bool) (MAXPATHLEN : Nat)
    (pv : Int) (flist : file_list) (strip_root no_dups : Int) (sorted : List file_struct)
    (hne : flist.files ≠ []) (hlen : (flist.files.length : Int) < 2 ^ 31)
    (hl : list_ok pv flist.files)
    (hq : qsort (file_compare pv) flist.files = outcome.ok sorted)
    (hperm : sorted.Perm flist.files) (hsorted : sorted_by_cmp pv sorted)
    (hnd : no_dups ≠ 0) :
    (∃ cl, clean_flist_full qsort is_excluded MAXPATHLEN false pv flist strip_root no_dups =
        outcome.ok cl ∧
      active_at cl.files cl.low ∧ active_at cl.files cl.high ∧
      ∀ k, active_at cl.files k → cl.low ≤ k ∧ k ≤ cl.high) ∧
    (∀ (low high : Int) (prune_empty_dirs : Bool),
      clean_flist_full qsort is_excluded MAXPATHLEN prune_empty_dirs pv
          { files := [], low := low, high := high } strip_root no_dups =
        outcome.ok { files := [], low := low, high := -1 } ∧
      (0 ≤ low → ¬ ∃ k : Int, low ≤ k ∧ k ≤ -1)) := by
  constructor
  · rw [clean_flist_full_eq qsort is_excluded MAXPATHLEN pv flist strip_root no_dups
      (fun _ => sorted) (fun _ => hq)]
    exact (clean_flist_low_high (fun _ => sorted) pv flist strip_root no_dups hne hlen hl
      hperm hsorted hnd).1
  · intro low high prune_empty_dirs
    refine ⟨clean_flist_full_empty qsort is_excluded MAXPATHLEN prune_empty_dirs pv low high
      strip_root no_dups, ?_⟩
    rintro h ⟨k, h1, h2⟩
    omega

/-- C35, amended, at the list `a`, `a/b.txt`, `a/b.txt`, `a/c` under protocol 29, with
an insertion sort that calls `file_compare`: the bounds of the cleaned list are its first
and its last active entry. -/
theorem clean_flist_full_low_high_witness :
    ∃ cl, clean_flist_full ex_qsort_cmp (fun _ => false) 4096 false 29 ex_list_dup 0 1 =
        outcome.ok cl ∧
      active_at cl.files cl.low ∧ active_at cl.files cl.high ∧
      ∀ k, active_at cl.files k → cl.low ≤ k ∧ k ≤ cl.high :=
  (clean_flist_full_low_high ex_qsort_cmp (fun _ => false) 4096 29 ex_list_dup 0 1
    (ex_qsort 29 ex_list_dup.files) (by decide) (by decide) (by decide) (by decide)
    (List.perm_insertionSort _ _) (by decide) (by decide)).1

/-! ### A cleaned list cleaned again, in full -/

/-- C16, amended: let a non-empty list of active entries on whose pairs `f_name_cmp`
returns be cleaned by `clean_flist` with `no_dups` set, `strip_root` = 0 and
`prune_empty_dirs` off, and then cleaned again with the same arguments, the call of
`qsort` with `file_compare` returning the array in the order of `file_compare` both
times. Then both calls return, and the sequence of the active entries of `low .. high`
after the second call is, entry by entry and field by field, the sequence after the first
call. -/
theorem clean_flist_full_idempotent
    (qsort : (file_struct → file_struct → outcome Int) → List file_struct →
      outcome (List file_struct))
    (is_excluded : Option (List Nat) → Bool) (MAXPATHLEN : Nat)
    (pv : Int) (flist : file_list) (no_dups : Int) (sorted : List file_struct)
    (hne : flist.files ≠ []) (hlen : (flist.files.length : Int) < 2 ^ 31)
    (hl : list_ok pv flist.files)
    (hq : qsort (file_compare pv) flist.files = outcome.ok sorted)
    (hperm : sorted.Perm flist.files) (hsorted : sorted_by_cmp pv sorted)
    (hnd : no_dups ≠ 0)
    (hq2 : ∀ cl, clean_flist_full qsort is_excluded MAXPATHLEN false pv flist 0 no_dups =
        outcome.ok cl →
      ∃ sorted2, qsort (file_compare pv) cl.files = outcome.ok sorted2 ∧
        sorted2.Perm cl.files ∧ sorted_by_cmp pv sorted2) :
    ∃ cl cl2,
      clean_flist_full qsort is_excluded MAXPATHLEN false pv flist 0 no_dups = outcome.ok cl ∧
      clean_flist_full qsort is_excluded MAXPATHLEN false pv cl 0 no_dups = outcome.ok cl2 ∧
      active_entries cl2 = active_entries cl := by
  have hq1 : sorted_or_given (qsort (file_compare pv) flist.files) flist.files = sorted := by
    rw [hq]; rfl
  have hfull : clean_flist_full qsort is_excluded MAXPATHLEN false pv flist 0 no_dups =
      clean_flist (fun l => sorted_or_given (qsort (file_compare pv) l) l) pv flist 0
        no_dups :=
    clean_flist_full_eq qsort is_excluded MAXPATHLEN pv flist 0 no_dups _
      (fun _ => by rw [hq1, hq])
  obtain ⟨cl, cl2, hrun, hrun2, hact⟩ := clean_flist_idempotent
    (fun l => sorted_or_given (qsort (file_compare pv) l) l) pv flist no_dups hne hlen hl
    (by show (sorted_or_given _ _).Perm _; rw [hq1]; exact hperm)
    (by show sorted_by_cmp pv (sorted_or_given _ _); rw [hq1]; exact hsorted) hnd
    (by
      intro cl hcl
      rw [← hfull] at hcl
      obtain ⟨s2, h1, h2, h3⟩ := hq2 cl hcl
      have e : sorted_or_given (qsort (file_compare pv) cl.files) cl.files = s2 := by
        rw [h1]; rfl
      refine ⟨?_, ?_⟩
      · show (sorted_or_given _ _).Perm _; rw [e]; exact h2
      · show sorted_by_cmp pv (sorted_or_given _ _); rw [e]; exact h3)
  refine ⟨cl, cl2, by rw [hfull]; exact hrun, ?_, hact⟩
  rw [← hrun2]
  apply clean_flist_full_eq
  intro _
  obtain ⟨s2, h1, -, -⟩ := hq2 cl (by rw [hfull]; exact hrun)
  rw [h1]
  rfl

/-- C16, amended, at the list `a`, `a/b.txt`, `a/b.txt`, `a/c` under protocol 29,
cleaned twice with an insertion sort that calls `file_compare`. -/
theorem clean_flist_full_idempotent_witness :
    ∃ cl cl2,
      clean_flist_full ex_qsort_cmp (fun _ => false) 4096 false 29 ex_list_dup 0 1 =
        outcome.ok cl ∧
      clean_flist_full ex_qsort_cmp (fun _ => false) 4096 false 29 cl 0 1 = outcome.ok cl2 ∧
      active_entries cl2 = active_entries cl :=
  clean_flist_full_idempotent ex_qsort_cmp (fun _ => false) 4096 29 ex_list_dup 1
    (ex_qsort 29 ex_list_dup.files) (by decide) (by decide) (by decide) (by decide)
    (List.perm_insertionSort _ _) (by decide) (by decide)
    (fun cl h => by
      have e : clean_flist_full ex_qsort_cmp (fun _ => false) 4096 false 29 ex_list_dup 0 1 =
          outcome.ok { files := [ex_dir_a, ex_file_a_b_txt, clear_file ex_file_a_b_txt,
            ex_dir_a_c], low := 0, high := 3 } := by decide
      rw [e] at h
      injection h with h
      subst h
      exact ⟨ex_qsort 29 [ex_dir_a, ex_file_a_b_txt, clear_file ex_file_a_b_txt, ex_dir_a_c],
        by decide, List.perm_insertionSort _ _, by decide⟩)

/-! ### The sender's call and the comparisons of `qsort` -/

/-- When the call of `qsort` returns the array in order, the sender's call of
`clean_flist` returns that array with `low` = 0 and `high` = `count - 1`. -/
theorem clean_flist_full_sender
    (qsort : (file_struct → file_struct → outcome Int) → List file_struct →
      outcome (List file_struct))
    (is_excluded : Option (List Nat) → Bool) (MAXPATHLEN : Nat) (prune_empty_dirs : Bool)
    (pv : Int) (flist : file_list) (sorted : List file_struct) (hne : flist.files ≠ [])
    (hq : qsort (file_compare pv) flist.files = outcome.ok sorted)
    (hperm : sorted.Perm flist.files) (hsorted : sorted_by_cmp pv sorted) :
    ∃ cl, clean_flist_full qsort is_excluded MAXPATHLEN prune_empty_dirs pv flist 0 0 =
        outcome.ok cl ∧
      cl.files = sorted ∧ cl.low = 0 ∧ cl.high = flist.count - 1 := by
  obtain ⟨cl, hrun, -, -, hf, -, hh, hlo⟩ := clean_flist_sender_sorts (fun _ => sorted)
    is_excluded MAXPATHLEN prune_empty_dirs pv flist hperm hsorted
  refine ⟨cl, ?_, ?_, ?_, hh⟩
  · unfold clean_flist_full
    have hc : ¬ flist.count = 0 := by
      intro h
      apply hne
      unfold file_list.count at h
      exact List.length_eq_zero.1 (by exact_mod_cast h)
    rw [if_neg hc, hq, outcome_bind_ok]
    exact hrun
  · rw [hf, if_neg hne]
  · rw [hlo, if_neg hne]

/-- C38: under protocol 29, the list of two directory entries `a/.` whose dirnames are
two copies of the string "a" is given to `clean_flist` with `strip_root` = 0 and
`no_dups` = 0, the sender's arguments. In either order of the two entries `file_compare`
does not return: `f_name_cmp` reads past the end of a string. A `qsort` that begins its
work on an array of two entries with a call of the comparator on them, in one order or
the other, therefore does not return the array in order, and neither does `clean_flist`;
so with the insertion sort of the examples. -/
theorem clean_flist_sender_overread :
    file_compare 29 ex_dir_a_dot ex_dir_a_dot2 = outcome.bad fault.overread ∧
    file_compare 29 ex_dir_a_dot2 ex_dir_a_dot = outcome.bad fault.overread ∧
    (∀ (qsort : (file_struct → file_struct → outcome Int) → List file_struct →
          outcome (List file_struct))
        (is_excluded : Option (List Nat) → Bool) (MAXPATHLEN : Nat) (prune_empty_dirs : Bool),
      (∀ cmp a b, ∃ k : Int → outcome (List file_struct),
        qsort cmp [a, b] = (cmp a b >>= k) ∨ qsort cmp [a, b] = (cmp b a >>= k)) →
      clean_flist_full qsort is_excluded MAXPATHLEN prune_empty_dirs 29
          { files := [ex_dir_a_dot, ex_dir_a_dot2], low := 0, high := 0 } 0 0 =
        outcome.bad fault.overread) ∧
    clean_flist_full ex_qsort_cmp (fun _ => false) 4096 false 29
        { files := [ex_dir_a_dot, ex_dir_a_dot2], low := 0, high := 0 } 0 0 =
      outcome.bad fault.overread := by
  have h1 : file_compare 29 ex_dir_a_dot ex_dir_a_dot2 = outcome.bad fault.overread := by
    decide
  have h2 : file_compare 29 ex_dir_a_dot2 ex_dir_a_dot = outcome.bad fault.overread := by
    decide
  refine ⟨h1, h2, ?_, by decide⟩
  intro qsort is_excluded MAXPATHLEN prune_empty_dirs hq
  obtain ⟨k, hk⟩ := hq (file_compare 29) ex_dir_a_dot ex_dir_a_dot2
  have hbad : qsort (file_compare 29) [ex_dir_a_dot, ex_dir_a_dot2] =
      outcome.bad fault.overread := by
    rcases hk with hk | hk
    · rw [hk, h1]; rfl
    · rw [hk, h2]; rfl
  unfold clean_flist_full
  have hc : ¬ ({ files := [ex_dir_a_dot, ex_dir_a_dot2], low := 0, high := 0 } :
      file_list).count = 0 := by decide
  rw [if_neg hc]
  show (qsort (file_compare 29) [ex_dir_a_dot, ex_dir_a_dot2] >>= _) = _
  rw [hbad]
  rfl

end Rsync
